import Mathlib

/-! NNet: a feed-forward network trained by mini-batch SGD.

A shallow embedding of `nnet.c` and `math_utils.c`.  Doubles are read as elements of an
arbitrary linearly ordered field `R` (exact arithmetic), and the C library function `exp`
is a parameter `exp : R → R`; taking `R = ℝ` and `exp = Real.exp` gives the program over
the reals, taking `R = ℚ` gives a model that evaluates.

A C pointer into an array is the list of cells readable from that pointer onwards, so
`p + k` is `List.drop k`.  A C call that writes through a pointer returns the new value
of what it points to.  A run that aborts (failed `assert`, GSL error handler, access
outside a block) is an `Except.error`.
-/

namespace NNet

/-! ## Failures -/

/-- Ways a run can stop early. -/
inductive fault where
  /-- An `assert (...)` of the program failed. -/
  | assertion
  /-- GSL called its error handler (operand sizes differ, index out of range). -/
  | gsl_error
  /-- A cell outside an allocated block was addressed. -/
  | out_of_bounds
  /-- An integer was divided by zero (`/` or `%`), which C leaves undefined. -/
  | division_by_zero
deriving DecidableEq, Repr

/-! ## Machine integers -/

/-- The operator `%` on `uint32_t` values: the remainder, and a fault for the divisor 0,
where C leaves the operation undefined. -/
def u32_mod (a b : Nat) : Except fault Nat :=
  if b = 0 then .error .division_by_zero else .ok (a % b)

/-- Subtraction of `uint32_t` values. -/
def u32_sub (a b : Nat) : Nat := (a + 2 ^ 32 - b % 2 ^ 32) % 2 ^ 32

/-- Conversion of a `uint32_t` value to `int32_t` (two's complement). -/
def to_int32 (a : Nat) : Int :=
  if a % 2 ^ 32 < 2 ^ 31 then ((a % 2 ^ 32 : Nat) : Int) else ((a % 2 ^ 32 : Nat) : Int) - 2 ^ 32

/-- The loop `for (i = 0; i < n; ++i) body`, threading the state. -/
def for_range {σ : Type} (body : Nat → σ → Except fault σ) : Nat → σ → Except fault σ
  | 0, s => pure s
  | n + 1, s => do
    let s ← for_range body n s
    body n s

/-- The loop `for (l = n - 1; l >= 0; --l) body`, threading the state. -/
def for_down {σ : Type} (body : Nat → σ → Except fault σ) : Nat → σ → Except fault σ
  | 0, s => pure s
  | n + 1, s => do
    let s ← body n s
    for_down body n s

/-! ## Data model (`math_utils.h`, `loader.h`, `nnet.h`) -/

/-- A `gsl_vector`: its entries; `size` is the length. -/
abbrev gsl_vector (R : Type) := List R

/-- A `gsl_matrix`: `size1` rows of `size2` entries, stored by rows. -/
structure gsl_matrix (R : Type) where
  size1 : Nat
  size2 : Nat
  data : List (List R)
deriving DecidableEq, Repr

/-- The struct `uint32_array_t`; `data` is the cells readable from the pointer on. -/
structure uint32_array_t where
  size : Nat
  data : List Nat
deriving DecidableEq, Repr

/-- The struct `vector_array_t`.  `data` is the whole allocated block of
`size + offset` vector pointers; the C expression `array.data[i]` is cell
`i + offset` of the block. -/
structure vector_array_t (R : Type) where
  size : Nat
  offset : Nat
  data : List (gsl_vector R)
deriving DecidableEq, Repr

/-- The struct `matrix_array_t`. -/
structure matrix_array_t (R : Type) where
  size : Nat
  data : List (gsl_matrix R)
deriving DecidableEq, Repr

/-- The struct `images_t`; `images` is the cells readable from the pointer on. -/
structure images_t (R : Type) where
  magic_num : Int
  num_images : Int
  rows : Int
  cols : Int
  images : List (gsl_vector R)
deriving DecidableEq, Repr

/-- The struct `labels_t`; `labels` is the cells readable from the pointer on. -/
structure labels_t where
  magic_num : Int
  num_labels : Int
  labels : List Nat
deriving DecidableEq, Repr

/-- The struct `data_t`. -/
structure data_t (R : Type) where
  labels : labels_t
  images : images_t R
  items : Nat
deriving DecidableEq, Repr

/-- The struct `network_t`. -/
structure network_t (R : Type) where
  eta : R
  epochs : Nat
  mini_batch_size : Nat
  nodes : uint32_array_t
  outputs : vector_array_t R
  zs : vector_array_t R
  nabla_b : vector_array_t R
  output_delta : vector_array_t R
  biases : vector_array_t R
  weights : matrix_array_t R
  nabla_w : matrix_array_t R
deriving DecidableEq, Repr

/-- The macro `INPUT_INDEX`. -/
def INPUT_INDEX : Int := -1

/-- Read `block[i]` of a C array. -/
def load {α : Type} (block : List α) (i : Int) : Except fault α :=
  if 0 ≤ i then
    match block[i.toNat]? with
    | some v => .ok v
    | none => .error .out_of_bounds
  else .error .out_of_bounds

/-- Write `block[i] = v` of a C array. -/
def store {α : Type} (block : List α) (i : Int) (v : α) : Except fault (List α) :=
  if 0 ≤ i ∧ i.toNat < block.length then .ok (block.set i.toNat v)
  else .error .out_of_bounds

/-- Read `array.data[i]`. -/
def vector_array_t.idx {R : Type} (a : vector_array_t R) (i : Int) :
    Except fault (gsl_vector R) :=
  load a.data (i + a.offset)

/-- Write `array.data[i]` (the pointer, or the vector it points to). -/
def vector_array_t.upd {R : Type} (a : vector_array_t R) (i : Int) (v : gsl_vector R) :
    Except fault (vector_array_t R) := do
  let d ← store a.data (i + a.offset) v
  pure { a with data := d }

/-- Read `array.data[i]`. -/
def matrix_array_t.idx {R : Type} (a : matrix_array_t R) (i : Int) :
    Except fault (gsl_matrix R) :=
  load a.data i

/-- Write the matrix `array.data[i]` points to. -/
def matrix_array_t.upd {R : Type} (a : matrix_array_t R) (i : Int) (m : gsl_matrix R) :
    Except fault (matrix_array_t R) := do
  let d ← store a.data i m
  pure { a with data := d }

section Program

variable {R : Type} [LinearOrderedField R]

/-! ## GSL routines used by the program (semantics of the GSL reference manual) -/

/-- The flag `CBLAS_TRANSPOSE_t` (the two values the program uses). -/
inductive CBLAS_TRANSPOSE_t where
  | CblasNoTrans
  | CblasTrans
deriving DecidableEq, Repr

/-- Inner product of two coefficient lists. -/
def dot (x y : List R) : R := (List.zipWith (fun a b => a * b) x y).sum

/-- Column `c` of a matrix. -/
def gsl_matrix.column (A : gsl_matrix R) (c : Nat) : List R :=
  A.data.map (fun row => row.getD c 0)

/-- The routine `gsl_vector_alloc (n)`: a fresh vector of size `n`.  Its contents are
unspecified in C; every caller in the program overwrites all of it before reading. -/
def gsl_vector_alloc (n : Nat) : gsl_vector R := List.replicate n 0

/-- The routine `gsl_vector_get (v, i)`, range-checked. -/
def gsl_vector_get (v : gsl_vector R) (i : Nat) : Except fault R :=
  match v[i]? with
  | some x => .ok x
  | none => .error .gsl_error

/-- The routine `gsl_vector_set (v, i, x)`, range-checked; returns the new `v`. -/
def gsl_vector_set (v : gsl_vector R) (i : Nat) (x : R) : Except fault (gsl_vector R) :=
  if i < v.length then .ok (v.set i x) else .error .gsl_error

/-- The routine `gsl_vector_set_zero (v)`; returns the new `v`. -/
def gsl_vector_set_zero (v : gsl_vector R) : gsl_vector R := v.map (fun _ => 0)

/-- The routine `gsl_matrix_set_zero (m)`; returns the new `m`. -/
def gsl_matrix_set_zero (m : gsl_matrix R) : gsl_matrix R :=
  { m with data := m.data.map (fun row => row.map (fun _ => 0)) }

/-- The routine `gsl_vector_memcpy (dest, src)`; returns the new `dest`. -/
def gsl_vector_memcpy (dest src : gsl_vector R) : Except fault (gsl_vector R) :=
  if dest.length = src.length then .ok src else .error .gsl_error

/-- The routine `gsl_vector_mul (a, b)`: `a[i] *= b[i]`; returns the new `a`. -/
def gsl_vector_mul (a b : gsl_vector R) : Except fault (gsl_vector R) :=
  if a.length = b.length then .ok (List.zipWith (fun x y => x * y) a b)
  else .error .gsl_error

/-- The routine `gsl_vector_sub (a, b)`: `a[i] -= b[i]`; returns the new `a`. -/
def gsl_vector_sub (a b : gsl_vector R) : Except fault (gsl_vector R) :=
  if a.length = b.length then .ok (List.zipWith (fun x y => x - y) a b)
  else .error .gsl_error

/-- The routine `gsl_vector_scale (a, x)`: `a[i] *= x`; returns the new `a`. -/
def gsl_vector_scale (a : gsl_vector R) (x : R) : gsl_vector R := a.map (fun v => v * x)

/-- The routine `gsl_matrix_scale (a, x)`: `a[i][j] *= x`; returns the new `a`. -/
def gsl_matrix_scale (a : gsl_matrix R) (x : R) : gsl_matrix R :=
  { a with data := a.data.map (fun row => row.map (fun v => v * x)) }

/-- The routine `gsl_matrix_sub (a, b)`: `a[i][j] -= b[i][j]`; returns the new `a`. -/
def gsl_matrix_sub (a b : gsl_matrix R) : Except fault (gsl_matrix R) :=
  if b.size1 = a.size1 ∧ b.size2 = a.size2 then
    .ok { a with
          data := List.zipWith (fun ra rb => List.zipWith (fun x y => x - y) ra rb)
            a.data b.data }
  else .error .gsl_error

/-- The routine `gsl_blas_daxpy (alpha, x, y)`: `y = alpha x + y`; returns the new `y`. -/
def gsl_blas_daxpy (alpha : R) (x y : gsl_vector R) : Except fault (gsl_vector R) :=
  if x.length = y.length then .ok (List.zipWith (fun xi yi => alpha * xi + yi) x y)
  else .error .gsl_error

/-- The routine `gsl_blas_dgemv (TransA, alpha, A, x, beta, y)`:
`y = alpha op(A) x + beta y`; returns the new `y`. -/
def gsl_blas_dgemv (TransA : CBLAS_TRANSPOSE_t) (alpha : R) (A : gsl_matrix R)
    (x : gsl_vector R) (beta : R) (y : gsl_vector R) : Except fault (gsl_vector R) :=
  match TransA with
  | .CblasNoTrans =>
    if A.size2 = x.length ∧ A.size1 = y.length then
      .ok (List.zipWith (fun row yi => alpha * dot row x + beta * yi) A.data y)
    else .error .gsl_error
  | .CblasTrans =>
    if A.size1 = x.length ∧ A.size2 = y.length then
      .ok (List.zipWith (fun c yi => alpha * dot (A.column c) x + beta * yi)
             (List.range y.length) y)
    else .error .gsl_error

/-- The routine `gsl_blas_dger (alpha, x, y, A)`: `A = alpha x y^T + A`; returns the
new `A`. -/
def gsl_blas_dger (alpha : R) (x y : gsl_vector R) (A : gsl_matrix R) :
    Except fault (gsl_matrix R) :=
  if x.length = A.size1 ∧ y.length = A.size2 then
    .ok { A with
          data := List.zipWith
            (fun xi row => List.zipWith (fun yj a => a + alpha * xi * yj) y row) x A.data }
  else .error .gsl_error

/-- Scan of `gsl_vector_max_index`: `i` is the position of the head of the list,
`max` the largest entry so far and `imax` where it was first seen. -/
def max_index_scan : List R → Nat → R → Nat → Nat
  | [], _, _, imax => imax
  | x :: xs, i, max, imax =>
    if max < x then max_index_scan xs (i + 1) x i else max_index_scan xs (i + 1) max imax

/-- The routine `gsl_vector_max_index (v)`. -/
def gsl_vector_max_index (v : gsl_vector R) : Nat :=
  max_index_scan v 0 (v.headD 0) 0

/-! ## `math_utils.c` -/

/-- The function `vector_array_zero`. -/
def vector_array_zero (array : vector_array_t R) : Except fault (vector_array_t R) :=
  for_range (fun i (array : vector_array_t R) => do
    let v ← array.idx i
    array.upd i (gsl_vector_set_zero v)) array.size array

/-- The function `matrix_array_set_zero`. -/
def matrix_array_set_zero (array : matrix_array_t R) : Except fault (matrix_array_t R) :=
  for_range (fun i (array : matrix_array_t R) => do
    let m ← array.idx i
    array.upd i (gsl_matrix_set_zero m)) array.size array

/-- The loop of `vector_vectorise` from position `i` on: the entries of `vec` still to
be visited are `rest`, those already rewritten are `done`. -/
def vector_vectorise_loop (func : R → R) : List R → List R → List R
  | done, [] => done
  | done, x :: rest => vector_vectorise_loop func (done ++ [func x]) rest

/-- The function `vector_vectorise`; returns the new `vec`. -/
def vector_vectorise (vec : gsl_vector R) (func : R → R) : gsl_vector R :=
  vector_vectorise_loop func [] vec

/-! ## `nnet.c` -/

variable (exp : R → R)

/-- The function `sigmoid`. -/
def sigmoid (z : R) : R := 1 / (1 + exp (-z))

/-- The function `sigmoid_prime`. -/
def sigmoid_prime (z : R) : R :=
  let sig_z := sigmoid exp z
  sig_z * (1 - sig_z)

/-- The function `cost_derivative`; returns the new `cost_derivative` vector. -/
def cost_derivative (output_activations : gsl_vector R) (y : Nat)
    (cost_deriv : gsl_vector R) : Except fault (gsl_vector R) := do
  let cost_deriv ← gsl_vector_memcpy cost_deriv output_activations
  let v ← gsl_vector_get cost_deriv y
  gsl_vector_set cost_deriv y (v - 1)

/-- One pass of the loop body of `network_feed_forward` for layer `i`.  The C code
writes `outputs.data[i]` three times in a row (product, bias, sigmoid); the vector is
threaded as `out` and stored once, after the last of them. -/
def network_feed_forward_body (store_z : Nat) (i : Nat) (net : network_t R) :
    Except fault (network_t R) := do
  let W ← net.weights.idx i
  let prev ← net.outputs.idx ((i : Int) - 1)
  let out ← net.outputs.idx i
  let out ← gsl_blas_dgemv .CblasNoTrans 1 W prev 0 out
  let b ← net.biases.idx i
  let out ← gsl_blas_daxpy 1 b out
  let zs ← if store_z ≠ 0 then do
      let z ← net.zs.idx i
      let z ← gsl_vector_memcpy z out
      net.zs.upd i z
    else pure net.zs
  let outputs ← net.outputs.upd i (vector_vectorise out (sigmoid exp))
  pure { net with outputs := outputs, zs := zs }

/-- The function `network_feed_forward`. -/
def network_feed_forward (net : network_t R) (store_z : Nat) : Except fault (network_t R) :=
  let whole_layers := u32_sub net.nodes.size 1
  for_range (network_feed_forward_body exp store_z) whole_layers net

/-- The function `network_get_output_error`; `label` is a `uint8_t` value. -/
def network_get_output_error (net : network_t R) (label : Nat) :
    Except fault (network_t R) := do
  let output_layer_index := u32_sub net.outputs.size 1
  let out ← net.outputs.idx output_layer_index
  let cost_deriv : gsl_vector R := gsl_vector_alloc out.length
  let cost_deriv ← cost_derivative out label cost_deriv
  let delta ← net.output_delta.idx output_layer_index
  let z ← net.zs.idx output_layer_index
  let delta ← gsl_vector_memcpy delta z
  let delta := vector_vectorise delta (sigmoid_prime exp)
  let delta ← gsl_vector_mul delta cost_deriv
  let output_delta ← net.output_delta.upd output_layer_index delta
  pure { net with output_delta := output_delta }

/-- The function `network_accumulate_cfgs`. -/
def network_accumulate_cfgs (net : network_t R) (layer : Int) : Except fault (network_t R) := do
  let delta ← net.output_delta.idx layer
  let nb ← net.nabla_b.idx layer
  let nb ← gsl_blas_daxpy 1 delta nb
  let nabla_b ← net.nabla_b.upd layer nb
  let prev ← net.outputs.idx (layer - 1)
  let nw ← net.nabla_w.idx layer
  let nw ← gsl_blas_dger 1 delta prev nw
  let nabla_w ← net.nabla_w.upd layer nw
  pure { net with nabla_b := nabla_b, nabla_w := nabla_w }

/-- One pass of the backward loop of `network_backpropagate_error` for layer `l`. -/
def network_backpropagate_error_body (l : Nat) (net : network_t R) :
    Except fault (network_t R) := do
  let delta ← net.output_delta.idx l
  let z ← net.zs.idx l
  let delta ← gsl_vector_memcpy delta z
  let delta := vector_vectorise delta (sigmoid_prime exp)
  let tmp : gsl_vector R := gsl_vector_alloc delta.length
  let W ← net.weights.idx ((l : Int) + 1)
  let next ← net.output_delta.idx ((l : Int) + 1)
  let tmp ← gsl_blas_dgemv .CblasTrans 1 W next 0 tmp
  let delta ← gsl_vector_mul delta tmp
  let output_delta ← net.output_delta.upd l delta
  network_accumulate_cfgs { net with output_delta := output_delta } l

/-- The function `network_backpropagate_error`; `label` is a `uint8_t` value.  The
backward loop starts at the `int32_t` value of `output_layer_index - 1` and runs while
`l >= 0`. -/
def network_backpropagate_error (net : network_t R) (label : Nat) :
    Except fault (network_t R) := do
  let net ← network_feed_forward exp net 1
  let net ← network_get_output_error exp net label
  let output_layer_index := u32_sub net.outputs.size 1
  let net ← network_accumulate_cfgs net (to_int32 output_layer_index)
  let l0 : Int := to_int32 (u32_sub output_layer_index 1)
  for_down (network_backpropagate_error_body exp) (l0 + 1).toNat net

/-- The function `network_get_output`; returns the network and `*output`. -/
def network_get_output (net : network_t R) : Except fault (network_t R × Nat) := do
  let net ← network_feed_forward exp net 0
  let out ← net.outputs.idx (u32_sub net.outputs.size 1)
  pure (net, gsl_vector_max_index out)

/-- The function `network_evaluate_test_data`; the incoming value of
`*correct_answers` is an argument, the outgoing one is returned with the network. -/
def network_evaluate_test_data (net : network_t R) (test_data : data_t R)
    (_correct_answers : Nat) : Except fault (network_t R × Nat) :=
  let correct_answers := 0
  for_range (fun i (st : network_t R × Nat) => do
    let image ← load test_data.images.images i
    let outputs ← st.1.outputs.upd INPUT_INDEX image
    let (net, output) ← network_get_output exp { st.1 with outputs := outputs }
    let label ← load test_data.labels.labels i
    if output = label then pure (net, (st.2 + 1) % 2 ^ 32) else pure (net, st.2))
    test_data.items (net, correct_answers)

/-- The function `network_update_mini_batch`. -/
def network_update_mini_batch (net : network_t R) (data : data_t R)
    (slice : uint32_array_t) : Except fault (network_t R) := do
  if slice.size = 0 then throw .assertion
  let nabla_b ← vector_array_zero net.nabla_b
  let nabla_w ← matrix_array_set_zero net.nabla_w
  let net := { net with nabla_b := nabla_b, nabla_w := nabla_w }
  let net ← for_range (fun i (net : network_t R) => do
    let random_index ← load slice.data i
    let image ← load data.images.images random_index
    let outputs ← net.outputs.upd INPUT_INDEX image
    let label ← load data.labels.labels random_index
    network_backpropagate_error exp { net with outputs := outputs } label) slice.size net
  let scale_fac := net.eta / (slice.size : R)
  let whole_layers := u32_sub net.nodes.size 1
  for_range (fun i (net : network_t R) => do
    let nw ← net.nabla_w.idx i
    let nw := gsl_matrix_scale nw scale_fac
    let nabla_w ← net.nabla_w.upd i nw
    let w ← net.weights.idx i
    let w ← gsl_matrix_sub w nw
    let weights ← net.weights.upd i w
    let nb ← net.nabla_b.idx i
    let nb := gsl_vector_scale nb scale_fac
    let nabla_b ← net.nabla_b.upd i nb
    let b ← net.biases.idx i
    let b ← gsl_vector_sub b nb
    let biases ← net.biases.upd i b
    pure { net with nabla_w := nabla_w, weights := weights, nabla_b := nabla_b,
                    biases := biases }) whole_layers net

/-- The type `update_batch_f` of the update callback.  A callback may act on state
outside the network (the test callback reports to the test framework), which is
threaded as `W`. -/
abbrev update_batch_f (R W : Type) :=
  network_t R → data_t R → uint32_array_t → W → Except fault (network_t R × W)

/-- The function `network_process_mini_batches` (its `printf` is not modelled).  The
division for `batches` comes right after the assertion that `mini_batch_size` is not 0.
The remainder is taken after the loop with `net->mini_batch_size` read again, so with
the value the callback left there: a callback that set it to 0 makes the program
divide by zero. -/
def network_process_mini_batches {W : Type} (net : network_t R) (data : data_t R)
    (rand_index : List Nat) (update_batch : update_batch_f R W) (w : W) :
    Except fault (network_t R × W) := do
  if data.items = 0 then throw .assertion
  if net.mini_batch_size = 0 then throw .assertion
  let slice : uint32_array_t := { data := rand_index, size := net.mini_batch_size }
  let batches := data.items / net.mini_batch_size
  let (net, w, slice) ← for_range (fun _ (st : network_t R × W × uint32_array_t) => do
    let (net, w) ← update_batch st.1 data st.2.2 st.2.1
    pure (net, w, { st.2.2 with data := st.2.2.data.drop st.2.2.size })) batches (net, w, slice)
  let remainder ← u32_mod data.items net.mini_batch_size
  if remainder ≠ 0 then
    update_batch net data { slice with size := remainder } w
  else pure (net, w)

end Program

/-! ## Vocabulary of the statements -/

/-- The vector `array.data[i]`, the empty vector where the program could not read it. -/
def vector_array_t.vec {R : Type} (a : vector_array_t R) (i : Int) : gsl_vector R :=
  match a.idx i with
  | .ok v => v
  | .error _ => []

/-- The matrix `array.data[i]`, the empty matrix where the program could not read it. -/
def matrix_array_t.mat {R : Type} (a : matrix_array_t R) (i : Int) : gsl_matrix R :=
  match a.idx i with
  | .ok m => m
  | .error _ => { size1 := 0, size2 := 0, data := [] }

/-- Entry `(r, c)` of a matrix. -/
def gsl_matrix.entry {R : Type} [Zero R] (m : gsl_matrix R) (r c : Nat) : R :=
  (m.data.getD r []).getD c 0

/-- The size `nodes.data[i]` of layer `i`. -/
def network_t.layer {R : Type} (net : network_t R) (i : Nat) : Nat := net.nodes.data.getD i 0

/-- The layer sizes `nodes.data[0 .. nodes.size - 1]`. -/
def network_t.layers {R : Type} (net : network_t R) : List Nat :=
  net.nodes.data.take net.nodes.size

/-- A matrix as `gsl_matrix_alloc (n1, n2)` lays it out: `n1` rows of `n2` entries. -/
def gsl_matrix.allocated {R : Type} (m : gsl_matrix R) (n1 n2 : Nat) : Prop :=
  m.size1 = n1 ∧ m.size2 = n2 ∧ m.data.map List.length = List.replicate n1 n2

instance {R : Type} (m : gsl_matrix R) (n1 n2 : Nat) : Decidable (m.allocated n1 n2) := by
  unfold gsl_matrix.allocated; infer_instance

/-- A vector array as `vector_array_allocate (&array, &dimensions, offset)` lays it out:
`offset` extra cells in front, then one vector of size `dimensions.data[i]` per entry. -/
def vector_array_t.allocated {R : Type} (a : vector_array_t R) (dimensions : List Nat)
    (offset : Nat) : Prop :=
  a.size = dimensions.length ∧ a.offset = offset ∧
    a.data.length = dimensions.length + offset ∧
    (a.data.drop offset).map List.length = dimensions

instance {R : Type} (a : vector_array_t R) (dimensions : List Nat) (offset : Nat) :
    Decidable (a.allocated dimensions offset) := by
  unfold vector_array_t.allocated; infer_instance

/-- A matrix array as `matrix_array_allocate (&array, &dimensions)` lays it out: matrix
`i` has `dimensions.data[i + 1]` rows and `dimensions.data[i]` columns. -/
def matrix_array_t.allocated {R : Type} (a : matrix_array_t R) (dimensions : List Nat) :
    Prop :=
  a.size = dimensions.length - 1 ∧ a.data.length = dimensions.length - 1 ∧
    ∀ i, i < dimensions.length - 1 →
      (a.mat i).allocated (dimensions.getD (i + 1) 0) (dimensions.getD i 0)

instance {R : Type} (a : matrix_array_t R) (dimensions : List Nat) :
    Decidable (a.allocated dimensions) := by
  unfold matrix_array_t.allocated; infer_instance

/-- A network whose arrays are laid out as `network_allocate` leaves them for its layer
sizes, with a layer count that the `int32_t` loop counters can hold. -/
def network_t.allocated {R : Type} (net : network_t R) : Prop :=
  net.nodes.size ≤ net.nodes.data.length ∧ net.nodes.size < 2 ^ 31 ∧
    net.nabla_w.allocated net.layers ∧ net.weights.allocated net.layers ∧
    net.zs.allocated net.layers.tail 0 ∧ net.nabla_b.allocated net.layers.tail 0 ∧
    net.output_delta.allocated net.layers.tail 0 ∧ net.biases.allocated net.layers.tail 0 ∧
    net.outputs.allocated net.layers.tail 1

instance {R : Type} (net : network_t R) : Decidable net.allocated := by
  unfold network_t.allocated; infer_instance

/-- The input slot `outputs.data[-1]` holds a vector of the size of layer 0. -/
def network_t.input_bound {R : Type} (net : network_t R) : Prop :=
  (net.outputs.vec INPUT_INDEX).length = net.layer 0

instance {R : Type} (net : network_t R) : Decidable net.input_bound := by
  unfold network_t.input_bound; infer_instance

/-- The cells `slice.data[0 .. slice.size - 1]` a slice denotes. -/
def uint32_array_t.cells (a : uint32_array_t) : List Nat := a.data.take a.size

/-- An update callback that does nothing but append the slice it is handed to a log. -/
def record_batch {R : Type} : update_batch_f R (List uint32_array_t) :=
  fun net _ slice log => .ok (net, log ++ [slice])

/-- The slices over `r` for `n` items and batch size `b`: `n / b` full windows, then the
remainder window when `n % b` is not zero. -/
def mini_batch_slices (n b : Nat) (r : List Nat) : List uint32_array_t :=
  (List.range (n / b)).map (fun k => { size := b, data := r.drop (k * b) }) ++
    (if n % b ≠ 0 then [{ size := n % b, data := r.drop (n / b * b) }] else [])

/-- A network of which only `mini_batch_size` matters (the fixture of the mini-batch
test: every array empty). -/
def batch_fixture_network (b : Nat) : network_t ℚ :=
  { eta := 0, epochs := 0, mini_batch_size := b, nodes := { size := 0, data := [] },
    outputs := { size := 0, offset := 0, data := [] },
    zs := { size := 0, offset := 0, data := [] },
    nabla_b := { size := 0, offset := 0, data := [] },
    output_delta := { size := 0, offset := 0, data := [] },
    biases := { size := 0, offset := 0, data := [] },
    weights := { size := 0, data := [] },
    nabla_w := { size := 0, data := [] } }

/-- A dataset of which only `items` matters. -/
def batch_fixture_data (n : Nat) : data_t ℚ :=
  { labels := { magic_num := 0, num_labels := 0, labels := [] },
    images := { magic_num := 0, num_images := 0, rows := 0, cols := 0, images := [] },
    items := n }

/-! ## Closed forms of the forward and the backward pass -/

section ClosedForms

variable {R : Type} [LinearOrderedField R]

/-- The pre-activation `W a + b` of one layer. -/
def layer_input (W : gsl_matrix R) (b a : gsl_vector R) : gsl_vector R :=
  List.zipWith (fun row bi => dot row a + bi) W.data b

/-- The activation feeding layer `k` of a forward pass from input `x`: the input itself
for `k = 0`, else the sigmoid of the pre-activation of layer `k - 1`. -/
def forward_in (exp : R → R) (weights : matrix_array_t R) (biases : vector_array_t R)
    (x : gsl_vector R) : Nat → gsl_vector R
  | 0 => x
  | k + 1 =>
    (layer_input (weights.mat k) (biases.vec k) (forward_in exp weights biases x k)).map
      (sigmoid exp)

/-- The pre-activation of layer `k` of a forward pass from input `x`. -/
def forward_z (exp : R → R) (weights : matrix_array_t R) (biases : vector_array_t R)
    (x : gsl_vector R) (k : Nat) : gsl_vector R :=
  layer_input (weights.mat k) (biases.vec k) (forward_in exp weights biases x k)

/-- The output activations with one subtracted at the label. -/
def cost_gradient (a : gsl_vector R) (y : Nat) : gsl_vector R := a.set y (a.getD y 0 - 1)

/-- The product `op(W)^T v` as the list of its `n` entries. -/
def transpose_apply (W : gsl_matrix R) (v : gsl_vector R) (n : Nat) : gsl_vector R :=
  (List.range n).map (fun c => dot (W.column c) v)

/-- The error of layer `last - j` for input `x` and label `y`, where `last` is the index
of the output layer: the output error for `j = 0`, else the error of the layer above
pulled back through its weights. -/
def backward_error (exp : R → R) (weights : matrix_array_t R) (biases : vector_array_t R)
    (x : gsl_vector R) (y : Nat) (last : Nat) : Nat → gsl_vector R
  | 0 =>
    List.zipWith (fun s d => s * d)
      ((forward_z exp weights biases x last).map (sigmoid_prime exp))
      (cost_gradient (forward_in exp weights biases x (last + 1)) y)
  | j + 1 =>
    List.zipWith (fun s d => s * d)
      ((forward_z exp weights biases x (last - (j + 1))).map (sigmoid_prime exp))
      (transpose_apply (weights.mat ((last - j : Nat) : Int))
        (backward_error exp weights biases x y last j)
        (forward_z exp weights biases x (last - (j + 1))).length)

/-- The error of layer `l` for input `x` and label `y` in a network whose output layer
has index `last`. -/
def layer_error (exp : R → R) (weights : matrix_array_t R) (biases : vector_array_t R)
    (x : gsl_vector R) (y : Nat) (last l : Nat) : gsl_vector R :=
  backward_error exp weights biases x y last (last - l)

end ClosedForms

/-- The 2-3-2 network of the forward-propagation test: every weight 1, input `[1, 1]`,
biases -2 in the hidden layer and -1.5 in the output layer; the arrays the pass
overwrites hold zeros. -/
def feed_forward_fixture (R : Type) [LinearOrderedField R] : network_t R :=
  { eta := 0, epochs := 0, mini_batch_size := 1, nodes := { size := 3, data := [2, 3, 2] },
    outputs := { size := 2, offset := 1, data := [[1, 1], [0, 0, 0], [0, 0]] },
    zs := { size := 2, offset := 0, data := [[0, 0, 0], [0, 0]] },
    nabla_b := { size := 2, offset := 0, data := [[0, 0, 0], [0, 0]] },
    output_delta := { size := 2, offset := 0, data := [[0, 0, 0], [0, 0]] },
    biases := { size := 2, offset := 0, data := [[-2, -2, -2], [-3 / 2, -3 / 2]] },
    weights := { size := 2, data := [
      { size1 := 3, size2 := 2, data := [[1, 1], [1, 1], [1, 1]] },
      { size1 := 2, size2 := 3, data := [[1, 1, 1], [1, 1, 1]] }] },
    nabla_w := { size := 2, data := [
      { size1 := 3, size2 := 2, data := [[0, 0], [0, 0], [0, 0]] },
      { size1 := 2, size2 := 3, data := [[0, 0, 0], [0, 0, 0]] }] } }

/-- The 2-3-2 network of the output-error test: output activations `[0.2, 0.9]` and
output pre-activations `[0.5, 0.1]`; everything else holds zeros. -/
def output_error_fixture (R : Type) [LinearOrderedField R] : network_t R :=
  { eta := 0, epochs := 0, mini_batch_size := 1, nodes := { size := 3, data := [2, 3, 2] },
    outputs := { size := 2, offset := 1, data := [[0, 0], [0, 0, 0], [1 / 5, 9 / 10]] },
    zs := { size := 2, offset := 0, data := [[0, 0, 0], [1 / 2, 1 / 10]] },
    nabla_b := { size := 2, offset := 0, data := [[0, 0, 0], [0, 0]] },
    output_delta := { size := 2, offset := 0, data := [[0, 0, 0], [0, 0]] },
    biases := { size := 2, offset := 0, data := [[0, 0, 0], [0, 0]] },
    weights := { size := 2, data := [
      { size1 := 3, size2 := 2, data := [[0, 0], [0, 0], [0, 0]] },
      { size1 := 2, size2 := 3, data := [[0, 0, 0], [0, 0, 0]] }] },
    nabla_w := { size := 2, data := [
      { size1 := 3, size2 := 2, data := [[0, 0], [0, 0], [0, 0]] },
      { size1 := 2, size2 := 3, data := [[0, 0, 0], [0, 0, 0]] }] } }

/-- The 2-3-2 network of the gradient-accumulation test: output error `[0.5, 0.1]`,
hidden activations `[1, 2, 3]`, accumulators `nabla_b[1] = [1, 2]` and
`nabla_w[1] = [[1, 2, 3], [4, 5, 6]]`; everything else holds zeros. -/
def accumulate_fixture (R : Type) [LinearOrderedField R] : network_t R :=
  { eta := 0, epochs := 0, mini_batch_size := 1, nodes := { size := 3, data := [2, 3, 2] },
    outputs := { size := 2, offset := 1, data := [[0, 0], [1, 2, 3], [0, 0]] },
    zs := { size := 2, offset := 0, data := [[0, 0, 0], [0, 0]] },
    nabla_b := { size := 2, offset := 0, data := [[0, 0, 0], [1, 2]] },
    output_delta := { size := 2, offset := 0, data := [[0, 0, 0], [1 / 2, 1 / 10]] },
    biases := { size := 2, offset := 0, data := [[0, 0, 0], [0, 0]] },
    weights := { size := 2, data := [
      { size1 := 3, size2 := 2, data := [[0, 0], [0, 0], [0, 0]] },
      { size1 := 2, size2 := 3, data := [[0, 0, 0], [0, 0, 0]] }] },
    nabla_w := { size := 2, data := [
      { size1 := 3, size2 := 2, data := [[0, 0], [0, 0], [0, 0]] },
      { size1 := 2, size2 := 3, data := [[1, 2, 3], [4, 5, 6]] }] } }

/-- The rank-one update `A + x y^T`. -/
def outer_add {R : Type} [LinearOrderedField R] (x y : gsl_vector R) (A : gsl_matrix R) :
    gsl_matrix R :=
  { A with
    data := List.zipWith (fun xi row => List.zipWith (fun yj a => a + xi * yj) y row) x A.data }

/-- The error of a hidden layer with pre-activation `z`, from the weights `W` and the
error `next` of the layer above. -/
def hidden_error {R : Type} [LinearOrderedField R] (exp : R → R) (z : gsl_vector R)
    (W : gsl_matrix R) (next : gsl_vector R) : gsl_vector R :=
  List.zipWith (fun s d => s * d) (z.map (sigmoid_prime exp)) (transpose_apply W next z.length)

/-- The fields of a network that training samples are propagated through but that only
the update at the end of a mini-batch changes, and the hyperparameters. -/
def network_t.params {R : Type} (net : network_t R) :
    R × Nat × Nat × uint32_array_t × vector_array_t R × matrix_array_t R :=
  (net.eta, net.epochs, net.mini_batch_size, net.nodes, net.biases, net.weights)

/-- The `n1` by `n2` matrix of zeros. -/
def zero_matrix (R : Type) [Zero R] (n1 n2 : Nat) : gsl_matrix R :=
  { size1 := n1, size2 := n2, data := List.replicate n1 (List.replicate n2 0) }

/-- Sample `idx` of the dataset can be read and fits the network: its image has the
size of the input layer and its label is a class of the output layer. -/
def valid_sample {R : Type} (net : network_t R) (data : data_t R) (idx : Nat) : Prop :=
  idx < data.images.images.length ∧ idx < data.labels.labels.length ∧
    (data.images.images.getD idx []).length = net.layer 0 ∧
    data.labels.labels.getD idx 0 < net.layer (net.nodes.size - 1)

instance {R : Type} (net : network_t R) (data : data_t R) (idx : Nat) :
    Decidable (valid_sample net data idx) := by
  unfold valid_sample; infer_instance

/-- The cells of the slice can be read and each is the index of a valid sample. -/
def valid_slice {R : Type} (net : network_t R) (data : data_t R) (slice : uint32_array_t) :
    Prop :=
  slice.size ≤ slice.data.length ∧
    ∀ i, i < slice.size → valid_sample net data (slice.data.getD i 0)

instance {R : Type} (net : network_t R) (data : data_t R) (slice : uint32_array_t) :
    Decidable (valid_slice net data slice) := by
  unfold valid_slice; infer_instance

/-- The contribution of sample `idx` at the parameters of `net`: the network after the
accumulators are zeroed, the sample is bound and backpropagated once (the statements
`network_update_mini_batch` runs for one sample), so that `nabla_w` and `nabla_b` hold
what backpropagation adds for this sample. -/
def sample_contribution {R : Type} [LinearOrderedField R] (exp : R → R) (net : network_t R)
    (data : data_t R) (idx : Nat) : Except fault (network_t R) := do
  let nabla_b ← vector_array_zero net.nabla_b
  let nabla_w ← matrix_array_set_zero net.nabla_w
  let net := { net with nabla_b := nabla_b, nabla_w := nabla_w }
  let image ← load data.images.images idx
  let outputs ← net.outputs.upd INPUT_INDEX image
  let label ← load data.labels.labels idx
  network_backpropagate_error exp { net with outputs := outputs } label

/-- The image of sample `idx`. -/
def data_t.image {R : Type} (data : data_t R) (idx : Nat) : gsl_vector R :=
  data.images.images.getD idx []

/-- The label of sample `idx`. -/
def data_t.label {R : Type} (data : data_t R) (idx : Nat) : Nat :=
  data.labels.labels.getD idx 0

/-- The vector array of zero vectors of sizes `dims`, without extra cells. -/
def zero_vector_array (R : Type) [Zero R] (dims : List Nat) : vector_array_t R :=
  { size := dims.length, offset := 0, data := dims.map (fun n => List.replicate n 0) }

/-- The matrix array of zero matrices for layer sizes `dims`. -/
def zero_matrix_array (R : Type) [Zero R] (dims : List Nat) : matrix_array_t R :=
  { size := dims.length - 1,
    data := (List.range (dims.length - 1)).map
      (fun i => zero_matrix R (dims.getD (i + 1) 0) (dims.getD i 0)) }

/-- A dataset of three samples for the 2-3-2 test network. -/
def training_fixture_data (R : Type) [LinearOrderedField R] : data_t R :=
  { labels := { magic_num := 2049, num_labels := 3, labels := [0, 1, 1] },
    images := { magic_num := 2051, num_images := 3, rows := 1, cols := 2,
                images := [[1, 1], [0, 1], [1 / 2, 0]] },
    items := 3 }

/-- The 2-3-2 test network with learning rate 3 and nominal batch size 10. -/
def training_fixture_network (R : Type) [LinearOrderedField R] : network_t R :=
  { feed_forward_fixture R with eta := 3, mini_batch_size := 10 }

/-- A slice of two sample indices, shorter than the nominal batch size of the fixture. -/
def training_fixture_slice : uint32_array_t := { size := 2, data := [2, 0, 1] }

/-- Bias accumulators for the 2-3-2 test network that hold values other than zero. -/
def stale_nabla_b (R : Type) [LinearOrderedField R] : vector_array_t R :=
  { size := 2, offset := 0, data := [[7, 7, 7], [9, 9]] }

/-- Weight accumulators for the 2-3-2 test network that hold values other than zero. -/
def stale_nabla_w (R : Type) [LinearOrderedField R] : matrix_array_t R :=
  { size := 2, data := [
      { size1 := 3, size2 := 2, data := [[1, 2], [3, 4], [5, 6]] },
      { size1 := 2, size2 := 3, data := [[1, 1, 1], [1, 1, 1]] }] }

/-- The network after the statement `net->outputs.data[INPUT_INDEX] = image`. -/
def network_t.bind_input {R : Type} (net : network_t R) (image : gsl_vector R) :
    network_t R :=
  match net.outputs.upd INPUT_INDEX image with
  | .ok outputs => { net with outputs := outputs }
  | .error _ => net

/-- The first `items` samples of a held-out partition can be read, their images have
the size of the input layer, and `items` is a `uint32_t` value. -/
def valid_test_data {R : Type} (net : network_t R) (test_data : data_t R) : Prop :=
  test_data.items < 2 ^ 32 ∧ test_data.items ≤ test_data.images.images.length ∧
    test_data.items ≤ test_data.labels.labels.length ∧
    ∀ i, i < test_data.items → (test_data.image i).length = net.layer 0

instance {R : Type} (net : network_t R) (test_data : data_t R) :
    Decidable (valid_test_data net test_data) := by
  unfold valid_test_data; infer_instance

/-! ## `loader.c` -/

/-- Conversion of an `int32_t` value to `uint32_t`. -/
def to_uint32 (i : Int) : Nat := (i % 2 ^ 32).toNat

/-- The function `partition_data`; the two structs written through the pointers are
returned (`data` first).  The comparison and the subtraction are carried out in
`uint32_t`, to which the `int32_t` field `num_images` is converted. -/
def partition_data {R : Type} (data test_data : data_t R) (chunk_size : Nat) :
    Except fault (data_t R × data_t R) := do
  if ¬ (to_uint32 data.images.num_images > chunk_size) then throw .assertion
  let data := { data with items := u32_sub (to_uint32 data.images.num_images) chunk_size }
  let test_data := { test_data with items := chunk_size }
  let test_data := { test_data with
    images := { test_data.images with images := data.images.images.drop data.items } }
  let test_data := { test_data with
    labels := { test_data.labels with labels := data.labels.labels.drop data.items } }
  pure (data, test_data)

/-- A dataset of five samples with one-pixel images `[10], .., [14]` and labels
`0, .., 4`. -/
def partition_fixture_data : data_t ℚ :=
  { labels := { magic_num := 2049, num_labels := 5, labels := [0, 1, 2, 3, 4] },
    images := { magic_num := 2051, num_images := 5, rows := 1, cols := 1,
                images := [[10], [11], [12], [13], [14]] },
    items := 0 }

/-- A held-out struct before the partition: nothing in it is meaningful yet. -/
def partition_fixture_test_data : data_t ℚ :=
  { labels := { magic_num := 7, num_labels := 7, labels := [] },
    images := { magic_num := 7, num_images := 7, rows := 7, cols := 7, images := [] },
    items := 7 }

/-! ## Allocation (`math_utils.c`, `nnet.c`) -/

/-- The code `GSL_SUCCESS` of `gsl_errno.h`. -/
def GSL_SUCCESS : Nat := 0

/-- The code `GSL_ENOMEM` of `gsl_errno.h`. -/
def GSL_ENOMEM : Nat := 8

/-- The routine `gsl_matrix_alloc (n1, n2)`: a fresh `n1` by `n2` matrix.  Its contents
are unspecified in C. -/
def gsl_matrix_alloc {R : Type} [LinearOrderedField R] (n1 n2 : Nat) : gsl_matrix R :=
  { size1 := n1, size2 := n2, data := List.replicate n1 (List.replicate n2 0) }

/-- The call `malloc (sizeof (T) * n)`.  What the C library does is an input: `none`
is the answer NULL, `some junk` a fresh block of `n` cells whose cell `i` holds the
indeterminate value `junk i`. -/
def malloc {α : Type} (n : Nat) (outcome : Option (Nat → α)) : Option (List α) :=
  outcome.map (fun junk => (List.range n).map junk)

/-- The function `vector_array_allocate`; returns the error code and the array written
through the pointer.  After a NULL answer the array has no readable cell. -/
def vector_array_allocate {R : Type} [LinearOrderedField R] (array : vector_array_t R)
    (dimensions : uint32_array_t) (offset : Nat) (outcome : Option (Nat → gsl_vector R)) :
    Except fault (Nat × vector_array_t R) := do
  let array := { array with size := dimensions.size }
  let array := { array with offset := offset }
  match malloc ((array.size + offset) % 2 ^ 32) outcome with
  | none => pure (GSL_ENOMEM, { array with data := [] })
  | some block =>
    let array := { array with data := block }
    let array ← for_range (fun i (array : vector_array_t R) => do
      let n ← load dimensions.data i
      array.upd i (gsl_vector_alloc n)) array.size array
    pure (GSL_SUCCESS, array)

/-- The function `matrix_array_allocate`; returns the error code and the array written
through the pointer.  After a NULL answer the array has no readable cell. -/
def matrix_array_allocate {R : Type} [LinearOrderedField R] (array : matrix_array_t R)
    (dimensions : uint32_array_t) (outcome : Option (Nat → gsl_matrix R)) :
    Except fault (Nat × matrix_array_t R) := do
  let array := { array with size := u32_sub dimensions.size 1 }
  match malloc array.size outcome with
  | none => pure (GSL_ENOMEM, { array with data := [] })
  | some block =>
    let array := { array with data := block }
    let array ← for_range (fun i (array : matrix_array_t R) => do
      let n1 ← load dimensions.data ((i + 1 : Nat) : Int)
      let n2 ← load dimensions.data i
      array.upd i (gsl_matrix_alloc n1 n2)) array.size array
    pure (GSL_SUCCESS, array)

/-- The answers of the C library to the seven `malloc` calls of `network_allocate`,
named after the array each call is for. -/
structure malloc_outcomes (R : Type) where
  nabla_w : Option (Nat → gsl_matrix R)
  weights : Option (Nat → gsl_matrix R)
  zs : Option (Nat → gsl_vector R)
  nabla_b : Option (Nat → gsl_vector R)
  output_delta : Option (Nat → gsl_vector R)
  biases : Option (Nat → gsl_vector R)
  outputs : Option (Nat → gsl_vector R)

/-- The function `network_allocate`; returns the error code and the network. -/
def network_allocate {R : Type} [LinearOrderedField R] (net : network_t R)
    (heap : malloc_outcomes R) : Except fault (Nat × network_t R) := do
  let err := GSL_SUCCESS
  let (e, nabla_w) ← matrix_array_allocate net.nabla_w net.nodes heap.nabla_w
  let net := { net with nabla_w := nabla_w }
  let err := err ||| e
  let (e, weights) ← matrix_array_allocate net.weights net.nodes heap.weights
  let net := { net with weights := weights }
  let err := err ||| e
  let dimensions : uint32_array_t :=
    { size := u32_sub net.nodes.size 1, data := net.nodes.data.drop 1 }
  let (e, zs) ← vector_array_allocate net.zs dimensions 0 heap.zs
  let net := { net with zs := zs }
  let err := err ||| e
  let (e, nabla_b) ← vector_array_allocate net.nabla_b dimensions 0 heap.nabla_b
  let net := { net with nabla_b := nabla_b }
  let err := err ||| e
  let (e, output_delta) ← vector_array_allocate net.output_delta dimensions 0 heap.output_delta
  let net := { net with output_delta := output_delta }
  let err := err ||| e
  let (e, biases) ← vector_array_allocate net.biases dimensions 0 heap.biases
  let net := { net with biases := biases }
  let err := err ||| e
  let (e, outputs) ← vector_array_allocate net.outputs dimensions 1 heap.outputs
  let net := { net with outputs := outputs }
  let err := err ||| e
  pure (err, net)

/-- Every `malloc` call of `network_allocate` is answered with a block. -/
def malloc_outcomes.all_blocks {R : Type} (heap : malloc_outcomes R) : Prop :=
  heap.nabla_w.isSome ∧ heap.weights.isSome ∧ heap.zs.isSome ∧ heap.nabla_b.isSome ∧
    heap.output_delta.isSome ∧ heap.biases.isSome ∧ heap.outputs.isSome

instance {R : Type} (heap : malloc_outcomes R) : Decidable heap.all_blocks := by
  unfold malloc_outcomes.all_blocks; infer_instance

/-- A network struct before allocation: the layer sizes 2, 3, 2 are set and the arrays
hold nothing. -/
def allocate_fixture_network : network_t ℚ :=
  { eta := 0, epochs := 0, mini_batch_size := 0, nodes := { size := 3, data := [2, 3, 2] },
    outputs := { size := 0, offset := 0, data := [] },
    zs := { size := 0, offset := 0, data := [] },
    nabla_b := { size := 0, offset := 0, data := [] },
    output_delta := { size := 0, offset := 0, data := [] },
    biases := { size := 0, offset := 0, data := [] },
    weights := { size := 0, data := [] },
    nabla_w := { size := 0, data := [] } }

/-- Answers of `malloc` that all succeed, the blocks holding arbitrary cells. -/
def allocate_fixture_heap : malloc_outcomes ℚ :=
  { nabla_w := some (fun _ => { size1 := 9, size2 := 9, data := [] }),
    weights := some (fun _ => { size1 := 0, size2 := 1, data := [[5]] }),
    zs := some (fun _ => [7]),
    nabla_b := some (fun _ => []),
    output_delta := some (fun i => [(i : ℚ)]),
    biases := some (fun _ => [1, 2, 3, 4]),
    outputs := some (fun _ => [8, 8]) }

/-- The function `extract_header_line`.  Each byte is promoted to `int`; the shifts and
the ors are taken on 32-bit two's-complement words (a byte of 128 or more shifted by 24
sets the sign bit), and the `int32_t` value of the word is returned. -/
def extract_header_line (buf : List Nat) : Except fault Int := do
  let b0 ← load buf 0
  let b1 ← load buf 1
  let b2 ← load buf 2
  let b3 ← load buf 3
  pure (to_int32 ((b0 <<< 24 ||| b1 <<< 16 ||| b2 <<< 8 ||| b3) % 2 ^ 32))

/-- A network with two layers of two nodes and no hidden layer: every weight 1, biases
-2, the input `[1, 1]` bound; the accumulators hold ones. -/
def two_layer_fixture (R : Type) [LinearOrderedField R] : network_t R :=
  { eta := 1, epochs := 1, mini_batch_size := 1, nodes := { size := 2, data := [2, 2] },
    outputs := { size := 1, offset := 1, data := [[1, 1], [0, 0]] },
    zs := { size := 1, offset := 0, data := [[0, 0]] },
    nabla_b := { size := 1, offset := 0, data := [[1, 1]] },
    output_delta := { size := 1, offset := 0, data := [[0, 0]] },
    biases := { size := 1, offset := 0, data := [[-2, -2]] },
    weights := { size := 1, data := [{ size1 := 2, size2 := 2, data := [[1, 1], [1, 1]] }] },
    nabla_w := { size := 1, data := [{ size1 := 2, size2 := 2, data := [[1, 1], [1, 1]] }] } }

/-! ## The random number generator (GSL) and the routines that draw from it -/

/-- A generator of GSL as the program sees it: `alloc` is the state of the generator
`gsl_rng_alloc (T)` returns (seeded with the default seed), `uniform_int g n` the state
and the value after `gsl_rng_uniform_int (r, n)` in state `g`, and `ugaussian g` the
state and the value after one draw of a unit Gaussian variate (mean 0, standard
deviation 1).  How the library computes the values is not modelled. -/
structure gsl_rng_type (G R : Type) where
  alloc : G
  uniform_int : G → Nat → G × Nat
  ugaussian : G → G × R

/-- The routine `gsl_ran_gaussian (r, sigma)`: a Gaussian variate with mean 0 and
standard deviation `sigma`, which GSL computes as `sigma` times a unit variate. -/
def gsl_ran_gaussian {G R : Type} [LinearOrderedField R] (T : gsl_rng_type G R) (r : G)
    (sigma : R) : G × R :=
  ((T.ugaussian r).1, sigma * (T.ugaussian r).2)

/-- The helper `swap (base, size, i, j)` of `gsl_ran_shuffle` on an array of `uint32_t`:
the cells `i` and `j` change places. -/
def swap (base : List Nat) (i j : Nat) : Except fault (List Nat) := do
  let a ← load base i
  let b ← load base j
  let base ← store base i b
  store base j a

/-- The routine `gsl_ran_shuffle (r, base, n, size)` on an array of `uint32_t`, as GSL
implements it: `for (i = n - 1; i > 0; i--) swap (i, gsl_rng_uniform_int (r, i + 1))`.
For `n = 0` the unsigned `n - 1` wraps and the first draw is asked for a range of 0,
which GSL reports as an error. -/
def gsl_ran_shuffle {G R : Type} (T : gsl_rng_type G R) (r : G) (base : List Nat) (n : Nat) :
    Except fault (G × List Nat) := do
  if n = 0 then throw .gsl_error
  for_down (fun k (st : G × List Nat) => do
    let i := k + 1
    let base ← swap st.2 i (T.uniform_int st.1 (i + 1)).2
    pure ((T.uniform_int st.1 (i + 1)).1, base)) (n - 1) (r, base)

/-- The routine `gsl_matrix_set (m, i, j, x)`, range-checked; returns the new `m`. -/
def gsl_matrix_set {R : Type} (m : gsl_matrix R) (i j : Nat) (x : R) :
    Except fault (gsl_matrix R) :=
  if i < m.size1 ∧ j < m.size2 then do
    let row ← load m.data i
    let row ← store row j x
    let data ← store m.data i row
    pure { m with data := data }
  else .error .gsl_error

/-- The function `vector_set_rand`; returns the new `vec` and the state of the
generator. -/
def vector_set_rand {G R : Type} [LinearOrderedField R] (T : gsl_rng_type G R)
    (vec : gsl_vector R) (rng : G) (var : R) : Except fault (gsl_vector R × G) :=
  for_range (fun i (st : gsl_vector R × G) => do
    let vec ← gsl_vector_set st.1 i (gsl_ran_gaussian T st.2 var).2
    pure (vec, (gsl_ran_gaussian T st.2 var).1)) vec.length (vec, rng)

/-- The function `vector_array_set_rand`. -/
def vector_array_set_rand {G R : Type} [LinearOrderedField R] (T : gsl_rng_type G R)
    (array : vector_array_t R) (rng : G) (var : R) : Except fault (vector_array_t R × G) :=
  for_range (fun i (st : vector_array_t R × G) => do
    let v ← st.1.idx i
    let (v, rng) ← vector_set_rand T v st.2 var
    let array ← st.1.upd i v
    pure (array, rng)) array.size (array, rng)

/-- The function `matrix_set_rand`. -/
def matrix_set_rand {G R : Type} [LinearOrderedField R] (T : gsl_rng_type G R)
    (mat : gsl_matrix R) (rng : G) (var : R) : Except fault (gsl_matrix R × G) :=
  for_range (fun i (st : gsl_matrix R × G) =>
    for_range (fun j (st : gsl_matrix R × G) => do
      let mat ← gsl_matrix_set st.1 i j (gsl_ran_gaussian T st.2 var).2
      pure (mat, (gsl_ran_gaussian T st.2 var).1)) st.1.size2 st) mat.size1 (mat, rng)

/-- The function `matrix_array_set_rand`. -/
def matrix_array_set_rand {G R : Type} [LinearOrderedField R] (T : gsl_rng_type G R)
    (array : matrix_array_t R) (rng : G) (var : R) : Except fault (matrix_array_t R × G) :=
  for_range (fun i (st : matrix_array_t R × G) => do
    let m ← st.1.idx i
    let (m, rng) ← matrix_set_rand T m st.2 var
    let array ← st.1.upd i m
    pure (array, rng)) array.size (array, rng)

/-- The function `network_random_init`. -/
def network_random_init {G R : Type} [LinearOrderedField R] (T : gsl_rng_type G R)
    (net : network_t R) (var : R) : Except fault (network_t R) := do
  let rng := T.alloc
  let (biases, rng) ← vector_array_set_rand T net.biases rng var
  let net := { net with biases := biases }
  let (weights, _) ← matrix_array_set_rand T net.weights rng var
  pure { net with weights := weights }

/-- The function pointer `&network_update_mini_batch` as an `update_batch_f`: the
function touches nothing outside the network. -/
def network_update_mini_batch_f {R : Type} [LinearOrderedField R] (exp : R → R) :
    update_batch_f R Unit :=
  fun net data slice w => do
    let net ← network_update_mini_batch exp net data slice
    pure (net, w)

/-- What one epoch of `network_sgd` reports: the three numbers of its `printf`, and with
them the index array the epoch handed to `network_process_mini_batches`, which the
program does not print. -/
structure epoch_report where
  epoch : Nat
  correct_answers : Nat
  items : Nat
  order : List Nat
deriving DecidableEq, Repr

/-- The function `network_sgd`; returns the network and the reports of the epochs.
`junk i` is what cell `i` of the variable-length array `rand_index` holds before the
program writes it.  The bound `net->epochs` is read at every test of the loop; no
callee writes it, so the count is its value on entry. -/
def network_sgd {G R : Type} [LinearOrderedField R] (exp : R → R) (T : gsl_rng_type G R)
    (net : network_t R) (data test_data : data_t R) (junk : Nat → Nat) :
    Except fault (network_t R × List epoch_report) := do
  let rng := T.alloc
  let rand_index : List Nat := (List.range data.items).map junk
  let rand_index ← for_range (fun i (a : List Nat) => store a i i) data.items rand_index
  let st ← for_range (fun i (st : network_t R × G × List Nat × List epoch_report) => do
    let (rng, rand_index) ← gsl_ran_shuffle T st.2.1 st.2.2.1 data.items
    let (net, _) ← network_process_mini_batches st.1 data rand_index
      (network_update_mini_batch_f exp) ()
    let correct_answers := 0
    let (net, correct_answers) ← network_evaluate_test_data exp net test_data correct_answers
    let report : epoch_report :=
      { epoch := i, correct_answers := correct_answers, items := test_data.items,
        order := rand_index }
    pure (net, rng, rand_index, st.2.2.2 ++ [report])) net.epochs (net, rng, rand_index, [])
  pure (st.1, st.2.2.2)

/-- The values `gsl_rng_uniform_int (r, n)` returns lie in `0 .. n - 1`, as the GSL
manual states. -/
def gsl_rng_type.in_range {G R : Type} (T : gsl_rng_type G R) : Prop :=
  ∀ g n, 0 < n → (T.uniform_int g n).2 < n

/-- The state of the generator after `k` draws of a unit Gaussian variate. -/
def ugaussian_state {G R : Type} (T : gsl_rng_type G R) : Nat → G
  | 0 => T.alloc
  | k + 1 => (T.ugaussian (ugaussian_state T k)).1

/-- The `k`-th unit Gaussian variate the generator draws after `gsl_rng_alloc`
(counting from 0). -/
def ugaussian_draw {G R : Type} (T : gsl_rng_type G R) (k : Nat) : R :=
  (T.ugaussian (ugaussian_state T k)).2

/-- Vectors of the lengths `lens` filled, in order, with `f k`, `f (k + 1)`, ... -/
def fill_from {R : Type} (f : Nat → R) : Nat → List Nat → List (List R)
  | _, [] => []
  | k, n :: ns => (List.range n).map (fun j => f (k + j)) :: fill_from f (k + n) ns

/-- A generator that counts: the `k`-th draw, of either kind, returns `k + 1` (reduced
into the range asked for, for integers). -/
def counting_rng (R : Type) [LinearOrderedField R] : gsl_rng_type Nat R :=
  { alloc := 0,
    uniform_int := fun g n => (g + 1, (g + 1) % n),
    ugaussian := fun g => (g + 1, ((g + 1 : Nat) : R)) }

/-- The 2-3-2 test network set up for two epochs with batch size 2. -/
def sgd_fixture_network (R : Type) [LinearOrderedField R] : network_t R :=
  { training_fixture_network R with epochs := 2, mini_batch_size := 2 }

/-- The network `sgd_fixture_network` with accumulators that hold stale values. -/
def sgd_fixture_stale_network (R : Type) [LinearOrderedField R] : network_t R :=
  { sgd_fixture_network R with nabla_b := stale_nabla_b R, nabla_w := stale_nabla_w R }

/-! ## The quadratic cost and lines of parameters -/

/-- The quadratic cost `1/2 * ||a - one_hot (y)||^2` of output activations `a` for the
label `y`.  The program has no function that computes the cost, only its derivative
`cost_derivative`; this definition follows the formula of the specification. -/
def spec_quadratic_cost {R : Type} [LinearOrderedField R] (a : gsl_vector R) (y : Nat) : R :=
  1 / 2 * ∑ j in Finset.range a.length, (a.getD j 0 - (if j = y then 1 else 0)) ^ 2

/-- The vector `outputs[i]` of the network a run returns, the empty vector if the run
does not return. -/
def output_of_run {R : Type} (e : Except fault (network_t R)) (i : Int) : gsl_vector R :=
  match e with
  | .ok net' => net'.outputs.vec i
  | .error _ => []

/-- The output activations `outputs[L - 2]` that `network_feed_forward` leaves for the
bound input (the empty vector if the pass does not return). -/
def network_t.feed_forward_output {R : Type} [LinearOrderedField R] (exp : R → R)
    (net : network_t R) : gsl_vector R :=
  output_of_run (network_feed_forward exp net 1) ((net.nodes.size - 2 : Nat) : Int)

/-- The quadratic cost of the output that `network_feed_forward` computes from the bound
input, for the label `y`. -/
def network_t.cost {R : Type} [LinearOrderedField R] (exp : R → R) (net : network_t R)
    (y : Nat) : R :=
  spec_quadratic_cost (net.feed_forward_output exp) y

/-- The vector array with entry `r` of vector `l` moved by `t`. -/
def vector_array_t.nudge {R : Type} [LinearOrderedField R] (a : vector_array_t R)
    (l r : Nat) (t : R) : vector_array_t R :=
  { a with data := a.data.set (l + a.offset) ((a.vec l).set r ((a.vec l).getD r 0 + t)) }

/-- The matrix with entry `(r, c)` moved by `t`. -/
def gsl_matrix.nudge {R : Type} [LinearOrderedField R] (m : gsl_matrix R) (r c : Nat)
    (t : R) : gsl_matrix R :=
  { m with data := m.data.set r ((m.data.getD r []).set c (m.entry r c + t)) }

/-- The matrix array with entry `(r, c)` of matrix `l` moved by `t`. -/
def matrix_array_t.nudge {R : Type} [LinearOrderedField R] (a : matrix_array_t R)
    (l r c : Nat) (t : R) : matrix_array_t R :=
  { a with data := a.data.set l ((a.mat l).nudge r c t) }

/-- The network with the bias `b[l][r]` moved by `t`. -/
def network_t.nudge_bias {R : Type} [LinearOrderedField R] (net : network_t R)
    (l r : Nat) (t : R) : network_t R :=
  { net with biases := net.biases.nudge l r t }

/-- The network with the weight `W[l][r][c]` moved by `t`. -/
def network_t.nudge_weight {R : Type} [LinearOrderedField R] (net : network_t R)
    (l r c : Nat) (t : R) : network_t R :=
  { net with weights := net.weights.nudge l r c t }

/-! ## Running a program -/

set_option linter.unusedSectionVars false

@[simp] theorem ok_bind {ε α β : Type} (a : α) (f : α → Except ε β) :
    (Except.ok a >>= f) = f a := rfl

@[simp] theorem error_bind {ε α β : Type} (e : ε) (f : α → Except ε β) :
    (Except.error e >>= f) = Except.error e := rfl

@[simp] theorem pure_eq_ok {ε α : Type} (a : α) : (pure a : Except ε α) = Except.ok a := rfl

/-- Invariant rule for the upward loop: the invariant holds before, every pass succeeds
and re-establishes it, so the loop succeeds and the invariant holds after. -/
theorem for_range_inv {σ : Type} (body : Nat → σ → Except fault σ) (P : Nat → σ → Prop)
    (n : Nat) (s : σ) (h0 : P 0 s)
    (hstep : ∀ i s, i < n → P i s → ∃ s', body i s = .ok s' ∧ P (i + 1) s') :
    ∃ s', for_range body n s = .ok s' ∧ P n s' := by
  induction n with
  | zero => exact ⟨s, rfl, h0⟩
  | succ n ih =>
    obtain ⟨s1, h1, hP1⟩ := ih (fun i s hi => hstep i s (Nat.lt_succ_of_lt hi))
    obtain ⟨s2, h2, hP2⟩ := hstep n s1 (Nat.lt_succ_self n) hP1
    exact ⟨s2, by simp [for_range, h1, h2], hP2⟩

/-- Invariant rule for the downward loop. -/
theorem for_down_inv {σ : Type} (body : Nat → σ → Except fault σ) (P : Nat → σ → Prop)
    (n : Nat) (s : σ) (h0 : P n s)
    (hstep : ∀ i s, i < n → P (i + 1) s → ∃ s', body i s = .ok s' ∧ P i s') :
    ∃ s', for_down body n s = .ok s' ∧ P 0 s' := by
  induction n generalizing s with
  | zero => exact ⟨s, rfl, h0⟩
  | succ n ih =>
    obtain ⟨s1, h1, hP1⟩ := hstep n s (Nat.lt_succ_self n) h0
    obtain ⟨s2, h2, hP2⟩ := ih s1 hP1 (fun i s hi => hstep i s (Nat.lt_succ_of_lt hi))
    exact ⟨s2, by simp [for_down, h1, h2], hP2⟩

theorem u32_mod_ok (a b : Nat) (hb : b ≠ 0) : u32_mod a b = .ok (a % b) := by
  unfold u32_mod
  rw [if_neg hb]

/-! ## Mini-batch slicing -/

/-- With the recording callback, `network_process_mini_batches` hands over exactly the
slices of `mini_batch_slices`, in that order, and returns the network as it was. -/
theorem process_mini_batches_record {R : Type} (net : network_t R) (data : data_t R)
    (r : List Nat) (hn : data.items ≠ 0) (hb : net.mini_batch_size ≠ 0) :
    network_process_mini_batches net data r record_batch [] =
      .ok (net, mini_batch_slices data.items net.mini_batch_size r) := by
  obtain ⟨s', hs', hP⟩ := for_range_inv
    (fun _ (st : network_t R × List uint32_array_t × uint32_array_t) => do
      let (net, w) ← record_batch st.1 data st.2.2 st.2.1
      pure (net, w, { st.2.2 with data := st.2.2.data.drop st.2.2.size }))
    (fun i st => st = (net, (List.range i).map
        (fun k => ({ size := net.mini_batch_size, data := r.drop (k * net.mini_batch_size) } :
          uint32_array_t)),
        { size := net.mini_batch_size, data := r.drop (i * net.mini_batch_size) }))
    (data.items / net.mini_batch_size)
    (net, [], { data := r, size := net.mini_batch_size })
    (by simp)
    (by
      intro i st _ hst
      subst hst
      simp [record_batch, List.range_succ, Nat.succ_mul, Nat.add_comm])
  subst hP
  unfold network_process_mini_batches
  simp only [hn, hb, if_false, hs']
  by_cases hr : data.items % net.mini_batch_size = 0
  · simp [hr, mini_batch_slices, u32_mod_ok _ _ hb]
  · simp [hr, mini_batch_slices, record_batch, u32_mod_ok _ _ hb]

theorem flatten_windows (r : List Nat) (b m : Nat) :
    ((List.range m).map (fun k => (r.drop (k * b)).take b)).flatten = r.take (m * b) := by
  induction m with
  | zero => simp
  | succ m ih =>
    rw [List.range_succ, List.map_append, List.flatten_append, ih, Nat.succ_mul, List.take_add]
    simp

theorem mini_batch_slices_cells (n b : Nat) (r : List Nat) (hr : r.length = n) :
    ((mini_batch_slices n b r).map uint32_array_t.cells).flatten = r := by
  have hdiv : n / b * b + n % b = n := Nat.div_add_mod' n b
  unfold mini_batch_slices
  rw [List.map_append, List.flatten_append, List.map_map]
  have h1 : (List.map (uint32_array_t.cells ∘ fun k =>
      ({ size := b, data := r.drop (k * b) } : uint32_array_t)) (List.range (n / b))) =
      (List.range (n / b)).map (fun k => (r.drop (k * b)).take b) := by
    apply List.map_congr_left
    intro k _
    rfl
  rw [h1, flatten_windows]
  by_cases h : n % b = 0
  · simp only [h, ne_eq, not_true_eq_false, if_false, List.map_nil, List.flatten_nil,
      List.append_nil]
    apply List.take_of_length_le
    omega
  · simp only [h, ne_eq, not_false_eq_true, if_true, List.map_cons, List.map_nil,
      List.flatten_cons, List.flatten_nil, List.append_nil, uint32_array_t.cells]
    rw [← List.take_add]
    apply List.take_of_length_le
    omega

theorem mini_batch_slices_getElem? (n b : Nat) (r : List Nat) (k : Nat) (s : uint32_array_t)
    (h : (mini_batch_slices n b r)[k]? = some s) :
    s.data = r.drop (k * b) ∧ k * b + s.size ≤ n ∧
      (s.size = b ∨ (k = n / b ∧ s.size = n % b ∧ n % b ≠ 0)) := by
  have hdiv : n / b * b + n % b = n := Nat.div_add_mod' n b
  unfold mini_batch_slices at h
  by_cases hk : k < n / b
  · rw [List.getElem?_append_left (by simpa using hk)] at h
    simp [List.getElem?_map, List.getElem?_range hk] at h
    subst h
    have h1 : (k + 1) * b ≤ n / b * b := Nat.mul_le_mul_right b hk
    have h2 : (k + 1) * b = k * b + b := Nat.succ_mul k b
    simp
    omega
  · rw [List.getElem?_append_right (by simpa using hk)] at h
    simp only [List.length_map, List.length_range] at h
    by_cases hr : n % b = 0
    · simp [hr] at h
    · simp only [hr, ne_eq, not_false_eq_true, if_true] at h
      have hk0 : k - n / b = 0 := by
        by_contra hne
        obtain ⟨j, hj⟩ := Nat.exists_eq_succ_of_ne_zero hne
        rw [hj] at h
        simp at h
      have hk1 : k = n / b := by omega
      rw [hk0] at h
      simp at h
      subst h
      simp [hk1, hr]
      omega

theorem mini_batch_slices_sizes (n b : Nat) (r : List Nat) :
    (mini_batch_slices n b r).map (fun s => s.size) =
      List.replicate (n / b) b ++ (if n % b ≠ 0 then [n % b] else []) := by
  unfold mini_batch_slices
  rw [List.map_append, List.map_map]
  congr 1
  · apply List.ext_getElem?
    intro i
    by_cases hi : i < n / b
    · simp [List.getElem?_map, List.getElem?_range hi, hi, List.getElem?_replicate]
    · simp [List.getElem?_replicate, hi]
      omega
  · by_cases hr : n % b = 0 <;> simp [hr]

theorem ceil_div_eq (n b : Nat) (hb : b ≠ 0) :
    (n + b - 1) / b = n / b + (if n % b ≠ 0 then 1 else 0) := by
  have hb' : 0 < b := Nat.pos_of_ne_zero hb
  have hdiv : b * (n / b) + n % b = n := Nat.div_add_mod n b
  have hlt : n % b < b := Nat.mod_lt n hb'
  generalize n / b = q at hdiv ⊢
  generalize n % b = m at hdiv hlt ⊢
  have e0 : q * b = b * q := Nat.mul_comm q b
  have e1 : (q + 1) * b = b * q + b := by ring
  have e2 : (q + 1 + 1) * b = b * q + b + b := by ring
  by_cases h : m = 0
  · simp only [h, ne_eq, not_true_eq_false, if_false, Nat.add_zero]
    apply Nat.div_eq_of_lt_le <;> omega
  · simp only [h, ne_eq, not_false_eq_true, if_true]
    apply Nat.div_eq_of_lt_le <;> omega

/-- C7: for `n ≥ 1` items, batch size `b ≥ 1` and an index array `r` of length `n`, the
slices handed to the update callback are, in call order, the contiguous windows of `r`:
slice `k` starts at offset `k * b`, each of its cells is the cell of `r` at
`k * b + j`, and the cells of all slices concatenated are exactly `r`. -/
theorem process_mini_batches_windows {R : Type} (net : network_t R) (data : data_t R)
    (r : List Nat) (hn : 1 ≤ data.items) (hb : 1 ≤ net.mini_batch_size)
    (hr : r.length = data.items) :
    ∃ log, network_process_mini_batches net data r record_batch [] = .ok (net, log) ∧
      (∀ k s, log[k]? = some s → s.data = r.drop (k * net.mini_batch_size) ∧
        ∀ j, j < s.size → ∃ v, s.data[j]? = some v ∧
          r[k * net.mini_batch_size + j]? = some v) ∧
      (log.map uint32_array_t.cells).flatten = r := by
  refine ⟨_, process_mini_batches_record net data r (by omega) (by omega), ?_,
    mini_batch_slices_cells _ _ r hr⟩
  intro k s hs
  obtain ⟨hd, hle, _⟩ := mini_batch_slices_getElem? _ _ r k s hs
  refine ⟨hd, ?_⟩
  intro j hj
  have hlt : k * net.mini_batch_size + j < r.length := by omega
  refine ⟨r[k * net.mini_batch_size + j], ?_, List.getElem?_eq_getElem hlt⟩
  rw [hd, List.getElem?_drop, List.getElem?_eq_getElem hlt]

/-- C7 at the test fixture `n = 4`, `b = 2`, `r = [0, 1, 0, 1]`: the callback receives
`[0, 1]` and then `[0, 1]`. -/
theorem process_mini_batches_windows_witness :
    (1 ≤ (batch_fixture_data 4).items ∧ 1 ≤ (batch_fixture_network 2).mini_batch_size ∧
      [0, 1, 0, 1].length = (batch_fixture_data 4).items) ∧
    (∃ log, network_process_mini_batches (batch_fixture_network 2) (batch_fixture_data 4)
        [0, 1, 0, 1] record_batch [] = .ok (batch_fixture_network 2, log) ∧
      (∀ k s, log[k]? = some s →
        s.data = [0, 1, 0, 1].drop (k * (batch_fixture_network 2).mini_batch_size) ∧
        ∀ j, j < s.size → ∃ v, s.data[j]? = some v ∧
          [0, 1, 0, 1][k * (batch_fixture_network 2).mini_batch_size + j]? = some v) ∧
      (log.map uint32_array_t.cells).flatten = [0, 1, 0, 1]) ∧
    (network_process_mini_batches (batch_fixture_network 2) (batch_fixture_data 4)
        [0, 1, 0, 1] record_batch []).map (fun st => st.2.map uint32_array_t.cells) =
      .ok [[0, 1], [0, 1]] :=
  ⟨by decide,
   process_mini_batches_windows (batch_fixture_network 2) (batch_fixture_data 4) [0, 1, 0, 1]
     (by decide) (by decide) (by decide),
   rfl⟩

/-- C8: for `n ≥ 1` items and batch size `b ≥ 1` the update callback is invoked
`⌈n / b⌉` times: first `n / b` slices of size `b`, then one slice of size `n % b` exactly
when `n % b` is not zero. -/
theorem process_mini_batches_sizes {R : Type} (net : network_t R) (data : data_t R)
    (r : List Nat) (hn : 1 ≤ data.items) (hb : 1 ≤ net.mini_batch_size) :
    ∃ log, network_process_mini_batches net data r record_batch [] = .ok (net, log) ∧
      log.length = (data.items + net.mini_batch_size - 1) / net.mini_batch_size ∧
      log.map (fun s => s.size) =
        List.replicate (data.items / net.mini_batch_size) net.mini_batch_size ++
          (if data.items % net.mini_batch_size ≠ 0 then
            [data.items % net.mini_batch_size] else []) := by
  refine ⟨_, process_mini_batches_record net data r (by omega) (by omega), ?_,
    mini_batch_slices_sizes _ _ r⟩
  have h := congrArg List.length (mini_batch_slices_sizes data.items net.mini_batch_size r)
  rw [List.length_map] at h
  rw [h, ceil_div_eq _ _ (by omega)]
  by_cases hm : data.items % net.mini_batch_size = 0 <;> simp [hm]

/-- C8 at the test fixtures: `n = 8`, `b = 3` gives sizes `[3, 3, 2]`; `n = 5`, `b = 6`
gives the single size `[5]`; `n = 4`, `b = 2` gives `[2, 2]`. -/
theorem process_mini_batches_sizes_witness :
    (1 ≤ (batch_fixture_data 8).items ∧ 1 ≤ (batch_fixture_network 3).mini_batch_size) ∧
    (∃ log, network_process_mini_batches (batch_fixture_network 3) (batch_fixture_data 8)
        [0, 1, 2, 0, 1, 2, 0, 1] record_batch [] = .ok (batch_fixture_network 3, log) ∧
      log.length = (8 + 3 - 1) / 3 ∧ log.map (fun s => s.size) = [3, 3, 2]) ∧
    (∃ log, network_process_mini_batches (batch_fixture_network 6) (batch_fixture_data 5)
        [0, 1, 2, 3, 4] record_batch [] = .ok (batch_fixture_network 6, log) ∧
      log.length = (5 + 6 - 1) / 6 ∧ log.map (fun s => s.size) = [5]) ∧
    (∃ log, network_process_mini_batches (batch_fixture_network 2) (batch_fixture_data 4)
        [0, 1, 0, 1] record_batch [] = .ok (batch_fixture_network 2, log) ∧
      log.length = (4 + 2 - 1) / 2 ∧ log.map (fun s => s.size) = [2, 2]) :=
  ⟨by decide,
   process_mini_batches_sizes (batch_fixture_network 3) (batch_fixture_data 8)
     [0, 1, 2, 0, 1, 2, 0, 1] (by decide) (by decide),
   process_mini_batches_sizes (batch_fixture_network 6) (batch_fixture_data 5)
     [0, 1, 2, 3, 4] (by decide) (by decide),
   process_mini_batches_sizes (batch_fixture_network 2) (batch_fixture_data 4)
     [0, 1, 0, 1] (by decide) (by decide)⟩

/-! ## Machine integers and array cells -/

theorem u32_sub_one (n : Nat) (h1 : 1 ≤ n) (h2 : n < 2 ^ 32) : u32_sub n 1 = n - 1 := by
  unfold u32_sub
  norm_num
  omega

theorem to_int32_small (a : Nat) (h : a < 2 ^ 31) : to_int32 a = (a : Int) := by
  unfold to_int32
  have h1 : a % 2 ^ 32 = a := Nat.mod_eq_of_lt (by omega)
  rw [h1, if_pos h]

theorem load_ok {α : Type} (l : List α) (i : Int) (k : Nat) (v : α) (hi : i = (k : Int))
    (hv : l[k]? = some v) : load l i = .ok v := by
  subst hi
  simp [load, hv]

theorem store_ok {α : Type} (l : List α) (i : Int) (k : Nat) (v : α) (hi : i = (k : Int))
    (hk : k < l.length) : store l i v = .ok (l.set k v) := by
  subst hi
  simp [store, hk]

theorem vector_array_idx_ok {R : Type} (a : vector_array_t R) (i : Int) (k : Nat)
    (v : gsl_vector R) (hi : i + a.offset = (k : Int)) (hv : a.data[k]? = some v) :
    a.idx i = .ok v :=
  load_ok a.data _ k v hi hv

theorem vector_array_vec_eq {R : Type} (a : vector_array_t R) (i : Int) (k : Nat)
    (v : gsl_vector R) (hi : i + a.offset = (k : Int)) (hv : a.data[k]? = some v) :
    a.vec i = v := by
  simp [vector_array_t.vec, vector_array_idx_ok a i k v hi hv]

theorem vector_array_upd_ok {R : Type} (a : vector_array_t R) (i : Int) (k : Nat)
    (v : gsl_vector R) (hi : i + a.offset = (k : Int)) (hk : k < a.data.length) :
    a.upd i v = .ok { a with data := a.data.set k v } := by
  simp [vector_array_t.upd, store_ok a.data _ k v hi hk]

theorem matrix_array_idx_ok {R : Type} (a : matrix_array_t R) (i : Int) (k : Nat)
    (m : gsl_matrix R) (hi : i = (k : Int)) (hm : a.data[k]? = some m) :
    a.idx i = .ok m :=
  load_ok a.data _ k m hi hm

theorem matrix_array_mat_eq {R : Type} (a : matrix_array_t R) (i : Int) (k : Nat)
    (m : gsl_matrix R) (hi : i = (k : Int)) (hm : a.data[k]? = some m) :
    a.mat i = m := by
  simp [matrix_array_t.mat, matrix_array_idx_ok a i k m hi hm]

theorem matrix_array_upd_ok {R : Type} (a : matrix_array_t R) (i : Int) (k : Nat)
    (m : gsl_matrix R) (hi : i = (k : Int)) (hk : k < a.data.length) :
    a.upd i m = .ok { a with data := a.data.set k m } := by
  simp [matrix_array_t.upd, store_ok a.data _ k m hi hk]

/-! ## Layouts -/

theorem layers_length {R : Type} (net : network_t R)
    (h : net.nodes.size ≤ net.nodes.data.length) : net.layers.length = net.nodes.size := by
  simp [network_t.layers, h]

theorem layers_getD {R : Type} (net : network_t R) (i : Nat) (hi : i < net.nodes.size) :
    net.layers.getD i 0 = net.layer i := by
  simp [network_t.layers, network_t.layer, List.getD_eq_getElem?_getD, List.getElem?_take, hi]

theorem layers_tail_length {R : Type} (net : network_t R)
    (h : net.nodes.size ≤ net.nodes.data.length) :
    net.layers.tail.length = net.nodes.size - 1 := by
  simp [layers_length net h]

theorem layers_tail_getD {R : Type} (net : network_t R) (i : Nat)
    (hi : i + 1 < net.nodes.size) : net.layers.tail.getD i 0 = net.layer (i + 1) := by
  rw [← layers_getD net (i + 1) hi]
  simp [List.getD_eq_getElem?_getD]

theorem vector_array_allocated_get {R : Type} (a : vector_array_t R) (dims : List Nat)
    (o i : Nat) (h : a.allocated dims o) (hi : i < dims.length) :
    ∃ v, a.data[i + o]? = some v ∧ v.length = dims.getD i 0 := by
  obtain ⟨_, _, hlen, hmap⟩ := h
  have hlt : i + o < a.data.length := by omega
  refine ⟨a.data[i + o], List.getElem?_eq_getElem hlt, ?_⟩
  have h1 := congrArg (fun l => l[i]?) hmap
  simp only [List.getElem?_map, List.getElem?_drop] at h1
  rw [Nat.add_comm o i, List.getElem?_eq_getElem hlt] at h1
  simp only [Option.map_some'] at h1
  rw [List.getD_eq_getElem?_getD, ← h1]
  rfl

theorem vector_array_allocated_set {R : Type} (a : vector_array_t R) (dims : List Nat)
    (o i : Nat) (v : gsl_vector R) (h : a.allocated dims o) (hi : i < dims.length)
    (hv : v.length = dims.getD i 0) :
    ({ a with data := a.data.set (i + o) v } : vector_array_t R).allocated dims o := by
  obtain ⟨h1, h2, hlen, hmap⟩ := h
  refine ⟨h1, h2, by simpa using hlen, ?_⟩
  apply List.ext_getElem?
  intro j
  have hj := congrArg (fun l => l[j]?) hmap
  simp only [List.getElem?_map, List.getElem?_drop] at hj
  simp only [List.getElem?_map, List.getElem?_drop, List.getElem?_set]
  by_cases hij : i + o = o + j
  · have : i = j := by omega
    subst this
    have hlt : i + o < a.data.length := by omega
    rw [if_pos hij, if_pos hlt, List.getElem?_eq_getElem hi]
    simp [hv, List.getD_eq_getElem?_getD, List.getElem?_eq_getElem hi]
  · simpa [hij] using hj

theorem vector_array_allocated_set_front {R : Type} (a : vector_array_t R) (dims : List Nat)
    (o k : Nat) (v : gsl_vector R) (h : a.allocated dims o) (hk : k < o) :
    ({ a with data := a.data.set k v } : vector_array_t R).allocated dims o := by
  obtain ⟨h1, h2, hlen, hmap⟩ := h
  refine ⟨h1, h2, by simpa using hlen, ?_⟩
  apply List.ext_getElem?
  intro j
  have hj := congrArg (fun l => l[j]?) hmap
  simp only [List.getElem?_map, List.getElem?_drop] at hj
  simp only [List.getElem?_map, List.getElem?_drop, List.getElem?_set]
  have hne : ¬ k = o + j := by omega
  simpa [hne] using hj

theorem matrix_array_allocated_get {R : Type} (a : matrix_array_t R) (dims : List Nat)
    (i : Nat) (h : a.allocated dims) (hi : i < dims.length - 1) :
    ∃ m, a.data[i]? = some m ∧ a.mat i = m ∧
      m.allocated (dims.getD (i + 1) 0) (dims.getD i 0) := by
  obtain ⟨_, hlen, hall⟩ := h
  have hlt : i < a.data.length := by omega
  have hm : a.mat i = a.data[i] :=
    matrix_array_mat_eq a i i _ rfl (List.getElem?_eq_getElem hlt)
  exact ⟨a.data[i], List.getElem?_eq_getElem hlt, hm, hm ▸ hall i hi⟩

theorem matrix_array_allocated_set {R : Type} (a : matrix_array_t R) (dims : List Nat)
    (i : Nat) (m : gsl_matrix R) (h : a.allocated dims) (hi : i < dims.length - 1)
    (hm : m.allocated (dims.getD (i + 1) 0) (dims.getD i 0)) :
    ({ a with data := a.data.set i m } : matrix_array_t R).allocated dims := by
  obtain ⟨h1, hlen, hall⟩ := h
  refine ⟨h1, by simpa using hlen, ?_⟩
  intro j hj
  by_cases hij : i = j
  · subst hij
    have : ({ a with data := a.data.set i m } : matrix_array_t R).mat i = m :=
      matrix_array_mat_eq _ i i m rfl (by simp [List.getElem?_set]; omega)
    rw [this]
    exact hm
  · obtain ⟨mj, hmj, hmat, hal⟩ := matrix_array_allocated_get a dims j ⟨h1, hlen, hall⟩ hj
    have : ({ a with data := a.data.set i m } : matrix_array_t R).mat j = mj :=
      matrix_array_mat_eq _ j j mj rfl (by simp [List.getElem?_set, hij, hmj])
    rw [this]
    exact hal

/-! ## The GSL routines on operands of matching sizes -/

section Routines

variable {R : Type} [LinearOrderedField R]

theorem matrix_allocated_length (m : gsl_matrix R) (n1 n2 : Nat) (h : m.allocated n1 n2) :
    m.data.length = n1 := by
  have := congrArg List.length h.2.2
  simpa using this

theorem matrix_allocated_row (m : gsl_matrix R) (n1 n2 : Nat) (h : m.allocated n1 n2)
    (r : Nat) (hr : r < n1) : (m.data.getD r []).length = n2 := by
  have hlen := matrix_allocated_length m n1 n2 h
  have h1 := congrArg (fun l => l[r]?) h.2.2
  simp only [List.getElem?_map, List.getElem?_replicate, if_pos hr] at h1
  rw [List.getD_eq_getElem?_getD]
  cases hrow : m.data[r]? with
  | none => simp [hrow] at h1
  | some row => simpa [hrow] using h1

theorem vector_vectorise_loop_eq (func : R → R) (done rest : List R) :
    vector_vectorise_loop func done rest = done ++ rest.map func := by
  induction rest generalizing done with
  | nil => simp [vector_vectorise_loop]
  | cons x rest ih => simp [vector_vectorise_loop, ih]

theorem vector_vectorise_eq_map (vec : gsl_vector R) (func : R → R) :
    vector_vectorise vec func = vec.map func := by
  simp [vector_vectorise, vector_vectorise_loop_eq]

theorem zipWith_const_right {α β γ : Type} (f : α → γ) (l : List α) (l' : List β)
    (h : l.length = l'.length) : List.zipWith (fun a _ => f a) l l' = l.map f := by
  induction l generalizing l' with
  | nil => simp
  | cons a l ih =>
    cases l' with
    | nil => simp at h
    | cons b l' => simp [ih l' (by simpa using h)]

theorem dgemv_no_trans_ok (W : gsl_matrix R) (x y : gsl_vector R) (n1 n2 : Nat)
    (hW : W.allocated n1 n2) (hx : x.length = n2) (hy : y.length = n1) :
    gsl_blas_dgemv .CblasNoTrans 1 W x 0 y = .ok (W.data.map (fun row => dot row x)) := by
  have hlen := matrix_allocated_length W n1 n2 hW
  simp only [gsl_blas_dgemv, hW.1, hW.2.1, hx, hy, and_self, if_true, one_mul, zero_mul,
    add_zero]
  rw [zipWith_const_right (fun row => dot row x) W.data y (by omega)]

theorem dgemv_trans_ok (W : gsl_matrix R) (x y : gsl_vector R) (n1 n2 : Nat)
    (hW : W.allocated n1 n2) (hx : x.length = n1) (hy : y.length = n2) :
    gsl_blas_dgemv .CblasTrans 1 W x 0 y = .ok (transpose_apply W x n2) := by
  simp only [gsl_blas_dgemv, hW.1, hW.2.1, hx, hy, and_self, if_true, one_mul, zero_mul,
    add_zero, transpose_apply]
  rw [zipWith_const_right (fun c => dot (W.column c) x) (List.range n2) y (by simp [hy])]

theorem daxpy_ok (x y : gsl_vector R) (h : x.length = y.length) :
    gsl_blas_daxpy 1 x y = .ok (List.zipWith (fun xi yi => xi + yi) x y) := by
  simp [gsl_blas_daxpy, h]

theorem layer_input_eq (W : gsl_matrix R) (b x : gsl_vector R) :
    List.zipWith (fun xi yi => xi + yi) b (W.data.map (fun row => dot row x)) =
      layer_input W b x := by
  unfold layer_input
  rw [List.zipWith_map_right]
  generalize W.data = rows
  induction b generalizing rows with
  | nil => simp
  | cons bi b ih =>
    cases rows with
    | nil => simp
    | cons row rows => simp [ih rows, add_comm]

theorem layer_input_length (W : gsl_matrix R) (b x : gsl_vector R) (n1 n2 : Nat)
    (hW : W.allocated n1 n2) (hb : b.length = n1) : (layer_input W b x).length = n1 := by
  simp [layer_input, matrix_allocated_length W n1 n2 hW, hb]

theorem memcpy_ok (dest src : gsl_vector R) (h : dest.length = src.length) :
    gsl_vector_memcpy dest src = .ok src := by
  simp [gsl_vector_memcpy, h]

theorem vector_mul_ok (a b : gsl_vector R) (h : a.length = b.length) :
    gsl_vector_mul a b = .ok (List.zipWith (fun x y => x * y) a b) := by
  simp [gsl_vector_mul, h]

theorem transpose_apply_length (W : gsl_matrix R) (v : gsl_vector R) (n : Nat) :
    (transpose_apply W v n).length = n := by
  simp [transpose_apply]

theorem cost_gradient_length (a : gsl_vector R) (y : Nat) :
    (cost_gradient a y).length = a.length := by
  simp [cost_gradient]

theorem cost_derivative_ok (a cd : gsl_vector R) (y : Nat) (hcd : cd.length = a.length)
    (hy : y < a.length) : cost_derivative a y cd = .ok (cost_gradient a y) := by
  simp [cost_derivative, memcpy_ok cd a hcd, gsl_vector_get, List.getElem?_eq_getElem hy,
    gsl_vector_set, hy, cost_gradient, List.getD_eq_getElem?_getD]

end Routines

/-! ## Reading arrays after a write -/

theorem vector_array_vec_set {R : Type} (a : vector_array_t R) (k : Nat) (v : gsl_vector R)
    (i : Int) (j : Nat) (hij : i + a.offset = (j : Int)) (hk : k < a.data.length) :
    ({ a with data := a.data.set k v } : vector_array_t R).vec i =
      if k = j then v else a.vec i := by
  unfold vector_array_t.vec vector_array_t.idx load
  simp only [hij, Int.toNat_ofNat, Int.natCast_nonneg, if_true, List.getElem?_set]
  by_cases hkj : k = j
  · simp [hkj, hkj ▸ hk]
  · simp [hkj]

theorem matrix_array_mat_set {R : Type} (a : matrix_array_t R) (k : Nat) (m : gsl_matrix R)
    (j : Nat) (hk : k < a.data.length) :
    ({ a with data := a.data.set k m } : matrix_array_t R).mat (j : Int) =
      if k = j then m else a.mat j := by
  unfold matrix_array_t.mat matrix_array_t.idx load
  simp only [Int.toNat_ofNat, Int.natCast_nonneg, if_true, List.getElem?_set]
  by_cases hkj : k = j
  · simp [hkj, hkj ▸ hk]
  · simp [hkj]

theorem vector_array_allocated_vec {R : Type} (a : vector_array_t R) (dims : List Nat)
    (o i : Nat) (h : a.allocated dims o) (hi : i < dims.length) (j : Int)
    (hj : j + o = ((i + o : Nat) : Int)) :
    a.idx j = .ok (a.vec j) ∧ (a.vec j).length = dims.getD i 0 := by
  obtain ⟨v, hv, hlen⟩ := vector_array_allocated_get a dims o i h hi
  have hoff : a.offset = o := h.2.1
  have h1 : a.idx j = .ok v := vector_array_idx_ok a j (i + o) v (by rw [hoff]; exact hj) hv
  have h2 : a.vec j = v := vector_array_vec_eq a j (i + o) v (by rw [hoff]; exact hj) hv
  rw [h2]
  exact ⟨h1, hlen⟩

theorem matrix_array_allocated_mat {R : Type} (a : matrix_array_t R) (dims : List Nat)
    (i : Nat) (h : a.allocated dims) (hi : i < dims.length - 1) :
    a.idx (i : Int) = .ok (a.mat i) ∧
      (a.mat i).allocated (dims.getD (i + 1) 0) (dims.getD i 0) := by
  obtain ⟨m, hm, hmat, hal⟩ := matrix_array_allocated_get a dims i h hi
  rw [hmat]
  exact ⟨matrix_array_idx_ok a i i m rfl hm, hal⟩

/-! ## The forward pass -/

section Forward

variable {R : Type} [LinearOrderedField R] (exp : R → R)

theorem network_layer_facts (net : network_t R) (h : net.allocated) :
    net.layers.length = net.nodes.size ∧ net.layers.tail.length = net.nodes.size - 1 ∧
      (∀ i, i < net.nodes.size → net.layers.getD i 0 = net.layer i) ∧
      (∀ i, i + 1 < net.nodes.size → net.layers.tail.getD i 0 = net.layer (i + 1)) :=
  ⟨layers_length net h.1, layers_tail_length net h.1, fun i hi => layers_getD net i hi,
    fun i hi => layers_tail_getD net i hi⟩

theorem outputs_input_slot (net : network_t R) (h : net.allocated) :
    net.outputs.idx INPUT_INDEX = .ok (net.outputs.vec INPUT_INDEX) ∧
      0 < net.outputs.data.length ∧ net.outputs.offset = 1 := by
  obtain ⟨_, _, _, _, _, _, _, _, _, hoff, hlen, _⟩ := h
  have hlt : 0 < net.outputs.data.length := by omega
  have hv : net.outputs.data[0]? = some net.outputs.data[0] := List.getElem?_eq_getElem hlt
  have hi : INPUT_INDEX + (net.outputs.offset : Int) = ((0 : Nat) : Int) := by
    rw [hoff]; rfl
  refine ⟨?_, hlt, hoff⟩
  rw [vector_array_vec_eq net.outputs INPUT_INDEX 0 _ hi hv]
  exact vector_array_idx_ok net.outputs INPUT_INDEX 0 _ hi hv

theorem outputs_prev (net : network_t R) (h : net.allocated) (hb : net.input_bound) (i : Nat)
    (hi : i < net.nodes.size) :
    net.outputs.idx ((i : Int) - 1) = .ok (net.outputs.vec ((i : Int) - 1)) ∧
      (net.outputs.vec ((i : Int) - 1)).length = net.layer i := by
  obtain ⟨_, htl, _, hget⟩ := network_layer_facts net h
  cases i with
  | zero => exact ⟨(outputs_input_slot net h).1, hb⟩
  | succ k =>
    have hk : k < net.layers.tail.length := by omega
    have := vector_array_allocated_vec net.outputs net.layers.tail 1 k h.2.2.2.2.2.2.2.2 hk
      (((k + 1 : Nat) : Int) - 1) (by push_cast; ring)
    rw [hget k hi] at this
    exact this

theorem outputs_prev_of (net : network_t R) (h : net.allocated) (i : Nat)
    (hb : i = 0 → net.input_bound) (hi : i < net.nodes.size) :
    net.outputs.idx ((i : Int) - 1) = .ok (net.outputs.vec ((i : Int) - 1)) ∧
      (net.outputs.vec ((i : Int) - 1)).length = net.layer i := by
  obtain ⟨_, htl, _, hget⟩ := network_layer_facts net h
  cases i with
  | zero => exact ⟨(outputs_input_slot net h).1, hb rfl⟩
  | succ k =>
    have hk : k < net.layers.tail.length := by omega
    have := vector_array_allocated_vec net.outputs net.layers.tail 1 k h.2.2.2.2.2.2.2.2 hk
      (((k + 1 : Nat) : Int) - 1) (by push_cast; ring)
    rw [hget k hi] at this
    exact this

theorem network_feed_forward_body_ok (net : network_t R) (store_z i : Nat)
    (h : net.allocated) (hb : net.input_bound) (hi : i + 1 < net.nodes.size) :
    network_feed_forward_body exp store_z i net = .ok
      { net with
        outputs := { net.outputs with
          data := net.outputs.data.set (i + 1)
            ((layer_input (net.weights.mat i) (net.biases.vec i)
              (net.outputs.vec ((i : Int) - 1))).map (sigmoid exp)) },
        zs := if store_z ≠ 0 then
            { net.zs with
              data := net.zs.data.set i (layer_input (net.weights.mat i) (net.biases.vec i)
                (net.outputs.vec ((i : Int) - 1))) }
          else net.zs } := by
  obtain ⟨hlen, htl, hget, hget'⟩ := network_layer_facts net h
  have hit : i < net.layers.tail.length := by omega
  obtain ⟨_, _, hnw, hw, hzs, hnb, hod, hbs, hout⟩ := h
  obtain ⟨hW, hWa⟩ := matrix_array_allocated_mat net.weights net.layers i hw (by omega)
  rw [hget i (by omega), hget (i + 1) hi] at hWa
  obtain ⟨hprev, hprevlen⟩ := outputs_prev net ⟨‹_›, ‹_›, hnw, hw, hzs, hnb, hod, hbs, hout⟩
    hb i (by omega)
  obtain ⟨hcur, hcurlen⟩ := vector_array_allocated_vec net.outputs net.layers.tail 1 i hout hit
    (i : Int) (by push_cast; ring)
  obtain ⟨hbi, hblen⟩ := vector_array_allocated_vec net.biases net.layers.tail 0 i hbs hit
    (i : Int) (by push_cast; ring)
  obtain ⟨hzi, hzlen⟩ := vector_array_allocated_vec net.zs net.layers.tail 0 i hzs hit
    (i : Int) (by push_cast; ring)
  rw [hget' i hi] at hcurlen hblen hzlen
  have hmv := dgemv_no_trans_ok (net.weights.mat i) (net.outputs.vec ((i : Int) - 1))
    (net.outputs.vec i) _ _ hWa hprevlen hcurlen
  have hmvlen : ((net.weights.mat i).data.map
      (fun row => dot row (net.outputs.vec ((i : Int) - 1)))).length =
      (net.biases.vec i).length := by
    rw [List.length_map, matrix_allocated_length _ _ _ hWa, hblen]
  have hax := daxpy_ok (net.biases.vec i) _ hmvlen.symm
  rw [layer_input_eq] at hax
  have hzl : (layer_input (net.weights.mat i) (net.biases.vec i)
      (net.outputs.vec ((i : Int) - 1))).length = (net.zs.vec i).length := by
    rw [layer_input_length _ _ _ _ _ hWa hblen, hzlen]
  have hupd := vector_array_upd_ok net.outputs (i : Int) (i + 1)
    ((layer_input (net.weights.mat i) (net.biases.vec i)
      (net.outputs.vec ((i : Int) - 1))).map (sigmoid exp))
    (by rw [hout.2.1]; push_cast; ring) (by rw [hout.2.2.1]; omega)
  have hzupd := vector_array_upd_ok net.zs (i : Int) i
    (layer_input (net.weights.mat i) (net.biases.vec i) (net.outputs.vec ((i : Int) - 1)))
    (by rw [hzs.2.1]; push_cast; ring) (by rw [hzs.2.2.1]; omega)
  unfold network_feed_forward_body
  simp only [hW, hprev, hcur, hmv, hbi, hax, ok_bind, vector_vectorise_eq_map, hupd]
  by_cases hs : store_z = 0
  · simp [hs]
  · simp [hs, hzi, memcpy_ok _ _ hzl.symm, hzupd]

end Forward

section ForwardLoop

variable {R : Type} [LinearOrderedField R] (exp : R → R)

/-- Cell `k` of a per-layer vector array of a laid-out network: it can be read and
written, holds a vector of the size of layer `k + 1`, and writing a vector of that size
keeps the layout. -/
theorem tail_array_cell (net : network_t R) (h : net.allocated) (a : vector_array_t R)
    (o : Nat) (ha : a.allocated net.layers.tail o) (k : Nat) (hk : k + 1 < net.nodes.size) :
    a.idx (k : Int) = .ok (a.vec k) ∧ (a.vec k).length = net.layer (k + 1) ∧
      k + o < a.data.length ∧
      (∀ v, a.upd (k : Int) v = .ok { a with data := a.data.set (k + o) v }) ∧
      (∀ v : gsl_vector R, v.length = net.layer (k + 1) →
        ({ a with data := a.data.set (k + o) v } : vector_array_t R).allocated
          net.layers.tail o) := by
  obtain ⟨_, htl, _, hget'⟩ := network_layer_facts net h
  have hkt : k < net.layers.tail.length := by omega
  obtain ⟨h1, h2⟩ := vector_array_allocated_vec a net.layers.tail o k ha hkt (k : Int)
    (by push_cast; ring)
  rw [hget' k hk] at h2
  have hlt : k + o < a.data.length := by rw [ha.2.2.1]; omega
  refine ⟨h1, h2, hlt, fun v => vector_array_upd_ok a (k : Int) (k + o) v
    (by rw [ha.2.1]; push_cast; ring) hlt, fun v hv => ?_⟩
  exact vector_array_allocated_set a net.layers.tail o k v ha hkt (by rw [hget' k hk]; exact hv)

/-- Cell `k` of a per-layer matrix array of a laid-out network. -/
theorem matrix_array_cell (net : network_t R) (h : net.allocated) (a : matrix_array_t R)
    (ha : a.allocated net.layers) (k : Nat) (hk : k + 1 < net.nodes.size) :
    a.idx (k : Int) = .ok (a.mat k) ∧ (a.mat k).allocated (net.layer (k + 1)) (net.layer k) ∧
      k < a.data.length ∧
      (∀ m, a.upd (k : Int) m = .ok { a with data := a.data.set k m }) ∧
      (∀ m : gsl_matrix R, m.allocated (net.layer (k + 1)) (net.layer k) →
        ({ a with data := a.data.set k m } : matrix_array_t R).allocated net.layers) := by
  obtain ⟨hlen, _, hget, _⟩ := network_layer_facts net h
  have hkt : k < net.layers.length - 1 := by omega
  obtain ⟨h1, h2⟩ := matrix_array_allocated_mat a net.layers k ha hkt
  rw [hget k (by omega), hget (k + 1) hk] at h2
  have hlt : k < a.data.length := by rw [ha.2.1]; omega
  refine ⟨h1, h2, hlt, fun m => matrix_array_upd_ok a (k : Int) k m rfl hlt, fun m hm => ?_⟩
  exact matrix_array_allocated_set a net.layers k m ha hkt
    (by rw [hget k (by omega), hget (k + 1) hk]; exact hm)

theorem outputs_zs_frame_iff (st net : network_t R) :
    st = { net with outputs := st.outputs, zs := st.zs } ↔
      st.eta = net.eta ∧ st.epochs = net.epochs ∧
      st.mini_batch_size = net.mini_batch_size ∧ st.nodes = net.nodes ∧
      st.nabla_b = net.nabla_b ∧ st.output_delta = net.output_delta ∧
      st.biases = net.biases ∧ st.weights = net.weights ∧ st.nabla_w = net.nabla_w := by
  cases st
  cases net
  simp only [network_t.mk.injEq, true_and]

theorem forward_in_prev (st net : network_t R) (k : Nat)
    (hin : st.outputs.vec INPUT_INDEX = net.outputs.vec INPUT_INDEX)
    (hout : ∀ j, j < k → st.outputs.vec (j : Int) =
      forward_in exp net.weights net.biases (net.outputs.vec INPUT_INDEX) (j + 1)) :
    st.outputs.vec ((k : Int) - 1) =
      forward_in exp net.weights net.biases (net.outputs.vec INPUT_INDEX) k := by
  cases k with
  | zero => exact hin
  | succ m =>
    have : ((m + 1 : Nat) : Int) - 1 = (m : Int) := by push_cast; ring
    rw [this]
    exact hout m (Nat.lt_succ_self m)

/-- The forward pass on a laid-out network with a bound input succeeds; it changes only
`outputs` and `zs`, keeps the layout and the input slot, leaves in `outputs[j]` the
activation of layer `j` and, when asked to, in `zs[j]` its pre-activation. -/
theorem network_feed_forward_ok (net : network_t R) (store_z : Nat) (h : net.allocated)
    (hb : net.input_bound) (hL : 1 ≤ net.nodes.size) :
    ∃ net', network_feed_forward exp net store_z = .ok net' ∧
      net' = { net with outputs := net'.outputs, zs := net'.zs } ∧ net'.allocated ∧
      net'.outputs.vec INPUT_INDEX = net.outputs.vec INPUT_INDEX ∧
      (∀ j, j + 1 < net.nodes.size → net'.outputs.vec (j : Int) =
        forward_in exp net.weights net.biases (net.outputs.vec INPUT_INDEX) (j + 1)) ∧
      (store_z ≠ 0 → ∀ j, j + 1 < net.nodes.size → net'.zs.vec (j : Int) =
        forward_z exp net.weights net.biases (net.outputs.vec INPUT_INDEX) j) ∧
      (store_z = 0 → net'.zs = net.zs) := by
  have hn : u32_sub net.nodes.size 1 = net.nodes.size - 1 :=
    u32_sub_one _ hL (by have := h.2.1; omega)
  unfold network_feed_forward
  simp only [hn]
  obtain ⟨net', hrun, hfr, hal, hin, hout, hzs, hz0⟩ := for_range_inv
    (network_feed_forward_body exp store_z)
    (fun k st => st = { net with outputs := st.outputs, zs := st.zs } ∧ st.allocated ∧
      st.outputs.vec INPUT_INDEX = net.outputs.vec INPUT_INDEX ∧
      (∀ j, j < k → st.outputs.vec (j : Int) =
        forward_in exp net.weights net.biases (net.outputs.vec INPUT_INDEX) (j + 1)) ∧
      (store_z ≠ 0 → ∀ j, j < k → st.zs.vec (j : Int) =
        forward_z exp net.weights net.biases (net.outputs.vec INPUT_INDEX) j) ∧
      (store_z = 0 → st.zs = net.zs))
    (net.nodes.size - 1) net
    ⟨rfl, h, rfl, fun j hj => absurd hj (Nat.not_lt_zero j),
      fun _ j hj => absurd hj (Nat.not_lt_zero j), fun _ => rfl⟩
    (by
      intro k st hk ⟨hfr, hal, hin, hout, hzs, hz0⟩
      have hfr' := (outputs_zs_frame_iff st net).1 hfr
      have hnodes : st.nodes = net.nodes := hfr'.2.2.2.1
      have hw : st.weights = net.weights := hfr'.2.2.2.2.2.2.2.1
      have hbs : st.biases = net.biases := hfr'.2.2.2.2.2.2.1
      have hlayer : ∀ i, st.layer i = net.layer i := fun i => by
        simp [network_t.layer, hnodes]
      have hbound : st.input_bound := by
        unfold network_t.input_bound
        rw [hin, hlayer]
        exact hb
      have hk1 : k + 1 < st.nodes.size := by rw [hnodes]; omega
      refine ⟨_, network_feed_forward_body_ok exp st store_z k hal hbound hk1, ?_⟩
      have hprev := forward_in_prev exp st net k hin hout
      obtain ⟨_, hWa, _⟩ := matrix_array_cell st hal st.weights hal.2.2.2.1 k hk1
      obtain ⟨_, hbl, _⟩ := tail_array_cell st hal st.biases 0 hal.2.2.2.2.2.2.2.1 k hk1
      obtain ⟨_, _, hzlt, _, hzal⟩ := tail_array_cell st hal st.zs 0 hal.2.2.2.2.1 k hk1
      obtain ⟨_, _, holt, _, hoal⟩ :=
        tail_array_cell st hal st.outputs 1 hal.2.2.2.2.2.2.2.2 k hk1
      have hzlen := layer_input_length (st.weights.mat k) (st.biases.vec k)
        (st.outputs.vec ((k : Int) - 1)) _ _ hWa hbl
      have hoff : st.outputs.offset = 1 := hal.2.2.2.2.2.2.2.2.2.1
      have hzoff : st.zs.offset = 0 := hal.2.2.2.2.1.2.1
      refine ⟨(outputs_zs_frame_iff _ net).2 ⟨hfr'.1, hfr'.2.1, hfr'.2.2.1, hnodes,
        hfr'.2.2.2.2.1, hfr'.2.2.2.2.2.1, hbs, hw, hfr'.2.2.2.2.2.2.2.2⟩, ?_, ?_, ?_, ?_, ?_⟩
      · refine ⟨hal.1, hal.2.1, hal.2.2.1, hal.2.2.2.1, ?_, hal.2.2.2.2.2.1,
          hal.2.2.2.2.2.2.1, hal.2.2.2.2.2.2.2.1, hoal _ (by simpa using hzlen)⟩
        by_cases hs : store_z = 0
        · simp only [hs, ne_eq, not_true_eq_false, if_false]
          exact hal.2.2.2.2.1
        · simp only [hs, ne_eq, not_false_eq_true, if_true]
          exact hzal _ hzlen
      · show vector_array_t.vec _ INPUT_INDEX = _
        rw [vector_array_vec_set st.outputs (k + 1) _ INPUT_INDEX 0 (by rw [hoff]; rfl) holt,
          if_neg (by omega), hin]
      · intro j hj
        show vector_array_t.vec _ (j : Int) = _
        rw [vector_array_vec_set st.outputs (k + 1) _ (j : Int) (j + 1)
          (by rw [hoff]; push_cast; ring) holt]
        by_cases hjk : k = j
        · subst hjk
          simp [forward_in, hw, hbs, hprev]
        · rw [if_neg (by omega)]
          exact hout j (by omega)
      · intro hs j hj
        simp only [hs, ne_eq, not_false_eq_true, if_true]
        rw [vector_array_vec_set st.zs k _ (j : Int) j (by rw [hzoff]; push_cast; ring) hzlt]
        by_cases hjk : k = j
        · subst hjk
          simp [forward_z, hw, hbs, hprev]
        · rw [if_neg hjk]
          exact hzs hs j (by omega)
      · intro hs
        simp only [hs, ne_eq, not_true_eq_false, if_false]
        exact hz0 hs)
  exact ⟨net', hrun, hfr, hal, hin, fun j hj => hout j (by omega), fun hs j hj =>
    hzs hs j (by omega), hz0⟩

end ForwardLoop

section ForwardClaims

variable {R : Type} [LinearOrderedField R] (exp : R → R)

theorem dot_eq_sum (row x : List R) (n : Nat) (hr : row.length = n) (hx : x.length = n) :
    dot row x = ∑ c in Finset.range n, row.getD c 0 * x.getD c 0 := by
  induction row generalizing x n with
  | nil =>
    subst hr
    simp [dot]
  | cons a row ih =>
    cases x with
    | nil => subst hx; simp at hr
    | cons b x =>
      cases n with
      | zero => simp at hr
      | succ n =>
        have := ih x n (by simpa using hr) (by simpa using hx)
        rw [Finset.sum_range_succ']
        simp only [dot, List.zipWith_cons_cons, List.sum_cons, List.getD_cons_succ,
          List.getD_cons_zero] at this ⊢
        rw [this, add_comm]

theorem layer_input_getD (W : gsl_matrix R) (b a : gsl_vector R) (n1 n2 r : Nat)
    (hW : W.allocated n1 n2) (hb : b.length = n1) (ha : a.length = n2) (hr : r < n1) :
    (layer_input W b a).getD r 0 =
      (∑ c in Finset.range n2, W.entry r c * a.getD c 0) + b.getD r 0 := by
  have hlen := matrix_allocated_length W n1 n2 hW
  have hrow := matrix_allocated_row W n1 n2 hW r hr
  have h1 : r < W.data.length := by omega
  have h2 : r < b.length := by omega
  simp only [layer_input, List.getD_eq_getElem?_getD, List.getElem?_zipWith,
    List.getElem?_eq_getElem h1, List.getElem?_eq_getElem h2, Option.getD_some]
  rw [dot_eq_sum W.data[r] a n2 (by
    simpa [List.getD_eq_getElem?_getD, List.getElem?_eq_getElem h1] using hrow) ha]
  simp [gsl_matrix.entry, List.getD_eq_getElem?_getD, List.getElem?_eq_getElem h1]

/-- C2: on a laid-out network with `L ≥ 2` layers and an input bound at slot -1,
`network_feed_forward (net, 1)` succeeds and leaves, for every non-input layer `i`,
`zs[i] = W[i] a[i-1] + b[i]` (entry by entry) and `outputs[i] = sigmoid (zs[i])`, where
`a[i-1]` is `outputs[i-1]` and `outputs[-1]` is the input; weights, biases and the bound
input are unchanged. -/
theorem network_feed_forward_layers (net : network_t R) (h : net.allocated)
    (hb : net.input_bound) (hL : 2 ≤ net.nodes.size) :
    ∃ net', network_feed_forward exp net 1 = .ok net' ∧
      net'.weights = net.weights ∧ net'.biases = net.biases ∧
      net'.outputs.vec INPUT_INDEX = net.outputs.vec INPUT_INDEX ∧
      ∀ i, i + 1 < net.nodes.size →
        (net'.zs.vec (i : Int)).length = net.layer (i + 1) ∧
        (∀ r, r < net.layer (i + 1) → (net'.zs.vec (i : Int)).getD r 0 =
          (∑ c in Finset.range (net.layer i),
            (net.weights.mat (i : Int)).entry r c *
              (net'.outputs.vec ((i : Int) - 1)).getD c 0) +
            (net.biases.vec (i : Int)).getD r 0) ∧
        net'.outputs.vec (i : Int) = (net'.zs.vec (i : Int)).map (sigmoid exp) := by
  obtain ⟨net', hrun, hfr, hal, hin, hout, hzs, _⟩ :=
    network_feed_forward_ok exp net 1 h hb (by omega)
  have hfr' := (outputs_zs_frame_iff net' net).1 hfr
  refine ⟨net', hrun, hfr'.2.2.2.2.2.2.2.1, hfr'.2.2.2.2.2.2.1, hin, ?_⟩
  intro i hi
  have hprev : net'.outputs.vec ((i : Int) - 1) =
      forward_in exp net.weights net.biases (net.outputs.vec INPUT_INDEX) i :=
    forward_in_prev exp net' net i hin (fun j hj => hout j (by omega))
  obtain ⟨_, hWa, _⟩ := matrix_array_cell net h net.weights h.2.2.2.1 i hi
  obtain ⟨_, hbl, _⟩ := tail_array_cell net h net.biases 0 h.2.2.2.2.2.2.2.1 i hi
  have hbound' : net'.input_bound := by
    unfold network_t.input_bound network_t.layer
    rw [hin, hfr'.2.2.2.1]
    exact hb
  have hnodes : net'.nodes.size = net.nodes.size := by rw [hfr'.2.2.2.1]
  have hlayer : net'.layer i = net.layer i := by
    unfold network_t.layer
    rw [hfr'.2.2.2.1]
  obtain ⟨_, hal'⟩ := outputs_prev net' hal hbound' i (by omega)
  rw [hlayer] at hal'
  rw [hzs (by decide) i hi, hout i hi, hprev]
  rw [hprev] at hal'
  refine ⟨layer_input_length _ _ _ _ _ hWa hbl, fun r hr => ?_, rfl⟩
  exact layer_input_getD _ _ _ _ _ r hWa hbl hal' hr

end ForwardClaims

/-- C2 at the test network (over the reals, with the real exponential): the hypotheses
hold, so the statement applies, and the pass leaves every pre-activation exactly 0 and
every activation exactly 1/2. -/
theorem network_feed_forward_layers_witness :
    ((feed_forward_fixture ℝ).allocated ∧ (feed_forward_fixture ℝ).input_bound ∧
      2 ≤ (feed_forward_fixture ℝ).nodes.size) ∧
    (∃ net', network_feed_forward Real.exp (feed_forward_fixture ℝ) 1 = .ok net' ∧
      net'.weights = (feed_forward_fixture ℝ).weights ∧
      net'.biases = (feed_forward_fixture ℝ).biases ∧
      net'.outputs.vec INPUT_INDEX = (feed_forward_fixture ℝ).outputs.vec INPUT_INDEX ∧
      ∀ i, i + 1 < (feed_forward_fixture ℝ).nodes.size →
        (net'.zs.vec (i : Int)).length = (feed_forward_fixture ℝ).layer (i + 1) ∧
        (∀ r, r < (feed_forward_fixture ℝ).layer (i + 1) →
          (net'.zs.vec (i : Int)).getD r 0 =
          (∑ c in Finset.range ((feed_forward_fixture ℝ).layer i),
            ((feed_forward_fixture ℝ).weights.mat (i : Int)).entry r c *
              (net'.outputs.vec ((i : Int) - 1)).getD c 0) +
            ((feed_forward_fixture ℝ).biases.vec (i : Int)).getD r 0) ∧
        net'.outputs.vec (i : Int) = (net'.zs.vec (i : Int)).map (sigmoid Real.exp)) ∧
    network_feed_forward Real.exp (feed_forward_fixture ℝ) 1 = .ok
      { feed_forward_fixture ℝ with
        outputs := { size := 2, offset := 1, data := [[1, 1], [1 / 2, 1 / 2, 1 / 2], [1 / 2, 1 / 2]] },
        zs := { size := 2, offset := 0, data := [[0, 0, 0], [0, 0]] } } :=
  ⟨by decide,
   network_feed_forward_layers Real.exp (feed_forward_fixture ℝ) (by decide) (by decide)
     (by decide),
   by
     have h1 : Int.toNat 1 = 1 := rfl
     have h2 : Int.toNat 2 = 2 := rfl
     norm_num [h1, h2, network_feed_forward, feed_forward_fixture, u32_sub, for_range,
       network_feed_forward_body, vector_array_t.idx, matrix_array_t.idx, load,
       vector_array_t.upd, store, gsl_blas_dgemv, gsl_blas_daxpy, gsl_vector_memcpy,
       vector_vectorise_eq_map, sigmoid, dot]⟩

/-! ## Output error and gradient accumulation -/

section Backward

variable {R : Type} [LinearOrderedField R] (exp : R → R)

theorem getD_zipWith {α β γ : Type} (f : α → β → γ) (l : List α) (l' : List β) (i : Nat)
    (da : α) (db : β) (dc : γ) (h : i < l.length) (h' : i < l'.length) :
    (List.zipWith f l l').getD i dc = f (l.getD i da) (l'.getD i db) := by
  simp [List.getD_eq_getElem?_getD, List.getElem?_zipWith, List.getElem?_eq_getElem h,
    List.getElem?_eq_getElem h']

theorem getD_map_lt {α β : Type} (f : α → β) (l : List α) (i : Nat) (da : α) (db : β)
    (h : i < l.length) : (l.map f).getD i db = f (l.getD i da) := by
  simp [List.getD_eq_getElem?_getD, List.getElem?_eq_getElem h]

theorem cost_gradient_getD (a : gsl_vector R) (y j : Nat) (hj : j < a.length) :
    (cost_gradient a y).getD j 0 = a.getD j 0 - (if j = y then 1 else 0) := by
  unfold cost_gradient
  by_cases hjy : j = y
  · subst hjy
    simp [List.getD_eq_getElem?_getD, List.getElem?_set, hj]
  · have : ¬ y = j := fun h => hjy h.symm
    simp [List.getD_eq_getElem?_getD, List.getElem?_set, this, hjy]

/-- The network has a last layer and `last` is its index among the non-input layers. -/
theorem output_layer_index_eq (net : network_t R) (h : net.allocated)
    (hL : 2 ≤ net.nodes.size) :
    u32_sub net.outputs.size 1 = net.nodes.size - 2 ∧
      to_int32 (net.nodes.size - 2) = ((net.nodes.size - 2 : Nat) : Int) := by
  have hsz : net.outputs.size = net.nodes.size - 1 := by
    rw [h.2.2.2.2.2.2.2.2.1, layers_tail_length net h.1]
  have hlt := h.2.1
  rw [hsz, u32_sub_one _ (by omega) (by omega), to_int32_small _ (by omega)]
  exact ⟨by omega, rfl⟩

theorem network_get_output_error_ok (net : network_t R) (label : Nat) (h : net.allocated)
    (hL : 2 ≤ net.nodes.size) (hy : label < net.layer (net.nodes.size - 1)) :
    network_get_output_error exp net label = .ok
      { net with
        output_delta := { net.output_delta with
          data := net.output_delta.data.set (net.nodes.size - 2)
            (List.zipWith (fun s d => s * d)
              ((net.zs.vec ((net.nodes.size - 2 : Nat) : Int)).map (sigmoid_prime exp))
              (cost_gradient (net.outputs.vec ((net.nodes.size - 2 : Nat) : Int)) label)) } } := by
  obtain ⟨hidx, _⟩ := output_layer_index_eq net h hL
  have hk : net.nodes.size - 2 + 1 < net.nodes.size := by omega
  have hk' : net.nodes.size - 2 + 1 = net.nodes.size - 1 := by omega
  obtain ⟨hout, houtlen, _⟩ :=
    tail_array_cell net h net.outputs 1 h.2.2.2.2.2.2.2.2 _ hk
  obtain ⟨hzs, hzlen, _⟩ := tail_array_cell net h net.zs 0 h.2.2.2.2.1 _ hk
  obtain ⟨hod, hodlen, _, hupd, _⟩ :=
    tail_array_cell net h net.output_delta 0 h.2.2.2.2.2.2.1 _ hk
  rw [hk'] at houtlen hzlen hodlen
  unfold network_get_output_error
  simp only [hidx, hout, ok_bind]
  rw [cost_derivative_ok _ _ label (by simp [gsl_vector_alloc]) (by omega)]
  simp only [ok_bind, hod, hzs, memcpy_ok _ _ (hodlen.trans hzlen.symm),
    vector_vectorise_eq_map]
  rw [vector_mul_ok _ _ (by simp [cost_gradient_length, hzlen, houtlen])]
  simp only [ok_bind, hupd, pure_eq_ok, Nat.add_zero]

theorem dger_ok (x y : gsl_vector R) (A : gsl_matrix R) (n1 n2 : Nat)
    (hA : A.allocated n1 n2) (hx : x.length = n1) (hy : y.length = n2) :
    gsl_blas_dger 1 x y A = .ok
      { A with
        data := List.zipWith (fun xi row => List.zipWith (fun yj a => a + xi * yj) y row)
          x A.data } := by
  simp [gsl_blas_dger, hx, hy, hA.1, hA.2.1]

theorem dger_allocated (x y : gsl_vector R) (A : gsl_matrix R) (n1 n2 : Nat)
    (hA : A.allocated n1 n2) (hx : x.length = n1) (hy : y.length = n2) :
    ({ A with
        data := List.zipWith (fun xi row => List.zipWith (fun yj a => a + xi * yj) y row)
          x A.data } : gsl_matrix R).allocated n1 n2 := by
  have hlen := matrix_allocated_length A n1 n2 hA
  refine ⟨hA.1, hA.2.1, ?_⟩
  apply List.ext_getElem?
  intro r
  have hrow := congrArg (fun l => l[r]?) hA.2.2
  simp only [List.getElem?_map] at hrow
  simp only [List.getElem?_map, List.getElem?_zipWith]
  by_cases hr : r < n1
  · have h1 : r < x.length := by omega
    have h2 : r < A.data.length := by omega
    rw [List.getElem?_eq_getElem h2] at hrow
    simp only [List.getElem?_replicate, if_pos hr, Option.map_some', Option.some.injEq] at hrow
    simp [List.getElem?_eq_getElem h1, List.getElem?_eq_getElem h2, hr, hrow, hy]
  · have h1 : x[r]? = none := List.getElem?_eq_none (by omega)
    simp [h1, hr]
    omega

theorem dger_entry (x y : gsl_vector R) (A : gsl_matrix R) (n1 n2 r c : Nat)
    (hA : A.allocated n1 n2) (hx : x.length = n1) (hy : y.length = n2) (hr : r < n1)
    (hc : c < n2) :
    ({ A with
        data := List.zipWith (fun xi row => List.zipWith (fun yj a => a + xi * yj) y row)
          x A.data } : gsl_matrix R).entry r c = A.entry r c + x.getD r 0 * y.getD c 0 := by
  have hlen := matrix_allocated_length A n1 n2 hA
  have hrow := matrix_allocated_row A n1 n2 hA r hr
  unfold gsl_matrix.entry
  rw [getD_zipWith _ x A.data r 0 [] [] (by omega) (by omega),
    getD_zipWith _ y (A.data.getD r []) c 0 0 0 (by omega) (by omega)]

theorem network_accumulate_cfgs_ok (net : network_t R) (l : Nat) (h : net.allocated)
    (hb : l = 0 → net.input_bound) (hl : l + 1 < net.nodes.size) :
    network_accumulate_cfgs net (l : Int) = .ok
      { net with
        nabla_b := { net.nabla_b with
          data := net.nabla_b.data.set l
            (List.zipWith (fun xi yi => xi + yi) (net.output_delta.vec l) (net.nabla_b.vec l)) },
        nabla_w := { net.nabla_w with
          data := net.nabla_w.data.set l
            { net.nabla_w.mat l with
              data := List.zipWith
                (fun xi row => List.zipWith (fun yj a => a + xi * yj)
                  (net.outputs.vec ((l : Int) - 1)) row)
                (net.output_delta.vec l) (net.nabla_w.mat l).data } } } := by
  obtain ⟨hod, hodlen, _⟩ := tail_array_cell net h net.output_delta 0 h.2.2.2.2.2.2.1 l hl
  obtain ⟨hnb, hnblen, _, hnbupd, _⟩ :=
    tail_array_cell net h net.nabla_b 0 h.2.2.2.2.2.1 l hl
  obtain ⟨hprev, hprevlen⟩ := outputs_prev_of net h l hb (by omega)
  obtain ⟨hnw, hnwa, _, hnwupd, _⟩ := matrix_array_cell net h net.nabla_w h.2.2.1 l hl
  unfold network_accumulate_cfgs
  simp only [hod, hnb, ok_bind, daxpy_ok _ _ (hodlen.trans hnblen.symm), hnbupd, hprev, hnw,
    dger_ok _ _ _ _ _ hnwa hodlen hprevlen, hnwupd, pure_eq_ok, Nat.add_zero]

end Backward

section BackwardClaims

variable {R : Type} [LinearOrderedField R] (exp : R → R)

/-- C6: for a layer `l` of a laid-out network (for `l = 0` with the input bound)
`network_accumulate_cfgs` succeeds and adds to the accumulators of layer `l`, whatever they held:
`nabla_b[l][r]` grows by `output_delta[l][r]` and `nabla_w[l][r][c]` by
`output_delta[l][r] * outputs[l-1][c]`; the accumulators of every other layer and every
other field of the network are unchanged. -/
theorem network_accumulate_cfgs_adds (net : network_t R) (l : Nat) (h : net.allocated)
    (hb : l = 0 → net.input_bound) (hl : l + 1 < net.nodes.size) :
    ∃ net', network_accumulate_cfgs net (l : Int) = .ok net' ∧
      net' = { net with nabla_b := net'.nabla_b, nabla_w := net'.nabla_w } ∧
      (∀ r, r < net.layer (l + 1) → (net'.nabla_b.vec (l : Int)).getD r 0 =
        (net.nabla_b.vec (l : Int)).getD r 0 + (net.output_delta.vec (l : Int)).getD r 0) ∧
      (∀ r c, r < net.layer (l + 1) → c < net.layer l →
        (net'.nabla_w.mat (l : Int)).entry r c = (net.nabla_w.mat (l : Int)).entry r c +
          (net.output_delta.vec (l : Int)).getD r 0 *
            (net.outputs.vec ((l : Int) - 1)).getD c 0) ∧
      (∀ k : Nat, k ≠ l → net'.nabla_b.vec (k : Int) = net.nabla_b.vec (k : Int) ∧
        net'.nabla_w.mat (k : Int) = net.nabla_w.mat (k : Int)) := by
  obtain ⟨_, hodlen, _⟩ := tail_array_cell net h net.output_delta 0 h.2.2.2.2.2.2.1 l hl
  obtain ⟨_, hnblen, hnblt, _, _⟩ := tail_array_cell net h net.nabla_b 0 h.2.2.2.2.2.1 l hl
  obtain ⟨_, hprevlen⟩ := outputs_prev_of net h l hb (by omega)
  obtain ⟨_, hnwa, hnwlt, _, _⟩ := matrix_array_cell net h net.nabla_w h.2.2.1 l hl
  have hoff : net.nabla_b.offset = 0 := h.2.2.2.2.2.1.2.1
  refine ⟨_, network_accumulate_cfgs_ok net l h hb hl, rfl, ?_, ?_, ?_⟩
  · intro r hr
    show (vector_array_t.vec _ (l : Int)).getD r 0 = _
    rw [vector_array_vec_set net.nabla_b l _ (l : Int) l (by rw [hoff]; simp) hnblt, if_pos rfl,
      getD_zipWith _ _ _ r 0 0 0 (by omega) (by omega), add_comm]
  · intro r c hr hc
    show (matrix_array_t.mat _ (l : Int)).entry r c = _
    rw [matrix_array_mat_set net.nabla_w l _ l hnwlt, if_pos rfl]
    exact dger_entry _ _ _ _ _ r c hnwa hodlen hprevlen hr hc
  · intro k hk
    constructor
    · show vector_array_t.vec _ (k : Int) = _
      rw [vector_array_vec_set net.nabla_b l _ (k : Int) k (by rw [hoff]; simp) hnblt,
        if_neg (fun h => hk h.symm)]
    · show matrix_array_t.mat _ (k : Int) = _
      rw [matrix_array_mat_set net.nabla_w l _ k hnwlt, if_neg (fun h => hk h.symm)]

/-- C3: on a laid-out network with `L ≥ 2` layers and a label below the size of the last
layer, `network_get_output_error` succeeds and leaves in the last layer's error
`sigmoid_prime (zs[last][j]) * (outputs[last][j] - t[j])` for every `j`, with `t` the
one-hot vector of the label; only `output_delta` changes. -/
theorem network_get_output_error_formula (net : network_t R) (label : Nat)
    (h : net.allocated) (hL : 2 ≤ net.nodes.size)
    (hy : label < net.layer (net.nodes.size - 1)) :
    ∃ net', network_get_output_error exp net label = .ok net' ∧
      net' = { net with output_delta := net'.output_delta } ∧
      (net'.output_delta.vec ((net.nodes.size - 2 : Nat) : Int)).length =
        net.layer (net.nodes.size - 1) ∧
      ∀ j, j < net.layer (net.nodes.size - 1) →
        (net'.output_delta.vec ((net.nodes.size - 2 : Nat) : Int)).getD j 0 =
          sigmoid_prime exp ((net.zs.vec ((net.nodes.size - 2 : Nat) : Int)).getD j 0) *
            ((net.outputs.vec ((net.nodes.size - 2 : Nat) : Int)).getD j 0 -
              (if j = label then 1 else 0)) := by
  have hk : net.nodes.size - 2 + 1 < net.nodes.size := by omega
  have hk' : net.nodes.size - 2 + 1 = net.nodes.size - 1 := by omega
  obtain ⟨_, houtlen, _⟩ := tail_array_cell net h net.outputs 1 h.2.2.2.2.2.2.2.2 _ hk
  obtain ⟨_, hzlen, _⟩ := tail_array_cell net h net.zs 0 h.2.2.2.2.1 _ hk
  obtain ⟨_, _, hodlt, _, _⟩ :=
    tail_array_cell net h net.output_delta 0 h.2.2.2.2.2.2.1 _ hk
  rw [hk'] at houtlen hzlen
  have hoff : net.output_delta.offset = 0 := h.2.2.2.2.2.2.1.2.1
  have hvec : ∀ v, ({ net.output_delta with
      data := net.output_delta.data.set (net.nodes.size - 2) v } : vector_array_t R).vec
      ((net.nodes.size - 2 : Nat) : Int) = v := fun v =>
    (vector_array_vec_set net.output_delta _ v _ (net.nodes.size - 2)
      (by rw [hoff]; simp) hodlt).trans (if_pos rfl)
  refine ⟨_, network_get_output_error_ok exp net label h hL hy, rfl, ?_, ?_⟩
  · show (vector_array_t.vec _ _).length = _
    rw [hvec]
    simp [cost_gradient_length, hzlen, houtlen]
  · intro j hj
    show (vector_array_t.vec _ _).getD j 0 = _
    rw [hvec, getD_zipWith _ _ _ j 0 0 0 (by simp [hzlen, hj])
      (by simp [cost_gradient_length, houtlen, hj]),
      getD_map_lt _ _ j 0 0 (by omega), cost_gradient_getD _ _ _ (by omega)]

end BackwardClaims

/-- C6 at the test network: the hypotheses hold, so the statement applies, and the call
turns the accumulator row `[1, 2, 3]` into `[1.5, 3.0, 4.5]` (entry 1.0 with delta 0.5
and activation 1.0 becomes 1.5), the row `[4, 5, 6]` into `[4.1, 5.2, 6.3]` and
`nabla_b[1] = [1, 2]` into `[1.5, 2.1]`. -/
theorem network_accumulate_cfgs_adds_witness :
    ((accumulate_fixture ℚ).allocated ∧ (1 = 0 → (accumulate_fixture ℚ).input_bound) ∧
      1 + 1 < (accumulate_fixture ℚ).nodes.size) ∧
    (∃ net', network_accumulate_cfgs (accumulate_fixture ℚ) ((1 : Nat) : Int) = .ok net' ∧
      net' = { accumulate_fixture ℚ with nabla_b := net'.nabla_b, nabla_w := net'.nabla_w } ∧
      (∀ r, r < (accumulate_fixture ℚ).layer (1 + 1) →
        (net'.nabla_b.vec ((1 : Nat) : Int)).getD r 0 =
          ((accumulate_fixture ℚ).nabla_b.vec ((1 : Nat) : Int)).getD r 0 +
            ((accumulate_fixture ℚ).output_delta.vec ((1 : Nat) : Int)).getD r 0) ∧
      (∀ r c, r < (accumulate_fixture ℚ).layer (1 + 1) → c < (accumulate_fixture ℚ).layer 1 →
        (net'.nabla_w.mat ((1 : Nat) : Int)).entry r c =
          ((accumulate_fixture ℚ).nabla_w.mat ((1 : Nat) : Int)).entry r c +
            ((accumulate_fixture ℚ).output_delta.vec ((1 : Nat) : Int)).getD r 0 *
              ((accumulate_fixture ℚ).outputs.vec (((1 : Nat) : Int) - 1)).getD c 0) ∧
      (∀ k : Nat, k ≠ 1 →
        net'.nabla_b.vec (k : Int) = (accumulate_fixture ℚ).nabla_b.vec (k : Int) ∧
        net'.nabla_w.mat (k : Int) = (accumulate_fixture ℚ).nabla_w.mat (k : Int))) ∧
    network_accumulate_cfgs (accumulate_fixture ℚ) 1 = .ok
      { accumulate_fixture ℚ with
        nabla_b := { size := 2, offset := 0, data := [[0, 0, 0], [3 / 2, 21 / 10]] },
        nabla_w := { size := 2, data := [
          { size1 := 3, size2 := 2, data := [[0, 0], [0, 0], [0, 0]] },
          { size1 := 2, size2 := 3,
            data := [[3 / 2, 3, 9 / 2], [41 / 10, 26 / 5, 63 / 10]] }] } } :=
  ⟨by decide,
   network_accumulate_cfgs_adds (accumulate_fixture ℚ) 1 (by decide) (by decide) (by decide),
   by
     have h1 : Int.toNat 1 = 1 := rfl
     norm_num [h1, network_accumulate_cfgs, accumulate_fixture, vector_array_t.idx,
       matrix_array_t.idx, load, vector_array_t.upd, matrix_array_t.upd, store,
       gsl_blas_daxpy, gsl_blas_dger]⟩

/-! ## Numeric bounds for the output-error fixture -/

theorem exp_neg_half_bounds :
    (6065 : ℝ) / 10000 < Real.exp (-(1 / 2)) ∧ Real.exp (-(1 / 2)) < 6066 / 10000 := by
  have hpos : 0 < Real.exp (-(1 / 2)) := Real.exp_pos _
  have hmul : Real.exp (-(1 / 2)) * Real.exp (-(1 / 2)) * Real.exp 1 = 1 := by
    rw [← Real.exp_add, ← Real.exp_add]
    norm_num
  have hlo := Real.exp_one_gt_d9
  have hhi := Real.exp_one_lt_d9
  constructor
  · by_contra hcon
    push_neg at hcon
    have h1 : Real.exp (-(1 / 2)) * Real.exp (-(1 / 2)) ≤ (6065 / 10000) * (6065 / 10000) :=
      mul_le_mul hcon hcon hpos.le (by norm_num)
    nlinarith
  · by_contra hcon
    push_neg at hcon
    have h1 : (6066 / 10000 : ℝ) * (6066 / 10000) ≤
        Real.exp (-(1 / 2)) * Real.exp (-(1 / 2)) :=
      mul_le_mul hcon hcon (by norm_num) hpos.le
    nlinarith

theorem exp_neg_tenth_bounds :
    (9048 : ℝ) / 10000 < Real.exp (-(1 / 10)) ∧ Real.exp (-(1 / 10)) < 9049 / 10000 := by
  have hpos : 0 < Real.exp (-(1 / 10)) := Real.exp_pos _
  have hmul : Real.exp (-(1 / 10)) ^ 10 * Real.exp 1 = 1 := by
    rw [← Real.exp_nat_mul, ← Real.exp_add]
    norm_num
  have hlo := Real.exp_one_gt_d9
  have hhi := Real.exp_one_lt_d9
  constructor
  · by_contra hcon
    push_neg at hcon
    have h1 : Real.exp (-(1 / 10)) ^ 10 ≤ ((9048 : ℝ) / 10000) ^ 10 :=
      pow_le_pow_left₀ hpos.le hcon 10
    have h2 : ((9048 : ℝ) / 10000) ^ 10 * (27182818286 / 10000000000) < 1 := by norm_num
    have h3 : 0 < Real.exp (-(1 / 10)) ^ 10 := pow_pos hpos 10
    nlinarith
  · by_contra hcon
    push_neg at hcon
    have h1 : ((9049 : ℝ) / 10000) ^ 10 ≤ Real.exp (-(1 / 10)) ^ 10 :=
      pow_le_pow_left₀ (by norm_num) hcon 10
    have h2 : 1 < ((9049 : ℝ) / 10000) ^ 10 * (27182818283 / 10000000000) := by norm_num
    have h3 : 0 < Real.exp (-(1 / 10)) ^ 10 := pow_pos hpos 10
    nlinarith

theorem sigmoid_prime_bounds (u lo hi : ℝ) (hlo : lo < u) (hhi : u < hi) (h0 : 0 < lo) :
    lo / ((1 + hi) * (1 + hi)) < 1 / (1 + u) * (1 - 1 / (1 + u)) ∧
      1 / (1 + u) * (1 - 1 / (1 + u)) < hi / ((1 + lo) * (1 + lo)) := by
  have hu : 0 < u := lt_trans h0 hlo
  have hhi0 : 0 < hi := lt_trans hu hhi
  have p1 : 0 < (1 + u) * (1 + u) := by positivity
  have p2 : 0 < (1 + hi) * (1 + hi) := by positivity
  have p3 : 0 < (1 + lo) * (1 + lo) := by positivity
  have e : 1 / (1 + u) * (1 - 1 / (1 + u)) = u / ((1 + u) * (1 + u)) := by
    field_simp
  rw [e]
  constructor
  · rw [div_lt_div_iff₀ p2 p1]
    have : (1 + u) * (1 + u) < (1 + hi) * (1 + hi) := by nlinarith
    nlinarith
  · rw [div_lt_div_iff₀ p1 p3]
    have : (1 + lo) * (1 + lo) < (1 + u) * (1 + u) := by nlinarith
    nlinarith

theorem sigmoid_prime_half_bounds :
    (23497 : ℝ) / 100000 < sigmoid_prime Real.exp (1 / 2) ∧
      sigmoid_prime Real.exp (1 / 2) < 23504 / 100000 := by
  obtain ⟨h1, h2⟩ := exp_neg_half_bounds
  obtain ⟨h3, h4⟩ := sigmoid_prime_bounds _ _ _ h1 h2 (by norm_num)
  unfold sigmoid_prime sigmoid
  constructor
  · refine lt_trans ?_ h3
    norm_num
  · refine lt_trans h4 ?_
    norm_num

theorem sigmoid_prime_tenth_bounds :
    (24934 : ℝ) / 100000 < sigmoid_prime Real.exp (1 / 10) ∧
      sigmoid_prime Real.exp (1 / 10) < 24941 / 100000 := by
  obtain ⟨h1, h2⟩ := exp_neg_tenth_bounds
  obtain ⟨h3, h4⟩ := sigmoid_prime_bounds _ _ _ h1 h2 (by norm_num)
  unfold sigmoid_prime sigmoid
  constructor
  · refine lt_trans ?_ h3
    norm_num
  · refine lt_trans h4 ?_
    norm_num

/-- C3 at the test network (over the reals, with the real exponential): outputs
`[0.2, 0.9]`, pre-activations `[0.5, 0.1]` and label 1 give an output error within
`10⁻⁵` of `[0.047, -0.02494]`. -/
theorem network_get_output_error_formula_witness :
    ((output_error_fixture ℝ).allocated ∧ 2 ≤ (output_error_fixture ℝ).nodes.size ∧
      1 < (output_error_fixture ℝ).layer ((output_error_fixture ℝ).nodes.size - 1)) ∧
    ∃ net', network_get_output_error Real.exp (output_error_fixture ℝ) 1 = .ok net' ∧
      net' = { output_error_fixture ℝ with output_delta := net'.output_delta } ∧
      |(net'.output_delta.vec 1).getD 0 0 - 47 / 1000| < 1 / 100000 ∧
      |(net'.output_delta.vec 1).getD 1 0 - (-2494 / 100000)| < 1 / 100000 := by
  refine ⟨by decide, ?_⟩
  obtain ⟨net', hrun, hfr, _, hform⟩ := network_get_output_error_formula Real.exp
    (output_error_fixture ℝ) 1 (by decide) (by decide) (by decide)
  have h1 : Int.toNat 1 = 1 := rfl
  have h2 : Int.toNat 2 = 2 := rfl
  have e0 : (net'.output_delta.vec 1).getD 0 0 = sigmoid_prime Real.exp (1 / 2) * (1 / 5) :=
    (hform 0 (by decide)).trans (by
      norm_num [h1, h2, output_error_fixture, vector_array_t.vec, vector_array_t.idx, load])
  have e1 : (net'.output_delta.vec 1).getD 1 0 =
      sigmoid_prime Real.exp (1 / 10) * (9 / 10 - 1) :=
    (hform 1 (by decide)).trans (by
      norm_num [h1, h2, output_error_fixture, vector_array_t.vec, vector_array_t.idx, load])
  obtain ⟨b1, b2⟩ := sigmoid_prime_half_bounds
  obtain ⟨b3, b4⟩ := sigmoid_prime_tenth_bounds
  refine ⟨net', hrun, hfr, ?_, ?_⟩
  · rw [e0, abs_lt]
    constructor <;> linarith
  · rw [e1, abs_lt]
    constructor <;> linarith

/-! ## The backward pass -/

section BackwardLoop

variable {R : Type} [LinearOrderedField R] (exp : R → R)

theorem layer_error_last (weights : matrix_array_t R) (biases : vector_array_t R)
    (x : gsl_vector R) (y last : Nat) :
    layer_error exp weights biases x y last last =
      List.zipWith (fun s d => s * d)
        ((forward_z exp weights biases x last).map (sigmoid_prime exp))
        (cost_gradient (forward_in exp weights biases x (last + 1)) y) := by
  simp [layer_error, backward_error]

theorem layer_error_step (weights : matrix_array_t R) (biases : vector_array_t R)
    (x : gsl_vector R) (y last l : Nat) (hl : l < last) :
    layer_error exp weights biases x y last l =
      hidden_error exp (forward_z exp weights biases x l) (weights.mat ((l + 1 : Nat) : Int))
        (layer_error exp weights biases x y last (l + 1)) := by
  unfold layer_error hidden_error
  have h1 : last - l = (last - (l + 1)) + 1 := by omega
  rw [h1, backward_error]
  have h2 : last - (last - (l + 1) + 1) = l := by omega
  have h3 : last - (last - (l + 1)) = l + 1 := by omega
  rw [h2, h3]

theorem hidden_error_length (z : gsl_vector R) (W : gsl_matrix R) (next : gsl_vector R) :
    (hidden_error exp z W next).length = z.length := by
  simp [hidden_error, transpose_apply]

theorem network_backpropagate_error_body_ok (net : network_t R) (l : Nat)
    (h : net.allocated) (hb : net.input_bound) (hl : l + 2 < net.nodes.size) :
    network_backpropagate_error_body exp l net = .ok
      { net with
        output_delta := { net.output_delta with
          data := net.output_delta.data.set l
            (hidden_error exp (net.zs.vec l) (net.weights.mat ((l + 1 : Nat) : Int))
              (net.output_delta.vec ((l + 1 : Nat) : Int))) },
        nabla_b := { net.nabla_b with
          data := net.nabla_b.data.set l
            (List.zipWith (fun xi yi => xi + yi)
              (hidden_error exp (net.zs.vec l) (net.weights.mat ((l + 1 : Nat) : Int))
                (net.output_delta.vec ((l + 1 : Nat) : Int)))
              (net.nabla_b.vec l)) },
        nabla_w := { net.nabla_w with
          data := net.nabla_w.data.set l
            (outer_add
              (hidden_error exp (net.zs.vec l) (net.weights.mat ((l + 1 : Nat) : Int))
                (net.output_delta.vec ((l + 1 : Nat) : Int)))
              (net.outputs.vec ((l : Int) - 1)) (net.nabla_w.mat l)) } } := by
  have hl1 : l + 1 < net.nodes.size := by omega
  have hl2 : (l + 1) + 1 < net.nodes.size := by omega
  obtain ⟨hod, hodlen, hodlt, hodupd, hodal⟩ :=
    tail_array_cell net h net.output_delta 0 h.2.2.2.2.2.2.1 l hl1
  obtain ⟨hzs, hzlen, _⟩ := tail_array_cell net h net.zs 0 h.2.2.2.2.1 l hl1
  obtain ⟨hW, hWa, _⟩ := matrix_array_cell net h net.weights h.2.2.2.1 (l + 1) hl2
  obtain ⟨hnext, hnextlen, _⟩ :=
    tail_array_cell net h net.output_delta 0 h.2.2.2.2.2.2.1 (l + 1) hl2
  have hcast : (l : Int) + 1 = ((l + 1 : Nat) : Int) := by push_cast; ring
  have hdlen : (hidden_error exp (net.zs.vec l) (net.weights.mat ((l + 1 : Nat) : Int))
      (net.output_delta.vec ((l + 1 : Nat) : Int))).length = net.layer (l + 1) := by
    rw [hidden_error_length, hzlen]
  have hoff : net.output_delta.offset = 0 := h.2.2.2.2.2.2.1.2.1
  have hal' : ({ net with
      output_delta := { net.output_delta with
        data := net.output_delta.data.set l
          (hidden_error exp (net.zs.vec l) (net.weights.mat ((l + 1 : Nat) : Int))
            (net.output_delta.vec ((l + 1 : Nat) : Int))) } } : network_t R).allocated :=
    ⟨h.1, h.2.1, h.2.2.1, h.2.2.2.1, h.2.2.2.2.1, h.2.2.2.2.2.1, hodal _ hdlen,
      h.2.2.2.2.2.2.2.1, h.2.2.2.2.2.2.2.2⟩
  have hacc := network_accumulate_cfgs_ok _ l hal' (fun _ => hb) hl1
  have hvec : ({ net.output_delta with
      data := net.output_delta.data.set l
        (hidden_error exp (net.zs.vec l) (net.weights.mat ((l + 1 : Nat) : Int))
          (net.output_delta.vec ((l + 1 : Nat) : Int))) } : vector_array_t R).vec (l : Int) =
      hidden_error exp (net.zs.vec l) (net.weights.mat ((l + 1 : Nat) : Int))
        (net.output_delta.vec ((l + 1 : Nat) : Int)) :=
    (vector_array_vec_set net.output_delta l _ (l : Int) l (by rw [hoff]; simp) hodlt).trans
      (if_pos rfl)
  unfold network_backpropagate_error_body
  simp only [hod, hzs, ok_bind, memcpy_ok _ _ (hodlen.trans hzlen.symm),
    vector_vectorise_eq_map, hcast, hW, hnext]
  rw [dgemv_trans_ok _ _ _ _ _ hWa hnextlen (by simp [gsl_vector_alloc, hzlen])]
  simp only [ok_bind]
  rw [vector_mul_ok _ _ (by simp [transpose_apply, hzlen])]
  simp only [ok_bind, hodupd, Nat.add_zero]
  have hz' : net.layer (l + 1) = (net.zs.vec l).length := hzlen.symm
  rw [hz']
  rw [show List.zipWith (fun s d => s * d) ((net.zs.vec l).map (sigmoid_prime exp))
      (transpose_apply (net.weights.mat ((l + 1 : Nat) : Int))
        (net.output_delta.vec ((l + 1 : Nat) : Int)) (net.zs.vec l).length) =
      hidden_error exp (net.zs.vec l) (net.weights.mat ((l + 1 : Nat) : Int))
        (net.output_delta.vec ((l + 1 : Nat) : Int)) from rfl]
  rw [hacc, hvec]
  rfl

end BackwardLoop

section BackwardPosts

variable {R : Type} [LinearOrderedField R] (exp : R → R)

theorem params_nodes (st net : network_t R) (h : st.params = net.params) :
    st.nodes = net.nodes ∧ st.biases = net.biases ∧ st.weights = net.weights ∧
      st.eta = net.eta ∧ (∀ i, st.layer i = net.layer i) := by
  simp only [network_t.params, Prod.mk.injEq] at h
  obtain ⟨h1, _, _, h4, h5, h6⟩ := h
  exact ⟨h4, h5, h6, h1, fun i => by simp [network_t.layer, h4]⟩

theorem input_bound_of (st net : network_t R) (h : st.params = net.params)
    (hin : st.outputs.vec INPUT_INDEX = net.outputs.vec INPUT_INDEX) (hb : net.input_bound) :
    st.input_bound := by
  unfold network_t.input_bound
  rw [hin, (params_nodes st net h).2.2.2.2 0]
  exact hb

theorem zipWith_add_length (x y : gsl_vector R) (n : Nat) (hx : x.length = n)
    (hy : y.length = n) : (List.zipWith (fun xi yi => xi + yi) x y).length = n := by
  simp [hx, hy]

/-- What `network_accumulate_cfgs` does to a laid-out network at layer `l`. -/
theorem network_accumulate_cfgs_post (net : network_t R) (l : Nat) (h : net.allocated)
    (hb : net.input_bound) (hl : l + 1 < net.nodes.size) :
    ∃ net', network_accumulate_cfgs net (l : Int) = .ok net' ∧
      net'.params = net.params ∧ net'.outputs = net.outputs ∧ net'.zs = net.zs ∧
      net'.output_delta = net.output_delta ∧ net'.allocated ∧
      net'.nabla_b.vec (l : Int) = List.zipWith (fun xi yi => xi + yi)
        (net.output_delta.vec (l : Int)) (net.nabla_b.vec (l : Int)) ∧
      net'.nabla_w.mat (l : Int) = outer_add (net.output_delta.vec (l : Int))
        (net.outputs.vec ((l : Int) - 1)) (net.nabla_w.mat (l : Int)) ∧
      (∀ k : Nat, k ≠ l → net'.nabla_b.vec (k : Int) = net.nabla_b.vec (k : Int) ∧
        net'.nabla_w.mat (k : Int) = net.nabla_w.mat (k : Int)) := by
  obtain ⟨_, hodlen, _⟩ := tail_array_cell net h net.output_delta 0 h.2.2.2.2.2.2.1 l hl
  obtain ⟨_, hnblen, hnblt, _, hnbal⟩ :=
    tail_array_cell net h net.nabla_b 0 h.2.2.2.2.2.1 l hl
  obtain ⟨_, hprevlen⟩ := outputs_prev net h hb l (by omega)
  obtain ⟨_, hnwa, hnwlt, _, hnwal⟩ := matrix_array_cell net h net.nabla_w h.2.2.1 l hl
  have hoff : net.nabla_b.offset = 0 := h.2.2.2.2.2.1.2.1
  refine ⟨_, network_accumulate_cfgs_ok net l h (fun _ => hb) hl, rfl, rfl, rfl, rfl, ?_, ?_, ?_,
    ?_⟩
  · exact ⟨h.1, h.2.1, hnwal _ (dger_allocated _ _ _ _ _ hnwa hodlen hprevlen), h.2.2.2.1,
      h.2.2.2.2.1, hnbal _ (zipWith_add_length _ _ _ hodlen hnblen), h.2.2.2.2.2.2.1,
      h.2.2.2.2.2.2.2.1, h.2.2.2.2.2.2.2.2⟩
  · exact (vector_array_vec_set net.nabla_b l _ (l : Int) l (by rw [hoff]; simp) hnblt).trans
      (if_pos rfl)
  · exact (matrix_array_mat_set net.nabla_w l _ l hnwlt).trans (if_pos rfl)
  · intro k hk
    exact ⟨(vector_array_vec_set net.nabla_b l _ (k : Int) k (by rw [hoff]; simp) hnblt).trans
        (if_neg (fun h => hk h.symm)),
      (matrix_array_mat_set net.nabla_w l _ k hnwlt).trans (if_neg (fun h => hk h.symm))⟩

/-- What `network_get_output_error` does to a laid-out network. -/
theorem network_get_output_error_post (net : network_t R) (label : Nat) (h : net.allocated)
    (hL : 2 ≤ net.nodes.size) (hy : label < net.layer (net.nodes.size - 1)) :
    ∃ net', network_get_output_error exp net label = .ok net' ∧
      net'.params = net.params ∧ net'.outputs = net.outputs ∧ net'.zs = net.zs ∧
      net'.nabla_b = net.nabla_b ∧ net'.nabla_w = net.nabla_w ∧ net'.allocated ∧
      net'.output_delta.vec ((net.nodes.size - 2 : Nat) : Int) =
        List.zipWith (fun s d => s * d)
          ((net.zs.vec ((net.nodes.size - 2 : Nat) : Int)).map (sigmoid_prime exp))
          (cost_gradient (net.outputs.vec ((net.nodes.size - 2 : Nat) : Int)) label) := by
  have hk : net.nodes.size - 2 + 1 < net.nodes.size := by omega
  have hk' : net.nodes.size - 2 + 1 = net.nodes.size - 1 := by omega
  obtain ⟨_, houtlen, _⟩ := tail_array_cell net h net.outputs 1 h.2.2.2.2.2.2.2.2 _ hk
  obtain ⟨_, hzlen, _⟩ := tail_array_cell net h net.zs 0 h.2.2.2.2.1 _ hk
  obtain ⟨_, _, hodlt, _, hodal⟩ :=
    tail_array_cell net h net.output_delta 0 h.2.2.2.2.2.2.1 _ hk
  have hoff : net.output_delta.offset = 0 := h.2.2.2.2.2.2.1.2.1
  refine ⟨_, network_get_output_error_ok exp net label h hL hy, rfl, rfl, rfl, rfl, rfl,
    ?_, ?_⟩
  · exact ⟨h.1, h.2.1, h.2.2.1, h.2.2.2.1, h.2.2.2.2.1, h.2.2.2.2.2.1,
      hodal _ (by simp [cost_gradient_length, hzlen, houtlen]), h.2.2.2.2.2.2.2.1,
      h.2.2.2.2.2.2.2.2⟩
  · exact (vector_array_vec_set net.output_delta _ _ _ (net.nodes.size - 2)
      (by rw [hoff]; simp) hodlt).trans (if_pos rfl)

/-- What one pass of the backward loop does to a laid-out network at layer `l`. -/
theorem network_backpropagate_error_body_post (net : network_t R) (l : Nat)
    (h : net.allocated) (hb : net.input_bound) (hl : l + 2 < net.nodes.size) :
    ∃ net', network_backpropagate_error_body exp l net = .ok net' ∧
      net'.params = net.params ∧ net'.outputs = net.outputs ∧ net'.zs = net.zs ∧
      net'.allocated ∧
      net'.output_delta.vec (l : Int) =
        hidden_error exp (net.zs.vec l) (net.weights.mat ((l + 1 : Nat) : Int))
          (net.output_delta.vec ((l + 1 : Nat) : Int)) ∧
      net'.nabla_b.vec (l : Int) = List.zipWith (fun xi yi => xi + yi)
        (net'.output_delta.vec (l : Int)) (net.nabla_b.vec (l : Int)) ∧
      net'.nabla_w.mat (l : Int) = outer_add (net'.output_delta.vec (l : Int))
        (net.outputs.vec ((l : Int) - 1)) (net.nabla_w.mat (l : Int)) ∧
      (∀ k : Nat, k ≠ l → net'.output_delta.vec (k : Int) = net.output_delta.vec (k : Int) ∧
        net'.nabla_b.vec (k : Int) = net.nabla_b.vec (k : Int) ∧
        net'.nabla_w.mat (k : Int) = net.nabla_w.mat (k : Int)) := by
  have hl1 : l + 1 < net.nodes.size := by omega
  obtain ⟨_, hodlen, hodlt, _, hodal⟩ :=
    tail_array_cell net h net.output_delta 0 h.2.2.2.2.2.2.1 l hl1
  obtain ⟨_, hzlen, _⟩ := tail_array_cell net h net.zs 0 h.2.2.2.2.1 l hl1
  obtain ⟨_, hnblen, hnblt, _, hnbal⟩ :=
    tail_array_cell net h net.nabla_b 0 h.2.2.2.2.2.1 l hl1
  obtain ⟨_, hprevlen⟩ := outputs_prev net h hb l (by omega)
  obtain ⟨_, hnwa, hnwlt, _, hnwal⟩ := matrix_array_cell net h net.nabla_w h.2.2.1 l hl1
  have hoff : net.output_delta.offset = 0 := h.2.2.2.2.2.2.1.2.1
  have hoffb : net.nabla_b.offset = 0 := h.2.2.2.2.2.1.2.1
  have hdlen : (hidden_error exp (net.zs.vec l) (net.weights.mat ((l + 1 : Nat) : Int))
      (net.output_delta.vec ((l + 1 : Nat) : Int))).length = net.layer (l + 1) := by
    rw [hidden_error_length, hzlen]
  have hvec : ∀ (k : Nat) v, ({ net.output_delta with
      data := net.output_delta.data.set l v } : vector_array_t R).vec (k : Int) =
      if l = k then v else net.output_delta.vec (k : Int) := fun k v =>
    vector_array_vec_set net.output_delta l v (k : Int) k (by rw [hoff]; simp) hodlt
  refine ⟨_, network_backpropagate_error_body_ok exp net l h hb hl, rfl, rfl, rfl, ?_, ?_,
    ?_, ?_, ?_⟩
  · exact ⟨h.1, h.2.1, hnwal _ (dger_allocated _ _ _ _ _ hnwa hdlen hprevlen), h.2.2.2.1,
      h.2.2.2.2.1, hnbal _ (zipWith_add_length _ _ _ hdlen hnblen), hodal _ hdlen,
      h.2.2.2.2.2.2.2.1, h.2.2.2.2.2.2.2.2⟩
  · exact (hvec l _).trans (if_pos rfl)
  · show vector_array_t.vec _ (l : Int) = List.zipWith _ (vector_array_t.vec _ (l : Int)) _
    rw [(hvec l _).trans (if_pos rfl)]
    exact (vector_array_vec_set net.nabla_b l _ (l : Int) l (by rw [hoffb]; simp) hnblt).trans
      (if_pos rfl)
  · show matrix_array_t.mat _ (l : Int) = outer_add (vector_array_t.vec _ (l : Int)) _ _
    rw [(hvec l _).trans (if_pos rfl)]
    exact (matrix_array_mat_set net.nabla_w l _ l hnwlt).trans (if_pos rfl)
  · intro k hk
    exact ⟨(hvec k _).trans (if_neg (fun h => hk h.symm)),
      (vector_array_vec_set net.nabla_b l _ (k : Int) k (by rw [hoffb]; simp) hnblt).trans
        (if_neg (fun h => hk h.symm)),
      (matrix_array_mat_set net.nabla_w l _ k hnwlt).trans (if_neg (fun h => hk h.symm))⟩

end BackwardPosts

section Backpropagation

variable {R : Type} [LinearOrderedField R] (exp : R → R)

theorem backward_loop_count (n : Nat) (hn : n < 2 ^ 31) :
    (to_int32 (u32_sub n 1) + 1).toNat = n := by
  cases n with
  | zero =>
    have h1 : u32_sub 0 1 = 2 ^ 32 - 1 := by unfold u32_sub; norm_num
    rw [h1]
    unfold to_int32
    norm_num
  | succ k =>
    rw [u32_sub_one _ (by omega) (by omega), to_int32_small _ (by omega)]
    omega

/-- Backpropagation of one sample through a laid-out network with `L ≥ 2` layers, a
bound input and a label the output layer has: the call succeeds, keeps parameters and
layout, leaves the activations, pre-activations and errors of a forward and a backward
pass, and adds to each accumulator the error (times the incoming activation for
`nabla_w`). -/
theorem network_backpropagate_error_ok (net : network_t R) (label : Nat) (h : net.allocated)
    (hb : net.input_bound) (hL : 2 ≤ net.nodes.size)
    (hy : label < net.layer (net.nodes.size - 1)) :
    ∃ net', network_backpropagate_error exp net label = .ok net' ∧
      net'.params = net.params ∧ net'.allocated ∧
      net'.outputs.vec INPUT_INDEX = net.outputs.vec INPUT_INDEX ∧
      (∀ j, j + 1 < net.nodes.size → net'.outputs.vec (j : Int) =
        forward_in exp net.weights net.biases (net.outputs.vec INPUT_INDEX) (j + 1)) ∧
      (∀ j, j + 1 < net.nodes.size → net'.zs.vec (j : Int) =
        forward_z exp net.weights net.biases (net.outputs.vec INPUT_INDEX) j) ∧
      (∀ l, l + 1 < net.nodes.size →
        net'.output_delta.vec (l : Int) = layer_error exp net.weights net.biases
          (net.outputs.vec INPUT_INDEX) label (net.nodes.size - 2) l ∧
        net'.nabla_b.vec (l : Int) = List.zipWith (fun xi yi => xi + yi)
          (layer_error exp net.weights net.biases (net.outputs.vec INPUT_INDEX) label
            (net.nodes.size - 2) l) (net.nabla_b.vec (l : Int)) ∧
        net'.nabla_w.mat (l : Int) = outer_add
          (layer_error exp net.weights net.biases (net.outputs.vec INPUT_INDEX) label
            (net.nodes.size - 2) l)
          (forward_in exp net.weights net.biases (net.outputs.vec INPUT_INDEX) l)
          (net.nabla_w.mat (l : Int))) ∧
      ∃ net1, network_feed_forward exp net 1 = .ok net1 ∧ net'.outputs = net1.outputs ∧
        net'.zs = net1.zs := by
  -- forward pass
  obtain ⟨net1, hrun1, hfr1, hal1, hin1, hout1, hzs1, _⟩ :=
    network_feed_forward_ok exp net 1 h hb (by omega)
  have hfr1' := (outputs_zs_frame_iff net1 net).1 hfr1
  have hp1 : net1.params = net.params := by
    simp only [network_t.params, hfr1'.1, hfr1'.2.1, hfr1'.2.2.1, hfr1'.2.2.2.1,
      hfr1'.2.2.2.2.2.2.1, hfr1'.2.2.2.2.2.2.2.1]
  have hnb1 : net1.nabla_b = net.nabla_b := hfr1'.2.2.2.2.1
  have hnw1 : net1.nabla_w = net.nabla_w := hfr1'.2.2.2.2.2.2.2.2
  obtain ⟨hnodes1, hbs1, hw1, _, hlayer1⟩ := params_nodes net1 net hp1
  have hb1 : net1.input_bound := input_bound_of net1 net hp1 hin1 hb
  have hprev1 : ∀ k, k < net.nodes.size → net1.outputs.vec ((k : Int) - 1) =
      forward_in exp net.weights net.biases (net.outputs.vec INPUT_INDEX) k := fun k hk =>
    forward_in_prev exp net1 net k hin1 (fun j hj => hout1 j (by omega))
  -- output error
  obtain ⟨net2, hrun2, hp2, hout2, hzs2, hnb2, hnw2, hal2, hod2⟩ :=
    network_get_output_error_post exp net1 label hal1 (by rw [hnodes1]; exact hL)
      (by rw [hnodes1, hlayer1]; exact hy)
  rw [hnodes1] at hod2
  obtain ⟨hnodes2, _, _, _, _⟩ := params_nodes net2 net1 hp2
  have hb2 : net2.input_bound :=
    input_bound_of net2 net1 hp2 (by rw [hout2]) hb1
  have hsz2 : net2.nodes.size = net.nodes.size := by rw [hnodes2, hnodes1]
  -- accumulation at the output layer
  obtain ⟨net3, hrun3, hp3, hout3, hzs3, hod3, hal3, hnb3, hnw3, hrest3⟩ :=
    network_accumulate_cfgs_post net2 (net.nodes.size - 2) hal2 hb2 (by rw [hsz2]; omega)
  obtain ⟨hidx, hint⟩ := output_layer_index_eq net2 hal2 (by rw [hsz2]; exact hL)
  rw [hsz2] at hidx hint
  have hlast : net.nodes.size - 2 + 1 < net.nodes.size := by omega
  have hd_last : net2.output_delta.vec ((net.nodes.size - 2 : Nat) : Int) =
      layer_error exp net.weights net.biases (net.outputs.vec INPUT_INDEX) label
        (net.nodes.size - 2) (net.nodes.size - 2) := by
    rw [hod2, layer_error_last, hzs1 (by decide) _ hlast, hout1 _ hlast]
  -- backward loop
  obtain ⟨net4, hrun4, hp4, hout4, hzs4, hal4, hdone, _⟩ := for_down_inv
    (network_backpropagate_error_body exp)
    (fun m st => st.params = net.params ∧ st.outputs = net1.outputs ∧ st.zs = net1.zs ∧
      st.allocated ∧
      (∀ l, m ≤ l → l + 1 < net.nodes.size →
        st.output_delta.vec (l : Int) = layer_error exp net.weights net.biases
          (net.outputs.vec INPUT_INDEX) label (net.nodes.size - 2) l ∧
        st.nabla_b.vec (l : Int) = List.zipWith (fun xi yi => xi + yi)
          (layer_error exp net.weights net.biases (net.outputs.vec INPUT_INDEX) label
            (net.nodes.size - 2) l) (net.nabla_b.vec (l : Int)) ∧
        st.nabla_w.mat (l : Int) = outer_add
          (layer_error exp net.weights net.biases (net.outputs.vec INPUT_INDEX) label
            (net.nodes.size - 2) l)
          (forward_in exp net.weights net.biases (net.outputs.vec INPUT_INDEX) l)
          (net.nabla_w.mat (l : Int))) ∧
      (∀ l, l < m → st.nabla_b.vec (l : Int) = net.nabla_b.vec (l : Int) ∧
        st.nabla_w.mat (l : Int) = net.nabla_w.mat (l : Int)))
    (net.nodes.size - 2) net3
    (by
      refine ⟨hp3.trans (hp2.trans hp1), hout3.trans hout2, hzs3.trans hzs2, hal3, ?_, ?_⟩
      · intro l hl1 hl2
        have hl : l = net.nodes.size - 2 := by omega
        subst hl
        refine ⟨by rw [hod3, hd_last], ?_, ?_⟩
        · rw [hnb3, hd_last, hnb2, hnb1]
        · rw [hnw3, hd_last, hout2, hprev1 _ (by omega), hnw2, hnw1]
      · intro l hl
        obtain ⟨e1, e2⟩ := hrest3 l (by omega)
        exact ⟨by rw [e1, hnb2, hnb1], by rw [e2, hnw2, hnw1]⟩)
    (by
      intro i st hi ⟨hp, hout, hzs, hal, hdone, htodo⟩
      obtain ⟨hnodes, hbs, hw, _, hlayer⟩ := params_nodes st net hp
      have hsz : st.nodes.size = net.nodes.size := by rw [hnodes]
      have hbst : st.input_bound := input_bound_of st net hp (by rw [hout, hin1]) hb
      obtain ⟨st', hrun, hp', hout', hzs', hal', hd, hnb, hnw, hrest⟩ :=
        network_backpropagate_error_body_post exp st i hal hbst (by rw [hsz]; omega)
      have hdi : st'.output_delta.vec (i : Int) = layer_error exp net.weights net.biases
          (net.outputs.vec INPUT_INDEX) label (net.nodes.size - 2) i := by
        rw [hd, layer_error_step exp _ _ _ _ _ i (by omega), hzs,
          hzs1 (by decide) i (by omega), hw, (hdone (i + 1) (le_refl _) (by omega)).1]
      refine ⟨st', hrun, hp'.trans hp, hout'.trans hout, hzs'.trans hzs, hal', ?_, ?_⟩
      · intro l hl1 hl2
        by_cases hli : l = i
        · subst hli
          obtain ⟨e1, e2⟩ := htodo l (Nat.lt_succ_self l)
          refine ⟨hdi, ?_, ?_⟩
          · rw [hnb, hdi, e1]
          · rw [hnw, hdi, e2, hout, hprev1 _ (by omega)]
        · obtain ⟨e1, e2, e3⟩ := hrest l hli
          obtain ⟨f1, f2, f3⟩ := hdone l (by omega) hl2
          exact ⟨e1.trans f1, e2.trans f2, e3.trans f3⟩
      · intro l hl
        obtain ⟨_, e2, e3⟩ := hrest l (by omega)
        obtain ⟨f2, f3⟩ := htodo l (by omega)
        exact ⟨e2.trans f2, e3.trans f3⟩)
  refine ⟨net4, ?_, hp4, hal4, by rw [hout4, hin1], fun j hj => by rw [hout4, hout1 j hj],
    fun j hj => by rw [hzs4, hzs1 (by decide) j hj], fun l hl => hdone l (Nat.zero_le l) hl,
    net1, hrun1, hout4, hzs4⟩
  have hcount := backward_loop_count (net.nodes.size - 2) (by have := h.2.1; omega)
  unfold network_backpropagate_error
  rw [hrun1, ok_bind, hrun2, ok_bind]
  show (network_accumulate_cfgs net2 (to_int32 (u32_sub net2.outputs.size 1)) >>= fun net3 =>
    for_down (network_backpropagate_error_body exp)
      (to_int32 (u32_sub (u32_sub net2.outputs.size 1) 1) + 1).toNat net3) = _
  rw [hidx, hint, hrun3, ok_bind, hcount]
  exact hrun4

end Backpropagation

section BackpropagationClaims

variable {R : Type} [LinearOrderedField R] (exp : R → R)

theorem column_getD (W : gsl_matrix R) (n1 n2 k r : Nat) (hW : W.allocated n1 n2)
    (hk : k < n1) : (W.column r).getD k 0 = W.entry k r := by
  have hlen := matrix_allocated_length W n1 n2 hW
  unfold gsl_matrix.column gsl_matrix.entry
  rw [getD_map_lt _ W.data k [] 0 (by omega)]

theorem transpose_apply_getD (W : gsl_matrix R) (v : gsl_vector R) (n1 n2 r : Nat)
    (hW : W.allocated n1 n2) (hv : v.length = n1) (hr : r < n2) :
    (transpose_apply W v n2).getD r 0 =
      ∑ k in Finset.range n1, W.entry k r * v.getD k 0 := by
  have hlen := matrix_allocated_length W n1 n2 hW
  unfold transpose_apply
  rw [getD_map_lt _ (List.range n2) r 0 0 (by simpa using hr)]
  have hr' : (List.range n2).getD r 0 = r := by
    simp [List.getD_eq_getElem?_getD, List.getElem?_range hr]
  rw [hr', dot_eq_sum _ _ n1 (by simp [gsl_matrix.column, hlen]) hv]
  apply Finset.sum_congr rfl
  intro k hk
  rw [column_getD W n1 n2 k r hW (Finset.mem_range.mp hk)]

theorem hidden_error_getD (z : gsl_vector R) (W : gsl_matrix R) (next : gsl_vector R)
    (n1 n2 r : Nat) (hW : W.allocated n1 n2) (hnext : next.length = n1) (hz : z.length = n2)
    (hr : r < n2) :
    (hidden_error exp z W next).getD r 0 =
      sigmoid_prime exp (z.getD r 0) *
        ∑ k in Finset.range n1, W.entry k r * next.getD k 0 := by
  unfold hidden_error
  rw [getD_zipWith _ _ _ r 0 0 0 (by simp [hz, hr]) (by simp [transpose_apply, hz, hr]),
    getD_map_lt _ z r 0 0 (by omega), hz, transpose_apply_getD W next n1 n2 r hW hnext hr]

end BackpropagationClaims

section Zeroing

variable {R : Type} [LinearOrderedField R]

theorem set_take_map_drop {α : Type} (f : α → α) (l : List α) (i : Nat) (hi : i < l.length) :
    ((l.take i).map f ++ l.drop i).set i (f l[i]) = (l.take (i + 1)).map f ++ l.drop (i + 1) := by
  apply List.ext_getElem?
  intro j
  rw [List.getElem?_set]
  by_cases hij : i = j
  · subst hij
    have h1 : i < ((l.take i).map f ++ l.drop i).length := by simp; omega
    rw [if_pos rfl, if_pos h1, List.getElem?_append_left (by simp; try omega), List.getElem?_map,
      List.getElem?_take_of_lt (Nat.lt_succ_self i), List.getElem?_eq_getElem hi]
    rfl
  · rw [if_neg hij]
    by_cases hlt : j < i
    · rw [List.getElem?_append_left (by simp; try omega), List.getElem?_append_left (by simp; try omega),
        List.getElem?_map, List.getElem?_map, List.getElem?_take_of_lt hlt,
        List.getElem?_take_of_lt (by omega)]
    · rw [List.getElem?_append_right (by simp; try omega),
        List.getElem?_append_right (by simp; try omega)]
      simp only [List.length_map, List.length_take, List.getElem?_drop]
      congr 1
      omega

theorem vector_array_zero_ok (a : vector_array_t R) (hsz : a.size = a.data.length)
    (hoff : a.offset = 0) :
    vector_array_zero a = .ok { a with data := a.data.map gsl_vector_set_zero } := by
  obtain ⟨a', hrun, hP⟩ := for_range_inv
    (fun i (array : vector_array_t R) => do
      let v ← array.idx i
      array.upd i (gsl_vector_set_zero v))
    (fun i st => st = { a with
      data := (a.data.take i).map gsl_vector_set_zero ++ a.data.drop i })
    a.size a (by simp)
    (by
      intro i st hi hst
      subst hst
      have hlt : i < a.data.length := by omega
      have hget : ((a.data.take i).map gsl_vector_set_zero ++ a.data.drop i)[i]? =
          some a.data[i] := by
        rw [List.getElem?_append_right (by simp; try omega)]
        simp [List.getElem?_drop, Nat.min_eq_left (Nat.le_of_lt hlt),
          List.getElem?_eq_getElem hlt]
      refine ⟨_, ?_, rfl⟩
      show (vector_array_t.idx _ (i : Int) >>= fun v => vector_array_t.upd _ (i : Int)
        (gsl_vector_set_zero v)) = _
      rw [vector_array_idx_ok _ (i : Int) i a.data[i] (by simp [hoff]) hget]
      simp only [ok_bind]
      rw [vector_array_upd_ok _ (i : Int) i _ (by simp [hoff]) (by simp; try omega)]
      simp only [set_take_map_drop gsl_vector_set_zero a.data i hlt])
  subst hP
  unfold vector_array_zero
  rw [hrun, hsz]
  simp

theorem matrix_array_set_zero_ok (a : matrix_array_t R) (hsz : a.size = a.data.length) :
    matrix_array_set_zero a = .ok { a with data := a.data.map gsl_matrix_set_zero } := by
  obtain ⟨a', hrun, hP⟩ := for_range_inv
    (fun i (array : matrix_array_t R) => do
      let m ← array.idx i
      array.upd i (gsl_matrix_set_zero m))
    (fun i st => st = { a with
      data := (a.data.take i).map gsl_matrix_set_zero ++ a.data.drop i })
    a.size a (by simp)
    (by
      intro i st hi hst
      subst hst
      have hlt : i < a.data.length := by omega
      have hget : ((a.data.take i).map gsl_matrix_set_zero ++ a.data.drop i)[i]? =
          some a.data[i] := by
        rw [List.getElem?_append_right (by simp; try omega)]
        simp [List.getElem?_drop, Nat.min_eq_left (Nat.le_of_lt hlt),
          List.getElem?_eq_getElem hlt]
      refine ⟨_, ?_, rfl⟩
      show (matrix_array_t.idx _ (i : Int) >>= fun m => matrix_array_t.upd _ (i : Int)
        (gsl_matrix_set_zero m)) = _
      rw [matrix_array_idx_ok _ (i : Int) i a.data[i] rfl hget]
      simp only [ok_bind]
      rw [matrix_array_upd_ok _ (i : Int) i _ rfl (by simp; try omega)]
      simp only [set_take_map_drop gsl_matrix_set_zero a.data i hlt])
  subst hP
  unfold matrix_array_set_zero
  rw [hrun, hsz]
  simp

theorem map_const_zero (v : gsl_vector R) :
    gsl_vector_set_zero v = List.replicate v.length 0 := by
  unfold gsl_vector_set_zero
  induction v with
  | nil => rfl
  | cons x v ih => simp [List.replicate_succ, ih]

/-- Zeroing a vector array laid out for `dims` gives the array of zero vectors of those
sizes, whatever it held. -/
theorem zeroed_vector_array (a : vector_array_t R) (dims : List Nat)
    (h : a.allocated dims 0) :
    vector_array_zero a = .ok
      { size := dims.length, offset := 0, data := dims.map (fun n => List.replicate n 0) } := by
  obtain ⟨hsz, hoff, hlen, hmap⟩ := h
  rw [vector_array_zero_ok a (by omega) hoff]
  congr 1
  have e : a.data.map gsl_vector_set_zero = dims.map (fun n => List.replicate n 0) := by
    rw [← hmap]
    simp [List.map_map, Function.comp_def, map_const_zero]
  rw [e]
  cases a
  simp_all

theorem gsl_matrix_set_zero_allocated (m : gsl_matrix R) (n1 n2 : Nat)
    (h : m.allocated n1 n2) : gsl_matrix_set_zero m = zero_matrix R n1 n2 := by
  obtain ⟨h1, h2, h3⟩ := h
  unfold gsl_matrix_set_zero zero_matrix
  have e : m.data.map (fun row => row.map (fun _ => (0 : R))) =
      List.replicate n1 (List.replicate n2 0) := by
    have h4 : m.data.map (fun row => row.map (fun _ => (0 : R))) =
        (m.data.map List.length).map (fun n => List.replicate n 0) := by
      rw [List.map_map]
      apply List.map_congr_left
      intro row _
      exact map_const_zero row
    rw [h4, h3]
    simp
  rw [e]
  cases m
  simp_all

/-- Zeroing a matrix array laid out for `dims` gives the array of zero matrices of those
shapes, whatever it held. -/
theorem zeroed_matrix_array (a : matrix_array_t R) (dims : List Nat) (h : a.allocated dims) :
    matrix_array_set_zero a = .ok
      { size := dims.length - 1,
        data := (List.range (dims.length - 1)).map
          (fun i => zero_matrix R (dims.getD (i + 1) 0) (dims.getD i 0)) } := by
  have h' := h
  obtain ⟨hsz, hlen, hall⟩ := h
  rw [matrix_array_set_zero_ok a (by omega)]
  congr 1
  have e : a.data.map gsl_matrix_set_zero = (List.range (dims.length - 1)).map
      (fun i => zero_matrix R (dims.getD (i + 1) 0) (dims.getD i 0)) := by
    apply List.ext_getElem?
    intro i
    by_cases hi : i < dims.length - 1
    · obtain ⟨m, hm, _, hal⟩ := matrix_array_allocated_get a dims i h' hi
      simp [List.getElem?_map, hm, List.getElem?_range hi,
        gsl_matrix_set_zero_allocated m _ _ hal]
    · rw [List.getElem?_eq_none (by simp; omega), List.getElem?_eq_none (by simp; omega)]
  rw [e]
  cases a
  simp_all

end Zeroing

/-! ## One training sample -/

section Sample

variable {R : Type} [LinearOrderedField R] (exp : R → R)

/-- Binding an image of the size of the input layer at slot -1 of a laid-out network. -/
theorem bind_input_ok (st : network_t R) (image : gsl_vector R) (hal : st.allocated)
    (hlen : image.length = st.layer 0) :
    st.outputs.upd INPUT_INDEX image =
      .ok { st.outputs with data := st.outputs.data.set 0 image } ∧
    ({ st with outputs := { st.outputs with data := st.outputs.data.set 0 image } } :
      network_t R).allocated ∧
    ({ st with outputs := { st.outputs with data := st.outputs.data.set 0 image } } :
      network_t R).input_bound ∧
    ({ st.outputs with data := st.outputs.data.set 0 image } : vector_array_t R).vec
      INPUT_INDEX = image := by
  obtain ⟨_, hlt, hoff⟩ := outputs_input_slot st hal
  have hvec : ({ st.outputs with data := st.outputs.data.set 0 image } :
      vector_array_t R).vec INPUT_INDEX = image :=
    (vector_array_vec_set st.outputs 0 image INPUT_INDEX 0 (by rw [hoff]; rfl) hlt).trans
      (if_pos rfl)
  refine ⟨vector_array_upd_ok st.outputs INPUT_INDEX 0 image (by rw [hoff]; rfl) hlt, ?_, ?_,
    hvec⟩
  · exact ⟨hal.1, hal.2.1, hal.2.2.1, hal.2.2.2.1, hal.2.2.2.2.1, hal.2.2.2.2.2.1,
      hal.2.2.2.2.2.2.1, hal.2.2.2.2.2.2.2.1,
      vector_array_allocated_set_front st.outputs _ 1 0 image hal.2.2.2.2.2.2.2.2
        (by decide)⟩
  · show (vector_array_t.vec _ INPUT_INDEX).length = st.layer 0
    rw [hvec, hlen]

/-- Binding and backpropagating one valid sample in a state that has the parameters of
`net`: the accumulators grow, entry by entry, by the error (times the incoming
activation) of that sample at the parameters of `net`. -/
theorem sample_step_ok (st net : network_t R) (data : data_t R) (idx : Nat)
    (hp : st.params = net.params) (hal : st.allocated) (hL : 2 ≤ net.nodes.size)
    (hv : valid_sample net data idx) :
    ∃ st', (do
        let image ← load data.images.images idx
        let outputs ← st.outputs.upd INPUT_INDEX image
        let label ← load data.labels.labels idx
        network_backpropagate_error exp { st with outputs := outputs } label) = .ok st' ∧
      st'.params = net.params ∧ st'.allocated ∧
      ∀ l, l + 1 < net.nodes.size →
        (∀ r, r < net.layer (l + 1) → (st'.nabla_b.vec (l : Int)).getD r 0 =
          (st.nabla_b.vec (l : Int)).getD r 0 +
            (layer_error exp net.weights net.biases (data.image idx) (data.label idx)
              (net.nodes.size - 2) l).getD r 0) ∧
        (∀ r c, r < net.layer (l + 1) → c < net.layer l →
          (st'.nabla_w.mat (l : Int)).entry r c = (st.nabla_w.mat (l : Int)).entry r c +
            (layer_error exp net.weights net.biases (data.image idx) (data.label idx)
              (net.nodes.size - 2) l).getD r 0 *
            (forward_in exp net.weights net.biases (data.image idx) l).getD c 0) := by
  obtain ⟨hi1, hi2, hlen, hlab⟩ := hv
  obtain ⟨hnodes, hbs, hw, _, hlayer⟩ := params_nodes st net hp
  have hsz : st.nodes.size = net.nodes.size := by rw [hnodes]
  have himg : load data.images.images (idx : Int) = .ok (data.image idx) :=
    load_ok _ _ idx _ rfl (by
      simp [data_t.image, List.getD_eq_getElem?_getD, List.getElem?_eq_getElem hi1])
  have hlbl : load data.labels.labels (idx : Int) = .ok (data.label idx) :=
    load_ok _ _ idx _ rfl (by
      simp [data_t.label, List.getD_eq_getElem?_getD, List.getElem?_eq_getElem hi2])
  obtain ⟨hupd, halb, hbb, hvec⟩ := bind_input_ok st (data.image idx) hal
    (by rw [hlayer]; exact hlen)
  obtain ⟨st', hrun, hp', hal', hin', hout', _, hdelta, _⟩ :=
    network_backpropagate_error_ok exp
      { st with outputs := { st.outputs with data := st.outputs.data.set 0 (data.image idx) } }
      (data.label idx) halb hbb (by show 2 ≤ st.nodes.size; rw [hnodes]; exact hL)
      (by
        show data.label idx < st.layer (st.nodes.size - 1)
        rw [hlayer, hnodes]
        exact hlab)
  have hp'' : st'.params = net.params := hp'.trans hp
  obtain ⟨hnodes', _, _, _, hlayer'⟩ := params_nodes st' net hp''
  have hsz' : st'.nodes.size = net.nodes.size := by rw [hnodes']
  have hb' : st'.input_bound := by
    unfold network_t.input_bound
    rw [hin', hlayer' 0, ← hlayer 0]
    exact hbb
  refine ⟨st', ?_, hp'', hal', ?_⟩
  · rw [himg, ok_bind, hupd, ok_bind, hlbl, ok_bind]
    exact hrun
  · intro l hl
    obtain ⟨e1, e2, e3⟩ := hdelta l (by show l + 1 < st.nodes.size; rw [hnodes]; exact hl)
    have hprev := forward_in_prev exp st' _ l hin' (fun j hj => hout' j (by
      show j + 1 < st.nodes.size
      omega))
    simp only [hvec, hw, hbs, hsz] at e1 e2 e3 hprev
    obtain ⟨_, hdlen, _⟩ :=
      tail_array_cell st' hal' st'.output_delta 0 hal'.2.2.2.2.2.2.1 l (by omega)
    obtain ⟨_, hnblen, _⟩ := tail_array_cell st hal st.nabla_b 0 hal.2.2.2.2.2.1 l (by omega)
    obtain ⟨_, hnwa, _⟩ := matrix_array_cell st hal st.nabla_w hal.2.2.1 l (by omega)
    obtain ⟨_, hprevlen⟩ := outputs_prev st' hal' hb' l (by omega)
    rw [hlayer'] at hdlen hprevlen
    rw [hlayer] at hnblen
    rw [hlayer, hlayer] at hnwa
    rw [e1] at hdlen
    rw [hprev] at hprevlen
    rw [e2, e3]
    constructor
    · intro r hr
      rw [getD_zipWith _ _ _ r 0 0 0 (by omega) (by omega), add_comm]
    · intro r c hr hc
      exact dger_entry _ _ _ _ _ r c hnwa hdlen hprevlen hr hc

/-- Binding and backpropagating the first `n` samples of a valid slice, one after the
other: the accumulators grow by the sum of the per-sample errors (times the incoming
activations), all taken at the parameters of `net`. -/
theorem sample_loop_ok (st0 net : network_t R) (data : data_t R) (slice : uint32_array_t)
    (n : Nat) (hn : n ≤ slice.size) (hp : st0.params = net.params) (hal : st0.allocated)
    (hL : 2 ≤ net.nodes.size) (hv : valid_slice net data slice) :
    ∃ st', for_range (fun i (net : network_t R) => do
        let random_index ← load slice.data i
        let image ← load data.images.images random_index
        let outputs ← net.outputs.upd INPUT_INDEX image
        let label ← load data.labels.labels random_index
        network_backpropagate_error exp { net with outputs := outputs } label) n st0 =
        .ok st' ∧
      st'.params = net.params ∧ st'.allocated ∧
      ∀ l, l + 1 < net.nodes.size →
        (∀ r, r < net.layer (l + 1) → (st'.nabla_b.vec (l : Int)).getD r 0 =
          (st0.nabla_b.vec (l : Int)).getD r 0 + ∑ j in Finset.range n,
            (layer_error exp net.weights net.biases (data.image (slice.data.getD j 0))
              (data.label (slice.data.getD j 0)) (net.nodes.size - 2) l).getD r 0) ∧
        (∀ r c, r < net.layer (l + 1) → c < net.layer l →
          (st'.nabla_w.mat (l : Int)).entry r c = (st0.nabla_w.mat (l : Int)).entry r c +
            ∑ j in Finset.range n,
              (layer_error exp net.weights net.biases (data.image (slice.data.getD j 0))
                (data.label (slice.data.getD j 0)) (net.nodes.size - 2) l).getD r 0 *
              (forward_in exp net.weights net.biases (data.image (slice.data.getD j 0))
                l).getD c 0) := by
  refine for_range_inv _ (fun i st => st.params = net.params ∧ st.allocated ∧
      ∀ l, l + 1 < net.nodes.size →
        (∀ r, r < net.layer (l + 1) → (st.nabla_b.vec (l : Int)).getD r 0 =
          (st0.nabla_b.vec (l : Int)).getD r 0 + ∑ j in Finset.range i,
            (layer_error exp net.weights net.biases (data.image (slice.data.getD j 0))
              (data.label (slice.data.getD j 0)) (net.nodes.size - 2) l).getD r 0) ∧
        (∀ r c, r < net.layer (l + 1) → c < net.layer l →
          (st.nabla_w.mat (l : Int)).entry r c = (st0.nabla_w.mat (l : Int)).entry r c +
            ∑ j in Finset.range i,
              (layer_error exp net.weights net.biases (data.image (slice.data.getD j 0))
                (data.label (slice.data.getD j 0)) (net.nodes.size - 2) l).getD r 0 *
              (forward_in exp net.weights net.biases (data.image (slice.data.getD j 0))
                l).getD c 0)) n st0 ?_ ?_
  · exact ⟨hp, hal, fun l _ => ⟨fun r _ => by simp, fun r c _ _ => by simp⟩⟩
  · intro i st hi ⟨hpi, hali, hsum⟩
    have hilt : i < slice.data.length := by have := hv.1; omega
    have hidx : load slice.data (i : Int) = .ok (slice.data.getD i 0) :=
      load_ok _ _ i _ rfl (by
        simp [List.getD_eq_getElem?_getD, List.getElem?_eq_getElem hilt])
    obtain ⟨st', hrun, hp', hal', hstep⟩ := sample_step_ok exp st net data
      (slice.data.getD i 0) hpi hali hL (hv.2 i (by omega))
    refine ⟨st', ?_, hp', hal', ?_⟩
    · show (load slice.data (i : Int) >>= fun random_index => _) = _
      rw [hidx, ok_bind]
      exact hrun
    · intro l hl
      obtain ⟨s1, s2⟩ := hstep l hl
      obtain ⟨t1, t2⟩ := hsum l hl
      constructor
      · intro r hr
        rw [s1 r hr, t1 r hr, Finset.sum_range_succ, add_assoc]
      · intro r c hr hc
        rw [s2 r c hr hc, t2 r c hr hc, Finset.sum_range_succ, add_assoc]

end Sample

/-! ## The parameter update -/

section Update

variable {R : Type} [LinearOrderedField R] (exp : R → R)

theorem matrix_scale_allocated (m : gsl_matrix R) (x : R) (n1 n2 : Nat)
    (h : m.allocated n1 n2) : (gsl_matrix_scale m x).allocated n1 n2 := by
  refine ⟨h.1, h.2.1, ?_⟩
  rw [← h.2.2]
  simp [gsl_matrix_scale, List.map_map, Function.comp_def]

theorem matrix_scale_entry (m : gsl_matrix R) (x : R) (n1 n2 r c : Nat)
    (h : m.allocated n1 n2) (hr : r < n1) (hc : c < n2) :
    (gsl_matrix_scale m x).entry r c = m.entry r c * x := by
  have hlen := matrix_allocated_length m n1 n2 h
  have hrow := matrix_allocated_row m n1 n2 h r hr
  unfold gsl_matrix.entry gsl_matrix_scale
  rw [getD_map_lt _ m.data r [] [] (by omega), getD_map_lt _ _ c 0 0 (by omega)]

theorem matrix_sub_ok (a b : gsl_matrix R) (n1 n2 : Nat) (ha : a.allocated n1 n2)
    (hb : b.allocated n1 n2) :
    ∃ m, gsl_matrix_sub a b = .ok m ∧ m.allocated n1 n2 ∧
      ∀ r c, r < n1 → c < n2 → m.entry r c = a.entry r c - b.entry r c := by
  have hla := matrix_allocated_length a n1 n2 ha
  have hlb := matrix_allocated_length b n1 n2 hb
  refine ⟨{ a with
      data := List.zipWith (fun ra rb => List.zipWith (fun x y => x - y) ra rb) a.data b.data },
    by simp [gsl_matrix_sub, ha.1, ha.2.1, hb.1, hb.2.1], ⟨ha.1, ha.2.1, ?_⟩, ?_⟩
  · apply List.ext_getElem?
    intro r
    simp only [List.getElem?_map, List.getElem?_zipWith, List.getElem?_replicate]
    by_cases hr : r < n1
    · have h1 := matrix_allocated_row a n1 n2 ha r hr
      have h2 := matrix_allocated_row b n1 n2 hb r hr
      have g1 : r < a.data.length := by omega
      have g2 : r < b.data.length := by omega
      simp only [List.getD_eq_getElem?_getD, List.getElem?_eq_getElem g1,
        List.getElem?_eq_getElem g2, Option.getD_some] at h1 h2
      simp [List.getElem?_eq_getElem g1, List.getElem?_eq_getElem g2, hr, h1, h2]
    · have g1 : a.data[r]? = none := List.getElem?_eq_none (by omega)
      simp [g1, hr]
  · intro r c hr hc
    have h1 := matrix_allocated_row a n1 n2 ha r hr
    have h2 := matrix_allocated_row b n1 n2 hb r hr
    show gsl_matrix.entry _ r c = _
    unfold gsl_matrix.entry
    rw [getD_zipWith _ a.data b.data r [] [] [] (by omega) (by omega),
      getD_zipWith _ _ _ c 0 0 0 (by omega) (by omega)]

theorem vector_scale_getD (v : gsl_vector R) (x : R) (r : Nat) (hr : r < v.length) :
    (gsl_vector_scale v x).getD r 0 = v.getD r 0 * x := by
  unfold gsl_vector_scale
  rw [getD_map_lt _ v r 0 0 hr]

theorem vector_sub_ok (a b : gsl_vector R) (n : Nat) (ha : a.length = n) (hb : b.length = n) :
    ∃ v, gsl_vector_sub a b = .ok v ∧ v.length = n ∧
      ∀ r, r < n → v.getD r 0 = a.getD r 0 - b.getD r 0 := by
  refine ⟨List.zipWith (fun x y => x - y) a b, by simp [gsl_vector_sub, ha, hb],
    by simp [ha, hb], fun r hr => ?_⟩
  rw [getD_zipWith _ a b r 0 0 0 (by omega) (by omega)]

/-- One pass of the update loop at layer `i` of a laid-out network: the weights and
biases of layer `i` lose `scale_fac` times the accumulators; the other layers and the
layout are kept. -/
theorem update_body_ok (st : network_t R) (scale_fac : R) (i : Nat) (hal : st.allocated)
    (hi : i + 1 < st.nodes.size) :
    ∃ st', (do
        let nw ← st.nabla_w.idx i
        let nw := gsl_matrix_scale nw scale_fac
        let nabla_w ← st.nabla_w.upd i nw
        let w ← st.weights.idx i
        let w ← gsl_matrix_sub w nw
        let weights ← st.weights.upd i w
        let nb ← st.nabla_b.idx i
        let nb := gsl_vector_scale nb scale_fac
        let nabla_b ← st.nabla_b.upd i nb
        let b ← st.biases.idx i
        let b ← gsl_vector_sub b nb
        let biases ← st.biases.upd i b
        (pure { st with nabla_w := nabla_w, weights := weights, nabla_b := nabla_b,
                        biases := biases } : Except fault (network_t R))) = .ok st' ∧
      st'.nodes = st.nodes ∧ st'.allocated ∧
      (∀ r c, r < st.layer (i + 1) → c < st.layer i →
        (st'.weights.mat (i : Int)).entry r c =
          (st.weights.mat (i : Int)).entry r c -
            (st.nabla_w.mat (i : Int)).entry r c * scale_fac) ∧
      (∀ r, r < st.layer (i + 1) → (st'.biases.vec (i : Int)).getD r 0 =
          (st.biases.vec (i : Int)).getD r 0 -
            (st.nabla_b.vec (i : Int)).getD r 0 * scale_fac) ∧
      (∀ k : Nat, k ≠ i → st'.weights.mat (k : Int) = st.weights.mat (k : Int) ∧
        st'.biases.vec (k : Int) = st.biases.vec (k : Int) ∧
        st'.nabla_w.mat (k : Int) = st.nabla_w.mat (k : Int) ∧
        st'.nabla_b.vec (k : Int) = st.nabla_b.vec (k : Int)) := by
  obtain ⟨hnw, hnwa, hnwlt, hnwupd, hnwal⟩ :=
    matrix_array_cell st hal st.nabla_w hal.2.2.1 i hi
  obtain ⟨hw, hwa, hwlt, hwupd, hwal⟩ := matrix_array_cell st hal st.weights hal.2.2.2.1 i hi
  obtain ⟨hnb, hnblen, hnblt, hnbupd, hnbal⟩ :=
    tail_array_cell st hal st.nabla_b 0 hal.2.2.2.2.2.1 i hi
  obtain ⟨hb, hblen, hblt, hbupd, hbal⟩ :=
    tail_array_cell st hal st.biases 0 hal.2.2.2.2.2.2.2.1 i hi
  have hsa := matrix_scale_allocated (st.nabla_w.mat i) scale_fac _ _ hnwa
  obtain ⟨w', hsub, hw'a, hw'e⟩ := matrix_sub_ok (st.weights.mat i)
    (gsl_matrix_scale (st.nabla_w.mat i) scale_fac) _ _ hwa hsa
  have hsl : (gsl_vector_scale (st.nabla_b.vec i) scale_fac).length = st.layer (i + 1) := by
    simp [gsl_vector_scale, hnblen]
  obtain ⟨b', hbsub, hb'l, hb'e⟩ := vector_sub_ok (st.biases.vec i)
    (gsl_vector_scale (st.nabla_b.vec i) scale_fac) _ hblen hsl
  have hoffb : st.biases.offset = 0 := hal.2.2.2.2.2.2.2.1.2.1
  have hoffnb : st.nabla_b.offset = 0 := hal.2.2.2.2.2.1.2.1
  refine ⟨{ st with
      nabla_w := { st.nabla_w with
        data := st.nabla_w.data.set i (gsl_matrix_scale (st.nabla_w.mat i) scale_fac) },
      weights := { st.weights with data := st.weights.data.set i w' },
      nabla_b := { st.nabla_b with
        data := st.nabla_b.data.set (i + 0) (gsl_vector_scale (st.nabla_b.vec i) scale_fac) },
      biases := { st.biases with data := st.biases.data.set (i + 0) b' } }, ?_, rfl, ?_, ?_,
    ?_, ?_⟩
  · simp only [hnw, ok_bind, hnwupd, hw, hsub, hwupd, hnb, hnbupd, hb, hbsub, hbupd,
      pure_eq_ok]
  · exact ⟨hal.1, hal.2.1, hnwal _ hsa, hwal _ hw'a, hal.2.2.2.2.1, hnbal _ hsl,
      hal.2.2.2.2.2.2.1, hbal _ hb'l, hal.2.2.2.2.2.2.2.2⟩
  · intro r c hr hc
    show (matrix_array_t.mat _ (i : Int)).entry r c = _
    rw [(matrix_array_mat_set st.weights i w' i hwlt).trans (if_pos rfl), hw'e r c hr hc,
      matrix_scale_entry _ _ _ _ r c hnwa hr hc]
  · intro r hr
    show (vector_array_t.vec _ (i : Int)).getD r 0 = _
    rw [(vector_array_vec_set st.biases (i + 0) b' (i : Int) i (by rw [hoffb]; simp)
      hblt).trans (if_pos rfl), hb'e r hr, vector_scale_getD _ _ r (by omega)]
  · intro k hk
    have hne : ¬ i = k := fun h => hk h.symm
    have hne' : ¬ i + 0 = k := fun h => hk h.symm
    exact ⟨(matrix_array_mat_set st.weights i w' k hwlt).trans (if_neg hne),
      (vector_array_vec_set st.biases (i + 0) b' (k : Int) k (by rw [hoffb]; simp)
        hblt).trans (if_neg hne'),
      (matrix_array_mat_set st.nabla_w i _ k hnwlt).trans (if_neg hne),
      (vector_array_vec_set st.nabla_b (i + 0) _ (k : Int) k (by rw [hoffnb]; simp)
        hnblt).trans (if_neg hne')⟩

end Update

section UpdateLoop

variable {R : Type} [LinearOrderedField R] (exp : R → R)

theorem zero_vector_array_allocated (dims : List Nat) :
    (zero_vector_array R dims).allocated dims 0 := by
  refine ⟨rfl, rfl, by simp [zero_vector_array], ?_⟩
  simp [zero_vector_array, List.map_map, Function.comp_def]

theorem zero_vector_array_getD (dims : List Nat) (k r : Nat) (hk : k < dims.length) :
    ((zero_vector_array R dims).vec (k : Int)).getD r 0 = 0 := by
  have h : (zero_vector_array R dims).vec (k : Int) = List.replicate (dims.getD k 0) 0 :=
    vector_array_vec_eq _ (k : Int) k _ (by simp [zero_vector_array]) (by
      simp [zero_vector_array, List.getElem?_map, List.getElem?_eq_getElem hk,
        List.getD_eq_getElem?_getD])
  rw [h, List.getD_eq_getElem?_getD, List.getElem?_replicate]
  split <;> rfl

theorem zero_matrix_allocated (n1 n2 : Nat) : (zero_matrix R n1 n2).allocated n1 n2 := by
  refine ⟨rfl, rfl, ?_⟩
  simp [zero_matrix]

theorem zero_matrix_entry (n1 n2 r c : Nat) : (zero_matrix R n1 n2).entry r c = 0 := by
  unfold gsl_matrix.entry zero_matrix
  simp only [List.getD_eq_getElem?_getD, List.getElem?_replicate]
  by_cases hr : r < n1
  · simp only [if_pos hr, Option.getD_some, List.getElem?_replicate]
    split <;> rfl
  · simp [hr]

theorem zero_matrix_array_mat (dims : List Nat) (k : Nat) (hk : k < dims.length - 1) :
    (zero_matrix_array R dims).mat (k : Int) =
      zero_matrix R (dims.getD (k + 1) 0) (dims.getD k 0) :=
  matrix_array_mat_eq _ (k : Int) k _ rfl (by
    simp [zero_matrix_array, List.getElem?_map, List.getElem?_range hk])

theorem zero_matrix_array_allocated (dims : List Nat) :
    (zero_matrix_array R dims).allocated dims := by
  refine ⟨rfl, by simp [zero_matrix_array], fun i hi => ?_⟩
  rw [zero_matrix_array_mat dims i hi]
  exact zero_matrix_allocated _ _

/-- The update loop over all layers of a laid-out network: every weight and bias loses
`scale_fac` times its accumulator; the layout is kept. -/
theorem update_loop_ok (st0 : network_t R) (scale_fac : R) (hal : st0.allocated) :
    ∃ st', for_range (fun i (net : network_t R) => do
        let nw ← net.nabla_w.idx i
        let nw := gsl_matrix_scale nw scale_fac
        let nabla_w ← net.nabla_w.upd i nw
        let w ← net.weights.idx i
        let w ← gsl_matrix_sub w nw
        let weights ← net.weights.upd i w
        let nb ← net.nabla_b.idx i
        let nb := gsl_vector_scale nb scale_fac
        let nabla_b ← net.nabla_b.upd i nb
        let b ← net.biases.idx i
        let b ← gsl_vector_sub b nb
        let biases ← net.biases.upd i b
        pure { net with nabla_w := nabla_w, weights := weights, nabla_b := nabla_b,
                        biases := biases }) (st0.nodes.size - 1) st0 = .ok st' ∧
      st'.nodes = st0.nodes ∧ st'.allocated ∧
      ∀ l, l + 1 < st0.nodes.size →
        (∀ r c, r < st0.layer (l + 1) → c < st0.layer l →
          (st'.weights.mat (l : Int)).entry r c =
            (st0.weights.mat (l : Int)).entry r c -
              (st0.nabla_w.mat (l : Int)).entry r c * scale_fac) ∧
        (∀ r, r < st0.layer (l + 1) → (st'.biases.vec (l : Int)).getD r 0 =
            (st0.biases.vec (l : Int)).getD r 0 -
              (st0.nabla_b.vec (l : Int)).getD r 0 * scale_fac) := by
  obtain ⟨st', hrun, hnodes, hal', hdone, _⟩ := for_range_inv _
    (fun i st => st.nodes = st0.nodes ∧ st.allocated ∧
      (∀ l, l < i → l + 1 < st0.nodes.size →
        (∀ r c, r < st0.layer (l + 1) → c < st0.layer l →
          (st.weights.mat (l : Int)).entry r c =
            (st0.weights.mat (l : Int)).entry r c -
              (st0.nabla_w.mat (l : Int)).entry r c * scale_fac) ∧
        (∀ r, r < st0.layer (l + 1) → (st.biases.vec (l : Int)).getD r 0 =
            (st0.biases.vec (l : Int)).getD r 0 -
              (st0.nabla_b.vec (l : Int)).getD r 0 * scale_fac)) ∧
      (∀ l : Nat, i ≤ l → st.weights.mat (l : Int) = st0.weights.mat (l : Int) ∧
        st.biases.vec (l : Int) = st0.biases.vec (l : Int) ∧
        st.nabla_w.mat (l : Int) = st0.nabla_w.mat (l : Int) ∧
        st.nabla_b.vec (l : Int) = st0.nabla_b.vec (l : Int)))
    (st0.nodes.size - 1) st0
    ⟨rfl, hal, fun l hl => absurd hl (Nat.not_lt_zero l), fun l _ => ⟨rfl, rfl, rfl, rfl⟩⟩
    (by
      intro i st hi ⟨hnodes, hal, hdone, htodo⟩
      have hlayer : ∀ k, st.layer k = st0.layer k := fun k => by
        simp [network_t.layer, hnodes]
      obtain ⟨st', hrun, hnodes', hal', hw, hb, hrest⟩ :=
        update_body_ok st scale_fac i hal (by rw [hnodes]; omega)
      refine ⟨st', hrun, hnodes'.trans hnodes, hal', ?_, ?_⟩
      · intro l hl hl'
        by_cases hli : l = i
        · subst hli
          obtain ⟨e1, e2, e3, e4⟩ := htodo l (le_refl l)
          rw [hlayer, hlayer, e1, e3] at hw
          rw [hlayer, e2, e4] at hb
          exact ⟨hw, hb⟩
        · obtain ⟨f1, f2, _, _⟩ := hrest l hli
          rw [f1, f2]
          exact hdone l (by omega) hl'
      · intro l hl
        obtain ⟨f1, f2, f3, f4⟩ := hrest l (by omega)
        obtain ⟨e1, e2, e3, e4⟩ := htodo l (by omega)
        exact ⟨f1.trans e1, f2.trans e2, f3.trans e3, f4.trans e4⟩)
  exact ⟨st', hrun, hnodes, hal', fun l hl => hdone l (by omega) hl⟩

end UpdateLoop

section MiniBatch

variable {R : Type} [LinearOrderedField R] (exp : R → R)

/-- A laid-out network with its accumulators replaced by zeros is laid out, has the
same parameters, and its accumulators read zero. -/
theorem zeroed_network (net : network_t R) (h : net.allocated) :
    vector_array_zero net.nabla_b = .ok (zero_vector_array R net.layers.tail) ∧
    matrix_array_set_zero net.nabla_w = .ok (zero_matrix_array R net.layers) ∧
    ({ net with nabla_b := zero_vector_array R net.layers.tail,
                nabla_w := zero_matrix_array R net.layers } : network_t R).allocated ∧
    ∀ l, l + 1 < net.nodes.size →
      (∀ r, ((zero_vector_array R net.layers.tail).vec (l : Int)).getD r 0 = 0) ∧
      (∀ r c, ((zero_matrix_array R net.layers).mat (l : Int)).entry r c = 0) := by
  obtain ⟨hlen, htl, _, _⟩ := network_layer_facts net h
  refine ⟨zeroed_vector_array _ _ h.2.2.2.2.2.1, zeroed_matrix_array _ _ h.2.2.1, ?_, ?_⟩
  · exact ⟨h.1, h.2.1, zero_matrix_array_allocated _, h.2.2.2.1, h.2.2.2.2.1,
      zero_vector_array_allocated _, h.2.2.2.2.2.2.1, h.2.2.2.2.2.2.2.1, h.2.2.2.2.2.2.2.2⟩
  · intro l hl
    refine ⟨fun r => zero_vector_array_getD _ l r (by omega), fun r c => ?_⟩
    rw [zero_matrix_array_mat _ l (by omega)]
    exact zero_matrix_entry _ _ r c

/-- The contribution of a valid sample, entry by entry: `nabla_b` holds the errors of
the layers and `nabla_w` the errors times the incoming activations. -/
theorem sample_contribution_ok (net : network_t R) (data : data_t R) (idx : Nat)
    (h : net.allocated) (hL : 2 ≤ net.nodes.size) (hv : valid_sample net data idx) :
    ∃ g, sample_contribution exp net data idx = .ok g ∧
      ∀ l, l + 1 < net.nodes.size →
        (∀ r, r < net.layer (l + 1) → (g.nabla_b.vec (l : Int)).getD r 0 =
          (layer_error exp net.weights net.biases (data.image idx) (data.label idx)
            (net.nodes.size - 2) l).getD r 0) ∧
        (∀ r c, r < net.layer (l + 1) → c < net.layer l →
          (g.nabla_w.mat (l : Int)).entry r c =
            (layer_error exp net.weights net.biases (data.image idx) (data.label idx)
              (net.nodes.size - 2) l).getD r 0 *
            (forward_in exp net.weights net.biases (data.image idx) l).getD c 0) := by
  obtain ⟨hzb, hzw, hzal, hzero⟩ := zeroed_network net h
  obtain ⟨g, hrun, _, _, hstep⟩ := sample_step_ok exp
    { net with nabla_b := zero_vector_array R net.layers.tail,
               nabla_w := zero_matrix_array R net.layers } net data idx rfl hzal hL hv
  refine ⟨g, ?_, ?_⟩
  · unfold sample_contribution
    rw [hzb, ok_bind, hzw, ok_bind]
    exact hrun
  · intro l hl
    obtain ⟨s1, s2⟩ := hstep l hl
    obtain ⟨z1, z2⟩ := hzero l hl
    constructor
    · intro r hr
      have := s1 r hr
      simp only [z1 r, zero_add] at this
      exact this
    · intro r c hr hc
      have := s2 r c hr hc
      simp only [z2 r c, zero_add] at this
      exact this

/-- The mini-batch update of a laid-out network on a non-empty valid slice succeeds, and
every weight and bias loses `eta / |slice|` times the sum over the slice of the
per-sample errors (times the incoming activations), all taken at the parameters on
entry. -/
theorem network_update_mini_batch_ok (net : network_t R) (data : data_t R)
    (slice : uint32_array_t) (h : net.allocated) (hL : 2 ≤ net.nodes.size)
    (hs : slice.size ≠ 0) (hv : valid_slice net data slice) :
    ∃ net', network_update_mini_batch exp net data slice = .ok net' ∧
      net'.nodes = net.nodes ∧ net'.allocated ∧
      ∀ l, l + 1 < net.nodes.size →
        (∀ r c, r < net.layer (l + 1) → c < net.layer l →
          (net'.weights.mat (l : Int)).entry r c = (net.weights.mat (l : Int)).entry r c -
            (∑ j in Finset.range slice.size,
              (layer_error exp net.weights net.biases (data.image (slice.data.getD j 0))
                (data.label (slice.data.getD j 0)) (net.nodes.size - 2) l).getD r 0 *
              (forward_in exp net.weights net.biases (data.image (slice.data.getD j 0))
                l).getD c 0) * (net.eta / (slice.size : R))) ∧
        (∀ r, r < net.layer (l + 1) →
          (net'.biases.vec (l : Int)).getD r 0 = (net.biases.vec (l : Int)).getD r 0 -
            (∑ j in Finset.range slice.size,
              (layer_error exp net.weights net.biases (data.image (slice.data.getD j 0))
                (data.label (slice.data.getD j 0)) (net.nodes.size - 2) l).getD r 0) *
              (net.eta / (slice.size : R))) := by
  obtain ⟨hzb, hzw, hzal, hzero⟩ := zeroed_network net h
  obtain ⟨st1, hrun1, hp1, hal1, hsum⟩ := sample_loop_ok exp
    { net with nabla_b := zero_vector_array R net.layers.tail,
               nabla_w := zero_matrix_array R net.layers } net data slice slice.size
    (le_refl _) rfl hzal hL hv
  obtain ⟨hnodes1, hbs1, hw1, heta1, hlayer1⟩ := params_nodes st1 net hp1
  have hsz1 : st1.nodes.size = net.nodes.size := by rw [hnodes1]
  obtain ⟨st2, hrun2, hnodes2, hal2, hupd⟩ :=
    update_loop_ok st1 (st1.eta / (slice.size : R)) hal1
  refine ⟨st2, ?_, hnodes2.trans hnodes1, hal2, ?_⟩
  · unfold network_update_mini_batch
    have hn : u32_sub st1.nodes.size 1 = st1.nodes.size - 1 :=
      u32_sub_one _ (by omega) (by have := hal1.2.1; omega)
    rw [if_neg hs]
    show (vector_array_zero net.nabla_b >>= fun nabla_b => _) = _
    rw [hzb, ok_bind, hzw, ok_bind]
    dsimp only
    rw [hrun1, ok_bind, hn]
    exact hrun2
  · intro l hl
    obtain ⟨u1, u2⟩ := hupd l (by omega)
    obtain ⟨s1, s2⟩ := hsum l hl
    obtain ⟨z1, z2⟩ := hzero l hl
    constructor
    · intro r c hr hc
      rw [u1 r c (by rw [hlayer1]; exact hr) (by rw [hlayer1]; exact hc), hw1,
        s2 r c hr hc, heta1]
      simp only [z2 r c, zero_add]
    · intro r hr
      rw [u2 r (by rw [hlayer1]; exact hr), hbs1, s1 r hr, heta1]
      simp only [z1 r, zero_add]

end MiniBatch

section MiniBatchClaims

variable {R : Type} [LinearOrderedField R] (exp : R → R)

/-- C1: on a laid-out network with `L ≥ 2` layers and a non-empty slice of valid sample
indices, `network_update_mini_batch` succeeds and leaves
`W[l] = W0[l] - (eta / |slice|) Σ gW_s[l]` and `b[l] = b0[l] - (eta / |slice|) Σ gb_s[l]`
entry by entry, where `gW_s`, `gb_s` are the contributions of the samples of the slice
at the parameters on entry (`sample_contribution`); the divisor is the length of the
slice, `mini_batch_size` plays no part. -/
theorem network_update_mini_batch_average (net : network_t R) (data : data_t R)
    (slice : uint32_array_t) (h : net.allocated) (hL : 2 ≤ net.nodes.size)
    (hs : slice.size ≠ 0) (hv : valid_slice net data slice) :
    ∃ (net' : network_t R) (g : Nat → network_t R),
      network_update_mini_batch exp net data slice = .ok net' ∧
      (∀ j, j < slice.size →
        sample_contribution exp net data (slice.data.getD j 0) = .ok (g j)) ∧
      ∀ l, l + 1 < net.nodes.size →
        (∀ r c, r < net.layer (l + 1) → c < net.layer l →
          (net'.weights.mat (l : Int)).entry r c = (net.weights.mat (l : Int)).entry r c -
            (net.eta / (slice.size : R)) *
              ∑ j in Finset.range slice.size, ((g j).nabla_w.mat (l : Int)).entry r c) ∧
        (∀ r, r < net.layer (l + 1) →
          (net'.biases.vec (l : Int)).getD r 0 = (net.biases.vec (l : Int)).getD r 0 -
            (net.eta / (slice.size : R)) *
              ∑ j in Finset.range slice.size, ((g j).nabla_b.vec (l : Int)).getD r 0) := by
  obtain ⟨net', hrun, _, _, hupd⟩ := network_update_mini_batch_ok exp net data slice h hL hs hv
  have hex : ∀ j, ∃ gj, j < slice.size →
      sample_contribution exp net data (slice.data.getD j 0) = .ok gj ∧
      ∀ l, l + 1 < net.nodes.size →
        (∀ r, r < net.layer (l + 1) → (gj.nabla_b.vec (l : Int)).getD r 0 =
          (layer_error exp net.weights net.biases (data.image (slice.data.getD j 0))
            (data.label (slice.data.getD j 0)) (net.nodes.size - 2) l).getD r 0) ∧
        (∀ r c, r < net.layer (l + 1) → c < net.layer l →
          (gj.nabla_w.mat (l : Int)).entry r c =
            (layer_error exp net.weights net.biases (data.image (slice.data.getD j 0))
              (data.label (slice.data.getD j 0)) (net.nodes.size - 2) l).getD r 0 *
            (forward_in exp net.weights net.biases (data.image (slice.data.getD j 0))
              l).getD c 0) := by
    intro j
    by_cases hj : j < slice.size
    · obtain ⟨gj, h1, h2⟩ := sample_contribution_ok exp net data (slice.data.getD j 0) h hL
        (hv.2 j hj)
      exact ⟨gj, fun _ => ⟨h1, h2⟩⟩
    · exact ⟨net, fun hj' => absurd hj' hj⟩
  choose g hg using hex
  refine ⟨net', g, hrun, fun j hj => (hg j hj).1, ?_⟩
  intro l hl
  obtain ⟨u1, u2⟩ := hupd l hl
  constructor
  · intro r c hr hc
    rw [u1 r c hr hc, mul_comm]
    congr 2
    apply Finset.sum_congr rfl
    intro j hj
    exact (((hg j (Finset.mem_range.mp hj)).2 l hl).2 r c hr hc).symm
  · intro r hr
    rw [u2 r hr, mul_comm]
    congr 2
    apply Finset.sum_congr rfl
    intro j hj
    exact (((hg j (Finset.mem_range.mp hj)).2 l hl).1 r hr).symm

/-- C9: the mini-batch update zeroes the accumulators before it accumulates: on a
non-empty valid slice, a laid-out network and the same network with any other laid-out
accumulator contents end in the same state (same weights, biases, `nabla_w`,
`nabla_b` and everything else). -/
theorem network_update_mini_batch_zeroes (net : network_t R)
    (nabla_b : vector_array_t R) (nabla_w : matrix_array_t R) (data : data_t R)
    (slice : uint32_array_t) (h : net.allocated)
    (h' : ({ net with nabla_b := nabla_b, nabla_w := nabla_w } : network_t R).allocated)
    (hL : 2 ≤ net.nodes.size) (hs : slice.size ≠ 0) (hv : valid_slice net data slice) :
    ∃ net', network_update_mini_batch exp net data slice = .ok net' ∧
      network_update_mini_batch exp { net with nabla_b := nabla_b, nabla_w := nabla_w }
        data slice = .ok net' := by
  obtain ⟨net', hrun, _⟩ := network_update_mini_batch_ok exp net data slice h hL hs hv
  refine ⟨net', hrun, ?_⟩
  rw [← hrun]
  obtain ⟨hzb, hzw, _, _⟩ := zeroed_network net h
  obtain ⟨hzb', hzw', _, _⟩ := zeroed_network _ h'
  have el : ({ net with nabla_b := nabla_b, nabla_w := nabla_w } : network_t R).layers =
      net.layers := rfl
  rw [el] at hzb' hzw'
  unfold network_update_mini_batch
  rw [if_neg hs, if_neg hs, hzb', hzw', hzb, hzw]

end MiniBatchClaims

/-- C1 at the 2-3-2 test network (learning rate 3, nominal batch size 10) with a slice of
2 of the 3 test samples, over the reals: the hypotheses hold and the statement applies,
with divisor 2. -/
theorem network_update_mini_batch_average_witness :
    ((training_fixture_network ℝ).allocated ∧ 2 ≤ (training_fixture_network ℝ).nodes.size ∧
      training_fixture_slice.size ≠ 0 ∧
      valid_slice (training_fixture_network ℝ) (training_fixture_data ℝ)
        training_fixture_slice) ∧
    ∃ (net' : network_t ℝ) (g : Nat → network_t ℝ),
      network_update_mini_batch Real.exp (training_fixture_network ℝ)
        (training_fixture_data ℝ) training_fixture_slice = .ok net' ∧
      (∀ j, j < training_fixture_slice.size →
        sample_contribution Real.exp (training_fixture_network ℝ) (training_fixture_data ℝ)
          (training_fixture_slice.data.getD j 0) = .ok (g j)) ∧
      ∀ l, l + 1 < (training_fixture_network ℝ).nodes.size →
        (∀ r c, r < (training_fixture_network ℝ).layer (l + 1) →
          c < (training_fixture_network ℝ).layer l →
          (net'.weights.mat (l : Int)).entry r c =
            ((training_fixture_network ℝ).weights.mat (l : Int)).entry r c -
            ((training_fixture_network ℝ).eta / ((training_fixture_slice.size : Nat) : ℝ)) *
              ∑ j in Finset.range training_fixture_slice.size,
                ((g j).nabla_w.mat (l : Int)).entry r c) ∧
        (∀ r, r < (training_fixture_network ℝ).layer (l + 1) →
          (net'.biases.vec (l : Int)).getD r 0 =
            ((training_fixture_network ℝ).biases.vec (l : Int)).getD r 0 -
            ((training_fixture_network ℝ).eta / ((training_fixture_slice.size : Nat) : ℝ)) *
              ∑ j in Finset.range training_fixture_slice.size,
                ((g j).nabla_b.vec (l : Int)).getD r 0) :=
  ⟨by decide,
   network_update_mini_batch_average Real.exp (training_fixture_network ℝ)
     (training_fixture_data ℝ) training_fixture_slice (by decide) (by decide) (by decide)
     (by decide)⟩

/-- C9 at the 2-3-2 test network, once with zero and once with stale accumulators: the
hypotheses hold and both runs end in the same state. -/
theorem network_update_mini_batch_zeroes_witness :
    ((training_fixture_network ℝ).allocated ∧
      ({ training_fixture_network ℝ with
          nabla_b := stale_nabla_b ℝ, nabla_w := stale_nabla_w ℝ } : network_t ℝ).allocated ∧
      2 ≤ (training_fixture_network ℝ).nodes.size ∧ training_fixture_slice.size ≠ 0 ∧
      valid_slice (training_fixture_network ℝ) (training_fixture_data ℝ)
        training_fixture_slice) ∧
    ∃ net', network_update_mini_batch Real.exp (training_fixture_network ℝ)
        (training_fixture_data ℝ) training_fixture_slice = .ok net' ∧
      network_update_mini_batch Real.exp
        { training_fixture_network ℝ with
          nabla_b := stale_nabla_b ℝ, nabla_w := stale_nabla_w ℝ }
        (training_fixture_data ℝ) training_fixture_slice = .ok net' :=
  ⟨by decide,
   network_update_mini_batch_zeroes Real.exp (training_fixture_network ℝ) (stale_nabla_b ℝ)
     (stale_nabla_w ℝ) (training_fixture_data ℝ) training_fixture_slice (by decide)
     (by decide) (by decide) (by decide) (by decide)⟩

/-! ## Evaluation on held-out data -/

section Evaluation

variable {R : Type} [LinearOrderedField R] (exp : R → R)

/-- The class `network_get_output` reports for a laid-out network with a bound input:
the position `gsl_vector_max_index` finds in the activations of the last layer of a
forward pass. -/
theorem network_get_output_ok (st net : network_t R) (hp : st.params = net.params)
    (hal : st.allocated) (hb : st.input_bound) (hL : 2 ≤ net.nodes.size) :
    ∃ st', network_get_output exp st = .ok (st', gsl_vector_max_index
        (forward_in exp net.weights net.biases (st.outputs.vec INPUT_INDEX)
          (net.nodes.size - 1))) ∧
      st'.params = net.params ∧ st'.allocated ∧
      st'.outputs.vec ((net.nodes.size - 2 : Nat) : Int) =
        forward_in exp net.weights net.biases (st.outputs.vec INPUT_INDEX)
          (net.nodes.size - 1) := by
  obtain ⟨hnodes, hbs, hw, _, _⟩ := params_nodes st net hp
  have hsz : st.nodes.size = net.nodes.size := by rw [hnodes]
  obtain ⟨net1, hrun1, hfr1, hal1, _, hout1, _, _⟩ :=
    network_feed_forward_ok exp st 0 hal hb (by omega)
  have hfr1' := (outputs_zs_frame_iff net1 st).1 hfr1
  have hp1 : net1.params = st.params := by
    simp only [network_t.params, hfr1'.1, hfr1'.2.1, hfr1'.2.2.1, hfr1'.2.2.2.1,
      hfr1'.2.2.2.2.2.2.1, hfr1'.2.2.2.2.2.2.2.1]
  have hsz1 : net1.nodes.size = net.nodes.size := by rw [hfr1'.2.2.2.1, hnodes]
  obtain ⟨hidx, _⟩ := output_layer_index_eq net1 hal1 (by omega)
  rw [hsz1] at hidx
  obtain ⟨hread, _⟩ := tail_array_cell net1 hal1 net1.outputs 1 hal1.2.2.2.2.2.2.2.2
    (net.nodes.size - 2) (by omega)
  have hval := hout1 (net.nodes.size - 2) (by omega)
  rw [hw, hbs, show net.nodes.size - 2 + 1 = net.nodes.size - 1 by omega] at hval
  refine ⟨net1, ?_, hp1.trans hp, hal1, hval⟩
  unfold network_get_output
  rw [hrun1, ok_bind, hidx, hread, ok_bind, hval]
  rfl

theorem filter_range_succ (p : Nat → Bool) (i : Nat) :
    ((List.range (i + 1)).filter p).length =
      ((List.range i).filter p).length + (if p i then 1 else 0) := by
  rw [List.range_succ, List.filter_append]
  by_cases h : p i <;> simp [h]

theorem filter_range_le (p : Nat → Bool) (i : Nat) :
    ((List.range i).filter p).length ≤ i := by
  have := List.length_filter_le p (List.range i)
  simpa using this

/-- Evaluation of a laid-out network on a readable held-out partition: the call
succeeds and counts the samples whose label is the class found for their image. -/
theorem network_evaluate_test_data_ok (net : network_t R) (test_data : data_t R) (c0 : Nat)
    (h : net.allocated) (hL : 2 ≤ net.nodes.size) (hv : valid_test_data net test_data) :
    ∃ net', network_evaluate_test_data exp net test_data c0 = .ok (net',
        ((List.range test_data.items).filter (fun i => decide
          (gsl_vector_max_index (forward_in exp net.weights net.biases (test_data.image i)
            (net.nodes.size - 1)) = test_data.label i))).length) ∧
      net'.params = net.params ∧ net'.allocated := by
  obtain ⟨hm, himg, hlbl, hlen⟩ := hv
  obtain ⟨st', hrun, hst, hp, hal⟩ := for_range_inv
    (fun i (st : network_t R × Nat) => do
      let image ← load test_data.images.images i
      let outputs ← st.1.outputs.upd INPUT_INDEX image
      let (net, output) ← network_get_output exp { st.1 with outputs := outputs }
      let label ← load test_data.labels.labels i
      if output = label then pure (net, (st.2 + 1) % 2 ^ 32) else pure (net, st.2))
    (fun i st => st.2 = ((List.range i).filter (fun i => decide
        (gsl_vector_max_index (forward_in exp net.weights net.biases (test_data.image i)
          (net.nodes.size - 1)) = test_data.label i))).length ∧
      st.1.params = net.params ∧ st.1.allocated)
    test_data.items (net, 0) ⟨rfl, rfl, h⟩
    (by
      intro i st hi ⟨hc, hp, hal⟩
      obtain ⟨_, _, _, _, hlayer⟩ := params_nodes st.1 net hp
      have hi1 : i < test_data.images.images.length := by omega
      have hi2 : i < test_data.labels.labels.length := by omega
      have hload1 : load test_data.images.images (i : Int) = .ok (test_data.image i) :=
        load_ok _ _ i _ rfl (by
          simp [data_t.image, List.getD_eq_getElem?_getD, List.getElem?_eq_getElem hi1])
      have hload2 : load test_data.labels.labels (i : Int) = .ok (test_data.label i) :=
        load_ok _ _ i _ rfl (by
          simp [data_t.label, List.getD_eq_getElem?_getD, List.getElem?_eq_getElem hi2])
      obtain ⟨hupd, halb, hbb, hvec⟩ := bind_input_ok st.1 (test_data.image i) hal
        (by rw [hlayer]; exact hlen i hi)
      obtain ⟨st', hget, hp', hal', _⟩ := network_get_output_ok exp
        { st.1 with outputs := { st.1.outputs with
            data := st.1.outputs.data.set 0 (test_data.image i) } } net hp halb hbb hL
      rw [show ({ st.1 with outputs := { st.1.outputs with
            data := st.1.outputs.data.set 0 (test_data.image i) } } : network_t R).outputs.vec
          INPUT_INDEX = test_data.image i from hvec] at hget
      have hcle := filter_range_le (fun i => decide
        (gsl_vector_max_index (forward_in exp net.weights net.biases (test_data.image i)
          (net.nodes.size - 1)) = test_data.label i)) i
      by_cases hcorrect : gsl_vector_max_index (forward_in exp net.weights net.biases
          (test_data.image i) (net.nodes.size - 1)) = test_data.label i
      · refine ⟨(st', (st.2 + 1) % 2 ^ 32), ?_, ?_, hp', hal'⟩
        · show (load test_data.images.images (i : Int) >>= fun image => _) = _
          rw [hload1, ok_bind, hupd, ok_bind, hget, ok_bind]
          show (load test_data.labels.labels (i : Int) >>= fun label => _) = _
          rw [hload2, ok_bind, if_pos hcorrect]
          rfl
        · show (st.2 + 1) % 2 ^ 32 = _
          rw [filter_range_succ, ← hc, Nat.mod_eq_of_lt (by rw [hc]; omega)]
          simp [hcorrect]
      · refine ⟨(st', st.2), ?_, ?_, hp', hal'⟩
        · show (load test_data.images.images (i : Int) >>= fun image => _) = _
          rw [hload1, ok_bind, hupd, ok_bind, hget, ok_bind]
          show (load test_data.labels.labels (i : Int) >>= fun label => _) = _
          rw [hload2, ok_bind, if_neg hcorrect]
          rfl
        · show st.2 = _
          rw [filter_range_succ, ← hc]
          simp [hcorrect])
  refine ⟨st'.1, ?_, hp, hal⟩
  unfold network_evaluate_test_data
  rw [hrun, ← hst]

/-- What the scan of `gsl_vector_max_index` returns once `pre` has been visited and
`xs` is still to come: a position of a largest entry, with only smaller entries before
it. -/
theorem max_index_scan_spec (v pre xs : List R) (hv : v = pre ++ xs) (max : R) (imax : Nat)
    (h1 : ∀ j, j < pre.length → v.getD j 0 ≤ max) (h2 : ∀ j, j < imax → v.getD j 0 < max)
    (h3 : v.getD imax 0 = max) (h5 : imax ≤ pre.length) :
    (∀ j, j < v.length → v.getD j 0 ≤ v.getD (max_index_scan xs pre.length max imax) 0) ∧
      (∀ j, j < max_index_scan xs pre.length max imax →
        v.getD j 0 < v.getD (max_index_scan xs pre.length max imax) 0) := by
  induction xs generalizing pre max imax with
  | nil =>
    simp only [max_index_scan]
    rw [h3]
    refine ⟨fun j hj => h1 j (by simpa [hv] using hj), h2⟩
  | cons x xs ih =>
    have hx : v.getD pre.length 0 = x := by
      rw [hv, List.getD_eq_getElem?_getD, List.getElem?_append_right (le_refl _)]
      simp
    have hv' : v = (pre ++ [x]) ++ xs := by simp [hv]
    have hlen : (pre ++ [x]).length = pre.length + 1 := by simp
    unfold max_index_scan
    by_cases hlt : max < x
    · rw [if_pos hlt]
      have := ih (pre ++ [x]) hv' x pre.length
        (fun j hj => by
          rw [hlen] at hj
          by_cases hjp : j < pre.length
          · exact le_of_lt (lt_of_le_of_lt (h1 j hjp) hlt)
          · have : j = pre.length := by omega
            rw [this, hx])
        (fun j hj => lt_of_le_of_lt (h1 j hj) hlt) hx (by rw [hlen]; omega)
      rw [hlen] at this
      exact this
    · rw [if_neg hlt]
      have := ih (pre ++ [x]) hv' max imax
        (fun j hj => by
          rw [hlen] at hj
          by_cases hjp : j < pre.length
          · exact h1 j hjp
          · have : j = pre.length := by omega
            rw [this, hx]
            exact not_lt.mp hlt)
        h2 h3 (by rw [hlen]; omega)
      rw [hlen] at this
      exact this

/-- The position `gsl_vector_max_index` returns holds a largest entry, and every entry
before it is smaller. -/
theorem gsl_vector_max_index_spec (v : gsl_vector R) :
    (∀ j, j < v.length → v.getD j 0 ≤ v.getD (gsl_vector_max_index v) 0) ∧
      (∀ j, j < gsl_vector_max_index v → v.getD j 0 < v.getD (gsl_vector_max_index v) 0) := by
  have := max_index_scan_spec v [] v rfl (v.headD 0) 0
    (fun j hj => absurd hj (Nat.not_lt_zero j)) (fun j hj => absurd hj (Nat.not_lt_zero j))
    (by cases v <;> simp) (le_refl _)
  exact this

end Evaluation

section EvaluationClaims

variable {R : Type} [LinearOrderedField R] (exp : R → R)

theorem bind_input_eq (net : network_t R) (image : gsl_vector R) (h : net.allocated)
    (hlen : image.length = net.layer 0) :
    net.bind_input image =
      { net with outputs := { net.outputs with data := net.outputs.data.set 0 image } } := by
  obtain ⟨hupd, _⟩ := bind_input_ok net image h hlen
  unfold network_t.bind_input
  rw [hupd]

/-- C10: on a laid-out network with `L ≥ 2` layers and a held-out partition of `m`
readable samples, `network_evaluate_test_data` succeeds and sets the result to the
number of indices `i < m` whose label equals the class `p i` predicted by a forward
pass on image `i`: `network_feed_forward` on the network on entry with image `i` bound
returns, with the weights and biases on entry and image `i` still in the input slot,
its last layer `outputs[L - 2]` is the activation of the last layer for image `i`, and
`p i` is `gsl_vector_max_index` of that vector, the lowest index of a largest
entry; `p i` is also what `network_get_output` reports for image `i`.  The result is at
most `m` and the same whatever the counter held before the call. -/
theorem network_evaluate_test_data_counts (net : network_t R) (test_data : data_t R)
    (c0 : Nat) (h : net.allocated) (hL : 2 ≤ net.nodes.size)
    (hv : valid_test_data net test_data) :
    ∃ (net' : network_t R) (p : Nat → Nat),
      network_evaluate_test_data exp net test_data c0 = .ok (net',
        ((List.range test_data.items).filter
          (fun i => decide (p i = test_data.label i))).length) ∧
      (∀ i, i < test_data.items → ∃ nf,
        network_feed_forward exp (net.bind_input (test_data.image i)) 0 = .ok nf ∧
        nf.weights = net.weights ∧ nf.biases = net.biases ∧
        nf.outputs.vec INPUT_INDEX = test_data.image i ∧
        nf.outputs.vec ((net.nodes.size - 2 : Nat) : Int) =
          forward_in exp net.weights net.biases (test_data.image i) (net.nodes.size - 1) ∧
        (nf.outputs.vec ((net.nodes.size - 2 : Nat) : Int)).length =
          net.layer (net.nodes.size - 1) ∧
        p i = gsl_vector_max_index (nf.outputs.vec ((net.nodes.size - 2 : Nat) : Int)) ∧
        (∀ j, j < net.layer (net.nodes.size - 1) →
          (nf.outputs.vec ((net.nodes.size - 2 : Nat) : Int)).getD j 0 ≤
            (nf.outputs.vec ((net.nodes.size - 2 : Nat) : Int)).getD (p i) 0) ∧
        (∀ j, j < p i →
          (nf.outputs.vec ((net.nodes.size - 2 : Nat) : Int)).getD j 0 <
            (nf.outputs.vec ((net.nodes.size - 2 : Nat) : Int)).getD (p i) 0)) ∧
      (∀ i, i < test_data.items → ∃ neti,
        network_get_output exp (net.bind_input (test_data.image i)) = .ok (neti, p i) ∧
        neti.outputs.vec ((net.nodes.size - 2 : Nat) : Int) =
          forward_in exp net.weights net.biases (test_data.image i) (net.nodes.size - 1) ∧
        (∀ j, j < net.layer (net.nodes.size - 1) →
          (neti.outputs.vec ((net.nodes.size - 2 : Nat) : Int)).getD j 0 ≤
            (neti.outputs.vec ((net.nodes.size - 2 : Nat) : Int)).getD (p i) 0) ∧
        (∀ j, j < p i →
          (neti.outputs.vec ((net.nodes.size - 2 : Nat) : Int)).getD j 0 <
            (neti.outputs.vec ((net.nodes.size - 2 : Nat) : Int)).getD (p i) 0)) ∧
      ((List.range test_data.items).filter
        (fun i => decide (p i = test_data.label i))).length ≤ test_data.items ∧
      ∀ c1, network_evaluate_test_data exp net test_data c1 =
        network_evaluate_test_data exp net test_data c0 := by
  obtain ⟨net', hrun, _, _⟩ := network_evaluate_test_data_ok exp net test_data c0 h hL hv
  refine ⟨net', fun i => gsl_vector_max_index (forward_in exp net.weights net.biases
    (test_data.image i) (net.nodes.size - 1)), hrun, ?_, ?_, filter_range_le _ _,
    fun _ => rfl⟩
  · intro i hi
    have hlen := hv.2.2.2 i hi
    obtain ⟨_, halb, hbb, hvec⟩ := bind_input_ok net (test_data.image i) h hlen
    obtain ⟨nf, hrunf, hframe, half, hin, hout, _⟩ := network_feed_forward_ok exp
      { net with outputs := { net.outputs with
          data := net.outputs.data.set 0 (test_data.image i) } } 0 halb hbb
      (by show 1 ≤ net.nodes.size; omega)
    have hfr := (outputs_zs_frame_iff nf _).1 hframe
    have hnodes : nf.nodes = net.nodes := hfr.2.2.2.1
    have hlast : net.nodes.size - 2 + 1 = net.nodes.size - 1 := by omega
    have hval : nf.outputs.vec ((net.nodes.size - 2 : Nat) : Int) =
        forward_in exp net.weights net.biases (test_data.image i) (net.nodes.size - 1) := by
      have := hout (net.nodes.size - 2) (by show net.nodes.size - 2 + 1 < net.nodes.size; omega)
      rw [hvec, hlast] at this
      exact this
    obtain ⟨_, hvlen, _⟩ := tail_array_cell nf half nf.outputs 1 half.2.2.2.2.2.2.2.2
      (net.nodes.size - 2) (by rw [hnodes]; omega)
    have hlayer : nf.layer (net.nodes.size - 2 + 1) = net.layer (net.nodes.size - 1) := by
      unfold network_t.layer
      rw [hnodes, hlast]
    rw [hlayer] at hvlen
    obtain ⟨m1, m2⟩ := gsl_vector_max_index_spec (forward_in exp net.weights net.biases
      (test_data.image i) (net.nodes.size - 1))
    refine ⟨nf, ?_, hfr.2.2.2.2.2.2.2.1, hfr.2.2.2.2.2.2.1, hin.trans hvec, hval, hvlen,
      by rw [hval], ?_, ?_⟩
    · rw [bind_input_eq net _ h hlen]
      exact hrunf
    · intro j hj
      rw [hval]
      exact m1 j (by rw [← hval, hvlen]; exact hj)
    · intro j hj
      rw [hval]
      exact m2 j hj
  · intro i hi
    have hlen := hv.2.2.2 i hi
    obtain ⟨_, halb, hbb, hvec⟩ := bind_input_ok net (test_data.image i) h hlen
    obtain ⟨neti, hget, hp, hal, hval⟩ := network_get_output_ok exp
      { net with outputs := { net.outputs with
          data := net.outputs.data.set 0 (test_data.image i) } } net rfl halb hbb hL
    rw [show ({ net with outputs := { net.outputs with
          data := net.outputs.data.set 0 (test_data.image i) } } : network_t R).outputs.vec
        INPUT_INDEX = test_data.image i from hvec] at hget hval
    obtain ⟨hnodes, _, _, _, hlayer⟩ := params_nodes neti net hp
    obtain ⟨_, hvlen, _⟩ := tail_array_cell neti hal neti.outputs 1 hal.2.2.2.2.2.2.2.2
      (net.nodes.size - 2) (by rw [hnodes]; omega)
    rw [hlayer, show net.nodes.size - 2 + 1 = net.nodes.size - 1 by omega, hval] at hvlen
    obtain ⟨m1, m2⟩ := gsl_vector_max_index_spec (forward_in exp net.weights net.biases
      (test_data.image i) (net.nodes.size - 1))
    refine ⟨neti, ?_, hval, ?_, ?_⟩
    · rw [bind_input_eq net _ h hlen]
      exact hget
    · intro j hj
      rw [hval]
      exact m1 j (by rw [hvlen]; exact hj)
    · intro j hj
      rw [hval]
      exact m2 j hj

end EvaluationClaims

/-- C10 at the 2-3-2 test network and its three test samples, over the reals, with a
counter that held 55: the hypotheses hold, the count is the number of samples whose
label is the lowest index of a largest output of the forward pass on their image, and
it is at most 3. -/
theorem network_evaluate_test_data_counts_witness :
    ((training_fixture_network ℝ).allocated ∧ 2 ≤ (training_fixture_network ℝ).nodes.size ∧
      valid_test_data (training_fixture_network ℝ) (training_fixture_data ℝ)) ∧
    ∃ (net' : network_t ℝ) (p : Nat → Nat),
      network_evaluate_test_data Real.exp (training_fixture_network ℝ)
        (training_fixture_data ℝ) 55 = .ok (net',
          ((List.range (training_fixture_data ℝ).items).filter
            (fun i => decide (p i = (training_fixture_data ℝ).label i))).length) ∧
      (∀ i, i < 3 → ∃ nf, network_feed_forward Real.exp
          ((training_fixture_network ℝ).bind_input ((training_fixture_data ℝ).image i)) 0 =
            .ok nf ∧
        nf.weights = (training_fixture_network ℝ).weights ∧
        p i = gsl_vector_max_index (nf.outputs.vec 1)) ∧
      ((List.range (training_fixture_data ℝ).items).filter
        (fun i => decide (p i = (training_fixture_data ℝ).label i))).length ≤ 3 := by
  refine ⟨by decide, ?_⟩
  obtain ⟨net', p, hrun, hfw, _, hle, _⟩ := network_evaluate_test_data_counts Real.exp
    (training_fixture_network ℝ) (training_fixture_data ℝ) 55 (by decide) (by decide)
    (by decide)
  refine ⟨net', p, hrun, fun i hi => ?_, hle⟩
  obtain ⟨nf, h1, h2, _, _, _, _, h7, _⟩ := hfw i hi
  exact ⟨nf, h1, h2, h7⟩

/-! ## The sigmoid over the reals -/

theorem sigmoid_real_pos (z : ℝ) : 0 < sigmoid Real.exp z := by
  unfold sigmoid
  have := Real.exp_pos (-z)
  positivity

theorem sigmoid_real_lt_one (z : ℝ) : sigmoid Real.exp z < 1 := by
  unfold sigmoid
  have := Real.exp_pos (-z)
  rw [div_lt_one (by positivity)]
  linarith

theorem sigmoid_real_lt (x y : ℝ) (h : x < y) : sigmoid Real.exp x < sigmoid Real.exp y := by
  unfold sigmoid
  have hx := Real.exp_pos (-x)
  have hy := Real.exp_pos (-y)
  have hlt : Real.exp (-y) < Real.exp (-x) := Real.exp_lt_exp.mpr (by linarith)
  exact one_div_lt_one_div_of_lt (by positivity) (by linarith)

/-- The exponential of 9999 is large. -/
theorem exp_big : (10 : ℝ) ^ 7 < Real.exp 9999 := by
  have h := Real.quadratic_le_exp_of_nonneg (x := 9999) (by norm_num)
  refine lt_of_lt_of_le ?_ h
  norm_num

theorem sigmoid_big_bounds :
    1 - 1 / 10 ^ 7 < sigmoid Real.exp 9999 ∧ sigmoid Real.exp (-9999) < 1 / 10 ^ 7 := by
  have hbig := exp_big
  have hpos : 0 < Real.exp 9999 := Real.exp_pos _
  constructor
  · unfold sigmoid
    rw [Real.exp_neg, lt_div_iff₀ (by positivity)]
    have hinv : (Real.exp 9999)⁻¹ < 1 / 10 ^ 7 := by
      rw [inv_eq_one_div]
      exact one_div_lt_one_div_of_lt (by norm_num) hbig
    have hinv0 : 0 < (Real.exp 9999)⁻¹ := inv_pos.mpr hpos
    nlinarith
  · unfold sigmoid
    rw [neg_neg]
    exact lt_trans (one_div_lt_one_div_of_lt hpos (by linarith))
      (one_div_lt_one_div_of_lt (by norm_num) hbig)

theorem sigmoid_prime_big_bounds :
    sigmoid_prime Real.exp 9999 < 1 / 10 ^ 7 ∧ sigmoid_prime Real.exp (-9999) < 1 / 10 ^ 7 ∧
      0 < sigmoid_prime Real.exp 9999 ∧ 0 < sigmoid_prime Real.exp (-9999) := by
  obtain ⟨h1, h2⟩ := sigmoid_big_bounds
  have p1 := sigmoid_real_pos 9999
  have p2 := sigmoid_real_pos (-9999)
  have l1 := sigmoid_real_lt_one 9999
  have l2 := sigmoid_real_lt_one (-9999)
  refine ⟨?_, ?_, ?_, ?_⟩
  · show sigmoid Real.exp 9999 * (1 - sigmoid Real.exp 9999) < _
    nlinarith
  · show sigmoid Real.exp (-9999) * (1 - sigmoid Real.exp (-9999)) < _
    nlinarith
  · show 0 < sigmoid Real.exp 9999 * (1 - sigmoid Real.exp 9999)
    exact mul_pos p1 (by linarith)
  · show 0 < sigmoid Real.exp (-9999) * (1 - sigmoid Real.exp (-9999))
    exact mul_pos p2 (by linarith)

/-- C16: with the real exponential, `sigmoid 0` is exactly 1/2 and `sigmoid_prime 0`
exactly 1/4, where `sigmoid z = 1 / (1 + exp (-z))` and
`sigmoid_prime z = sigmoid z * (1 - sigmoid z)`. -/
theorem sigmoid_zero_exact :
    sigmoid Real.exp 0 = 1 / 2 ∧ sigmoid_prime Real.exp 0 = 1 / 4 ∧
      (∀ z : ℝ, sigmoid Real.exp z = 1 / (1 + Real.exp (-z))) ∧
      (∀ z : ℝ, sigmoid_prime Real.exp z = sigmoid Real.exp z * (1 - sigmoid Real.exp z)) := by
  have h : sigmoid Real.exp 0 = 1 / 2 := by
    unfold sigmoid
    rw [neg_zero, Real.exp_zero]
    norm_num
  refine ⟨h, ?_, fun _ => rfl, fun _ => rfl⟩
  show sigmoid Real.exp 0 * (1 - sigmoid Real.exp 0) = 1 / 4
  rw [h]
  norm_num

/-- C17: with the real exponential `sigmoid` is strictly increasing: `x < y` gives
`sigmoid x < sigmoid y`. -/
theorem sigmoid_strictly_increasing (x y : ℝ) (h : x < y) :
    sigmoid Real.exp x < sigmoid Real.exp y :=
  sigmoid_real_lt x y h

/-- C17 at `x = 0`, `y = 1`. -/
theorem sigmoid_strictly_increasing_witness :
    (0 : ℝ) < 1 ∧ sigmoid Real.exp 0 < sigmoid Real.exp 1 :=
  ⟨by norm_num, sigmoid_strictly_increasing 0 1 (by norm_num)⟩

/-- C18: with the real exponential `sigmoid` tends to 1 at plus infinity and to 0 at
minus infinity, and `sigmoid_prime` tends to 0 at both; at `±9999` the values are
within `10⁻⁵` of these limits. -/
theorem sigmoid_saturates :
    Filter.Tendsto (sigmoid Real.exp) Filter.atTop (nhds 1) ∧
    Filter.Tendsto (sigmoid Real.exp) Filter.atBot (nhds 0) ∧
    Filter.Tendsto (sigmoid_prime Real.exp) Filter.atTop (nhds 0) ∧
    Filter.Tendsto (sigmoid_prime Real.exp) Filter.atBot (nhds 0) ∧
    |sigmoid Real.exp 9999 - 1| < 1 / 10 ^ 5 ∧ |sigmoid Real.exp (-9999)| < 1 / 10 ^ 5 ∧
    |sigmoid_prime Real.exp 9999| < 1 / 10 ^ 5 ∧
    |sigmoid_prime Real.exp (-9999)| < 1 / 10 ^ 5 := by
  have htop : Filter.Tendsto (sigmoid Real.exp) Filter.atTop (nhds 1) := by
    have h1 : Filter.Tendsto (fun z : ℝ => 1 + Real.exp (-z)) Filter.atTop (nhds (1 + 0)) :=
      Filter.Tendsto.const_add 1 Real.tendsto_exp_neg_atTop_nhds_zero
    have h2 := Filter.Tendsto.div (tendsto_const_nhds (x := (1 : ℝ))) h1 (by norm_num)
    simpa [sigmoid] using h2
  have hbot : Filter.Tendsto (sigmoid Real.exp) Filter.atBot (nhds 0) := by
    have h1 : Filter.Tendsto (fun z : ℝ => Real.exp (-z)) Filter.atBot Filter.atTop :=
      Real.tendsto_exp_atTop.comp Filter.tendsto_neg_atBot_atTop
    have h2 : Filter.Tendsto (fun z : ℝ => 1 + Real.exp (-z)) Filter.atBot Filter.atTop :=
      Filter.tendsto_atTop_add_const_left _ 1 h1
    have h3 := h2.inv_tendsto_atTop
    refine h3.congr (fun z => ?_)
    simp [sigmoid]
  have hptop : Filter.Tendsto (sigmoid_prime Real.exp) Filter.atTop (nhds 0) := by
    have h := htop.mul ((tendsto_const_nhds (x := (1 : ℝ))).sub htop)
    simpa [sigmoid_prime] using h
  have hpbot : Filter.Tendsto (sigmoid_prime Real.exp) Filter.atBot (nhds 0) := by
    have h := hbot.mul ((tendsto_const_nhds (x := (1 : ℝ))).sub hbot)
    simpa [sigmoid_prime] using h
  obtain ⟨b1, b2⟩ := sigmoid_big_bounds
  obtain ⟨b3, b4, b5, b6⟩ := sigmoid_prime_big_bounds
  have p2 := sigmoid_real_pos (-9999)
  have l1 := sigmoid_real_lt_one 9999
  refine ⟨htop, hbot, hptop, hpbot, ?_, ?_, ?_, ?_⟩
  · rw [abs_lt]
    constructor <;> norm_num at b1 ⊢ <;> linarith
  · rw [abs_lt]
    constructor <;> norm_num at b2 ⊢ <;> linarith
  · rw [abs_lt]
    constructor <;> norm_num at b3 ⊢ <;> linarith
  · rw [abs_lt]
    constructor <;> norm_num at b4 ⊢ <;> linarith

section Elementwise

variable {R : Type} [LinearOrderedField R]

/-- C13: for an activation vector `a`, a destination of the same length and a label
`y < a.length`, `cost_derivative` succeeds and returns `r` of the length of `a` with
`r[y] = a[y] - 1` and `r[j] = a[j]` at every other index; `a` itself is an input that
the run does not return changed. -/
theorem cost_derivative_subtracts_one (a cd : gsl_vector R) (y : Nat)
    (hcd : cd.length = a.length) (hy : y < a.length) :
    ∃ r, cost_derivative a y cd = .ok r ∧ r.length = a.length ∧
      r.getD y 0 = a.getD y 0 - 1 ∧
      ∀ j, j < a.length → j ≠ y → r.getD j 0 = a.getD j 0 := by
  refine ⟨cost_gradient a y, cost_derivative_ok a cd y hcd hy, cost_gradient_length a y, ?_, ?_⟩
  · rw [cost_gradient_getD a y y hy, if_pos rfl]
  · intro j hj hne
    rw [cost_gradient_getD a y j hj, if_neg hne, sub_zero]

/-- C13 on the activations `[0, 1/10, 0, 9/10]` with label 3: the result is
`[0, 1/10, 0, -1/10]`. -/
theorem cost_derivative_subtracts_one_witness :
    cost_derivative ([0, 1 / 10, 0, 9 / 10] : gsl_vector ℚ) 3 [0, 0, 0, 0]
        = .ok [0, 1 / 10, 0, -1 / 10] ∧
      ∃ r, cost_derivative ([0, 1 / 10, 0, 9 / 10] : gsl_vector ℚ) 3 [0, 0, 0, 0] = .ok r ∧
        r.length = ([0, 1 / 10, 0, 9 / 10] : gsl_vector ℚ).length ∧
        r.getD 3 0 = ([0, 1 / 10, 0, 9 / 10] : gsl_vector ℚ).getD 3 0 - 1 ∧
        ∀ j, j < ([0, 1 / 10, 0, 9 / 10] : gsl_vector ℚ).length → j ≠ 3 →
          r.getD j 0 = ([0, 1 / 10, 0, 9 / 10] : gsl_vector ℚ).getD j 0 :=
  ⟨(cost_derivative_ok ([0, 1 / 10, 0, 9 / 10] : gsl_vector ℚ) [0, 0, 0, 0] 3 rfl
      (by decide)).trans (by norm_num [cost_gradient]),
   cost_derivative_subtracts_one [0, 1 / 10, 0, 9 / 10] [0, 0, 0, 0] 3 rfl (by decide)⟩

/-- C15: `vector_vectorise vec func` keeps the length of `vec` and its entry `i` is
`func` applied to entry `i` of `vec`, for every `i`. -/
theorem vector_vectorise_applies (vec : gsl_vector R) (func : R → R) :
    (vector_vectorise vec func).length = vec.length ∧
      ∀ i : Nat, (vector_vectorise vec func)[i]? = (vec[i]?).map func := by
  rw [vector_vectorise_eq_map]
  exact ⟨List.length_map _ _, fun i => List.getElem?_map _ _ _⟩

/-- C15 with the sigmoid on `[0, 9999, -9999]`: three entries, the first exactly 1/2,
the second within `10⁻⁵` of 1 and the third within `10⁻⁵` of 0. -/
theorem vector_vectorise_applies_witness :
    (vector_vectorise ([0, 9999, -9999] : gsl_vector ℝ) (sigmoid Real.exp)).length = 3 ∧
      (vector_vectorise ([0, 9999, -9999] : gsl_vector ℝ) (sigmoid Real.exp))[0]?
        = some (1 / 2) ∧
      (∃ b, (vector_vectorise ([0, 9999, -9999] : gsl_vector ℝ) (sigmoid Real.exp))[1]?
        = some b ∧ |b - 1| < 1 / 10 ^ 5) ∧
      (∃ c, (vector_vectorise ([0, 9999, -9999] : gsl_vector ℝ) (sigmoid Real.exp))[2]?
        = some c ∧ |c| < 1 / 10 ^ 5) := by
  obtain ⟨hlen, hget⟩ := vector_vectorise_applies ([0, 9999, -9999] : gsl_vector ℝ)
    (sigmoid Real.exp)
  obtain ⟨b1, b2⟩ := sigmoid_big_bounds
  have p2 := sigmoid_real_pos (-9999)
  have l1 := sigmoid_real_lt_one 9999
  refine ⟨hlen, ?_, ⟨sigmoid Real.exp 9999, hget 1, ?_⟩, ⟨sigmoid Real.exp (-9999), hget 2, ?_⟩⟩
  · rw [hget 0]
    show some (sigmoid Real.exp 0) = _
    unfold sigmoid
    rw [neg_zero, Real.exp_zero]
    norm_num
  · rw [abs_lt]
    constructor <;> norm_num at b1 ⊢ <;> linarith
  · rw [abs_lt]
    constructor <;> norm_num at b2 ⊢ <;> linarith

end Elementwise

/-! ## Output selection, the evaluation frame and the caching flag -/

theorem max_index_scan_range {R : Type} [LinearOrderedField R] (xs : List R) (i : Nat)
    (max : R) (imax : Nat) :
    max_index_scan xs i max imax = imax ∨
      (i ≤ max_index_scan xs i max imax ∧ max_index_scan xs i max imax < i + xs.length) := by
  induction xs generalizing i max imax with
  | nil => exact Or.inl rfl
  | cons x xs ih =>
    unfold max_index_scan
    by_cases hlt : max < x
    · rw [if_pos hlt]
      rcases ih (i + 1) x i with h | h
      · right
        rw [h]
        simp
      · right
        simp only [List.length_cons]
        omega
    · rw [if_neg hlt]
      rcases ih (i + 1) max imax with h | h
      · exact Or.inl h
      · right
        simp only [List.length_cons]
        omega

theorem gsl_vector_max_index_lt {R : Type} [LinearOrderedField R] (v : gsl_vector R)
    (hv : 0 < v.length) : gsl_vector_max_index v < v.length := by
  unfold gsl_vector_max_index
  rcases max_index_scan_range v 0 (v.headD 0) 0 with h | h
  · rw [h]
    exact hv
  · omega

theorem outputs_frame_iff {R : Type} (st net : network_t R) :
    st = { net with outputs := st.outputs } ↔
      st.eta = net.eta ∧ st.epochs = net.epochs ∧
      st.mini_batch_size = net.mini_batch_size ∧ st.nodes = net.nodes ∧ st.zs = net.zs ∧
      st.nabla_b = net.nabla_b ∧ st.output_delta = net.output_delta ∧
      st.biases = net.biases ∧ st.weights = net.weights ∧ st.nabla_w = net.nabla_w := by
  cases st
  cases net
  simp only [network_t.mk.injEq, true_and]

/-! ## Partition of the dataset -/

theorem to_uint32_natCast (n : Nat) (h : n < 2 ^ 32) : to_uint32 (n : Int) = n := by
  unfold to_uint32
  have : ((n : Int) % 2 ^ 32) = (n : Int) := Int.emod_eq_of_lt (by omega) (by omega)
  rw [this]
  exact Int.toNat_ofNat n

theorem u32_sub_le (a b : Nat) (ha : a < 2 ^ 32) (hb : b ≤ a) : u32_sub a b = a - b := by
  unfold u32_sub
  rw [Nat.mod_eq_of_lt (by omega : b < 2 ^ 32)]
  omega

/-- The run of `partition_data` on a dataset whose `num_images` is `n` with a held-out
size below `n`. -/
theorem partition_data_ok {R : Type} (data test_data : data_t R) (n k : Nat)
    (hn : data.images.num_images = (n : Int)) (hn32 : n < 2 ^ 32) (hk : k < n) :
    partition_data data test_data k = .ok
      ({ data with items := n - k },
       { labels := { test_data.labels with labels := data.labels.labels.drop (n - k) },
         images := { test_data.images with images := data.images.images.drop (n - k) },
         items := k }) := by
  unfold partition_data
  rw [hn, to_uint32_natCast n hn32, u32_sub_le n k hn32 (le_of_lt hk)]
  simp only [gt_iff_lt, not_lt]
  rw [if_neg (by omega)]
  rfl

/-- C20: for a dataset of `n` samples (`num_images = n`, `n` images and `n` labels) and a
held-out size `k < n`, `partition_data` succeeds, sets the training count to `n - k`
and the held-out count to `k`, leaves the training struct pointing at the same images
and labels, and makes the held-out view the suffix from `n - k` on: held-out image and
label `i` are the original ones at `n - k + i` for `i < k`, and the first `n - k`
samples followed by the held-out view are the dataset. -/
theorem partition_data_suffix {R : Type} (data test_data : data_t R) (n k : Nat)
    (hn : data.images.num_images = (n : Int)) (hn32 : n < 2 ^ 31)
    (himg : data.images.images.length = n) (hlbl : data.labels.labels.length = n)
    (hk : k < n) :
    ∃ d t, partition_data data test_data k = .ok (d, t) ∧
      d.items = n - k ∧ t.items = k ∧
      d.images = data.images ∧ d.labels = data.labels ∧
      t.images.images = data.images.images.drop (n - k) ∧
      t.labels.labels = data.labels.labels.drop (n - k) ∧
      t.images.images.length = k ∧ t.labels.labels.length = k ∧
      (∀ i, i < k → t.images.images[i]? = data.images.images[n - k + i]? ∧
        t.labels.labels[i]? = data.labels.labels[n - k + i]?) ∧
      d.images.images.take d.items ++ t.images.images = data.images.images ∧
      d.labels.labels.take d.items ++ t.labels.labels = data.labels.labels := by
  refine ⟨_, _, partition_data_ok data test_data n k hn (by omega) hk, rfl, rfl, rfl, rfl,
    rfl, rfl, ?_, ?_, ?_, ?_, ?_⟩
  · show (data.images.images.drop (n - k)).length = k
    rw [List.length_drop, himg]
    omega
  · show (data.labels.labels.drop (n - k)).length = k
    rw [List.length_drop, hlbl]
    omega
  · intro i _
    exact ⟨List.getElem?_drop _ _ _, List.getElem?_drop _ _ _⟩
  · exact List.take_append_drop _ _
  · exact List.take_append_drop _ _

/-- C20 on five samples with two held out: the training count is 3, the held-out view
is samples 3 and 4. -/
theorem partition_data_suffix_witness :
    partition_data partition_fixture_data partition_fixture_test_data 2 = .ok
      ({ partition_fixture_data with items := 3 },
       { labels := { magic_num := 7, num_labels := 7, labels := [3, 4] },
         images := { magic_num := 7, num_images := 7, rows := 7, cols := 7,
                     images := [[13], [14]] },
         items := 2 }) ∧
    ∃ d t, partition_data partition_fixture_data partition_fixture_test_data 2 = .ok (d, t) ∧
      d.items = 5 - 2 ∧ t.items = 2 ∧
      d.images = partition_fixture_data.images ∧ d.labels = partition_fixture_data.labels ∧
      t.images.images = partition_fixture_data.images.images.drop (5 - 2) ∧
      t.labels.labels = partition_fixture_data.labels.labels.drop (5 - 2) ∧
      t.images.images.length = 2 ∧ t.labels.labels.length = 2 ∧
      (∀ i, i < 2 → t.images.images[i]? = partition_fixture_data.images.images[5 - 2 + i]? ∧
        t.labels.labels[i]? = partition_fixture_data.labels.labels[5 - 2 + i]?) ∧
      d.images.images.take d.items ++ t.images.images = partition_fixture_data.images.images ∧
      d.labels.labels.take d.items ++ t.labels.labels = partition_fixture_data.labels.labels :=
  ⟨rfl, partition_data_suffix partition_fixture_data partition_fixture_test_data 5 2 rfl
    (by norm_num) rfl rfl (by norm_num)⟩

/-! ## Allocation -/

theorem lor_eq_zero (a b : Nat) (h : a ||| b = 0) : a = 0 ∧ b = 0 := by
  have hb : ∀ i, (a.testBit i || b.testBit i) = false := by
    intro i
    rw [← Nat.testBit_or, h, Nat.zero_testBit]
  constructor
  · apply Nat.eq_of_testBit_eq
    intro i
    have := hb i
    rw [Nat.zero_testBit]
    cases h1 : a.testBit i <;> simp_all
  · apply Nat.eq_of_testBit_eq
    intro i
    have := hb i
    rw [Nat.zero_testBit]
    cases h1 : b.testBit i <;> simp_all

theorem malloc_some {α : Type} (n : Nat) (junk : Nat → α) :
    malloc n (some junk) = some ((List.range n).map junk) := rfl

section Allocation

variable {R : Type} [LinearOrderedField R]

/-- The loop of `vector_array_allocate` over a block of `n + o` cells: it succeeds and
cell `j + o` holds a vector of size `dims[j]` for every `j < n`. -/
theorem vector_alloc_loop_ok (dims : List Nat) (o n : Nat) (a : vector_array_t R)
    (hoff : a.offset = o) (hlen : a.data.length = n + o) (hd : n ≤ dims.length) :
    ∃ a', for_range (fun i (array : vector_array_t R) => do
        let n ← load dims i
        array.upd i (gsl_vector_alloc n)) n a = .ok a' ∧
      a'.size = a.size ∧ a'.offset = o ∧ a'.data.length = n + o ∧
      ∀ j, j < n → a'.data[j + o]? = some (gsl_vector_alloc (dims.getD j 0)) := by
  refine for_range_inv _ (fun i (st : vector_array_t R) => st.size = a.size ∧ st.offset = o ∧
    st.data.length = n + o ∧
    ∀ j, j < i → st.data[j + o]? = some (gsl_vector_alloc (dims.getD j 0))) n a
    ⟨rfl, hoff, hlen, fun j hj => absurd hj (Nat.not_lt_zero j)⟩ ?_
  intro i st hi ⟨hs, ho, hl, hcells⟩
  have hload : load dims (i : Int) = .ok (dims.getD i 0) :=
    load_ok _ _ i _ rfl (by
      simp [List.getD_eq_getElem?_getD, List.getElem?_eq_getElem (show i < dims.length by omega)])
  have hupd := vector_array_upd_ok st (i : Int) (i + o) (gsl_vector_alloc (dims.getD i 0))
    (by rw [ho]; push_cast; ring) (by omega)
  refine ⟨{ st with data := st.data.set (i + o) (gsl_vector_alloc (dims.getD i 0)) }, ?_, hs,
    ho, by simpa using hl, ?_⟩
  · show (load dims (i : Int) >>= fun n => _) = _
    rw [hload, ok_bind]
    exact hupd
  · intro j hj
    show (st.data.set (i + o) _)[j + o]? = _
    by_cases hji : j = i
    · subst hji
      rw [List.getElem?_set_self (by omega)]
    · rw [List.getElem?_set_ne (by omega)]
      exact hcells j (by omega)

/-- The loop of `matrix_array_allocate` over a block of `n` cells: it succeeds and cell
`j` holds a `dims[j + 1]` by `dims[j]` matrix for every `j < n`. -/
theorem matrix_alloc_loop_ok (dims : List Nat) (n : Nat) (a : matrix_array_t R)
    (hlen : a.data.length = n) (hd : n + 1 ≤ dims.length) :
    ∃ a', for_range (fun i (array : matrix_array_t R) => do
        let n1 ← load dims ((i + 1 : Nat) : Int)
        let n2 ← load dims i
        array.upd i (gsl_matrix_alloc n1 n2)) n a = .ok a' ∧
      a'.size = a.size ∧ a'.data.length = n ∧
      ∀ j, j < n →
        a'.data[j]? = some (gsl_matrix_alloc (dims.getD (j + 1) 0) (dims.getD j 0)) := by
  refine for_range_inv _ (fun i (st : matrix_array_t R) => st.size = a.size ∧
    st.data.length = n ∧
    ∀ j, j < i →
      st.data[j]? = some (gsl_matrix_alloc (dims.getD (j + 1) 0) (dims.getD j 0))) n a
    ⟨rfl, hlen, fun j hj => absurd hj (Nat.not_lt_zero j)⟩ ?_
  intro i st hi ⟨hs, hl, hcells⟩
  have hload : ∀ k, k < dims.length → load dims (k : Int) = .ok (dims.getD k 0) :=
    fun k hk => load_ok _ _ k _ rfl (by
      simp [List.getD_eq_getElem?_getD, List.getElem?_eq_getElem hk])
  have hupd := matrix_array_upd_ok st (i : Int) i
    (gsl_matrix_alloc (dims.getD (i + 1) 0) (dims.getD i 0)) rfl (by omega)
  refine ⟨{ st with
      data := st.data.set i (gsl_matrix_alloc (dims.getD (i + 1) 0) (dims.getD i 0)) },
    ?_, hs, by simpa using hl, ?_⟩
  · show (load dims ((i + 1 : Nat) : Int) >>= fun n1 => _) = _
    rw [hload (i + 1) (by omega), ok_bind]
    show (load dims (i : Int) >>= fun n2 => _) = _
    rw [hload i (by omega), ok_bind]
    exact hupd
  · intro j hj
    show (st.data.set i _)[j]? = _
    by_cases hji : j = i
    · subst hji
      rw [List.getElem?_set_self (by omega)]
    · rw [List.getElem?_set_ne (by omega)]
      exact hcells j (by omega)

end Allocation

section AllocationCalls

variable {R : Type} [LinearOrderedField R]

/-- A call of `vector_array_allocate` returns; the code is `GSL_SUCCESS` when `malloc`
answers with a block, and only then, and in that case the array is laid out for the
first `dimensions.size` cells of `dimensions.data`. -/
theorem vector_array_allocate_ok (array : vector_array_t R) (dimensions : uint32_array_t)
    (offset : Nat) (outcome : Option (Nat → gsl_vector R))
    (hsz : dimensions.size + offset < 2 ^ 32)
    (hd : dimensions.size ≤ dimensions.data.length) :
    ∃ e a', vector_array_allocate array dimensions offset outcome = .ok (e, a') ∧
      (outcome.isSome → e = GSL_SUCCESS) ∧
      (e = GSL_SUCCESS →
        outcome.isSome ∧ a'.allocated (dimensions.data.take dimensions.size) offset) := by
  cases outcome with
  | none =>
    exact ⟨GSL_ENOMEM, _, rfl, fun h => absurd h (by simp), fun h => absurd h (by decide)⟩
  | some junk =>
    obtain ⟨a', hrun, hs, ho, hl, hcells⟩ := vector_alloc_loop_ok dimensions.data offset
      dimensions.size
      ({ size := dimensions.size, offset := offset,
         data := (List.range ((dimensions.size + offset) % 2 ^ 32)).map junk } :
        vector_array_t R) rfl
      (by rw [List.length_map, List.length_range, Nat.mod_eq_of_lt hsz]) hd
    have hdef : vector_array_allocate array dimensions offset (some junk) =
        (for_range (fun i (array : vector_array_t R) => do
            let n ← load dimensions.data i
            array.upd i (gsl_vector_alloc n)) dimensions.size
          ({ size := dimensions.size, offset := offset,
             data := (List.range ((dimensions.size + offset) % 2 ^ 32)).map junk } :
            vector_array_t R) >>= fun array => pure (GSL_SUCCESS, array)) := rfl
    refine ⟨GSL_SUCCESS, a', ?_, fun _ => rfl, fun _ => ⟨rfl, ?_, ho, ?_, ?_⟩⟩
    · rw [hdef, hrun, ok_bind]
      rfl
    · rw [hs, List.length_take, Nat.min_eq_left hd]
    · rw [hl, List.length_take, Nat.min_eq_left hd]
    · apply List.ext_getElem?
      intro j
      by_cases hj : j < dimensions.size
      · have hjd : j < dimensions.data.length := by omega
        rw [List.getElem?_map, List.getElem?_drop, Nat.add_comm offset j, hcells j hj,
          List.getElem?_take_of_lt hj, List.getElem?_eq_getElem hjd]
        simp [gsl_vector_alloc, List.getD_eq_getElem?_getD, List.getElem?_eq_getElem hjd]
      · rw [List.getElem?_eq_none (by simp; omega), List.getElem?_eq_none (by simp; omega)]

/-- A call of `matrix_array_allocate` for at least one layer size returns; the code is
`GSL_SUCCESS` when `malloc` answers with a block, and only then, and in that case the
array is laid out for the first `dimensions.size` cells of `dimensions.data`. -/
theorem matrix_array_allocate_ok (array : matrix_array_t R) (dimensions : uint32_array_t)
    (outcome : Option (Nat → gsl_matrix R)) (h1 : 1 ≤ dimensions.size)
    (hsz : dimensions.size < 2 ^ 32) (hd : dimensions.size ≤ dimensions.data.length) :
    ∃ e a', matrix_array_allocate array dimensions outcome = .ok (e, a') ∧
      (outcome.isSome → e = GSL_SUCCESS) ∧
      (e = GSL_SUCCESS →
        outcome.isSome ∧ a'.allocated (dimensions.data.take dimensions.size)) := by
  have hsub : u32_sub dimensions.size 1 = dimensions.size - 1 :=
    u32_sub_le dimensions.size 1 hsz h1
  cases outcome with
  | none =>
    exact ⟨GSL_ENOMEM, _, rfl, fun h => absurd h (by simp), fun h => absurd h (by decide)⟩
  | some junk =>
    obtain ⟨a', hrun, hs, hl, hcells⟩ := matrix_alloc_loop_ok dimensions.data
      (u32_sub dimensions.size 1)
      ({ size := u32_sub dimensions.size 1,
         data := (List.range (u32_sub dimensions.size 1)).map junk } : matrix_array_t R)
      (by simp) (by rw [hsub]; omega)
    have hdef : matrix_array_allocate array dimensions (some junk) =
        (for_range (fun i (array : matrix_array_t R) => do
            let n1 ← load dimensions.data ((i + 1 : Nat) : Int)
            let n2 ← load dimensions.data i
            array.upd i (gsl_matrix_alloc n1 n2)) (u32_sub dimensions.size 1)
          ({ size := u32_sub dimensions.size 1,
             data := (List.range (u32_sub dimensions.size 1)).map junk } : matrix_array_t R)
          >>= fun array => pure (GSL_SUCCESS, array)) := rfl
    have hlen : (dimensions.data.take dimensions.size).length = dimensions.size := by
      rw [List.length_take, Nat.min_eq_left hd]
    refine ⟨GSL_SUCCESS, a', ?_, fun _ => rfl, fun _ => ⟨rfl, ?_, ?_, ?_⟩⟩
    · rw [hdef, hrun, ok_bind]
      rfl
    · rw [hs, hlen]
      exact hsub
    · rw [hl, hlen]
      exact hsub
    · intro i hi
      rw [hlen] at hi
      rw [matrix_array_mat_eq a' (i : Int) i _ rfl (hcells i (by rw [hsub]; exact hi))]
      have g1 : (dimensions.data.take dimensions.size).getD (i + 1) 0 =
          dimensions.data.getD (i + 1) 0 := by
        simp [List.getD_eq_getElem?_getD, List.getElem?_take_of_lt
          (show i + 1 < dimensions.size by omega)]
      have g2 : (dimensions.data.take dimensions.size).getD i 0 = dimensions.data.getD i 0 := by
        simp [List.getD_eq_getElem?_getD, List.getElem?_take_of_lt
          (show i < dimensions.size by omega)]
      rw [g1, g2]
      exact ⟨rfl, rfl, by simp [gsl_matrix_alloc]⟩

end AllocationCalls

theorem tail_take_eq_take_drop {α : Type} (l : List α) (n : Nat) :
    (l.take n).tail = (l.drop 1).take (n - 1) := by
  rw [← List.drop_one, List.drop_take]

section AllocationRun

set_option maxHeartbeats 1000000

variable {R : Type} [LinearOrderedField R]

/-- What a vector array laid out for the non-input layers of `net` holds. -/
theorem tail_layout (net : network_t R) (hdata : net.nodes.size ≤ net.nodes.data.length)
    (a : vector_array_t R) (o : Nat) (ha : a.allocated net.layers.tail o) :
    a.size = net.nodes.size - 1 ∧ a.offset = o ∧ a.data.length = net.nodes.size - 1 + o ∧
      ∀ i, i < net.nodes.size - 1 →
        a.idx (i : Int) = .ok (a.vec i) ∧ (a.vec i).length = net.layer (i + 1) := by
  have hlen := layers_tail_length net hdata
  refine ⟨ha.1.trans hlen, ha.2.1, ha.2.2.1.trans (by rw [hlen]), fun i hi => ?_⟩
  have := vector_array_allocated_vec a net.layers.tail o i ha (by omega) (i : Int)
    (by push_cast; ring)
  rw [layers_tail_getD net i (by omega)] at this
  exact this

/-- What a matrix array laid out for the layers of `net` holds. -/
theorem layers_layout (net : network_t R) (hdata : net.nodes.size ≤ net.nodes.data.length)
    (a : matrix_array_t R) (ha : a.allocated net.layers) :
    a.size = net.nodes.size - 1 ∧ a.data.length = net.nodes.size - 1 ∧
      ∀ i, i < net.nodes.size - 1 →
        a.idx (i : Int) = .ok (a.mat i) ∧
          (a.mat i).allocated (net.layer (i + 1)) (net.layer i) := by
  have hlen := layers_length net hdata
  refine ⟨ha.1.trans (by rw [hlen]), ha.2.1.trans (by rw [hlen]), fun i hi => ?_⟩
  have := matrix_array_allocated_mat a net.layers i ha (by omega)
  rw [layers_getD net (i + 1) (by omega), layers_getD net i (by omega)] at this
  exact this

/-- The run of `network_allocate` for at least two layer sizes: it returns, the code is
`GSL_SUCCESS` exactly when every `malloc` call is answered with a block, and in that
case every array is laid out for the layer sizes, which are left as they were. -/
theorem network_allocate_run (net : network_t R) (heap : malloc_outcomes R)
    (hL : 2 ≤ net.nodes.size) (h32 : net.nodes.size < 2 ^ 32)
    (hdata : net.nodes.size ≤ net.nodes.data.length) :
    ∃ e net', network_allocate net heap = .ok (e, net') ∧
      (heap.all_blocks → e = GSL_SUCCESS) ∧
      (e = GSL_SUCCESS → heap.all_blocks ∧ net'.nodes = net.nodes ∧
        net'.nabla_w.allocated net.layers ∧ net'.weights.allocated net.layers ∧
        net'.zs.allocated net.layers.tail 0 ∧ net'.nabla_b.allocated net.layers.tail 0 ∧
        net'.output_delta.allocated net.layers.tail 0 ∧
        net'.biases.allocated net.layers.tail 0 ∧
        net'.outputs.allocated net.layers.tail 1) := by
  have hsub : u32_sub net.nodes.size 1 = net.nodes.size - 1 :=
    u32_sub_le net.nodes.size 1 h32 (by omega)
  have hdrop : (net.nodes.data.drop 1).length = net.nodes.data.length - 1 := List.length_drop _ _
  obtain ⟨dims, hdims⟩ : ∃ d : uint32_array_t,
      d = { size := u32_sub net.nodes.size 1, data := net.nodes.data.drop 1 } := ⟨_, rfl⟩
  have hds : dims.size = net.nodes.size - 1 := by rw [hdims]; exact hsub
  have hdd : dims.data = net.nodes.data.drop 1 := by rw [hdims]
  have htail : dims.data.take dims.size = net.layers.tail := by
    rw [hds, hdd]
    exact (tail_take_eq_take_drop _ _).symm
  have hB : dims.size ≤ dims.data.length := by
    rw [hds, hdd, hdrop]
    omega
  obtain ⟨e1, a1, r1, s1, t1⟩ := matrix_array_allocate_ok net.nabla_w net.nodes heap.nabla_w
    (by omega) h32 hdata
  obtain ⟨e2, a2, r2, s2, t2⟩ := matrix_array_allocate_ok net.weights net.nodes heap.weights
    (by omega) h32 hdata
  have hA0 : dims.size + 0 < 2 ^ 32 := by omega
  have hA1 : dims.size + 1 < 2 ^ 32 := by omega
  obtain ⟨e3, a3, r3, s3, t3⟩ := vector_array_allocate_ok net.zs dims 0 heap.zs hA0 hB
  obtain ⟨e4, a4, r4, s4, t4⟩ := vector_array_allocate_ok net.nabla_b dims 0 heap.nabla_b hA0 hB
  obtain ⟨e5, a5, r5, s5, t5⟩ := vector_array_allocate_ok net.output_delta dims 0
    heap.output_delta hA0 hB
  obtain ⟨e6, a6, r6, s6, t6⟩ := vector_array_allocate_ok net.biases dims 0 heap.biases hA0 hB
  obtain ⟨e7, a7, r7, s7, t7⟩ := vector_array_allocate_ok net.outputs dims 1 heap.outputs hA1 hB
  rw [htail] at t3 t4 t5 t6 t7
  clear htail hB hds hdd hA0 hA1
  subst hdims
  refine ⟨GSL_SUCCESS ||| e1 ||| e2 ||| e3 ||| e4 ||| e5 ||| e6 ||| e7,
    { net with nabla_w := a1, weights := a2, zs := a3, nabla_b := a4, output_delta := a5,
               biases := a6, outputs := a7 }, ?_, ?_, ?_⟩
  · unfold network_allocate
    rw [r1, ok_bind]
    show (matrix_array_allocate net.weights net.nodes heap.weights >>= _) = _
    rw [r2, ok_bind]
    show (vector_array_allocate net.zs
      { size := u32_sub net.nodes.size 1, data := net.nodes.data.drop 1 } 0 heap.zs >>= _) = _
    rw [r3, ok_bind]
    show (vector_array_allocate net.nabla_b
      { size := u32_sub net.nodes.size 1, data := net.nodes.data.drop 1 } 0 heap.nabla_b
        >>= _) = _
    rw [r4, ok_bind]
    show (vector_array_allocate net.output_delta
      { size := u32_sub net.nodes.size 1, data := net.nodes.data.drop 1 } 0 heap.output_delta
        >>= _) = _
    rw [r5, ok_bind]
    show (vector_array_allocate net.biases
      { size := u32_sub net.nodes.size 1, data := net.nodes.data.drop 1 } 0 heap.biases
        >>= _) = _
    rw [r6, ok_bind]
    show (vector_array_allocate net.outputs
      { size := u32_sub net.nodes.size 1, data := net.nodes.data.drop 1 } 1 heap.outputs
        >>= _) = _
    rw [r7, ok_bind]
    rfl
  · rintro ⟨b1, b2, b3, b4, b5, b6, b7⟩
    rw [s1 b1, s2 b2, s3 b3, s4 b4, s5 b5, s6 b6, s7 b7]
    rfl
  · intro he
    obtain ⟨he, z7⟩ := lor_eq_zero _ _ he
    obtain ⟨he, z6⟩ := lor_eq_zero _ _ he
    obtain ⟨he, z5⟩ := lor_eq_zero _ _ he
    obtain ⟨he, z4⟩ := lor_eq_zero _ _ he
    obtain ⟨he, z3⟩ := lor_eq_zero _ _ he
    obtain ⟨he, z2⟩ := lor_eq_zero _ _ he
    obtain ⟨_, z1⟩ := lor_eq_zero _ _ he
    exact ⟨⟨(t1 z1).1, (t2 z2).1, (t3 z3).1, (t4 z4).1, (t5 z5).1, (t6 z6).1, (t7 z7).1⟩, rfl,
      (t1 z1).2, (t2 z2).2, (t3 z3).2, (t4 z4).2, (t5 z5).2, (t6 z6).2, (t7 z7).2⟩

end AllocationRun

section AllocationClaim

variable {R : Type} [LinearOrderedField R]

/-- C19: for a network whose `nodes` holds `L ≥ 2` layer sizes, `network_allocate`
returns `GSL_SUCCESS` when every `malloc` call is answered with a block, and whenever
it returns `GSL_SUCCESS` the layer sizes are as before, `weights` and `nabla_w` hold
`L - 1` matrices with matrix `i` of `nodes[i + 1]` rows and `nodes[i]` columns,
`outputs`, `zs`, `biases`, `nabla_b` and `output_delta` hold `L - 1` vectors with
vector `i` of length `nodes[i + 1]`, the four arrays other than `outputs` have no
extra cell, and `outputs` has one extra cell, readable at index -1, in front. -/
theorem network_allocate_layout (net : network_t R) (heap : malloc_outcomes R)
    (hL : 2 ≤ net.nodes.size) (h32 : net.nodes.size < 2 ^ 32)
    (hdata : net.nodes.size ≤ net.nodes.data.length) :
    (heap.all_blocks → ∃ net', network_allocate net heap = .ok (GSL_SUCCESS, net')) ∧
    ∀ net', network_allocate net heap = .ok (GSL_SUCCESS, net') →
      net'.nodes = net.nodes ∧
      (∀ a, a ∈ [net'.weights, net'.nabla_w] →
        a.size = net.nodes.size - 1 ∧ a.data.length = net.nodes.size - 1 ∧
        ∀ i, i < net.nodes.size - 1 → a.idx (i : Int) = .ok (a.mat i) ∧
          (a.mat i).allocated (net.layer (i + 1)) (net.layer i)) ∧
      (∀ a, a ∈ [net'.outputs, net'.zs, net'.biases, net'.nabla_b, net'.output_delta] →
        a.size = net.nodes.size - 1 ∧
        ∀ i, i < net.nodes.size - 1 → a.idx (i : Int) = .ok (a.vec i) ∧
          (a.vec i).length = net.layer (i + 1)) ∧
      (∀ a, a ∈ [net'.zs, net'.biases, net'.nabla_b, net'.output_delta] →
        a.offset = 0 ∧ a.data.length = net.nodes.size - 1) ∧
      net'.outputs.offset = 1 ∧ net'.outputs.data.length = net.nodes.size ∧
      (∃ v, net'.outputs.idx INPUT_INDEX = .ok v) ∧
      (net.nodes.size < 2 ^ 31 → net'.allocated) := by
  have hL1 : net.nodes.size - 1 + 1 = net.nodes.size := by omega
  have hLpos : 0 < net.nodes.size := by omega
  obtain ⟨e, net0, hrun, hs, ht⟩ := network_allocate_run net heap hL h32 hdata
  refine ⟨fun hb => ⟨net0, by rw [hrun, hs hb]⟩, ?_⟩
  intro net' hrun'
  rw [hrun] at hrun'
  injection hrun' with hpair
  injection hpair with he hnet
  subst hnet
  obtain ⟨_, hnodes, h1, h2, h3, h4, h5, h6, h7⟩ := ht he
  obtain ⟨w1, w2, w3⟩ := layers_layout net hdata _ h2
  obtain ⟨x1, x2, x3⟩ := layers_layout net hdata _ h1
  obtain ⟨z1, z2, z3, z4⟩ := tail_layout net hdata _ 0 h3
  obtain ⟨n1, n2, n3, n4⟩ := tail_layout net hdata _ 0 h4
  obtain ⟨d1, d2, d3, d4⟩ := tail_layout net hdata _ 0 h5
  obtain ⟨b1, b2, b3, b4⟩ := tail_layout net hdata _ 0 h6
  obtain ⟨o1, o2, o3, o4⟩ := tail_layout net hdata _ 1 h7
  have olen : net0.outputs.data.length = net.nodes.size := o3.trans hL1
  refine ⟨hnodes, ?_, ?_, ?_, o2, olen, ?_, ?_⟩
  · intro a ha
    simp only [List.mem_cons, List.mem_singleton, List.not_mem_nil, or_false] at ha
    rcases ha with rfl | rfl
    · exact ⟨w1, w2, w3⟩
    · exact ⟨x1, x2, x3⟩
  · intro a ha
    simp only [List.mem_cons, List.mem_singleton, List.not_mem_nil, or_false] at ha
    rcases ha with rfl | rfl | rfl | rfl | rfl
    · exact ⟨o1, o4⟩
    · exact ⟨z1, z4⟩
    · exact ⟨b1, b4⟩
    · exact ⟨n1, n4⟩
    · exact ⟨d1, d4⟩
  · intro a ha
    simp only [List.mem_cons, List.mem_singleton, List.not_mem_nil, or_false] at ha
    rcases ha with rfl | rfl | rfl | rfl
    · exact ⟨z2, z3⟩
    · exact ⟨b2, b3⟩
    · exact ⟨n2, n3⟩
    · exact ⟨d2, d3⟩
  · have hpos : 0 < net0.outputs.data.length := by rw [olen]; exact hLpos
    exact ⟨net0.outputs.data[0], vector_array_idx_ok net0.outputs INPUT_INDEX 0 _
      (by rw [o2]; rfl) (List.getElem?_eq_getElem hpos)⟩
  · intro h31
    have hl : net0.layers = net.layers := by
      unfold network_t.layers
      rw [hnodes]
    unfold network_t.allocated
    rw [hl, hnodes]
    exact ⟨hdata, h31, h1, h2, h3, h4, h5, h6, h7⟩

end AllocationClaim

/-- C19 for the layer sizes 2, 3, 2 with blocks that hold arbitrary cells: the call
returns `GSL_SUCCESS` with 3 by 2 and 2 by 3 matrices, vectors of sizes 3 and 2, and
the cell in front of `outputs` still holding what `malloc` left there. -/
theorem network_allocate_layout_witness :
    network_allocate allocate_fixture_network allocate_fixture_heap = .ok (GSL_SUCCESS,
      { allocate_fixture_network with
        outputs := { size := 2, offset := 1, data := [[8, 8], [0, 0, 0], [0, 0]] },
        zs := { size := 2, offset := 0, data := [[0, 0, 0], [0, 0]] },
        nabla_b := { size := 2, offset := 0, data := [[0, 0, 0], [0, 0]] },
        output_delta := { size := 2, offset := 0, data := [[0, 0, 0], [0, 0]] },
        biases := { size := 2, offset := 0, data := [[0, 0, 0], [0, 0]] },
        weights := { size := 2, data := [gsl_matrix_alloc 3 2, gsl_matrix_alloc 2 3] },
        nabla_w := { size := 2, data := [gsl_matrix_alloc 3 2, gsl_matrix_alloc 2 3] } }) ∧
    (allocate_fixture_heap.all_blocks →
      ∃ net', network_allocate allocate_fixture_network allocate_fixture_heap =
        .ok (GSL_SUCCESS, net')) :=
  ⟨rfl, (network_allocate_layout allocate_fixture_network allocate_fixture_heap (by decide)
    (by decide) (by decide)).1⟩

/-! ## Frames of the runs that return -/

theorem bind_ok_inv {α β : Type} (x : Except fault α) (f : α → Except fault β) (r : β)
    (h : (x >>= f) = .ok r) : ∃ a, x = .ok a ∧ f a = .ok r := by
  cases x with
  | error e => cases h
  | ok a => exact ⟨a, rfl, h⟩

/-- Partial-correctness rule for the upward loop: a property that every returning pass
keeps is kept by every returning loop. -/
theorem for_range_ok_inv {σ : Type} (body : Nat → σ → Except fault σ) (P : σ → Prop)
    (hstep : ∀ i s s', body i s = .ok s' → P s → P s') (n : Nat) (s s' : σ)
    (h : for_range body n s = .ok s') (h0 : P s) : P s' := by
  induction n generalizing s' with
  | zero =>
    cases h
    exact h0
  | succ n ih =>
    obtain ⟨s1, h1, h2⟩ := bind_ok_inv _ _ _ h
    exact hstep n s1 s' h2 (ih s1 h1)

section ReturningRuns

variable {R : Type} [LinearOrderedField R] (exp : R → R)

/-- A returning pass of the forward loop without caching changes nothing but
`outputs`. -/
theorem network_feed_forward_body_frame (i : Nat) (net net' : network_t R)
    (h : network_feed_forward_body exp 0 i net = .ok net') :
    net' = { net with outputs := net'.outputs } := by
  unfold network_feed_forward_body at h
  obtain ⟨W, _, h⟩ := bind_ok_inv _ _ _ h
  obtain ⟨prev, _, h⟩ := bind_ok_inv _ _ _ h
  obtain ⟨out, _, h⟩ := bind_ok_inv _ _ _ h
  obtain ⟨out1, _, h⟩ := bind_ok_inv _ _ _ h
  obtain ⟨b, _, h⟩ := bind_ok_inv _ _ _ h
  obtain ⟨out2, _, h⟩ := bind_ok_inv _ _ _ h
  have h : (net.outputs.upd (i : Int) (vector_vectorise out2 (sigmoid exp)) >>=
      fun outputs => pure { net with outputs := outputs, zs := net.zs }) = .ok net' := h
  obtain ⟨outputs, _, h⟩ := bind_ok_inv _ _ _ h
  cases h
  rfl

/-- A returning run of `network_feed_forward` without caching changes nothing but
`outputs`. -/
theorem network_feed_forward_frame (net net' : network_t R)
    (h : network_feed_forward exp net 0 = .ok net') :
    net' = { net with outputs := net'.outputs } := by
  refine for_range_ok_inv (network_feed_forward_body exp 0)
    (fun s => s = { net with outputs := s.outputs }) ?_ _ net net' h rfl
  intro i s s' hs hP
  have h1 := (outputs_frame_iff s' s).1 (network_feed_forward_body_frame exp i s s' hs)
  have h2 := (outputs_frame_iff s net).1 hP
  exact (outputs_frame_iff s' net).2 ⟨h1.1.trans h2.1, h1.2.1.trans h2.2.1,
    h1.2.2.1.trans h2.2.2.1, h1.2.2.2.1.trans h2.2.2.2.1,
    h1.2.2.2.2.1.trans h2.2.2.2.2.1, h1.2.2.2.2.2.1.trans h2.2.2.2.2.2.1,
    h1.2.2.2.2.2.2.1.trans h2.2.2.2.2.2.2.1, h1.2.2.2.2.2.2.2.1.trans h2.2.2.2.2.2.2.2.1,
    h1.2.2.2.2.2.2.2.2.1.trans h2.2.2.2.2.2.2.2.2.1,
    h1.2.2.2.2.2.2.2.2.2.trans h2.2.2.2.2.2.2.2.2.2⟩

/-- A returning run of `network_get_output` changes nothing but `outputs`. -/
theorem network_get_output_frame (net net' : network_t R) (p : Nat)
    (h : network_get_output exp net = .ok (net', p)) :
    net' = { net with outputs := net'.outputs } := by
  unfold network_get_output at h
  obtain ⟨net1, h1, h⟩ := bind_ok_inv _ _ _ h
  obtain ⟨out, _, h⟩ := bind_ok_inv _ _ _ h
  cases h
  exact network_feed_forward_frame exp net net' h1

/-- A returning run of `network_evaluate_test_data` changes nothing but `outputs`. -/
theorem network_evaluate_test_data_frame (net net' : network_t R) (test_data : data_t R)
    (c0 c : Nat) (h : network_evaluate_test_data exp net test_data c0 = .ok (net', c)) :
    net' = { net with outputs := net'.outputs } := by
  refine for_range_ok_inv _ (fun (s : network_t R × Nat) => s.1 = { net with outputs := s.1.outputs })
    ?_ _ (net, 0) (net', c) h rfl
  intro i s s' hs hP
  obtain ⟨image, _, hs⟩ := bind_ok_inv _ _ _ hs
  obtain ⟨outputs, _, hs⟩ := bind_ok_inv _ _ _ hs
  obtain ⟨⟨net1, output⟩, hget, hs⟩ := bind_ok_inv _ _ _ hs
  obtain ⟨label, _, hs⟩ := bind_ok_inv _ _ _ hs
  have h1 := (outputs_frame_iff net1 _).1 (network_get_output_frame exp _ net1 output hget)
  have h2 := (outputs_frame_iff s.1 net).1 hP
  have hkeep : net1 = { net with outputs := net1.outputs } :=
    (outputs_frame_iff net1 net).2 ⟨h1.1.trans h2.1, h1.2.1.trans h2.2.1,
      h1.2.2.1.trans h2.2.2.1, h1.2.2.2.1.trans h2.2.2.2.1,
      h1.2.2.2.2.1.trans h2.2.2.2.2.1, h1.2.2.2.2.2.1.trans h2.2.2.2.2.2.1,
      h1.2.2.2.2.2.2.1.trans h2.2.2.2.2.2.2.1, h1.2.2.2.2.2.2.2.1.trans h2.2.2.2.2.2.2.2.1,
      h1.2.2.2.2.2.2.2.2.1.trans h2.2.2.2.2.2.2.2.2.1,
      h1.2.2.2.2.2.2.2.2.2.trans h2.2.2.2.2.2.2.2.2.2⟩
  by_cases hc : output = label
  · rw [if_pos hc] at hs
    cases hs
    exact hkeep
  · rw [if_neg hc] at hs
    cases hs
    exact hkeep

end ReturningRuns

/-- Partial-correctness rule for two upward loops run side by side: a relation that
every pair of returning passes keeps is kept by every pair of returning loops. -/
theorem for_range_ok_rel {σ : Type} (b0 b1 : Nat → σ → Except fault σ) (Q : σ → σ → Prop)
    (hstep : ∀ i s t s' t', b0 i s = .ok s' → b1 i t = .ok t' → Q s t → Q s' t')
    (n : Nat) (s t s' t' : σ) (h0 : for_range b0 n s = .ok s')
    (h1 : for_range b1 n t = .ok t') (hQ : Q s t) : Q s' t' := by
  induction n generalizing s' t' with
  | zero =>
    cases h0
    cases h1
    exact hQ
  | succ n ih =>
    obtain ⟨s1, hs1, hs2⟩ := bind_ok_inv _ _ _ h0
    obtain ⟨t1, ht1, ht2⟩ := bind_ok_inv _ _ _ h1
    exact hstep n s1 t1 s' t' hs2 ht2 (ih s1 t1 hs1 ht1)

section FlagRuns

variable {R : Type} [LinearOrderedField R] (exp : R → R)

/-- A pass of the forward loop without caching and one with caching, both returning,
from states with the same `outputs`, `weights` and `biases`, end with the same
`outputs`, `weights` and `biases`. -/
theorem network_feed_forward_body_rel (i : Nat) (s t s' t' : network_t R)
    (h0 : network_feed_forward_body exp 0 i s = .ok s')
    (h1 : network_feed_forward_body exp 1 i t = .ok t')
    (hQ : s.outputs = t.outputs ∧ s.weights = t.weights ∧ s.biases = t.biases) :
    s'.outputs = t'.outputs ∧ s'.weights = t'.weights ∧ s'.biases = t'.biases := by
  obtain ⟨ho, hw, hb⟩ := hQ
  unfold network_feed_forward_body at h0 h1
  rw [ho, hw, hb] at h0
  obtain ⟨W, a1, h0⟩ := bind_ok_inv _ _ _ h0
  obtain ⟨W', b1, h1⟩ := bind_ok_inv _ _ _ h1
  cases a1.symm.trans b1
  obtain ⟨prev, a2, h0⟩ := bind_ok_inv _ _ _ h0
  obtain ⟨prev', b2, h1⟩ := bind_ok_inv _ _ _ h1
  cases a2.symm.trans b2
  obtain ⟨out, a3, h0⟩ := bind_ok_inv _ _ _ h0
  obtain ⟨out', b3, h1⟩ := bind_ok_inv _ _ _ h1
  cases a3.symm.trans b3
  obtain ⟨out1, a4, h0⟩ := bind_ok_inv _ _ _ h0
  obtain ⟨out1', b4, h1⟩ := bind_ok_inv _ _ _ h1
  cases a4.symm.trans b4
  obtain ⟨b, a5, h0⟩ := bind_ok_inv _ _ _ h0
  obtain ⟨b', b5, h1⟩ := bind_ok_inv _ _ _ h1
  cases a5.symm.trans b5
  obtain ⟨out2, a6, h0⟩ := bind_ok_inv _ _ _ h0
  obtain ⟨out2', b6, h1⟩ := bind_ok_inv _ _ _ h1
  cases a6.symm.trans b6
  have h0 : (t.outputs.upd (i : Int) (vector_vectorise out2 (sigmoid exp)) >>=
      fun outputs => pure
        { s with outputs := outputs, zs := s.zs, biases := t.biases, weights := t.weights }) =
      .ok s' := h0
  have h1 : (t.zs.idx (i : Int) >>= fun z => gsl_vector_memcpy z out2 >>= fun z =>
      t.zs.upd (i : Int) z >>= fun zs =>
      t.outputs.upd (i : Int) (vector_vectorise out2 (sigmoid exp)) >>=
      fun outputs => pure { t with outputs := outputs, zs := zs }) = .ok t' := h1
  obtain ⟨z, _, h1⟩ := bind_ok_inv _ _ _ h1
  obtain ⟨z1, _, h1⟩ := bind_ok_inv _ _ _ h1
  obtain ⟨zs, _, h1⟩ := bind_ok_inv _ _ _ h1
  obtain ⟨o0, a7, h0⟩ := bind_ok_inv _ _ _ h0
  obtain ⟨o1, b7, h1⟩ := bind_ok_inv _ _ _ h1
  cases a7.symm.trans b7
  cases h0
  cases h1
  exact ⟨rfl, rfl, rfl⟩

/-- A run of `network_feed_forward` without caching and one with caching from the same
network, both returning, end with the same `outputs`. -/
theorem network_feed_forward_rel (net n0 n1 : network_t R)
    (h0 : network_feed_forward exp net 0 = .ok n0)
    (h1 : network_feed_forward exp net 1 = .ok n1) : n0.outputs = n1.outputs :=
  (for_range_ok_rel (network_feed_forward_body exp 0) (network_feed_forward_body exp 1)
    (fun s t => s.outputs = t.outputs ∧ s.weights = t.weights ∧ s.biases = t.biases)
    (fun i s t s' t' hs ht hQ => network_feed_forward_body_rel exp i s t s' t' hs ht hQ)
    _ net net n0 n1 h0 h1 ⟨rfl, rfl, rfl⟩).1

end FlagRuns

section ReturningClaims

variable {R : Type} [LinearOrderedField R] (exp : R → R)

/-- C11: whenever `network_get_output` returns, the index `p` it reports is the lowest
position of a maximum of `out`, the vector `outputs.data[outputs.size - 1]` left by
the forward pass: `out[j] ≤ out[p]` for every `j`, `out[j] < out[p]` for every `j < p`,
and `p` is a position of `out` when `out` is not empty.  On a laid-out network with a
bound input it does return, and `out` is the activation of the last layer. -/
theorem network_get_output_lowest_argmax (net : network_t R) :
    (∀ net' p, network_get_output exp net = .ok (net', p) →
      ∃ out, net'.outputs.idx (u32_sub net'.outputs.size 1) = .ok out ∧
        (∀ j, j < out.length → out.getD j 0 ≤ out.getD p 0) ∧
        (∀ j, j < p → out.getD j 0 < out.getD p 0) ∧
        (0 < out.length → p < out.length)) ∧
    (net.allocated → net.input_bound → 2 ≤ net.nodes.size →
      ∃ net' p, network_get_output exp net = .ok (net', p) ∧
        net'.outputs.idx (u32_sub net'.outputs.size 1) =
          .ok (forward_in exp net.weights net.biases (net.outputs.vec INPUT_INDEX)
            (net.nodes.size - 1))) := by
  have hpart : ∀ net' p, network_get_output exp net = .ok (net', p) →
      ∃ out, net'.outputs.idx (u32_sub net'.outputs.size 1) = .ok out ∧
        p = gsl_vector_max_index out := by
    intro net' p h
    unfold network_get_output at h
    obtain ⟨net1, _, h⟩ := bind_ok_inv _ _ _ h
    obtain ⟨out, hout, h⟩ := bind_ok_inv _ _ _ h
    cases h
    exact ⟨out, hout, rfl⟩
  constructor
  · intro net' p h
    obtain ⟨out, hout, hp⟩ := hpart net' p h
    obtain ⟨hmax, hlow⟩ := gsl_vector_max_index_spec out
    rw [hp]
    exact ⟨out, hout, hmax, hlow, gsl_vector_max_index_lt out⟩
  · intro hal hb hL
    obtain ⟨st', hrun, hp, hal', hval⟩ := network_get_output_ok exp net net rfl hal hb hL
    obtain ⟨out, hout, _⟩ := hpart st' _ hrun
    have hn : st'.nodes.size = net.nodes.size := by rw [(params_nodes st' net hp).1]
    obtain ⟨hidx, _⟩ := output_layer_index_eq st' hal' (by rw [hn]; exact hL)
    refine ⟨st', _, hrun, ?_⟩
    rw [hout, ← hval]
    rw [hidx, hn] at hout
    unfold vector_array_t.vec
    rw [hout]

/-- C12: whenever `network_evaluate_test_data` returns, the network it returns is the
one it was given with only `outputs` replaced: `weights`, `biases`, `zs`, `nabla_w`,
`nabla_b` and `output_delta` (and the hyper-parameters and layer sizes) are as they
were.  On a laid-out network and a readable held-out partition it does return. -/
theorem network_evaluate_test_data_read_only (net : network_t R) (test_data : data_t R)
    (c0 : Nat) :
    (∀ net' c, network_evaluate_test_data exp net test_data c0 = .ok (net', c) →
      net'.weights = net.weights ∧ net'.biases = net.biases ∧ net'.zs = net.zs ∧
      net'.nabla_w = net.nabla_w ∧ net'.nabla_b = net.nabla_b ∧
      net'.output_delta = net.output_delta ∧
      net' = { net with outputs := net'.outputs }) ∧
    (net.allocated → 2 ≤ net.nodes.size → valid_test_data net test_data →
      ∃ net' c, network_evaluate_test_data exp net test_data c0 = .ok (net', c) ∧
        net'.outputs.allocated net.layers.tail 1) := by
  constructor
  · intro net' c h
    have hfr := network_evaluate_test_data_frame exp net net' test_data c0 c h
    have hfr' := (outputs_frame_iff net' net).1 hfr
    exact ⟨hfr'.2.2.2.2.2.2.2.2.1, hfr'.2.2.2.2.2.2.2.1, hfr'.2.2.2.2.1,
      hfr'.2.2.2.2.2.2.2.2.2, hfr'.2.2.2.2.2.1, hfr'.2.2.2.2.2.2.1, hfr⟩
  · intro hal hL hv
    obtain ⟨net', hrun, hp, hal'⟩ := network_evaluate_test_data_ok exp net test_data c0 hal hL hv
    have hl : net'.layers = net.layers := by
      unfold network_t.layers
      rw [(params_nodes net' net hp).1]
    refine ⟨net', _, hrun, ?_⟩
    rw [← hl]
    exact hal'.2.2.2.2.2.2.2.2

/-- C14: from the same network, whenever `network_feed_forward` returns with the flag 0
it leaves `zs` as it was, and whenever it returns with the flag 0 and with the flag 1
the two runs leave the same `outputs` array, so the same vector at every index.  On a
laid-out network with a bound input both runs do return. -/
theorem network_feed_forward_flag_independent (net : network_t R) :
    (∀ n0, network_feed_forward exp net 0 = .ok n0 → n0.zs = net.zs) ∧
    (∀ n0 n1, network_feed_forward exp net 0 = .ok n0 →
      network_feed_forward exp net 1 = .ok n1 →
      n0.outputs = n1.outputs ∧ ∀ i : Int, n0.outputs.idx i = n1.outputs.idx i) ∧
    (net.allocated → net.input_bound → 1 ≤ net.nodes.size →
      ∃ n0 n1, network_feed_forward exp net 0 = .ok n0 ∧
        network_feed_forward exp net 1 = .ok n1) := by
  refine ⟨fun n0 h0 => ?_, fun n0 n1 h0 h1 => ?_, fun hal hb hL => ?_⟩
  · exact ((outputs_frame_iff n0 net).1 (network_feed_forward_frame exp net n0 h0)).2.2.2.2.1
  · have heq := network_feed_forward_rel exp net n0 n1 h0 h1
    exact ⟨heq, fun i => by rw [heq]⟩
  · obtain ⟨n0, hrun0, _⟩ := network_feed_forward_ok exp net 0 hal hb hL
    obtain ⟨n1, hrun1, _⟩ := network_feed_forward_ok exp net 1 hal hb hL
    exact ⟨n0, n1, hrun0, hrun1⟩

end ReturningClaims

/-- The run of `network_get_output` on the 2-3-2 network with equal weights: both output
activations are 1/2 and the index reported is 0. -/
theorem feed_forward_fixture_output :
    network_get_output Real.exp (feed_forward_fixture ℝ) = .ok
      ({ feed_forward_fixture ℝ with
        outputs := { size := 2, offset := 1,
                     data := [[1, 1], [1 / 2, 1 / 2, 1 / 2], [1 / 2, 1 / 2]] } }, 0) := by
  have h1 : Int.toNat 1 = 1 := rfl
  have h2 : Int.toNat 2 = 2 := rfl
  norm_num [h1, h2, network_get_output, network_feed_forward, feed_forward_fixture, u32_sub,
    for_range, network_feed_forward_body, vector_array_t.idx, matrix_array_t.idx, load,
    vector_array_t.upd, store, gsl_blas_dgemv, gsl_blas_daxpy, vector_vectorise_eq_map,
    sigmoid, dot, gsl_vector_max_index, max_index_scan]

/-- C11 on the 2-3-2 network with equal weights, whose two output activations are both
1/2, so that the index reported is 0, the lowest of the two; and on the vectors
`[0.2, 0.9]` (position 1) and `[0.9, 0.2, 0.9]` (position 0). -/
theorem network_get_output_lowest_argmax_witness :
    (∃ net' out, network_get_output Real.exp (feed_forward_fixture ℝ) = .ok (net', 0) ∧
      net'.outputs.idx (u32_sub net'.outputs.size 1) = .ok out ∧
      (∀ j, j < out.length → out.getD j 0 ≤ out.getD 0 0) ∧
      (∀ j, j < 0 → out.getD j 0 < out.getD 0 0) ∧
      (0 < out.length → 0 < out.length)) ∧
    ((feed_forward_fixture ℝ).allocated ∧ (feed_forward_fixture ℝ).input_bound ∧
      2 ≤ (feed_forward_fixture ℝ).nodes.size) ∧
    (∃ net' p, network_get_output Real.exp (feed_forward_fixture ℝ) = .ok (net', p) ∧
      net'.outputs.idx (u32_sub net'.outputs.size 1) =
        .ok (forward_in Real.exp (feed_forward_fixture ℝ).weights
          (feed_forward_fixture ℝ).biases ((feed_forward_fixture ℝ).outputs.vec INPUT_INDEX)
          ((feed_forward_fixture ℝ).nodes.size - 1))) ∧
    gsl_vector_max_index ([1 / 5, 9 / 10] : gsl_vector ℚ) = 1 ∧
    gsl_vector_max_index ([9 / 10, 1 / 5, 9 / 10] : gsl_vector ℚ) = 0 := by
  obtain ⟨hret, hrun⟩ := network_get_output_lowest_argmax Real.exp (feed_forward_fixture ℝ)
  obtain ⟨out, hout, hmax, hlow, hlt⟩ := hret _ 0 feed_forward_fixture_output
  exact ⟨⟨_, out, feed_forward_fixture_output, hout, hmax, hlow, hlt⟩, by decide,
    hrun (by decide) (by decide) (by decide),
    by norm_num [gsl_vector_max_index, max_index_scan],
    by norm_num [gsl_vector_max_index, max_index_scan]⟩

/-- C12 at the 2-3-2 test network and its three test samples, over the reals: the
hypotheses hold, the call returns, and the arrays other than `outputs` come back as
they went in. -/
theorem network_evaluate_test_data_read_only_witness :
    ((training_fixture_network ℝ).allocated ∧ 2 ≤ (training_fixture_network ℝ).nodes.size ∧
      valid_test_data (training_fixture_network ℝ) (training_fixture_data ℝ)) ∧
    ∃ net' c, network_evaluate_test_data Real.exp (training_fixture_network ℝ)
        (training_fixture_data ℝ) 0 = .ok (net', c) ∧
      net'.outputs.allocated (training_fixture_network ℝ).layers.tail 1 ∧
      net'.weights = (training_fixture_network ℝ).weights ∧
      net'.biases = (training_fixture_network ℝ).biases ∧
      net'.zs = (training_fixture_network ℝ).zs ∧
      net'.nabla_w = (training_fixture_network ℝ).nabla_w ∧
      net'.nabla_b = (training_fixture_network ℝ).nabla_b ∧
      net'.output_delta = (training_fixture_network ℝ).output_delta ∧
      net' = { training_fixture_network ℝ with outputs := net'.outputs } := by
  obtain ⟨hret, hrun⟩ := network_evaluate_test_data_read_only Real.exp
    (training_fixture_network ℝ) (training_fixture_data ℝ) 0
  obtain ⟨net', c, h, hal⟩ := hrun (by decide) (by decide) (by decide)
  exact ⟨by decide, net', c, h, hal, hret net' c h⟩

/-- C14 on the 2-3-2 network with equal weights and the input `[1, 1]`: the hypotheses
hold, both runs return, `outputs` is the same after both, and `zs` is untouched by the
run without caching. -/
theorem network_feed_forward_flag_independent_witness :
    ((feed_forward_fixture ℝ).allocated ∧ (feed_forward_fixture ℝ).input_bound ∧
      1 ≤ (feed_forward_fixture ℝ).nodes.size) ∧
    ∃ n0 n1, network_feed_forward Real.exp (feed_forward_fixture ℝ) 0 = .ok n0 ∧
      network_feed_forward Real.exp (feed_forward_fixture ℝ) 1 = .ok n1 ∧
      n0.zs = (feed_forward_fixture ℝ).zs ∧ n0.outputs = n1.outputs ∧
      ∀ i : Int, n0.outputs.idx i = n1.outputs.idx i := by
  obtain ⟨hzs, hout, hrun⟩ := network_feed_forward_flag_independent Real.exp
    (feed_forward_fixture ℝ)
  obtain ⟨n0, n1, h0, h1⟩ := hrun (by decide) (by decide) (by decide)
  exact ⟨by decide, n0, n1, h0, h1, hzs n0 h0, hout n0 n1 h0 h1⟩

/-! ## Preconditions and the header word -/

/-- C21: `partition_data` stops on its assertion, returning no view, exactly when
`num_images` (as the `uint32_t` it is compared as) is at most the held-out size, and it
stops for no other reason.  For a sample count `n` (a non-negative `int32_t`) it fails
if and only if `n ≤ k`; the held-out size `n` is rejected, and the held-out size 0 is
accepted when there is a sample. -/
theorem partition_data_fails_iff {R : Type} (data test_data : data_t R) (k : Nat) :
    (partition_data data test_data k = .error .assertion ↔
      to_uint32 data.images.num_images ≤ k) ∧
    (∀ e, partition_data data test_data k = .error e → e = .assertion) ∧
    (∀ n : Nat, data.images.num_images = (n : Int) → n < 2 ^ 31 →
      ((∃ e, partition_data data test_data k = .error e) ↔ n ≤ k) ∧
      (k = n → partition_data data test_data k = .error .assertion) ∧
      (k = 0 → 0 < n → ∃ d t, partition_data data test_data k = .ok (d, t))) := by
  have hfail : to_uint32 data.images.num_images ≤ k →
      partition_data data test_data k = .error .assertion := by
    intro h
    unfold partition_data
    rw [if_pos (by omega)]
    rfl
  have hok : k < to_uint32 data.images.num_images →
      ∃ r, partition_data data test_data k = .ok r := by
    intro h
    unfold partition_data
    rw [if_neg (by omega)]
    exact ⟨_, rfl⟩
  have hiff : partition_data data test_data k = .error .assertion ↔
      to_uint32 data.images.num_images ≤ k := by
    constructor
    · intro h
      by_contra hlt
      obtain ⟨r, hr⟩ := hok (by omega)
      rw [hr] at h
      cases h
    · exact hfail
  have hany : ∀ e, partition_data data test_data k = .error e → e = .assertion := by
    intro e h
    by_cases hle : to_uint32 data.images.num_images ≤ k
    · rw [hfail hle] at h
      cases h
      rfl
    · obtain ⟨r, hr⟩ := hok (by omega)
      rw [hr] at h
      cases h
  refine ⟨hiff, hany, ?_⟩
  intro n hn hn31
  have hu : to_uint32 data.images.num_images = n := by
    rw [hn]
    exact to_uint32_natCast n (by omega)
  rw [hu] at hfail hok
  refine ⟨⟨?_, fun h => ⟨_, hfail h⟩⟩, fun h => hfail (by omega), fun h0 hpos => ?_⟩
  · rintro ⟨e, he⟩
    by_contra hlt
    obtain ⟨r, hr⟩ := hok (by omega)
    rw [hr] at he
    cases he
  · obtain ⟨⟨d, t⟩, hr⟩ := hok (by omega)
    exact ⟨d, t, hr⟩

/-- C21 on five samples: holding out 5 or 6 stops on the assertion, holding out 0 or 4
returns. -/
theorem partition_data_fails_iff_witness :
    partition_data partition_fixture_data partition_fixture_test_data 5 = .error .assertion ∧
    partition_data partition_fixture_data partition_fixture_test_data 6 = .error .assertion ∧
    (∃ d t, partition_data partition_fixture_data partition_fixture_test_data 0 = .ok (d, t)) ∧
    (∃ d t, partition_data partition_fixture_data partition_fixture_test_data 4 = .ok (d, t)) ∧
    ((∃ e, partition_data partition_fixture_data partition_fixture_test_data 4 = .error e) ↔
      5 ≤ 4) :=
  ⟨((partition_data_fails_iff partition_fixture_data partition_fixture_test_data 5).2.2 5 rfl
      (by norm_num)).2.1 rfl,
   rfl,
   ((partition_data_fails_iff partition_fixture_data partition_fixture_test_data 0).2.2 5 rfl
      (by norm_num)).2.2 rfl (by norm_num),
   ⟨_, _, rfl⟩,
   ((partition_data_fails_iff partition_fixture_data partition_fixture_test_data 4).2.2 5 rfl
      (by norm_num)).1⟩

section ZeroSizes

variable {R : Type} [LinearOrderedField R] (exp : R → R)

/-- A callback that always returns lets every pass of the batch loop return. -/
theorem batch_loop_returns {W : Type} (data : data_t R) (update_batch : update_batch_f R W)
    (hcb : ∀ net d slice w, ∃ r, update_batch net d slice w = .ok r) (n : Nat)
    (st : network_t R × W × uint32_array_t) :
    ∃ st', for_range (fun _ (st : network_t R × W × uint32_array_t) => do
      let (net, w) ← update_batch st.1 data st.2.2 st.2.1
      pure (net, w, { st.2.2 with data := st.2.2.data.drop st.2.2.size })) n st = .ok st' := by
  obtain ⟨st', h, _⟩ := for_range_inv
    (fun _ (st : network_t R × W × uint32_array_t) => do
      let (net, w) ← update_batch st.1 data st.2.2 st.2.1
      pure (net, w, { st.2.2 with data := st.2.2.data.drop st.2.2.size }))
    (fun _ _ => True) n st trivial (by
      intro i s _ _
      obtain ⟨⟨net1, w1⟩, hr⟩ := hcb s.1 data s.2.2 s.2.1
      refine ⟨(net1, w1, { s.2.2 with data := s.2.2.data.drop s.2.2.size }), ?_, trivial⟩
      show (update_batch s.1 data s.2.2 s.2.1 >>= fun x => _) = _
      rw [hr, ok_bind]
      rfl)
  exact ⟨st', h⟩

/-- A callback that always returns and keeps `mini_batch_size` lets every pass of the
batch loop return, with `mini_batch_size` as it was. -/
theorem batch_loop_returns_keeping {W : Type} (data : data_t R)
    (update_batch : update_batch_f R W)
    (hcb : ∀ net d slice w, ∃ r, update_batch net d slice w = .ok r ∧
      r.1.mini_batch_size = net.mini_batch_size) (n : Nat)
    (st : network_t R × W × uint32_array_t) :
    ∃ st', for_range (fun _ (st : network_t R × W × uint32_array_t) => do
      let (net, w) ← update_batch st.1 data st.2.2 st.2.1
      pure (net, w, { st.2.2 with data := st.2.2.data.drop st.2.2.size })) n st = .ok st' ∧
      st'.1.mini_batch_size = st.1.mini_batch_size := by
  obtain ⟨st', h, hk⟩ := for_range_inv
    (fun _ (st : network_t R × W × uint32_array_t) => do
      let (net, w) ← update_batch st.1 data st.2.2 st.2.1
      pure (net, w, { st.2.2 with data := st.2.2.data.drop st.2.2.size }))
    (fun _ s => s.1.mini_batch_size = st.1.mini_batch_size) n st rfl (by
      intro i s _ hs
      obtain ⟨⟨net1, w1⟩, hr, hkeep⟩ := hcb s.1 data s.2.2 s.2.1
      refine ⟨(net1, w1, { s.2.2 with data := s.2.2.data.drop s.2.2.size }), ?_,
        hkeep.trans hs⟩
      show (update_batch s.1 data s.2.2 s.2.1 >>= fun x => _) = _
      rw [hr, ok_bind]
      rfl)
  exact ⟨st', h, hk⟩

/-- The driver after its two assertions, with a callback that always returns: the loop
returns, and the run returns unless the callback left `mini_batch_size` at 0, in which
case the remainder divides by zero. -/
theorem process_mini_batches_past_assertions {W : Type} (net : network_t R)
    (data : data_t R) (rand_index : List Nat) (update_batch : update_batch_f R W) (w : W)
    (hcb : ∀ net d slice w, ∃ r, update_batch net d slice w = .ok r)
    (hi : data.items ≠ 0) (hb : net.mini_batch_size ≠ 0) :
    ∃ st1, for_range (fun _ (st : network_t R × W × uint32_array_t) => do
        let (net, w) ← update_batch st.1 data st.2.2 st.2.1
        pure (net, w, { st.2.2 with data := st.2.2.data.drop st.2.2.size }))
        (data.items / net.mini_batch_size)
        (net, w, { data := rand_index, size := net.mini_batch_size }) = .ok st1 ∧
      (st1.1.mini_batch_size = 0 →
        network_process_mini_batches net data rand_index update_batch w =
          .error .division_by_zero) ∧
      (st1.1.mini_batch_size ≠ 0 →
        ∃ r, network_process_mini_batches net data rand_index update_batch w = .ok r) := by
  obtain ⟨⟨net1, w1, slice1⟩, hloop⟩ := batch_loop_returns data update_batch hcb
    (data.items / net.mini_batch_size)
    (net, w, { data := rand_index, size := net.mini_batch_size })
  refine ⟨(net1, w1, slice1), hloop, fun hz => ?_, fun hz => ?_⟩
  · unfold network_process_mini_batches
    simp only [hi, hb, if_false, hloop]
    have hz' : net1.mini_batch_size = 0 := hz
    simp [u32_mod, hz']
  · have hz' : net1.mini_batch_size ≠ 0 := hz
    unfold network_process_mini_batches
    simp only [hi, hb, if_false, hloop]
    by_cases hr : data.items % net1.mini_batch_size = 0
    · exact ⟨(net1, w1), by simp [u32_mod_ok _ _ hz', hr]⟩
    · obtain ⟨r, hr'⟩ := hcb net1 data
        { slice1 with size := data.items % net1.mini_batch_size } w1
      exact ⟨r, by simp [u32_mod_ok _ _ hz', hr, hr']⟩

/-- C22: `network_process_mini_batches` stops on an assertion whenever `data.items` or
`mini_batch_size` is 0, whatever the callback is (also one that would itself stop with
another fault, so the callback is not invoked first).  With a callback that always
returns it stops on an assertion only then: the one other way the run can stop is the
division by zero of the remainder, when the callback left `mini_batch_size` at 0; and
with a callback that always returns and keeps `mini_batch_size`, as
`network_update_mini_batch` does, the run stops at all only when `data.items` or
`mini_batch_size` is 0.  `network_update_mini_batch` stops on an assertion for a slice
of size 0, whatever the network and the data are, the assertion being its first
step. -/
theorem zero_sizes_fail_first {W : Type} (net : network_t R) (data : data_t R)
    (rand_index : List Nat) (update_batch : update_batch_f R W) (w : W)
    (slice : uint32_array_t) :
    (data.items = 0 ∨ net.mini_batch_size = 0 →
      network_process_mini_batches net data rand_index update_batch w = .error .assertion ∧
      network_process_mini_batches net data rand_index
        (fun _ _ _ (_ : W) => .error .out_of_bounds) w = .error .assertion) ∧
    ((∀ net d slice w, ∃ r, update_batch net d slice w = .ok r) →
      (network_process_mini_batches net data rand_index update_batch w = .error .assertion ↔
        (data.items = 0 ∨ net.mini_batch_size = 0)) ∧
      (∀ e, network_process_mini_batches net data rand_index update_batch w = .error e →
        e = .assertion ∨ e = .division_by_zero)) ∧
    ((∀ net d slice w, ∃ r, update_batch net d slice w = .ok r ∧
        r.1.mini_batch_size = net.mini_batch_size) →
      ((∃ e, network_process_mini_batches net data rand_index update_batch w = .error e) ↔
        (data.items = 0 ∨ net.mini_batch_size = 0))) ∧
    (slice.size = 0 → network_update_mini_batch exp net data slice = .error .assertion) := by
  have hfail : ∀ cb : update_batch_f R W, data.items = 0 ∨ net.mini_batch_size = 0 →
      network_process_mini_batches net data rand_index cb w = .error .assertion := by
    intro cb h
    unfold network_process_mini_batches
    by_cases hi : data.items = 0
    · rw [if_pos hi]
      rfl
    · rw [if_neg hi]
      have hb : net.mini_batch_size = 0 := h.resolve_left hi
      show ((pure PUnit.unit : Except fault PUnit) >>= fun _ => _) = _
      rw [pure_eq_ok, ok_bind, if_pos hb]
      rfl
  refine ⟨fun h => ⟨hfail _ h, hfail _ h⟩, fun hcb => ⟨⟨?_, hfail _⟩, ?_⟩, fun hcb =>
    ⟨?_, fun h => ⟨_, hfail _ h⟩⟩, fun hs => ?_⟩
  · intro he
    by_contra hne
    obtain ⟨st1, _, hzero, hnz⟩ := process_mini_batches_past_assertions net data rand_index
      update_batch w hcb (fun h => hne (Or.inl h)) (fun h => hne (Or.inr h))
    by_cases hz : st1.1.mini_batch_size = 0
    · rw [hzero hz] at he
      cases he
    · obtain ⟨r, hr⟩ := hnz hz
      rw [hr] at he
      cases he
  · intro e he
    by_cases hzs : data.items = 0 ∨ net.mini_batch_size = 0
    · rw [hfail _ hzs] at he
      cases he
      exact Or.inl rfl
    · obtain ⟨st1, _, hzero, hnz⟩ := process_mini_batches_past_assertions net data
        rand_index update_batch w hcb (fun h => hzs (Or.inl h)) (fun h => hzs (Or.inr h))
      by_cases hz : st1.1.mini_batch_size = 0
      · rw [hzero hz] at he
        cases he
        exact Or.inr rfl
      · obtain ⟨r, hr⟩ := hnz hz
        rw [hr] at he
        cases he
  · rintro ⟨e, he⟩
    by_contra hne
    have hi : data.items ≠ 0 := fun h => hne (Or.inl h)
    have hb : net.mini_batch_size ≠ 0 := fun h => hne (Or.inr h)
    obtain ⟨st1, hloop, _, hnz⟩ := process_mini_batches_past_assertions net data rand_index
      update_batch w (fun n d s v => (hcb n d s v).imp fun _ hr => hr.1) hi hb
    obtain ⟨st2, hloop2, hkeep⟩ := batch_loop_returns_keeping data update_batch hcb
      (data.items / net.mini_batch_size)
      (net, w, { data := rand_index, size := net.mini_batch_size })
    rw [hloop] at hloop2
    cases hloop2
    obtain ⟨r, hr⟩ := hnz (by rw [hkeep]; exact hb)
    rw [hr] at he
    cases he
  · unfold network_update_mini_batch
    rw [if_pos hs]
    rfl

end ZeroSizes

/-- C22 on the 2-3-2 test network: with batch size 0, or with no sample, the driver stops
on the assertion; with batch size 10 and three samples and the recording callback it
does not stop; with three samples, batch size 2 and a callback that sets the batch size
to 0 the run divides by zero at the remainder; the update stops on the assertion for a
slice of size 0. -/
theorem zero_sizes_fail_first_witness :
    network_process_mini_batches { training_fixture_network ℝ with mini_batch_size := 0 }
      (training_fixture_data ℝ) [2, 0, 1] record_batch [] = .error .assertion ∧
    network_process_mini_batches (training_fixture_network ℝ)
      { training_fixture_data ℝ with items := 0 } [2, 0, 1] record_batch [] =
        .error .assertion ∧
    ((∃ e, network_process_mini_batches (training_fixture_network ℝ)
        (training_fixture_data ℝ) [2, 0, 1] record_batch [] = .error e) ↔
      ((training_fixture_data ℝ).items = 0 ∨
        (training_fixture_network ℝ).mini_batch_size = 0)) ∧
    ¬ ((training_fixture_data ℝ).items = 0 ∨
        (training_fixture_network ℝ).mini_batch_size = 0) ∧
    network_process_mini_batches (batch_fixture_network 2) (batch_fixture_data 3) [2, 0, 1]
      (fun net _ _ (w : Unit) => .ok ({ net with mini_batch_size := 0 }, w)) () =
        .error .division_by_zero ∧
    network_update_mini_batch Real.exp (training_fixture_network ℝ)
      (training_fixture_data ℝ) { size := 0, data := [2, 0, 1] } = .error .assertion :=
  ⟨((zero_sizes_fail_first Real.exp
      { training_fixture_network ℝ with mini_batch_size := 0 } (training_fixture_data ℝ)
      [2, 0, 1] record_batch [] { size := 0, data := [] }).1 (Or.inr rfl)).1,
   ((zero_sizes_fail_first Real.exp (training_fixture_network ℝ)
      { training_fixture_data ℝ with items := 0 } [2, 0, 1] record_batch []
      { size := 0, data := [] }).1 (Or.inl rfl)).1,
   (zero_sizes_fail_first Real.exp (training_fixture_network ℝ) (training_fixture_data ℝ)
      [2, 0, 1] record_batch [] { size := 0, data := [] }).2.2.1
      (fun net _ slice w => ⟨(net, w ++ [slice]), rfl, rfl⟩),
   by decide,
   rfl,
   (zero_sizes_fail_first Real.exp (training_fixture_network ℝ) (training_fixture_data ℝ)
      [2, 0, 1] record_batch [] { size := 0, data := [2, 0, 1] }).2.2.2 rfl⟩

theorem or_low_bits (a b i : Nat) (h : b < 2 ^ i) : a * 2 ^ i ||| b = a * 2 ^ i + b := by
  rw [Nat.mul_comm a, ← Nat.mul_add_lt_is_or h]

/-- The or of four bytes shifted into place is their big-endian sum. -/
theorem big_endian_word (b0 b1 b2 b3 : Nat) (h1 : b1 < 256) (h2 : b2 < 256) (h3 : b3 < 256) :
    b0 <<< 24 ||| b1 <<< 16 ||| b2 <<< 8 ||| b3 =
      b0 * 2 ^ 24 + b1 * 2 ^ 16 + b2 * 2 ^ 8 + b3 := by
  simp only [Nat.shiftLeft_eq]
  rw [or_low_bits b0 (b1 * 2 ^ 16) 24 (by omega)]
  rw [show b0 * 2 ^ 24 + b1 * 2 ^ 16 = (b0 * 2 ^ 8 + b1) * 2 ^ 16 by ring]
  rw [or_low_bits _ (b2 * 2 ^ 8) 16 (by omega)]
  rw [show (b0 * 2 ^ 8 + b1) * 2 ^ 16 + b2 * 2 ^ 8 =
    ((b0 * 2 ^ 8 + b1) * 2 ^ 8 + b2) * 2 ^ 8 by ring]
  rw [or_low_bits _ b3 8 (by omega)]

/-- C23: for bytes `b0, b1, b2, b3` at the start of the buffer, `extract_header_line`
returns the `int32_t` value of the big-endian word
`b0 * 2^24 + b1 * 2^16 + b2 * 2^8 + b3`: that sum when `b0 < 128`, and the sum less
`2^32` otherwise. -/
theorem extract_header_line_big_endian (b0 b1 b2 b3 : Nat) (rest : List Nat)
    (h0 : b0 < 256) (h1 : b1 < 256) (h2 : b2 < 256) (h3 : b3 < 256) :
    extract_header_line (b0 :: b1 :: b2 :: b3 :: rest) =
      .ok (to_int32 (b0 * 2 ^ 24 + b1 * 2 ^ 16 + b2 * 2 ^ 8 + b3)) ∧
    (b0 < 128 → extract_header_line (b0 :: b1 :: b2 :: b3 :: rest) =
      .ok ((b0 * 2 ^ 24 + b1 * 2 ^ 16 + b2 * 2 ^ 8 + b3 : Nat) : Int)) ∧
    (128 ≤ b0 → extract_header_line (b0 :: b1 :: b2 :: b3 :: rest) =
      .ok (((b0 * 2 ^ 24 + b1 * 2 ^ 16 + b2 * 2 ^ 8 + b3 : Nat) : Int) - 2 ^ 32)) := by
  have hrun : extract_header_line (b0 :: b1 :: b2 :: b3 :: rest) =
      .ok (to_int32 (b0 * 2 ^ 24 + b1 * 2 ^ 16 + b2 * 2 ^ 8 + b3)) := by
    have hw := big_endian_word b0 b1 b2 b3 h1 h2 h3
    have hlt : b0 * 2 ^ 24 + b1 * 2 ^ 16 + b2 * 2 ^ 8 + b3 < 2 ^ 32 := by omega
    unfold extract_header_line
    rw [load_ok _ 0 0 b0 rfl (by simp), ok_bind, load_ok _ 1 1 b1 rfl (by simp), ok_bind,
      load_ok _ 2 2 b2 rfl (by simp), ok_bind, load_ok _ 3 3 b3 rfl (by simp), ok_bind, hw,
      Nat.mod_eq_of_lt hlt]
    rfl
  have hlt : b0 * 2 ^ 24 + b1 * 2 ^ 16 + b2 * 2 ^ 8 + b3 < 2 ^ 32 := by omega
  refine ⟨hrun, fun h => ?_, fun h => ?_⟩
  · rw [hrun]
    unfold to_int32
    rw [Nat.mod_eq_of_lt hlt, if_pos (by omega)]
  · rw [hrun]
    unfold to_int32
    rw [Nat.mod_eq_of_lt hlt, if_neg (by omega)]

/-- C23 on the bytes `00 00 08 03` of the test (2051), and on `FF FF FF FF` (-1). -/
theorem extract_header_line_big_endian_witness :
    extract_header_line [0, 0, 8, 3] = .ok 2051 ∧
    extract_header_line [255, 255, 255, 255] = .ok (-1) := by
  constructor
  · have h := (extract_header_line_big_endian 0 0 8 3 [] (by norm_num) (by norm_num)
      (by norm_num) (by norm_num)).2.1 (by norm_num)
    rw [h]
    norm_num
  · have h := (extract_header_line_big_endian 255 255 255 255 [] (by norm_num) (by norm_num)
      (by norm_num) (by norm_num)).2.2 (by norm_num)
    rw [h]
    norm_num

section TwoLayers

variable {R : Type} [LinearOrderedField R] (exp : R → R)

/-- C30: for a laid-out network with exactly two layers, a bound input `x` and a label
the output layer has, the start value of the backward loop is the `int32_t` value -1 of
the wrapped `0 - 1`, the loop makes no pass (the call is the forward pass, the output
error and one accumulation at layer 0), and the call returns with
`nabla_b[0] = nabla_b[0] + error[0]` and `nabla_w[0] = nabla_w[0] + error[0] x^T`,
where `error[0]` is `sigmoid_prime (zs[0])` times the cost derivative of the output;
layer 0 is the only layer the accumulators have. -/
theorem two_layer_backpropagation (net : network_t R) (label : Nat) (h : net.allocated)
    (hb : net.input_bound) (hL : net.nodes.size = 2) (hy : label < net.layer 1) :
    u32_sub (u32_sub net.outputs.size 1) 1 = 2 ^ 32 - 1 ∧
    to_int32 (u32_sub (u32_sub net.outputs.size 1) 1) = -1 ∧
    (to_int32 (u32_sub (u32_sub net.outputs.size 1) 1) + 1).toNat = 0 ∧
    network_backpropagate_error exp net label =
      (network_feed_forward exp net 1 >>= fun n1 =>
        network_get_output_error exp n1 label >>= fun n2 => network_accumulate_cfgs n2 0) ∧
    ∃ net', network_backpropagate_error exp net label = .ok net' ∧
      net'.nabla_b.size = 1 ∧ net'.nabla_w.size = 1 ∧
      net'.nabla_b.vec 0 = List.zipWith (fun xi yi => xi + yi)
        (List.zipWith (fun s d => s * d)
          ((forward_z exp net.weights net.biases (net.outputs.vec INPUT_INDEX) 0).map
            (sigmoid_prime exp))
          (cost_gradient
            (forward_in exp net.weights net.biases (net.outputs.vec INPUT_INDEX) 1) label))
        (net.nabla_b.vec 0) ∧
      net'.nabla_w.mat 0 = outer_add
        (List.zipWith (fun s d => s * d)
          ((forward_z exp net.weights net.biases (net.outputs.vec INPUT_INDEX) 0).map
            (sigmoid_prime exp))
          (cost_gradient
            (forward_in exp net.weights net.biases (net.outputs.vec INPUT_INDEX) 1) label))
        (net.outputs.vec INPUT_INDEX) (net.nabla_w.mat 0) := by
  have hsz : net.outputs.size = 1 := by
    rw [h.2.2.2.2.2.2.2.2.1, layers_tail_length net h.1, hL]
  have hw1 : u32_sub (1 : Nat) 1 = 0 := by unfold u32_sub; norm_num
  have hw2 : u32_sub (0 : Nat) 1 = 2 ^ 32 - 1 := by unfold u32_sub; norm_num
  have hw3 : to_int32 (2 ^ 32 - 1) = -1 := by unfold to_int32; norm_num
  have hw4 : to_int32 0 = 0 := by unfold to_int32; norm_num
  -- the three steps
  obtain ⟨net1, hrun1, _, hal1, _, _, _, _⟩ := network_feed_forward_ok exp net 1 h hb (by omega)
  have hn1 : net1.nodes = net.nodes := by
    have := (outputs_zs_frame_iff net1 net).1 (by assumption)
    exact this.2.2.2.1
  have hlayer1 : net1.layer 1 = net.layer 1 := by unfold network_t.layer; rw [hn1]
  obtain ⟨net2, hrun2, hp2, _, _, _, _, hal2, _⟩ :=
    network_get_output_error_post exp net1 label hal1 (by rw [hn1, hL])
      (by rw [hn1, hL, hlayer1]; exact hy)
  have hn2 : net2.nodes = net.nodes := (params_nodes net2 net1 hp2).1.trans hn1
  have hsz2 : net2.outputs.size = 1 := by
    rw [hal2.2.2.2.2.2.2.2.2.1, layers_tail_length net2 hal2.1, hn2, hL]
  have hprog : network_backpropagate_error exp net label =
      (network_feed_forward exp net 1 >>= fun n1 =>
        network_get_output_error exp n1 label >>= fun n2 => network_accumulate_cfgs n2 0) := by
    unfold network_backpropagate_error
    rw [hrun1, ok_bind, ok_bind, hrun2, ok_bind, ok_bind]
    show (network_accumulate_cfgs net2 (to_int32 (u32_sub net2.outputs.size 1)) >>= fun net3 =>
      for_down (network_backpropagate_error_body exp)
        (to_int32 (u32_sub (u32_sub net2.outputs.size 1) 1) + 1).toNat net3) = _
    rw [hsz2, hw1, hw2, hw3, hw4]
    show (network_accumulate_cfgs net2 0 >>= fun net3 => pure net3) = _
    exact bind_pure _
  obtain ⟨net', hrun, _, hal', _, _, _, hacc, _⟩ :=
    network_backpropagate_error_ok exp net label h hb (by omega) (by rw [hL]; exact hy)
  obtain ⟨_, e2, e3⟩ := hacc 0 (by omega)
  rw [hL, layer_error_last] at e2 e3
  have hl' : net'.layers = net.layers := by
    unfold network_t.layers
    rw [(params_nodes net' net (by assumption)).1]
  refine ⟨by rw [hsz, hw1, hw2], by rw [hsz, hw1, hw2, hw3], by rw [hsz, hw1, hw2, hw3]; rfl,
    hprog, net', hrun, ?_, ?_, e2, e3⟩
  · rw [hal'.2.2.2.2.2.1.1, hl', layers_tail_length net h.1, hL]
  · rw [hal'.2.2.1.1, hl', layers_length net h.1, hL]

end TwoLayers

/-- C30 on the two-layer fixture with label 1, over the reals: the hypotheses hold, both
pre-activations are 0, the error is `[1/8, -1/8]`, and the accumulators, which held
ones, end as `[9/8, 7/8]` and `[[9/8, 9/8], [7/8, 7/8]]`. -/
theorem two_layer_backpropagation_witness :
    ((two_layer_fixture ℝ).allocated ∧ (two_layer_fixture ℝ).input_bound ∧
      (two_layer_fixture ℝ).nodes.size = 2 ∧ 1 < (two_layer_fixture ℝ).layer 1) ∧
    to_int32 (u32_sub (u32_sub (two_layer_fixture ℝ).outputs.size 1) 1) = -1 ∧
    ∃ net', network_backpropagate_error Real.exp (two_layer_fixture ℝ) 1 = .ok net' ∧
      net'.nabla_b.vec 0 = [9 / 8, 7 / 8] ∧
      (net'.nabla_w.mat 0).data = [[9 / 8, 9 / 8], [7 / 8, 7 / 8]] := by
  obtain ⟨_, hw, _, _, net', hrun, _, _, hb, hw'⟩ := two_layer_backpropagation Real.exp
    (two_layer_fixture ℝ) 1 (by decide) (by decide) rfl (by decide)
  refine ⟨by decide, hw, net', hrun, ?_, ?_⟩
  · rw [hb]
    have h0 : Int.toNat 0 = 0 := rfl
    norm_num [h0, two_layer_fixture, forward_z, forward_in, layer_input, dot, cost_gradient,
      sigmoid_prime, sigmoid, vector_array_t.vec, vector_array_t.idx, matrix_array_t.mat,
      matrix_array_t.idx, load, INPUT_INDEX]
  · rw [hw']
    have h0 : Int.toNat 0 = 0 := rfl
    norm_num [h0, two_layer_fixture, forward_z, forward_in, layer_input, dot, cost_gradient,
      sigmoid_prime, sigmoid, vector_array_t.vec, vector_array_t.idx, matrix_array_t.mat,
      matrix_array_t.idx, load, INPUT_INDEX, outer_add]

/-! ## What every returning call keeps -/

/-- Partial-correctness rule for the downward loop. -/
theorem for_down_ok_inv {σ : Type} (body : Nat → σ → Except fault σ) (P : σ → Prop)
    (hstep : ∀ i s s', body i s = .ok s' → P s → P s') (n : Nat) (s s' : σ)
    (h : for_down body n s = .ok s') (h0 : P s) : P s' := by
  induction n generalizing s with
  | zero =>
    cases h
    exact h0
  | succ n ih =>
    obtain ⟨s1, h1, h2⟩ := bind_ok_inv _ _ _ h
    exact ih s1 h2 (hstep n s s1 h1 h0)

section Keeps

variable {R : Type} [LinearOrderedField R] (exp : R → R)

theorem network_feed_forward_body_keeps (i : Nat) (net net' : network_t R)
    (h : network_feed_forward_body exp 1 i net = .ok net') : net'.params = net.params := by
  unfold network_feed_forward_body at h
  obtain ⟨W, _, h⟩ := bind_ok_inv _ _ _ h
  obtain ⟨prev, _, h⟩ := bind_ok_inv _ _ _ h
  obtain ⟨out, _, h⟩ := bind_ok_inv _ _ _ h
  obtain ⟨out1, _, h⟩ := bind_ok_inv _ _ _ h
  obtain ⟨b, _, h⟩ := bind_ok_inv _ _ _ h
  obtain ⟨out2, _, h⟩ := bind_ok_inv _ _ _ h
  have h : (net.zs.idx (i : Int) >>= fun z => gsl_vector_memcpy z out2 >>= fun z =>
      net.zs.upd (i : Int) z >>= fun zs =>
      net.outputs.upd (i : Int) (vector_vectorise out2 (sigmoid exp)) >>=
      fun outputs => pure { net with outputs := outputs, zs := zs }) = .ok net' := h
  obtain ⟨z, _, h⟩ := bind_ok_inv _ _ _ h
  obtain ⟨z1, _, h⟩ := bind_ok_inv _ _ _ h
  obtain ⟨zs, _, h⟩ := bind_ok_inv _ _ _ h
  obtain ⟨outputs, _, h⟩ := bind_ok_inv _ _ _ h
  cases h
  rfl

theorem network_feed_forward_keeps (net net' : network_t R)
    (h : network_feed_forward exp net 1 = .ok net') : net'.params = net.params :=
  for_range_ok_inv (network_feed_forward_body exp 1) (fun s => s.params = net.params)
    (fun i s s' hs hP => (network_feed_forward_body_keeps exp i s s' hs).trans hP) _ net net' h
    rfl

theorem network_get_output_error_keeps (net net' : network_t R) (label : Nat)
    (h : network_get_output_error exp net label = .ok net') : net'.params = net.params := by
  unfold network_get_output_error at h
  obtain ⟨out, _, h⟩ := bind_ok_inv _ _ _ h
  obtain ⟨cd, _, h⟩ := bind_ok_inv _ _ _ h
  obtain ⟨delta, _, h⟩ := bind_ok_inv _ _ _ h
  obtain ⟨z, _, h⟩ := bind_ok_inv _ _ _ h
  obtain ⟨delta1, _, h⟩ := bind_ok_inv _ _ _ h
  obtain ⟨delta2, _, h⟩ := bind_ok_inv _ _ _ h
  obtain ⟨od, _, h⟩ := bind_ok_inv _ _ _ h
  cases h
  rfl

theorem network_accumulate_cfgs_keeps (net net' : network_t R) (layer : Int)
    (h : network_accumulate_cfgs net layer = .ok net') : net'.params = net.params := by
  unfold network_accumulate_cfgs at h
  obtain ⟨delta, _, h⟩ := bind_ok_inv _ _ _ h
  obtain ⟨nb, _, h⟩ := bind_ok_inv _ _ _ h
  obtain ⟨nb1, _, h⟩ := bind_ok_inv _ _ _ h
  obtain ⟨nabla_b, _, h⟩ := bind_ok_inv _ _ _ h
  obtain ⟨prev, _, h⟩ := bind_ok_inv _ _ _ h
  obtain ⟨nw, _, h⟩ := bind_ok_inv _ _ _ h
  obtain ⟨nw1, _, h⟩ := bind_ok_inv _ _ _ h
  obtain ⟨nabla_w, _, h⟩ := bind_ok_inv _ _ _ h
  cases h
  rfl

theorem network_backpropagate_error_body_keeps (l : Nat) (net net' : network_t R)
    (h : network_backpropagate_error_body exp l net = .ok net') :
    net'.params = net.params := by
  unfold network_backpropagate_error_body at h
  obtain ⟨delta, _, h⟩ := bind_ok_inv _ _ _ h
  obtain ⟨z, _, h⟩ := bind_ok_inv _ _ _ h
  obtain ⟨delta1, _, h⟩ := bind_ok_inv _ _ _ h
  obtain ⟨W, _, h⟩ := bind_ok_inv _ _ _ h
  obtain ⟨next, _, h⟩ := bind_ok_inv _ _ _ h
  obtain ⟨tmp, _, h⟩ := bind_ok_inv _ _ _ h
  obtain ⟨delta2, _, h⟩ := bind_ok_inv _ _ _ h
  obtain ⟨od, _, h⟩ := bind_ok_inv _ _ _ h
  have hk := network_accumulate_cfgs_keeps _ net' _ h
  exact hk

/-- Every returning call of `network_backpropagate_error` keeps the hyperparameters,
the layer sizes, the biases and the weights. -/
theorem network_backpropagate_error_keeps (net net' : network_t R) (label : Nat)
    (h : network_backpropagate_error exp net label = .ok net') :
    net'.params = net.params := by
  unfold network_backpropagate_error at h
  obtain ⟨n1, h1, h⟩ := bind_ok_inv _ _ _ h
  obtain ⟨n2, h2, h⟩ := bind_ok_inv _ _ _ h
  obtain ⟨n3, h3, h⟩ := bind_ok_inv _ _ _ h
  have e1 := network_feed_forward_keeps exp net n1 h1
  have e2 := network_get_output_error_keeps exp n1 n2 label h2
  have e3 := network_accumulate_cfgs_keeps n2 n3 _ h3
  exact for_down_ok_inv (network_backpropagate_error_body exp) (fun s => s.params = net.params)
    (fun i s s' hs hP => (network_backpropagate_error_body_keeps exp i s s' hs).trans hP)
    _ n3 net' h (e3.trans (e2.trans e1))

/-- Every returning call of `network_update_mini_batch` keeps the learning rate, the
epoch count, the batch size and the layer sizes. -/
theorem network_update_mini_batch_keeps (net net' : network_t R) (data : data_t R)
    (slice : uint32_array_t) (h : network_update_mini_batch exp net data slice = .ok net') :
    net'.eta = net.eta ∧ net'.epochs = net.epochs ∧
      net'.mini_batch_size = net.mini_batch_size ∧ net'.nodes = net.nodes := by
  unfold network_update_mini_batch at h
  by_cases hs : slice.size = 0
  · rw [if_pos hs] at h
    cases h
  rw [if_neg hs] at h
  obtain ⟨_, _, h⟩ := bind_ok_inv _ _ _ h
  obtain ⟨nabla_b, _, h⟩ := bind_ok_inv _ _ _ h
  obtain ⟨nabla_w, _, h⟩ := bind_ok_inv _ _ _ h
  obtain ⟨st1, h1, h⟩ := bind_ok_inv _ _ _ h
  have e1 : st1.params = net.params :=
    for_range_ok_inv _ (fun (s : network_t R) => s.params = net.params)
      (fun i s s' hs hP => by
        obtain ⟨ri, _, hs⟩ := bind_ok_inv _ _ _ hs
        obtain ⟨image, _, hs⟩ := bind_ok_inv _ _ _ hs
        obtain ⟨outputs, _, hs⟩ := bind_ok_inv _ _ _ hs
        obtain ⟨label, _, hs⟩ := bind_ok_inv _ _ _ hs
        have hk := network_backpropagate_error_keeps exp _ s' label hs
        exact hk.trans hP)
      _ _ st1 h1 rfl
  obtain ⟨e1n, _, _, e1e, _⟩ := params_nodes st1 net e1
  simp only [network_t.params, Prod.mk.injEq] at e1
  have e2 := for_range_ok_inv _
    (fun (s : network_t R) => s.eta = st1.eta ∧ s.epochs = st1.epochs ∧
      s.mini_batch_size = st1.mini_batch_size ∧ s.nodes = st1.nodes)
    (fun i s s' hs hP => by
      obtain ⟨nw, _, hs⟩ := bind_ok_inv _ _ _ hs
      obtain ⟨nabla_w, _, hs⟩ := bind_ok_inv _ _ _ hs
      obtain ⟨w, _, hs⟩ := bind_ok_inv _ _ _ hs
      obtain ⟨w1, _, hs⟩ := bind_ok_inv _ _ _ hs
      obtain ⟨weights, _, hs⟩ := bind_ok_inv _ _ _ hs
      obtain ⟨nb, _, hs⟩ := bind_ok_inv _ _ _ hs
      obtain ⟨nabla_b, _, hs⟩ := bind_ok_inv _ _ _ hs
      obtain ⟨b, _, hs⟩ := bind_ok_inv _ _ _ hs
      obtain ⟨b1, _, hs⟩ := bind_ok_inv _ _ _ hs
      obtain ⟨biases, _, hs⟩ := bind_ok_inv _ _ _ hs
      cases hs
      exact hP)
    _ _ net' h ⟨rfl, rfl, rfl, rfl⟩
  exact ⟨e2.1.trans e1.1, e2.2.1.trans e1.2.1, e2.2.2.1.trans e1.2.2.1,
    e2.2.2.2.trans e1.2.2.2.1⟩

end Keeps

/-! ## The batches as a fold over the slices -/

theorem bind_congr_ok {α β : Type} (x : Except fault α) (f g : α → Except fault β)
    (h : ∀ a, x = .ok a → f a = g a) : (x >>= f) = (x >>= g) := by
  cases x with
  | error e => rfl
  | ok a => exact h a rfl

theorem foldlM_ok_inv {α σ : Type} (step : σ → α → Except fault σ) (P : σ → Prop)
    (hstep : ∀ s a s', step s a = .ok s' → P s → P s') (l : List α) (s s' : σ)
    (h : l.foldlM step s = .ok s') (h0 : P s) : P s' := by
  induction l generalizing s with
  | nil =>
    cases h
    exact h0
  | cons a l ih =>
    rw [List.foldlM_cons] at h
    obtain ⟨s1, h1, h2⟩ := bind_ok_inv _ _ _ h
    exact ih s1 h2 (hstep s a s1 h1 h0)

section Fold

variable {R : Type} [LinearOrderedField R]

/-- The loop over the full batches is the fold of the callback over the first `q` full
windows; the slice it leaves starts after them. -/
theorem batch_loop_fold {W : Type} (data : data_t R) (update_batch : update_batch_f R W)
    (b : Nat) (r : List Nat) (net : network_t R) (w : W) (q : Nat) :
    for_range (fun _ (st : network_t R × W × uint32_array_t) => do
        let (net, w) ← update_batch st.1 data st.2.2 st.2.1
        pure (net, w, { st.2.2 with data := st.2.2.data.drop st.2.2.size }))
      q (net, w, { size := b, data := r }) =
    (((List.range q).map (fun k => ({ size := b, data := r.drop (k * b) } : uint32_array_t))).foldlM
      (fun (st : network_t R × W) s => update_batch st.1 data s st.2) (net, w) >>=
      fun st => pure (st.1, st.2, ({ size := b, data := r.drop (q * b) } : uint32_array_t))) := by
  induction q with
  | zero => simp [for_range]
  | succ q ih =>
    rw [for_range, ih, List.range_succ, List.map_append, List.foldlM_append, bind_assoc,
      bind_assoc]
    apply bind_congr_ok
    intro st _
    rw [pure_bind, List.map_singleton, List.foldlM_cons]
    simp only [List.foldlM_nil, bind_pure]
    apply bind_congr_ok
    intro st' _
    show pure (st'.1, st'.2, ({ size := b, data := (r.drop (q * b)).drop b } : uint32_array_t)) = _
    rw [List.drop_drop, Nat.succ_mul]

/-- With a callback that keeps `mini_batch_size`, `network_process_mini_batches` on a
non-empty dataset with a non-zero batch size is the fold of the callback over the
slices of `mini_batch_slices`, in that order: these slices and no others are handed to
the callback. -/
theorem process_mini_batches_fold {W : Type} (net : network_t R) (data : data_t R)
    (r : List Nat) (update_batch : update_batch_f R W) (w : W) (hn : data.items ≠ 0)
    (hb : net.mini_batch_size ≠ 0)
    (hkeep : ∀ st d s w st' w', update_batch st d s w = .ok (st', w') →
      st'.mini_batch_size = st.mini_batch_size) :
    network_process_mini_batches net data r update_batch w =
      (mini_batch_slices data.items net.mini_batch_size r).foldlM
        (fun (st : network_t R × W) s => update_batch st.1 data s st.2) (net, w) := by
  unfold network_process_mini_batches mini_batch_slices
  simp only [hn, hb, if_false]
  rw [List.foldlM_append]
  have hloop := batch_loop_fold data update_batch net.mini_batch_size r net w
    (data.items / net.mini_batch_size)
  show ((pure PUnit.unit : Except fault PUnit) >>= fun _ =>
    (pure PUnit.unit : Except fault PUnit) >>= fun _ =>
    (for_range (fun _ (st : network_t R × W × uint32_array_t) => do
        let (net, w) ← update_batch st.1 data st.2.2 st.2.1
        pure (net, w, { st.2.2 with data := st.2.2.data.drop st.2.2.size }))
      (data.items / net.mini_batch_size) (net, w, { size := net.mini_batch_size, data := r })
      >>= fun st => u32_mod data.items st.1.mini_batch_size >>= fun remainder =>
        if remainder ≠ 0 then
          update_batch st.1 data { st.2.2 with size := remainder } st.2.1
        else pure (st.1, st.2.1))) = _
  rw [pure_bind, pure_bind, hloop, bind_assoc]
  apply bind_congr_ok
  intro st hst
  have hm : st.1.mini_batch_size = net.mini_batch_size :=
    foldlM_ok_inv (fun (st : network_t R × W) s => update_batch st.1 data s st.2)
      (fun s => s.1.mini_batch_size = net.mini_batch_size)
      (fun s a s' hs hP => (hkeep s.1 data a s.2 s'.1 s'.2 hs).trans hP) _ _ st hst rfl
  rw [pure_bind]
  show (u32_mod data.items st.1.mini_batch_size >>= fun remainder =>
    if remainder ≠ 0 then
      update_batch st.1 data
        { size := remainder,
          data := r.drop (data.items / net.mini_batch_size * net.mini_batch_size) } st.2
    else pure (st.1, st.2)) = _
  rw [hm, u32_mod_ok _ _ hb, ok_bind]
  by_cases hr : data.items % net.mini_batch_size ≠ 0
  · rw [if_pos hr, if_pos hr, List.foldlM_cons]
    simp only [List.foldlM_nil, bind_pure]
  · rw [if_neg hr, if_neg hr, List.foldlM_nil]

end Fold

/-! ## Arrays with the same entries -/

theorem list_ext_getD {α : Type} (d : α) (l l' : List α) (hlen : l.length = l'.length)
    (h : ∀ i, i < l.length → l.getD i d = l'.getD i d) : l = l' := by
  apply List.ext_getElem hlen
  intro i h1 h2
  have := h i h1
  simpa [List.getD_eq_getElem?_getD, List.getElem?_eq_getElem h1,
    List.getElem?_eq_getElem h2] using this

section SameEntries

variable {R : Type} [LinearOrderedField R]

/-- Two matrices of the same shape with the same entries are the same matrix. -/
theorem gsl_matrix_ext (m m' : gsl_matrix R) (n1 n2 : Nat) (h : m.allocated n1 n2)
    (h' : m'.allocated n1 n2)
    (he : ∀ r c, r < n1 → c < n2 → m.entry r c = m'.entry r c) : m = m' := by
  have hl := matrix_allocated_length m n1 n2 h
  have hl' := matrix_allocated_length m' n1 n2 h'
  have hd : m.data = m'.data := by
    apply list_ext_getD [] _ _ (by rw [hl, hl'])
    intro r hr
    rw [hl] at hr
    apply list_ext_getD 0 _ _ (by
      rw [matrix_allocated_row m n1 n2 h r hr, matrix_allocated_row m' n1 n2 h' r hr])
    intro c hc
    rw [matrix_allocated_row m n1 n2 h r hr] at hc
    exact he r c hr hc
  obtain ⟨s1, s2, _⟩ := h
  obtain ⟨s1', s2', _⟩ := h'
  cases m
  cases m'
  simp only [gsl_matrix.mk.injEq]
  exact ⟨s1.trans s1'.symm, s2.trans s2'.symm, hd⟩

/-- Two matrix arrays laid out for the same sizes with the same entries are the same
array. -/
theorem matrix_array_entries_ext (a b : matrix_array_t R) (dims : List Nat)
    (ha : a.allocated dims) (hb : b.allocated dims)
    (he : ∀ l r c, l < dims.length - 1 → r < dims.getD (l + 1) 0 → c < dims.getD l 0 →
      (a.mat (l : Int)).entry r c = (b.mat (l : Int)).entry r c) : a = b := by
  have hd : a.data = b.data := by
    apply List.ext_getElem (by rw [ha.2.1, hb.2.1])
    intro l h1 h2
    have hl : l < dims.length - 1 := by rw [← ha.2.1]; exact h1
    obtain ⟨m, hm, hmat, hal⟩ := matrix_array_allocated_get a dims l ha hl
    obtain ⟨m', hm', hmat', hal'⟩ := matrix_array_allocated_get b dims l hb hl
    have e1 : a.data[l] = m := by
      rw [List.getElem?_eq_getElem h1] at hm
      exact Option.some.inj hm
    have e2 : b.data[l] = m' := by
      rw [List.getElem?_eq_getElem h2] at hm'
      exact Option.some.inj hm'
    rw [e1, e2]
    apply gsl_matrix_ext m m' _ _ hal hal'
    intro r c hr hc
    rw [← hmat, ← hmat']
    exact he l r c hl hr hc
  obtain ⟨s, _, _⟩ := ha
  obtain ⟨s', _, _⟩ := hb
  cases a
  cases b
  simp only [matrix_array_t.mk.injEq]
  exact ⟨s.trans s'.symm, hd⟩

/-- Two vector arrays without extra cells laid out for the same sizes with the same
entries are the same array. -/
theorem vector_array_entries_ext (a b : vector_array_t R) (dims : List Nat)
    (ha : a.allocated dims 0) (hb : b.allocated dims 0)
    (he : ∀ l r, l < dims.length → r < dims.getD l 0 →
      (a.vec (l : Int)).getD r 0 = (b.vec (l : Int)).getD r 0) : a = b := by
  have hd : a.data = b.data := by
    apply List.ext_getElem (by rw [ha.2.2.1, hb.2.2.1])
    intro l h1 h2
    have hl : l < dims.length := by
      have := ha.2.2.1
      omega
    obtain ⟨v, hv, hlen⟩ := vector_array_allocated_get a dims 0 l ha hl
    obtain ⟨v', hv', hlen'⟩ := vector_array_allocated_get b dims 0 l hb hl
    have e1 : a.vec (l : Int) = v :=
      vector_array_vec_eq a (l : Int) (l + 0) v (by rw [ha.2.1]; rfl) hv
    have e2 : b.vec (l : Int) = v' :=
      vector_array_vec_eq b (l : Int) (l + 0) v' (by rw [hb.2.1]; rfl) hv'
    have f1 : a.data[l] = v := by
      rw [Nat.add_zero, List.getElem?_eq_getElem h1] at hv
      exact Option.some.inj hv
    have f2 : b.data[l] = v' := by
      rw [Nat.add_zero, List.getElem?_eq_getElem h2] at hv'
      exact Option.some.inj hv'
    rw [f1, f2]
    apply list_ext_getD 0 _ _ (by rw [hlen, hlen'])
    intro r hr
    rw [hlen] at hr
    rw [← e1, ← e2]
    exact he l r hl hr
  obtain ⟨s, o, _, _⟩ := ha
  obtain ⟨s', o', _, _⟩ := hb
  cases a
  cases b
  simp only [vector_array_t.mk.injEq]
  exact ⟨s.trans s'.symm, o.trans o'.symm, hd⟩

end SameEntries

/-! ## Runs from networks with the same parameters -/

/-- Total-correctness rule for two folds over the same list, side by side. -/
theorem foldlM_inv2 {α σ : Type} (step : σ → α → Except fault σ) (Q : σ → σ → Prop)
    (l : List α)
    (hstep : ∀ s t x, x ∈ l → Q s t →
      ∃ s' t', step s x = .ok s' ∧ step t x = .ok t' ∧ Q s' t')
    (s t : σ) (hQ : Q s t) :
    ∃ s' t', l.foldlM step s = .ok s' ∧ l.foldlM step t = .ok t' ∧ Q s' t' := by
  induction l generalizing s t with
  | nil => exact ⟨s, t, rfl, rfl, hQ⟩
  | cons x l ih =>
    obtain ⟨s1, t1, hs1, ht1, hQ1⟩ := hstep s t x (List.mem_cons_self x l) hQ
    obtain ⟨s2, t2, hs2, ht2, hQ2⟩ :=
      ih (fun s t y hy hQ => hstep s t y (List.mem_cons_of_mem x hy) hQ) s1 t1 hQ1
    refine ⟨s2, t2, ?_, ?_, hQ2⟩
    · rw [List.foldlM_cons, hs1, ok_bind, hs2]
    · rw [List.foldlM_cons, ht1, ok_bind, ht2]

/-- Total-correctness rule for two upward loops, side by side. -/
theorem for_range_inv2 {σ : Type} (body : Nat → σ → Except fault σ) (Q : Nat → σ → σ → Prop)
    (n : Nat) (s t : σ) (h0 : Q 0 s t)
    (hstep : ∀ i s t, i < n → Q i s t →
      ∃ s' t', body i s = .ok s' ∧ body i t = .ok t' ∧ Q (i + 1) s' t') :
    ∃ s' t', for_range body n s = .ok s' ∧ for_range body n t = .ok t' ∧ Q n s' t' := by
  induction n with
  | zero => exact ⟨s, t, rfl, rfl, h0⟩
  | succ n ih =>
    obtain ⟨s1, t1, hs1, ht1, hQ1⟩ := ih (fun i s t hi => hstep i s t (Nat.lt_succ_of_lt hi))
    obtain ⟨s2, t2, hs2, ht2, hQ2⟩ := hstep n s1 t1 (Nat.lt_succ_self n) hQ1
    exact ⟨s2, t2, by simp [for_range, hs1, hs2], by simp [for_range, ht1, ht2], hQ2⟩

section SameParameters

variable {R : Type} [LinearOrderedField R] (exp : R → R)

theorem valid_slice_of_nodes (a b : network_t R) (data : data_t R) (slice : uint32_array_t)
    (hn : a.nodes = b.nodes) (hv : valid_slice a data slice) : valid_slice b data slice := by
  have hlayer : ∀ i, a.layer i = b.layer i := fun i => by unfold network_t.layer; rw [hn]
  refine ⟨hv.1, fun i hi => ?_⟩
  obtain ⟨v1, v2, v3, v4⟩ := hv.2 i hi
  exact ⟨v1, v2, by rw [← hlayer]; exact v3, by rw [← hlayer, ← hn]; exact v4⟩

/-- The mini-batch update from two laid-out networks with the same parameters (whatever
their other arrays hold) returns for both, with the same parameters again. -/
theorem network_update_mini_batch_rel (a b : network_t R) (data : data_t R)
    (slice : uint32_array_t) (hp : a.params = b.params) (ha : a.allocated)
    (hb : b.allocated) (hL : 2 ≤ a.nodes.size) (hs : slice.size ≠ 0)
    (hv : valid_slice a data slice) :
    ∃ a' b', network_update_mini_batch exp a data slice = .ok a' ∧
      network_update_mini_batch exp b data slice = .ok b' ∧
      a'.params = b'.params ∧ a'.allocated ∧ b'.allocated ∧
      a'.eta = a.eta ∧ a'.epochs = a.epochs ∧ a'.mini_batch_size = a.mini_batch_size ∧
      a'.nodes = a.nodes := by
  obtain ⟨hn, hbs, hw, heta, hlayer⟩ := params_nodes a b hp
  have hsz : b.nodes.size = a.nodes.size := by rw [hn]
  obtain ⟨a', ra, _, ala, ea⟩ := network_update_mini_batch_ok exp a data slice ha hL hs hv
  obtain ⟨b', rb, _, alb, eb⟩ := network_update_mini_batch_ok exp b data slice hb
    (by rw [hsz]; exact hL) hs (valid_slice_of_nodes a b data slice hn hv)
  obtain ⟨ka1, ka2, ka3, ka4⟩ := network_update_mini_batch_keeps exp a a' data slice ra
  obtain ⟨kb1, kb2, kb3, kb4⟩ := network_update_mini_batch_keeps exp b b' data slice rb
  have hla : a'.layers = a.layers := by unfold network_t.layers; rw [ka4]
  have hlb : b'.layers = a.layers := by unfold network_t.layers; rw [kb4, hn]
  obtain ⟨f1, f2, f3, f4⟩ := network_layer_facts a ha
  have hweights : a'.weights = b'.weights := by
    apply matrix_array_entries_ext a'.weights b'.weights a.layers
      (by rw [← hla]; exact ala.2.2.2.1) (by rw [← hlb]; exact alb.2.2.2.1)
    intro l r c hl hr hc
    rw [f1] at hl
    rw [f3 (l + 1) (by omega)] at hr
    rw [f3 l (by omega)] at hc
    rw [(ea l (by omega)).1 r c hr hc,
      (eb l (by rw [hsz]; omega)).1 r c (by rw [← hlayer]; exact hr)
        (by rw [← hlayer]; exact hc), hw, hbs, heta, hsz]
  have hbiases : a'.biases = b'.biases := by
    apply vector_array_entries_ext a'.biases b'.biases a.layers.tail
      (by rw [← hla]; exact ala.2.2.2.2.2.2.2.1) (by rw [← hlb]; exact alb.2.2.2.2.2.2.2.1)
    intro l r hl hr
    rw [f2] at hl
    rw [f4 l (by omega)] at hr
    rw [(ea l (by omega)).2 r hr,
      (eb l (by rw [hsz]; omega)).2 r (by rw [← hlayer]; exact hr), hw, hbs, heta, hsz]
  refine ⟨a', b', ra, rb, ?_, ala, alb, ka1, ka2, ka3, ka4⟩
  simp only [network_t.params, Prod.mk.injEq] at hp ⊢
  exact ⟨ka1.trans (hp.1.trans kb1.symm), ka2.trans (hp.2.1.trans kb2.symm),
    ka3.trans (hp.2.2.1.trans kb3.symm), ka4.trans (hn.trans kb4.symm), hbiases, hweights⟩

end SameParameters

/-! ## The slices of an epoch -/

/-- Every slice of `mini_batch_slices` for a non-zero batch size is non-empty, at most a
batch long, and a window of the first `n` cells of the index array. -/
theorem mini_batch_slices_mem (n b : Nat) (r : List Nat) (hb : 0 < b) (s : uint32_array_t)
    (hs : s ∈ mini_batch_slices n b r) :
    0 < s.size ∧ s.size ≤ b ∧ ∃ off, s.data = r.drop off ∧ off + s.size ≤ n := by
  unfold mini_batch_slices at hs
  rw [List.mem_append] at hs
  rcases hs with hs | hs
  · rw [List.mem_map] at hs
    obtain ⟨k, hk, rfl⟩ := hs
    rw [List.mem_range] at hk
    refine ⟨hb, le_refl _, k * b, rfl, ?_⟩
    have h1 : (k + 1) * b ≤ n / b * b := Nat.mul_le_mul_right b hk
    have h2 : n / b * b ≤ n := Nat.div_mul_le_self n b
    have h3 : (k + 1) * b = k * b + b := Nat.succ_mul k b
    show k * b + b ≤ n
    omega
  · by_cases hr : n % b ≠ 0
    · rw [if_pos hr, List.mem_singleton] at hs
      subst hs
      have h2 : n / b * b + n % b = n := Nat.div_add_mod' n b
      have h3 : n % b < b := Nat.mod_lt n hb
      refine ⟨Nat.pos_of_ne_zero hr, le_of_lt h3, n / b * b, rfl, ?_⟩
      show n / b * b + n % b ≤ n
      omega
    · rw [if_neg hr] at hs
      cases hs

/-- A window of an index array whose first `n` cells are indices of valid samples is a
valid slice. -/
theorem valid_slice_of_window {R : Type} (net : network_t R) (data : data_t R) (r : List Nat)
    (n : Nat) (hr : n ≤ r.length) (hv : ∀ i, i < n → valid_sample net data (r.getD i 0))
    (s : uint32_array_t) (off : Nat) (hd : s.data = r.drop off) (ho : off + s.size ≤ n) :
    valid_slice net data s := by
  constructor
  · rw [hd, List.length_drop]
    omega
  · intro i hi
    have : s.data.getD i 0 = r.getD (off + i) 0 := by
      rw [hd, List.getD_eq_getElem?_getD, List.getD_eq_getElem?_getD, List.getElem?_drop]
    rw [this]
    exact hv (off + i) (by omega)

section EpochBatches

variable {R : Type} [LinearOrderedField R] (exp : R → R)

theorem network_update_mini_batch_f_keeps (st : network_t R) (d : data_t R)
    (s : uint32_array_t) (w : Unit) (st' : network_t R) (w' : Unit)
    (h : network_update_mini_batch_f exp st d s w = .ok (st', w')) :
    st'.mini_batch_size = st.mini_batch_size := by
  obtain ⟨n1, h1, h2⟩ := bind_ok_inv _ _ _ h
  cases h2
  exact (network_update_mini_batch_keeps exp st st' d s h1).2.2.1

/-- The batches of one epoch, run from two laid-out networks with the same parameters
over an index array whose first `items` cells are indices of valid samples: both runs
return, with the same parameters again. -/
theorem process_update_rel (a b : network_t R) (data : data_t R) (r : List Nat)
    (hp : a.params = b.params) (ha : a.allocated) (hb : b.allocated)
    (hL : 2 ≤ a.nodes.size) (hn : data.items ≠ 0) (hm : a.mini_batch_size ≠ 0)
    (hr : data.items ≤ r.length)
    (hv : ∀ i, i < data.items → valid_sample a data (r.getD i 0)) :
    ∃ a' b', network_process_mini_batches a data r (network_update_mini_batch_f exp) () =
        .ok (a', ()) ∧
      network_process_mini_batches b data r (network_update_mini_batch_f exp) () =
        .ok (b', ()) ∧
      a'.params = b'.params ∧ a'.allocated ∧ b'.allocated ∧
      a'.eta = a.eta ∧ a'.epochs = a.epochs ∧ a'.mini_batch_size = a.mini_batch_size ∧
      a'.nodes = a.nodes := by
  have hmb : b.mini_batch_size = a.mini_batch_size := by
    simp only [network_t.params, Prod.mk.injEq] at hp
    exact hp.2.2.1.symm
  rw [process_mini_batches_fold a data r _ () hn hm (network_update_mini_batch_f_keeps exp),
    process_mini_batches_fold b data r _ () hn (by rw [hmb]; exact hm)
      (network_update_mini_batch_f_keeps exp), hmb]
  obtain ⟨⟨a', _⟩, ⟨b', _⟩, ra, rb, hQ⟩ := foldlM_inv2
    (fun (st : network_t R × Unit) s => network_update_mini_batch_f exp st.1 data s st.2)
    (fun s t => s.1.params = t.1.params ∧ s.1.allocated ∧ t.1.allocated ∧
      s.1.eta = a.eta ∧ s.1.epochs = a.epochs ∧ s.1.mini_batch_size = a.mini_batch_size ∧
      s.1.nodes = a.nodes)
    (mini_batch_slices data.items a.mini_batch_size r)
    (by
      intro s t x hx ⟨qp, qa, qb, q1, q2, q3, q4⟩
      obtain ⟨hpos, _, off, hd, ho⟩ :=
        mini_batch_slices_mem _ _ r (Nat.pos_of_ne_zero hm) x hx
      have hvs : valid_slice s.1 data x :=
        valid_slice_of_nodes a s.1 data x q4.symm
          (valid_slice_of_window a data r data.items hr hv x off hd ho)
      obtain ⟨s', t', rs, rt, e1, e2, e3, e4, e5, e6, e7⟩ :=
        network_update_mini_batch_rel exp s.1 t.1 data x qp qa qb (by rw [q4]; exact hL)
          (by omega) hvs
      refine ⟨(s', s.2), (t', t.2), ?_, ?_, e1, e2, e3, e4.trans q1, e5.trans q2,
        e6.trans q3, e7.trans q4⟩
      · show (network_update_mini_batch exp s.1 data x >>= fun n => pure (n, s.2)) = _
        rw [rs, ok_bind]
        rfl
      · show (network_update_mini_batch exp t.1 data x >>= fun n => pure (n, t.2)) = _
        rw [rt, ok_bind]
        rfl)
    (a, ()) (b, ()) ⟨hp, ha, hb, rfl, rfl, rfl, rfl⟩
  exact ⟨a', b', ra, rb, hQ⟩

end EpochBatches

section SliceClaim

variable {R : Type} [LinearOrderedField R] (exp : R → R)

/-- C29: for `items ≥ 1` and `mini_batch_size ≥ 1`, `network_process_mini_batches` hands
to a callback that keeps `mini_batch_size` (such as `network_update_mini_batch`, or the
recording callback) the slices of `mini_batch_slices`, one after the other, and no
others; each of them is non-empty, at most `mini_batch_size` long, and the window
`offset .. offset + size - 1` of the index array with `offset + size ≤ items`, so that
every cell the update reads from it is a cell of the first `items` cells.  On a
laid-out network whose index array holds indices of valid samples the run with
`network_update_mini_batch` returns: no assertion stops it. -/
theorem process_mini_batches_slices_in_range {W : Type} (net : network_t R) (data : data_t R)
    (r : List Nat) (update_batch : update_batch_f R W) (w : W) (hn : 1 ≤ data.items)
    (hb : 1 ≤ net.mini_batch_size) :
    ((∀ st d s w st' w', update_batch st d s w = .ok (st', w') →
        st'.mini_batch_size = st.mini_batch_size) →
      network_process_mini_batches net data r update_batch w =
        (mini_batch_slices data.items net.mini_batch_size r).foldlM
          (fun (st : network_t R × W) s => update_batch st.1 data s st.2) (net, w)) ∧
    network_process_mini_batches net data r (network_update_mini_batch_f exp) () =
      (mini_batch_slices data.items net.mini_batch_size r).foldlM
        (fun (st : network_t R × Unit) s => network_update_mini_batch_f exp st.1 data s st.2)
        (net, ()) ∧
    network_process_mini_batches net data r record_batch [] =
      .ok (net, mini_batch_slices data.items net.mini_batch_size r) ∧
    (∀ s, s ∈ mini_batch_slices data.items net.mini_batch_size r →
      0 < s.size ∧ s.size ≤ net.mini_batch_size ∧
      ∃ off, s.data = r.drop off ∧ off + s.size ≤ data.items ∧
        (data.items ≤ r.length → ∀ i, i < s.size →
          load s.data (i : Int) = .ok (r.getD (off + i) 0))) ∧
    (net.allocated → 2 ≤ net.nodes.size → data.items ≤ r.length →
      (∀ i, i < data.items → valid_sample net data (r.getD i 0)) →
      ∃ net', network_process_mini_batches net data r (network_update_mini_batch_f exp) () =
        .ok (net', ())) := by
  have hn' : data.items ≠ 0 := by omega
  have hb' : net.mini_batch_size ≠ 0 := by omega
  refine ⟨fun hkeep => process_mini_batches_fold net data r update_batch w hn' hb' hkeep,
    process_mini_batches_fold net data r _ () hn' hb' (network_update_mini_batch_f_keeps exp),
    process_mini_batches_record net data r hn' hb', ?_, ?_⟩
  · intro s hs
    obtain ⟨h1, h2, off, hd, ho⟩ := mini_batch_slices_mem _ _ r (by omega) s hs
    refine ⟨h1, h2, off, hd, ho, fun hr i hi => ?_⟩
    refine load_ok _ _ i _ rfl ?_
    have hlt : off + i < r.length := by omega
    rw [hd, List.getElem?_drop, List.getD_eq_getElem?_getD, List.getElem?_eq_getElem hlt]
    rfl
  · intro hal hL hr hv
    obtain ⟨a', _, ra, _⟩ := process_update_rel exp net net data r rfl hal hal hL hn' hb' hr hv
    exact ⟨a', ra⟩

end SliceClaim

/-- C29 on the 2-3-2 test network with its three samples, the index array `[2, 0, 1]`
and batch size 2: the hypotheses hold; the slices handed over are `[2, 0]` and `[1]`,
both inside the array, and the run with `network_update_mini_batch` returns. -/
theorem process_mini_batches_slices_in_range_witness :
    (1 ≤ (training_fixture_data ℝ).items ∧
      1 ≤ ({ training_fixture_network ℝ with mini_batch_size := 2 } : network_t ℝ).mini_batch_size) ∧
    network_process_mini_batches { training_fixture_network ℝ with mini_batch_size := 2 }
      (training_fixture_data ℝ) [2, 0, 1] record_batch [] =
      .ok ({ training_fixture_network ℝ with mini_batch_size := 2 },
        [{ size := 2, data := [2, 0, 1] }, { size := 1, data := [1] }]) ∧
    (∃ net', network_process_mini_batches
      { training_fixture_network ℝ with mini_batch_size := 2 } (training_fixture_data ℝ)
      [2, 0, 1] (network_update_mini_batch_f Real.exp) () = .ok (net', ())) := by
  obtain ⟨_, _, hrec, _, hrun⟩ := process_mini_batches_slices_in_range Real.exp
    { training_fixture_network ℝ with mini_batch_size := 2 } (training_fixture_data ℝ)
    [2, 0, 1] record_batch [] (by decide) (by decide)
  refine ⟨by decide, ?_, hrun (by decide) (by decide) (by decide) (by decide)⟩
  rw [hrec]
  rfl

section Safety

variable {R : Type} [LinearOrderedField R] (exp : R → R)

/-- What `network_allocate` returns with `GSL_SUCCESS` for at least two layer sizes that
an `int32_t` can count is a laid-out network with the layer sizes it was given. -/
theorem network_allocate_allocated (net0 net : network_t R) (heap : malloc_outcomes R)
    (hL : 2 ≤ net0.nodes.size) (h31 : net0.nodes.size < 2 ^ 31)
    (hdata : net0.nodes.size ≤ net0.nodes.data.length)
    (h : network_allocate net0 heap = .ok (GSL_SUCCESS, net)) :
    net.allocated ∧ net.nodes = net0.nodes := by
  obtain ⟨e, net1, hrun, _, ht⟩ := network_allocate_run net0 heap hL (by omega) hdata
  rw [hrun] at h
  injection h with hpair
  injection hpair with he hnet
  subst hnet
  obtain ⟨_, hnodes, h1, h2, h3, h4, h5, h6, h7⟩ := ht he
  have hl : net1.layers = net0.layers := by
    unfold network_t.layers
    rw [hnodes]
  refine ⟨?_, hnodes⟩
  unfold network_t.allocated
  rw [hl, hnodes]
  exact ⟨hdata, h31, h1, h2, h3, h4, h5, h6, h7⟩

/-- C27: a network that `network_allocate` returned with `GSL_SUCCESS` for `L ≥ 2` layer
sizes, with an input of length `nodes[0]` bound at slot -1 and a label below
`nodes[L - 1]`: binding the input succeeds, and `network_feed_forward` (with either
flag) and `network_backpropagate_error` return without any fault, so no operation in
them meets mismatched dimensions or an index out of range.  The same holds for every
network that is laid out as `network_allocate` lays it out. -/
theorem forward_backward_safe (net0 net : network_t R) (heap : malloc_outcomes R)
    (image : gsl_vector R) (label : Nat)
    (hL : 2 ≤ net0.nodes.size) (h31 : net0.nodes.size < 2 ^ 31)
    (hdata : net0.nodes.size ≤ net0.nodes.data.length)
    (halloc : network_allocate net0 heap = .ok (GSL_SUCCESS, net))
    (himg : image.length = net0.layer 0) (hy : label < net0.layer (net0.nodes.size - 1)) :
    (∃ outputs, net.outputs.upd INPUT_INDEX image = .ok outputs ∧
      (∃ n, network_feed_forward exp { net with outputs := outputs } 0 = .ok n) ∧
      (∃ n, network_feed_forward exp { net with outputs := outputs } 1 = .ok n) ∧
      (∃ n, network_backpropagate_error exp { net with outputs := outputs } label = .ok n)) ∧
    (∀ st : network_t R, st.allocated → st.input_bound → 2 ≤ st.nodes.size →
      label < st.layer (st.nodes.size - 1) →
      (∃ n, network_feed_forward exp st 0 = .ok n) ∧
      (∃ n, network_feed_forward exp st 1 = .ok n) ∧
      (∃ n, network_backpropagate_error exp st label = .ok n)) := by
  have hgen : ∀ st : network_t R, st.allocated → st.input_bound → 2 ≤ st.nodes.size →
      label < st.layer (st.nodes.size - 1) →
      (∃ n, network_feed_forward exp st 0 = .ok n) ∧
      (∃ n, network_feed_forward exp st 1 = .ok n) ∧
      (∃ n, network_backpropagate_error exp st label = .ok n) := by
    intro st hal hb hL' hy'
    obtain ⟨n0, h0, _⟩ := network_feed_forward_ok exp st 0 hal hb (by omega)
    obtain ⟨n1, h1, _⟩ := network_feed_forward_ok exp st 1 hal hb (by omega)
    obtain ⟨n2, h2, _⟩ := network_backpropagate_error_ok exp st label hal hb hL' hy'
    exact ⟨⟨n0, h0⟩, ⟨n1, h1⟩, ⟨n2, h2⟩⟩
  refine ⟨?_, hgen⟩
  obtain ⟨hal, hnodes⟩ := network_allocate_allocated net0 net heap hL h31 hdata halloc
  have hlayer : ∀ i, net.layer i = net0.layer i := fun i => by
    unfold network_t.layer
    rw [hnodes]
  obtain ⟨hupd, halb, hbb, _⟩ := bind_input_ok net image hal (by rw [hlayer]; exact himg)
  refine ⟨_, hupd, ?_⟩
  exact hgen _ halb hbb (by show 2 ≤ net.nodes.size; rw [hnodes]; exact hL)
    (by
      show label < net.layer (net.nodes.size - 1)
      rw [hlayer, hnodes]
      exact hy)

end Safety

/-- The run of `network_allocate` for the layer sizes 2, 3, 2 with blocks that hold
arbitrary cells. -/
theorem allocate_fixture_run :
    network_allocate allocate_fixture_network allocate_fixture_heap = .ok (GSL_SUCCESS,
      { allocate_fixture_network with
        outputs := { size := 2, offset := 1, data := [[8, 8], [0, 0, 0], [0, 0]] },
        zs := { size := 2, offset := 0, data := [[0, 0, 0], [0, 0]] },
        nabla_b := { size := 2, offset := 0, data := [[0, 0, 0], [0, 0]] },
        output_delta := { size := 2, offset := 0, data := [[0, 0, 0], [0, 0]] },
        biases := { size := 2, offset := 0, data := [[0, 0, 0], [0, 0]] },
        weights := { size := 2, data := [gsl_matrix_alloc 3 2, gsl_matrix_alloc 2 3] },
        nabla_w := { size := 2, data := [gsl_matrix_alloc 3 2, gsl_matrix_alloc 2 3] } }) :=
  rfl

/-- C27 for the layer sizes 2, 3, 2 allocated from blocks with arbitrary cells, the
input `[1, 1]` and the label 1: the hypotheses hold and the three calls return. -/
theorem forward_backward_safe_witness :
    ∃ net, network_allocate allocate_fixture_network allocate_fixture_heap =
      .ok (GSL_SUCCESS, net) ∧
      ∃ outputs, net.outputs.upd INPUT_INDEX [1, 1] = .ok outputs ∧
        (∃ n, network_feed_forward (fun _ => 1) { net with outputs := outputs } 0 = .ok n) ∧
        (∃ n, network_feed_forward (fun _ => 1) { net with outputs := outputs } 1 = .ok n) ∧
        (∃ n, network_backpropagate_error (fun _ => 1) { net with outputs := outputs } 1
          = .ok n) :=
  ⟨_, allocate_fixture_run, (forward_backward_safe (fun _ => 1) allocate_fixture_network _
    allocate_fixture_heap [1, 1] 1 (by decide) (by norm_num [allocate_fixture_network])
    (by decide) allocate_fixture_run (by decide) (by decide)).1⟩

/-! ## The shuffle -/

/-- Exchanging two cells of a list gives a permutation of the list. -/
theorem set_set_perm (l : List Nat) (i j : Nat) (hi : i < l.length) (hj : j < l.length) :
    ((l.set i l[j]).set j l[i]).Perm l := by
  have hof := Equiv.Perm.ofFn_comp_perm (Equiv.swap (⟨i, hi⟩ : Fin l.length) ⟨j, hj⟩)
    (fun k : Fin l.length => l[(k : Nat)])
  rw [List.ofFn_getElem] at hof
  refine List.Perm.trans (List.Perm.of_eq ?_) hof
  apply List.ext_getElem (by simp)
  intro k h1 h2
  have hk : k < l.length := by simpa using h1
  rw [List.getElem_ofFn]
  show _ = l[((Equiv.swap (⟨i, hi⟩ : Fin l.length) ⟨j, hj⟩ ⟨k, hk⟩ : Fin l.length) : Nat)]
  by_cases hkj : k = j
  · subst hkj
    rw [List.getElem_set_self]
    simp [Equiv.swap_apply_right]
  · by_cases hki : k = i
    · subst hki
      rw [List.getElem_set_ne (fun h => hkj h.symm), List.getElem_set_self]
      simp [Equiv.swap_apply_left]
    · rw [List.getElem_set_ne (fun h => hkj h.symm), List.getElem_set_ne (fun h => hki h.symm)]
      have : Equiv.swap (⟨i, hi⟩ : Fin l.length) ⟨j, hj⟩ ⟨k, hk⟩ = ⟨k, hk⟩ :=
        Equiv.swap_apply_of_ne_of_ne (by simpa [Fin.ext_iff] using hki)
          (by simpa [Fin.ext_iff] using hkj)
      simp [this]

theorem swap_ok (base : List Nat) (i j : Nat) (hi : i < base.length) (hj : j < base.length) :
    swap base i j = .ok ((base.set i base[j]).set j base[i]) := by
  unfold swap
  rw [load_ok base _ i base[i] rfl (List.getElem?_eq_getElem hi), ok_bind,
    load_ok base _ j base[j] rfl (List.getElem?_eq_getElem hj), ok_bind,
    store_ok base _ i _ rfl hi, ok_bind]
  exact store_ok _ _ j _ rfl (by simpa using hj)

theorem load_ok_inv {α : Type} (l : List α) (k : Nat) (v : α)
    (h : load l (k : Int) = .ok v) : k < l.length := by
  unfold load at h
  rw [if_pos (by omega)] at h
  by_contra hk
  rw [Int.toNat_ofNat, List.getElem?_eq_none (by omega)] at h
  cases h

/-- Every returning call of `swap` returns a permutation of the array. -/
theorem swap_perm (base base' : List Nat) (i j : Nat) (h : swap base i j = .ok base') :
    base'.Perm base := by
  unfold swap at h
  obtain ⟨a, ha, h⟩ := bind_ok_inv _ _ _ h
  obtain ⟨b, hb, _⟩ := bind_ok_inv _ _ _ h
  have hi := load_ok_inv base i a ha
  have hj := load_ok_inv base j b hb
  have hrun := swap_ok base i j hi hj
  unfold swap at hrun
  rw [ha, ok_bind] at hrun
  rw [hrun] at h
  cases h
  exact set_set_perm base i j hi hj

section Shuffle

variable {G R : Type}

/-- Every returning call of `gsl_ran_shuffle` returns a permutation of the array. -/
theorem gsl_ran_shuffle_perm (T : gsl_rng_type G R) (r r' : G) (base base' : List Nat)
    (n : Nat) (h : gsl_ran_shuffle T r base n = .ok (r', base')) : base'.Perm base := by
  unfold gsl_ran_shuffle at h
  by_cases hn : n = 0
  · rw [if_pos hn] at h
    cases h
  rw [if_neg hn] at h
  obtain ⟨_, _, h⟩ := bind_ok_inv _ _ _ h
  exact for_down_ok_inv _ (fun (st : G × List Nat) => st.2.Perm base)
    (fun k s s' hs hP => by
      obtain ⟨b1, hb1, hs⟩ := bind_ok_inv _ _ _ hs
      cases hs
      exact (swap_perm _ _ _ _ hb1).trans hP)
    _ (r, base) (r', base') h (List.Perm.refl base)

/-- With a generator whose integers are in range, `gsl_ran_shuffle` of the `n ≥ 1`
cells of an array returns. -/
theorem gsl_ran_shuffle_ok (T : gsl_rng_type G R) (hT : T.in_range) (r : G) (base : List Nat)
    (n : Nat) (hn : n ≠ 0) (hlen : base.length = n) :
    ∃ r' base', gsl_ran_shuffle T r base n = .ok (r', base') := by
  obtain ⟨st', hrun, _⟩ := for_down_inv
    (fun k (st : G × List Nat) => do
      let i := k + 1
      let base ← swap st.2 i (T.uniform_int st.1 (i + 1)).2
      pure ((T.uniform_int st.1 (i + 1)).1, base))
    (fun _ (st : G × List Nat) => st.2.length = n) (n - 1) (r, base) hlen
    (by
      intro k st hk hl
      have hj := hT st.1 (k + 1 + 1) (by omega)
      have hsw := swap_ok st.2 (k + 1) (T.uniform_int st.1 (k + 1 + 1)).2 (by omega) (by omega)
      refine ⟨((T.uniform_int st.1 (k + 1 + 1)).1,
        (st.2.set (k + 1) st.2[(T.uniform_int st.1 (k + 1 + 1)).2]).set
          (T.uniform_int st.1 (k + 1 + 1)).2 st.2[k + 1]), ?_, ?_⟩
      · show (swap st.2 (k + 1) (T.uniform_int st.1 (k + 1 + 1)).2 >>= fun base => _) = _
        rw [hsw, ok_bind]
        rfl
      · simpa using hl)
  refine ⟨st'.1, st'.2, ?_⟩
  unfold gsl_ran_shuffle
  rw [if_neg hn]
  exact hrun

end Shuffle

/-- The loop that fills the index array with `0, 1, ..` returns the identity. -/
theorem identity_index_ok (n : Nat) (junk : Nat → Nat) :
    for_range (fun i (a : List Nat) => store a i i) n ((List.range n).map junk) =
      .ok (List.range n) := by
  obtain ⟨a, hrun, hlen, hcells⟩ := for_range_inv (fun i (a : List Nat) => store a i i)
    (fun i a => a.length = n ∧ ∀ j, j < i → a[j]? = some j) n ((List.range n).map junk)
    ⟨by simp, fun j hj => absurd hj (Nat.not_lt_zero j)⟩
    (by
      intro i a hi ⟨hl, hc⟩
      refine ⟨a.set i i, store_ok a _ i i rfl (by omega), by simpa using hl, ?_⟩
      intro j hj
      by_cases hji : j = i
      · subst hji
        rw [List.getElem?_set_self (by omega)]
      · rw [List.getElem?_set_ne (fun h => hji h.symm)]
        exact hc j (by omega))
  rw [hrun]
  congr 1
  apply List.ext_getElem (by simpa using hlen)
  intro j h1 h2
  have := hcells j (by omega)
  rw [List.getElem?_eq_getElem h1] at this
  simpa using this

/-! ## The epochs of `network_sgd` -/

theorem valid_sample_of_nodes {R : Type} (a b : network_t R) (data : data_t R) (idx : Nat)
    (hn : a.nodes = b.nodes) (hv : valid_sample a data idx) : valid_sample b data idx := by
  have hlayer : ∀ i, a.layer i = b.layer i := fun i => by unfold network_t.layer; rw [hn]
  obtain ⟨v1, v2, v3, v4⟩ := hv
  exact ⟨v1, v2, by rw [← hlayer]; exact v3, by rw [← hlayer, ← hn]; exact v4⟩

theorem valid_test_data_of_nodes {R : Type} (a b : network_t R) (test_data : data_t R)
    (hn : a.nodes = b.nodes) (hv : valid_test_data a test_data) :
    valid_test_data b test_data := by
  have hlayer : ∀ i, a.layer i = b.layer i := fun i => by unfold network_t.layer; rw [hn]
  obtain ⟨v1, v2, v3, v4⟩ := hv
  exact ⟨v1, v2, v3, fun i hi => by rw [← hlayer]; exact v4 i hi⟩

/-- The cells of a permutation of `0 .. n - 1` are below `n`. -/
theorem perm_range_getD (r : List Nat) (n : Nat) (hr : r.Perm (List.range n)) (i : Nat)
    (hi : i < n) : r.getD i 0 < n := by
  have hlen : r.length = n := by rw [hr.length_eq, List.length_range]
  have hi' : i < r.length := by omega
  have hmem : r.getD i 0 ∈ r := by
    rw [List.getD_eq_getElem?_getD, List.getElem?_eq_getElem hi']
    exact List.getElem_mem hi'
  exact List.mem_range.mp (hr.mem_iff.mp hmem)

section Epochs

variable {G R : Type} [LinearOrderedField R] (exp : R → R)

/-- Two runs of `network_sgd` with the same generator, data and held-out data, from
laid-out networks with the same parameters, with whatever the other arrays of the
networks and the fresh index arrays hold: both return, with the same reports and the
same parameters. -/
theorem network_sgd_rel (T : gsl_rng_type G R) (hT : T.in_range) (a b : network_t R)
    (data test_data : data_t R) (j1 j2 : Nat → Nat) (hp : a.params = b.params)
    (ha : a.allocated) (hb : b.allocated) (hL : 2 ≤ a.nodes.size) (hn : data.items ≠ 0)
    (hm : a.mini_batch_size ≠ 0) (hv : ∀ idx, idx < data.items → valid_sample a data idx)
    (hvt : valid_test_data a test_data) :
    ∃ a' b' log, network_sgd exp T a data test_data j1 = .ok (a', log) ∧
      network_sgd exp T b data test_data j2 = .ok (b', log) ∧
      a'.params = b'.params ∧ a'.allocated ∧ b'.allocated ∧ log.length = a.epochs ∧
      ∀ rep, rep ∈ log → rep.order.Perm (List.range data.items) := by
  have hep : b.epochs = a.epochs := by
    simp only [network_t.params, Prod.mk.injEq] at hp
    exact hp.2.1.symm
  obtain ⟨s', t', rs, rt, qp, qa, qb, qe, qperm, _, _, qlen, qlog⟩ := for_range_inv2
    (fun i (st : network_t R × G × List Nat × List epoch_report) => do
      let (rng, rand_index) ← gsl_ran_shuffle T st.2.1 st.2.2.1 data.items
      let (net, _) ← network_process_mini_batches st.1 data rand_index
        (network_update_mini_batch_f exp) ()
      let correct_answers := 0
      let (net, correct_answers) ← network_evaluate_test_data exp net test_data correct_answers
      let report : epoch_report :=
        { epoch := i, correct_answers := correct_answers, items := test_data.items,
          order := rand_index }
      pure (net, rng, rand_index, st.2.2.2 ++ [report]))
    (fun i s t => s.1.params = t.1.params ∧ s.1.allocated ∧ t.1.allocated ∧ s.2 = t.2 ∧
      s.2.2.1.Perm (List.range data.items) ∧ s.1.nodes = a.nodes ∧
      s.1.mini_batch_size = a.mini_batch_size ∧ s.2.2.2.length = i ∧
      ∀ rep, rep ∈ s.2.2.2 → rep.order.Perm (List.range data.items))
    a.epochs (a, T.alloc, List.range data.items, []) (b, T.alloc, List.range data.items, [])
    ⟨hp, ha, hb, rfl, List.Perm.refl _, rfl, rfl, rfl, fun rep hrep => by cases hrep⟩
    (by
      intro i s t _ ⟨qp, qa, qb, qe, qperm, qn, qm, qlen, qlog⟩
      have hlen : s.2.2.1.length = data.items := by
        rw [qperm.length_eq, List.length_range]
      obtain ⟨r', base', hsh⟩ := gsl_ran_shuffle_ok T hT s.2.1 s.2.2.1 data.items hn hlen
      have hperm' : base'.Perm (List.range data.items) :=
        (gsl_ran_shuffle_perm T _ _ _ _ _ hsh).trans qperm
      have hlen' : base'.length = data.items := by
        rw [hperm'.length_eq, List.length_range]
      obtain ⟨a1, b1, ra, rb, e1, ala, alb, _, _, e6, e7⟩ := process_update_rel exp s.1 t.1
        data base' qp qa qb (by rw [qn]; exact hL) hn (by rw [qm]; exact hm)
        (by omega)
        (fun k hk => valid_sample_of_nodes a s.1 data _ qn.symm
          (hv _ (perm_range_getD base' data.items hperm' k hk)))
      have hna : a1.nodes = a.nodes := e7.trans qn
      obtain ⟨hnb, hbs, hw, _, _⟩ := params_nodes a1 b1 e1
      obtain ⟨a2, rea, pa, al2a⟩ := network_evaluate_test_data_ok exp a1 test_data 0 ala
        (by rw [hna]; exact hL) (valid_test_data_of_nodes a a1 test_data hna.symm hvt)
      obtain ⟨b2, reb, pb, al2b⟩ := network_evaluate_test_data_ok exp b1 test_data 0 alb
        (by rw [← hnb, hna]; exact hL)
        (valid_test_data_of_nodes a b1 test_data (hna.symm.trans hnb) hvt)
      rw [← hnb, ← hw, ← hbs] at reb
      have hn2 : a2.nodes = a.nodes := (params_nodes a2 a1 pa).1.trans hna
      have hm2 : a2.mini_batch_size = a.mini_batch_size := by
        have := pa
        simp only [network_t.params, Prod.mk.injEq] at this
        exact this.2.2.1.trans (e6.trans qm)
      obtain ⟨c, hc⟩ : ∃ c : Nat, c = ((List.range test_data.items).filter (fun i => decide
          (gsl_vector_max_index (forward_in exp a1.weights a1.biases (test_data.image i)
            (a1.nodes.size - 1)) = test_data.label i))).length := ⟨_, rfl⟩
      rw [← hc] at rea reb
      refine ⟨(a2, r', base', s.2.2.2 ++
          [{ epoch := i, correct_answers := c, items := test_data.items, order := base' }]),
        (b2, r', base', s.2.2.2 ++
          [{ epoch := i, correct_answers := c, items := test_data.items, order := base' }]),
        ?_, ?_, pa.trans (e1.trans pb.symm), al2a, al2b, rfl, hperm', hn2, hm2, ?_, ?_⟩
      · show (gsl_ran_shuffle T s.2.1 s.2.2.1 data.items >>= fun x => _) = _
        rw [hsh, ok_bind]
        show (network_process_mini_batches s.1 data base' (network_update_mini_batch_f exp) ()
          >>= fun x => _) = _
        rw [ra, ok_bind]
        show (network_evaluate_test_data exp a1 test_data 0 >>= fun x => _) = _
        rw [rea, ok_bind]
        rfl
      · show (gsl_ran_shuffle T t.2.1 t.2.2.1 data.items >>= fun x => _) = _
        rw [← qe, hsh, ok_bind]
        show (network_process_mini_batches t.1 data base' (network_update_mini_batch_f exp) ()
          >>= fun x => _) = _
        rw [rb, ok_bind]
        show (network_evaluate_test_data exp b1 test_data 0 >>= fun x => _) = _
        rw [reb, ok_bind]
        rfl
      · show (s.2.2.2 ++ [_]).length = i + 1
        rw [List.length_append, qlen]
        rfl
      · intro rep hrep
        rw [List.mem_append, List.mem_singleton] at hrep
        rcases hrep with hrep | hrep
        · exact qlog rep hrep
        · rw [hrep]
          exact hperm')
  have hs2 : s'.2.2.2 = t'.2.2.2 := by rw [qe]
  refine ⟨s'.1, t'.1, s'.2.2.2, ?_, ?_, qp, qa, qb, qlen, qlog⟩
  · unfold network_sgd
    show (for_range (fun i (a : List Nat) => store a i i) data.items
      ((List.range data.items).map j1) >>= fun rand_index => _) = _
    rw [identity_index_ok, ok_bind, rs, ok_bind]
    rfl
  · unfold network_sgd
    show (for_range (fun i (a : List Nat) => store a i i) data.items
      ((List.range data.items).map j2) >>= fun rand_index => _) = _
    rw [identity_index_ok, ok_bind, hep, rt, ok_bind, hs2]
    rfl

end Epochs

section Determinism

variable {G R : Type} [LinearOrderedField R] (exp : R → R)

/-- C24: training is deterministic.  Two runs of `network_sgd` with the same generator
(type and default seed), the same training and held-out data, and networks that agree
in the hyperparameters, the layer sizes, the biases and the weights
(`network_t.params`), return, whatever the work arrays of the two networks
(`outputs`, `zs`, `output_delta`, `nabla_b`, `nabla_w`) and the fresh index arrays
hold on entry: with the same list of reports, so the same shuffle order and the same
count of correct predictions in every epoch, one report an epoch, and with the same
final weights and biases.  The networks are laid out for at least two layers, the
training set is not empty and its samples fit the network, the batch size is not 0,
and the generator keeps its integers in range. -/
theorem network_sgd_deterministic (T : gsl_rng_type G R) (hT : T.in_range)
    (a b : network_t R) (data test_data : data_t R) (j1 j2 : Nat → Nat)
    (hp : a.params = b.params) (ha : a.allocated) (hb : b.allocated)
    (hL : 2 ≤ a.nodes.size) (hn : data.items ≠ 0) (hm : a.mini_batch_size ≠ 0)
    (hv : ∀ idx, idx < data.items → valid_sample a data idx)
    (hvt : valid_test_data a test_data) :
    ∃ a' b' log, network_sgd exp T a data test_data j1 = .ok (a', log) ∧
      network_sgd exp T b data test_data j2 = .ok (b', log) ∧
      a'.weights = b'.weights ∧ a'.biases = b'.biases ∧ log.length = a.epochs := by
  obtain ⟨a', b', log, h1, h2, hq, _, _, hlen, _⟩ :=
    network_sgd_rel exp T hT a b data test_data j1 j2 hp ha hb hL hn hm hv hvt
  simp only [network_t.params, Prod.mk.injEq] at hq
  exact ⟨a', b', log, h1, h2, hq.2.2.2.2.2, hq.2.2.2.2.1, hlen⟩

end Determinism

/-- C24 on the 2-3-2 test network with two epochs and batch size 2, once with clean and
once with stale accumulators, the index array holding zeros in one run and multiples of
7 in the other, with the counting generator: the hypotheses hold, and both runs return
the same two reports and the same weights and biases. -/
theorem network_sgd_deterministic_witness :
    ((counting_rng ℝ).in_range ∧
      (sgd_fixture_network ℝ).params = (sgd_fixture_stale_network ℝ).params ∧
      (sgd_fixture_network ℝ).nabla_b ≠ (sgd_fixture_stale_network ℝ).nabla_b) ∧
    ∃ a' b' log,
      network_sgd Real.exp (counting_rng ℝ) (sgd_fixture_network ℝ)
        (training_fixture_data ℝ) (training_fixture_data ℝ) (fun _ => 0) = .ok (a', log) ∧
      network_sgd Real.exp (counting_rng ℝ) (sgd_fixture_stale_network ℝ)
        (training_fixture_data ℝ) (training_fixture_data ℝ) (fun i => 7 * i) =
        .ok (b', log) ∧
      a'.weights = b'.weights ∧ a'.biases = b'.biases ∧ log.length = 2 :=
  ⟨⟨fun _ _ hn => Nat.mod_lt _ hn, rfl, by
      simp [sgd_fixture_network, sgd_fixture_stale_network, training_fixture_network,
        feed_forward_fixture, stale_nabla_b]⟩,
    network_sgd_deterministic Real.exp (counting_rng ℝ) (fun _ _ hn => Nat.mod_lt _ hn)
      (sgd_fixture_network ℝ) (sgd_fixture_stale_network ℝ)
      (training_fixture_data ℝ) (training_fixture_data ℝ) (fun _ => 0) (fun i => 7 * i)
      rfl (by decide) (by decide) (by decide) (by decide) (by decide) (by decide)
      (by decide)⟩

section EpochOrder

variable {G R : Type} [LinearOrderedField R] (exp : R → R)

end EpochOrder
/-- The derivative of `sigmoid` over the reals is `sigmoid_prime`. -/
theorem sigmoid_hasDerivAt (z : ℝ) :
    HasDerivAt (sigmoid Real.exp) (sigmoid_prime Real.exp z) z := by
  have hpos : (1 : ℝ) + Real.exp (-z) ≠ 0 := by positivity
  have h1 : HasDerivAt (fun x : ℝ => 1 + Real.exp (-x)) (-Real.exp (-z)) z := by
    have h := ((hasDerivAt_neg z).exp).const_add 1
    simpa using h
  have h2 := h1.inv hpos
  have hfun : sigmoid Real.exp = fun x : ℝ => (1 + Real.exp (-x))⁻¹ := by
    funext x
    simp [sigmoid]
  rw [hfun]
  convert h2 using 1
  simp only [sigmoid_prime, sigmoid]
  field_simp
  ring

/-- One layer of the chain rule: if the pre-activations of a layer have derivatives
`E` along a line of parameters, the pre-activations `W sigmoid (z) + b` of the next layer
have the derivatives `W (sigmoid_prime (z) ⊙ E)`. -/
theorem layer_hasDerivAt (n : Nat) (w : Nat → ℝ) (b : ℝ) (z : ℝ → Nat → ℝ) (E : Nat → ℝ)
    (hE : ∀ c, c < n → HasDerivAt (fun t => z t c) (E c) 0) :
    HasDerivAt (fun t => (∑ c in Finset.range n, w c * sigmoid Real.exp (z t c)) + b)
      (∑ c in Finset.range n, w c * (sigmoid_prime Real.exp (z 0 c) * E c)) 0 := by
  apply HasDerivAt.add_const
  apply HasDerivAt.sum
  intro c hc
  apply HasDerivAt.const_mul
  have h1 : HasDerivAt (sigmoid Real.exp ∘ fun t => z t c)
      (sigmoid_prime Real.exp (z 0 c) * E c) 0 :=
    HasDerivAt.comp (0 : ℝ) (sigmoid_hasDerivAt (z 0 c)) (hE c (Finset.mem_range.mp hc))
  exact h1

/-- The adjoint identity of backpropagation over `m` layers above layer `l`: when the
pre-activations follow the forward recurrence and the errors `δ` the backward
recurrence, the pre-activations of layer `l + m` have derivatives `E` along the line
with `Σ δ[l + m] E = Σ δ[l] D`, where `D` are the derivatives at layer `l`. -/
theorem backward_pass_adjoint (n : Nat → Nat) (w : Nat → Nat → Nat → ℝ) (b : Nat → Nat → ℝ)
    (z : Nat → ℝ → Nat → ℝ) (δ : Nat → Nat → ℝ) (D : Nat → ℝ) (l m : Nat)
    (hz : ∀ k, l ≤ k → k < l + m → ∀ t i, i < n (k + 2) → z (k + 1) t i =
      (∑ c in Finset.range (n (k + 1)), w (k + 1) i c * sigmoid Real.exp (z k t c)) +
        b (k + 1) i)
    (hδ : ∀ k, l ≤ k → k < l + m → ∀ c, c < n (k + 1) → δ k c =
      sigmoid_prime Real.exp (z k 0 c) *
        ∑ j in Finset.range (n (k + 2)), w (k + 1) j c * δ (k + 1) j)
    (hD : ∀ i, i < n (l + 1) → HasDerivAt (fun t => z l t i) (D i) 0) :
    ∃ E : Nat → ℝ, (∀ i, i < n (l + m + 1) → HasDerivAt (fun t => z (l + m) t i) (E i) 0) ∧
      ∑ i in Finset.range (n (l + m + 1)), δ (l + m) i * E i =
        ∑ i in Finset.range (n (l + 1)), δ l i * D i := by
  induction m with
  | zero => exact ⟨D, hD, rfl⟩
  | succ m ih =>
    obtain ⟨E, hE, hsum⟩ := ih (fun k h1 h2 => hz k h1 (by omega))
      (fun k h1 h2 => hδ k h1 (by omega))
    refine ⟨fun i => ∑ c in Finset.range (n (l + m + 1)),
      w (l + m + 1) i c * (sigmoid_prime Real.exp (z (l + m) 0 c) * E c), ?_, ?_⟩
    · intro i hi
      have hfun : (fun t => z (l + (m + 1)) t i) = fun t =>
          (∑ c in Finset.range (n (l + m + 1)),
            w (l + m + 1) i c * sigmoid Real.exp (z (l + m) t c)) + b (l + m + 1) i := by
        funext t
        exact hz (l + m) (by omega) (by omega) t i hi
      rw [hfun]
      exact layer_hasDerivAt _ _ _ (fun t c => z (l + m) t c) E hE
    · rw [← hsum]
      have hstep : ∀ c, c ∈ Finset.range (n (l + m + 1)) → δ (l + m) c * E c =
          ∑ j in Finset.range (n (l + m + 2)),
            δ (l + m + 1) j * (w (l + m + 1) j c *
              (sigmoid_prime Real.exp (z (l + m) 0 c) * E c)) := by
        intro c hc
        rw [hδ (l + m) (by omega) (by omega) c (Finset.mem_range.mp hc), Finset.mul_sum,
          Finset.sum_mul]
        apply Finset.sum_congr rfl
        intro j _
        ring
      rw [Finset.sum_congr rfl hstep, Finset.sum_comm]
      apply Finset.sum_congr rfl
      intro j _
      rw [Finset.mul_sum]
      rfl

/-- The derivative of the quadratic cost along a line on which the pre-activations of
the output layer have the derivatives `E`. -/
theorem cost_hasDerivAt (n : Nat) (o : Nat → ℝ) (z : ℝ → Nat → ℝ) (E : Nat → ℝ)
    (hE : ∀ j, j < n → HasDerivAt (fun t => z t j) (E j) 0) :
    HasDerivAt (fun t => 1 / 2 * ∑ j in Finset.range n, (sigmoid Real.exp (z t j) - o j) ^ 2)
      (∑ j in Finset.range n, sigmoid_prime Real.exp (z 0 j) *
        (sigmoid Real.exp (z 0 j) - o j) * E j) 0 := by
  have hsum : HasDerivAt (fun t => ∑ j in Finset.range n, (sigmoid Real.exp (z t j) - o j) ^ 2)
      (∑ j in Finset.range n, 2 * (sigmoid_prime Real.exp (z 0 j) *
        (sigmoid Real.exp (z 0 j) - o j) * E j)) 0 := by
    apply HasDerivAt.sum
    intro j hj
    have h0 : HasDerivAt (sigmoid Real.exp ∘ fun t => z t j)
        (sigmoid_prime Real.exp (z 0 j) * E j) 0 :=
      HasDerivAt.comp (0 : ℝ) (sigmoid_hasDerivAt (z 0 j)) (hE j (Finset.mem_range.mp hj))
    have h1 : HasDerivAt (fun t => sigmoid Real.exp (z t j))
        (sigmoid_prime Real.exp (z 0 j) * E j) 0 := h0
    have h2 := (h1.sub_const (o j)).pow 2
    convert h2 using 1
    simp only [Nat.cast_ofNat, Nat.add_one_sub_one, pow_one]
    ring
  have := hsum.const_mul (1 / 2 : ℝ)
  convert this using 1
  rw [← Finset.mul_sum]
  ring

section ForwardEntries

variable {R : Type} [LinearOrderedField R] (exp : R → R)

/-- The activations feeding layer `m` depend on the parameters of the layers below `m`
only. -/
theorem forward_in_congr (W1 W2 : matrix_array_t R) (b1 b2 : vector_array_t R)
    (x : gsl_vector R) (m : Nat)
    (h : ∀ k, k < m → W1.mat (k : Int) = W2.mat (k : Int) ∧
      b1.vec (k : Int) = b2.vec (k : Int)) :
    forward_in exp W1 b1 x m = forward_in exp W2 b2 x m := by
  induction m with
  | zero => rfl
  | succ m ih =>
    simp only [forward_in]
    rw [ih (fun k hk => h k (by omega)), (h m (by omega)).1, (h m (by omega)).2]

/-- In a laid-out network with a bound input the activation feeding layer `k` has the
size of layer `k`. -/
theorem forward_in_length (net : network_t R) (h : net.allocated) (hb : net.input_bound)
    (k : Nat) (hk : k < net.nodes.size) :
    (forward_in exp net.weights net.biases (net.outputs.vec INPUT_INDEX) k).length =
      net.layer k := by
  induction k with
  | zero => exact hb
  | succ k ih =>
    obtain ⟨_, hWa, _⟩ := matrix_array_cell net h net.weights h.2.2.2.1 k hk
    obtain ⟨_, hbl, _⟩ := tail_array_cell net h net.biases 0 h.2.2.2.2.2.2.2.1 k hk
    simp only [forward_in, List.length_map]
    exact layer_input_length _ _ _ _ _ hWa hbl

/-- The pre-activation of layer `k` of a laid-out network, entry by entry. -/
theorem forward_z_entry (net : network_t R) (h : net.allocated) (hb : net.input_bound)
    (k : Nat) (hk : k + 1 < net.nodes.size) :
    (forward_z exp net.weights net.biases (net.outputs.vec INPUT_INDEX) k).length =
      net.layer (k + 1) ∧
    ∀ i, i < net.layer (k + 1) →
      (forward_z exp net.weights net.biases (net.outputs.vec INPUT_INDEX) k).getD i 0 =
        (∑ c in Finset.range (net.layer k), (net.weights.mat (k : Int)).entry i c *
          (forward_in exp net.weights net.biases (net.outputs.vec INPUT_INDEX) k).getD c 0) +
          (net.biases.vec (k : Int)).getD i 0 := by
  obtain ⟨_, hWa, _⟩ := matrix_array_cell net h net.weights h.2.2.2.1 k hk
  obtain ⟨_, hbl, _⟩ := tail_array_cell net h net.biases 0 h.2.2.2.2.2.2.2.1 k hk
  have hin := forward_in_length exp net h hb k (by omega)
  exact ⟨layer_input_length _ _ _ _ _ hWa hbl,
    fun i hi => layer_input_getD _ _ _ _ _ i hWa hbl hin hi⟩

/-- The error of layer `l` of a laid-out network has the size of layer `l + 1`. -/
theorem layer_error_length (net : network_t R) (h : net.allocated) (hb : net.input_bound)
    (y l : Nat) (hl : l + 1 < net.nodes.size) :
    (layer_error exp net.weights net.biases (net.outputs.vec INPUT_INDEX) y
      (net.nodes.size - 2) l).length = net.layer (l + 1) := by
  have hz := (forward_z_entry exp net h hb l hl).1
  by_cases hlast : l = net.nodes.size - 2
  · rw [hlast, layer_error_last]
    rw [hlast] at hz
    have hin := forward_in_length exp net h hb (net.nodes.size - 2 + 1) (by omega)
    simp only [List.length_zipWith, List.length_map, cost_gradient_length, hz, hin,
      Nat.min_self]
  · rw [layer_error_step exp _ _ _ _ _ l (by omega), hidden_error_length]
    exact hz

/-- The error of the output layer of a laid-out network, entry by entry. -/
theorem layer_error_output_entry (net : network_t R) (h : net.allocated)
    (hb : net.input_bound) (hL : 2 ≤ net.nodes.size) (y j : Nat)
    (hj : j < net.layer (net.nodes.size - 1)) :
    (layer_error exp net.weights net.biases (net.outputs.vec INPUT_INDEX) y
      (net.nodes.size - 2) (net.nodes.size - 2)).getD j 0 =
      sigmoid_prime exp ((forward_z exp net.weights net.biases (net.outputs.vec INPUT_INDEX)
        (net.nodes.size - 2)).getD j 0) *
      (sigmoid exp ((forward_z exp net.weights net.biases (net.outputs.vec INPUT_INDEX)
        (net.nodes.size - 2)).getD j 0) - (if j = y then 1 else 0)) := by
  have hlast : net.nodes.size - 2 + 1 = net.nodes.size - 1 := by omega
  have hz := (forward_z_entry exp net h hb (net.nodes.size - 2) (by omega)).1
  rw [hlast] at hz
  have hin := forward_in_length exp net h hb (net.nodes.size - 2 + 1) (by omega)
  have hlay : net.layer (net.nodes.size - 2 + 1) = net.layer (net.nodes.size - 1) := by
    rw [hlast]
  rw [hlay] at hin
  rw [layer_error_last, getD_zipWith _ _ _ j 0 0 0 (by simp [hz, hj])
      (by rw [cost_gradient_length, hin]; exact hj),
    getD_map_lt _ _ j 0 0 (by omega), cost_gradient_getD _ _ _ (by omega)]
  congr 2
  show (List.map (sigmoid exp) (forward_z exp net.weights net.biases
    (net.outputs.vec INPUT_INDEX) (net.nodes.size - 2))).getD j 0 = _
  rw [getD_map_lt _ _ j 0 0 (by omega)]

/-- The error of a layer below the output layer of a laid-out network, entry by
entry. -/
theorem layer_error_hidden_entry (net : network_t R) (h : net.allocated)
    (hb : net.input_bound) (y l c : Nat) (hl : l + 2 < net.nodes.size)
    (hc : c < net.layer (l + 1)) :
    (layer_error exp net.weights net.biases (net.outputs.vec INPUT_INDEX) y
      (net.nodes.size - 2) l).getD c 0 =
      sigmoid_prime exp ((forward_z exp net.weights net.biases (net.outputs.vec INPUT_INDEX)
        l).getD c 0) *
      ∑ j in Finset.range (net.layer (l + 2)),
        (net.weights.mat ((l + 1 : Nat) : Int)).entry j c *
          (layer_error exp net.weights net.biases (net.outputs.vec INPUT_INDEX) y
            (net.nodes.size - 2) (l + 1)).getD j 0 := by
  obtain ⟨_, hWa, _⟩ := matrix_array_cell net h net.weights h.2.2.2.1 (l + 1) hl
  rw [layer_error_step exp _ _ _ _ _ l (by omega)]
  exact hidden_error_getD exp _ _ _ _ _ c hWa
    (layer_error_length exp net h hb y (l + 1) hl)
    (forward_z_entry exp net h hb l (by omega)).1 hc

end ForwardEntries

section ForwardOutput

variable {R : Type} [LinearOrderedField R] (exp : R → R)

/-- The output the forward pass leaves in a laid-out network with a bound input is the
activation of the last layer. -/
theorem feed_forward_output_eq (net : network_t R) (h : net.allocated)
    (hb : net.input_bound) (hL : 2 ≤ net.nodes.size) :
    net.feed_forward_output exp =
      forward_in exp net.weights net.biases (net.outputs.vec INPUT_INDEX)
        (net.nodes.size - 2 + 1) := by
  obtain ⟨net', hrun, _, _, _, hout, _⟩ := network_feed_forward_ok exp net 1 h hb (by omega)
  unfold network_t.feed_forward_output
  rewrite [hrun]
  exact hout (net.nodes.size - 2) (by omega)

end ForwardOutput
section CostLine

/-- The derivative of the cost along a line `N` of laid-out networks through `net` that
differ from `net` in the parameters of layer `l` only: if the pre-activations of layer
`l` have the derivatives `D` along the line, the cost has the derivative
`Σ error[l][i] * D i`, where `error` is what the backward pass computes at `net`. -/
theorem cost_hasDerivAt_line (net : network_t ℝ) (N : ℝ → network_t ℝ) (y l : Nat)
    (D : Nat → ℝ) (h : net.allocated) (hb : net.input_bound) (hl : l + 1 < net.nodes.size)
    (hN : ∀ t, (N t).allocated ∧ (N t).nodes = net.nodes ∧
      (N t).outputs.vec INPUT_INDEX = net.outputs.vec INPUT_INDEX)
    (hother : ∀ t k, k ≠ l → (N t).weights.mat (k : Int) = net.weights.mat (k : Int) ∧
      (N t).biases.vec (k : Int) = net.biases.vec (k : Int))
    (h0 : (N 0).weights.mat (l : Int) = net.weights.mat (l : Int) ∧
      (N 0).biases.vec (l : Int) = net.biases.vec (l : Int))
    (hD : ∀ i, i < net.layer (l + 1) → HasDerivAt (fun t =>
      (forward_z Real.exp (N t).weights (N t).biases (net.outputs.vec INPUT_INDEX) l).getD
        i 0) (D i) 0) :
    HasDerivAt (fun t => (N t).cost Real.exp y)
      (∑ i in Finset.range (net.layer (l + 1)),
        (layer_error Real.exp net.weights net.biases (net.outputs.vec INPUT_INDEX) y
          (net.nodes.size - 2) l).getD i 0 * D i) 0 := by
  obtain ⟨m, hm⟩ : ∃ m, net.nodes.size = l + m + 2 := ⟨net.nodes.size - l - 2, by omega⟩
  have hsub : net.nodes.size - 2 = l + m := by omega
  have hlayer : ∀ t k, (N t).layer k = net.layer k := fun t k => by
    unfold network_t.layer
    rw [(hN t).2.1]
  have hsize : ∀ t, (N t).nodes.size = net.nodes.size := fun t => by rw [(hN t).2.1]
  have hbt : ∀ t, (N t).input_bound := fun t => by
    unfold network_t.input_bound
    rw [(hN t).2.2, hlayer]
    exact hb
  -- the pre-activations along the line
  have hzlen : ∀ t k, k + 1 < net.nodes.size →
      (forward_z Real.exp (N t).weights (N t).biases (net.outputs.vec INPUT_INDEX)
        k).length = net.layer (k + 1) := fun t k hk => by
    have := (forward_z_entry Real.exp (N t) (hN t).1 (hbt t) k (by rw [hsize]; exact hk)).1
    rw [(hN t).2.2, hlayer] at this
    exact this
  have hzero : ∀ k, forward_z Real.exp (N 0).weights (N 0).biases
      (net.outputs.vec INPUT_INDEX) k =
      forward_z Real.exp net.weights net.biases (net.outputs.vec INPUT_INDEX) k := by
    have hall : ∀ k : Nat, (N 0).weights.mat (k : Int) = net.weights.mat (k : Int) ∧
        (N 0).biases.vec (k : Int) = net.biases.vec (k : Int) := fun k => by
      by_cases hk : k = l
      · rw [hk]
        exact h0
      · exact hother 0 k hk
    intro k
    unfold forward_z
    rw [forward_in_congr Real.exp _ net.weights _ net.biases _ k (fun j _ => hall j),
      (hall k).1, (hall k).2]
  have hz : ∀ k, l ≤ k → k < l + m → ∀ t i, i < net.layer (k + 2) →
      (forward_z Real.exp (N t).weights (N t).biases (net.outputs.vec INPUT_INDEX)
        (k + 1)).getD i 0 =
      (∑ c in Finset.range (net.layer (k + 1)),
        (net.weights.mat ((k + 1 : Nat) : Int)).entry i c * sigmoid Real.exp
          ((forward_z Real.exp (N t).weights (N t).biases (net.outputs.vec INPUT_INDEX)
            k).getD c 0)) + (net.biases.vec ((k + 1 : Nat) : Int)).getD i 0 := by
    intro k hk1 hk2 t i hi
    have hk3 : k + 1 + 1 < net.nodes.size := by omega
    have he := (forward_z_entry Real.exp (N t) (hN t).1 (hbt t) (k + 1)
      (by rw [hsize]; exact hk3)).2 i (by rw [hlayer]; exact hi)
    rw [(hN t).2.2, hlayer, (hother t (k + 1) (by omega)).1,
      (hother t (k + 1) (by omega)).2] at he
    rw [he]
    congr 1
    apply Finset.sum_congr rfl
    intro c hc
    congr 1
    show (List.map (sigmoid Real.exp) (forward_z Real.exp (N t).weights (N t).biases
      (net.outputs.vec INPUT_INDEX) k)).getD c 0 = _
    rw [getD_map_lt _ _ c 0 0 (by rw [hzlen t k (by omega)]; exact Finset.mem_range.mp hc)]
  have hδ : ∀ k, l ≤ k → k < l + m → ∀ c, c < net.layer (k + 1) →
      (layer_error Real.exp net.weights net.biases (net.outputs.vec INPUT_INDEX) y
        (l + m) k).getD c 0 =
      sigmoid_prime Real.exp ((forward_z Real.exp (N 0).weights (N 0).biases
        (net.outputs.vec INPUT_INDEX) k).getD c 0) *
      ∑ j in Finset.range (net.layer (k + 2)),
        (net.weights.mat ((k + 1 : Nat) : Int)).entry j c *
          (layer_error Real.exp net.weights net.biases (net.outputs.vec INPUT_INDEX) y
            (l + m) (k + 1)).getD j 0 := by
    intro k hk1 hk2 c hc
    rw [hzero, ← hsub]
    exact layer_error_hidden_entry Real.exp net h hb y k c (by omega) hc
  obtain ⟨E, hE, hsum⟩ := backward_pass_adjoint (fun k => net.layer k)
    (fun k i c => (net.weights.mat (k : Int)).entry i c)
    (fun k i => (net.biases.vec (k : Int)).getD i 0)
    (fun k t i => (forward_z Real.exp (N t).weights (N t).biases
      (net.outputs.vec INPUT_INDEX) k).getD i 0)
    (fun k c => (layer_error Real.exp net.weights net.biases (net.outputs.vec INPUT_INDEX) y
      (l + m) k).getD c 0) D l m hz hδ hD
  -- the cost along the line
  have hcost : (fun t => (N t).cost Real.exp y) = fun t =>
      1 / 2 * ∑ j in Finset.range (net.layer (l + m + 1)),
        (sigmoid Real.exp ((forward_z Real.exp (N t).weights (N t).biases
          (net.outputs.vec INPUT_INDEX) (l + m)).getD j 0) - (if j = y then 1 else 0)) ^ 2 := by
    funext t
    have hlen := hzlen t (l + m) (by omega)
    have hout := feed_forward_output_eq Real.exp (N t) (hN t).1 (hbt t)
      (by rw [hsize]; omega)
    rw [(hN t).2.2, hsize, hsub] at hout
    have hmap : forward_in Real.exp (N t).weights (N t).biases
        (net.outputs.vec INPUT_INDEX) (l + m + 1) =
        List.map (sigmoid Real.exp) (forward_z Real.exp (N t).weights (N t).biases
          (net.outputs.vec INPUT_INDEX) (l + m)) := rfl
    have hterm : ∀ j, j ∈ Finset.range (net.layer (l + m + 1)) →
        ((List.map (sigmoid Real.exp) (forward_z Real.exp (N t).weights (N t).biases
          (net.outputs.vec INPUT_INDEX) (l + m))).getD j 0 - (if j = y then 1 else 0)) ^ 2 =
        (sigmoid Real.exp ((forward_z Real.exp (N t).weights (N t).biases
          (net.outputs.vec INPUT_INDEX) (l + m)).getD j 0) - (if j = y then 1 else 0)) ^ 2 := by
      intro j hj
      rw [getD_map_lt _ _ j 0 0 (by rw [hlen]; exact Finset.mem_range.mp hj)]
    unfold network_t.cost spec_quadratic_cost
    rw [hout, hmap, List.length_map, hlen, Finset.sum_congr rfl hterm]
  rw [hcost, hsub, ← hsum]
  have hfin := cost_hasDerivAt (net.layer (l + m + 1)) (fun j => if j = y then 1 else 0)
    (fun t j => (forward_z Real.exp (N t).weights (N t).biases
      (net.outputs.vec INPUT_INDEX) (l + m)).getD j 0) E hE
  convert hfin using 1
  apply Finset.sum_congr rfl
  intro j hj
  have hj' : j < net.layer (net.nodes.size - 1) := by
    have : net.nodes.size - 1 = l + m + 1 := by omega
    rw [this]
    exact Finset.mem_range.mp hj
  have hout := layer_error_output_entry Real.exp net h hb (by omega) y j hj'
  rw [hsub] at hout
  rw [hout]
  simp only [hzero]

end CostLine

/-! ## Moving one parameter -/

theorem getD_set_eq {α : Type} (xs : List α) (r i : Nat) (v d : α) (hr : r < xs.length) :
    (xs.set r v).getD i d = if i = r then v else xs.getD i d := by
  rw [List.getD_eq_getElem?_getD, List.getD_eq_getElem?_getD]
  by_cases h : i = r
  · rw [if_pos h, h, List.getElem?_set_self hr]
    rfl
  · rw [if_neg h, List.getElem?_set_ne (fun e => h e.symm)]

theorem set_getD_self {α : Type} (xs : List α) (r : Nat) (d : α) (hr : r < xs.length) :
    xs.set r (xs.getD r d) = xs := by
  apply List.ext_getElem (by simp)
  intro i h1 h2
  by_cases h : r = i
  · subst h
    simp [List.getD_eq_getElem?_getD, List.getElem?_eq_getElem hr]
  · rw [List.getElem_set_ne h]

section Nudge

variable {R : Type} [LinearOrderedField R]

/-- Moving an entry of a laid-out matrix keeps the layout. -/
theorem gsl_matrix_nudge_allocated (m : gsl_matrix R) (n1 n2 r c : Nat) (t : R)
    (h : m.allocated n1 n2) (hr : r < n1) : (m.nudge r c t).allocated n1 n2 := by
  have hrow := matrix_allocated_row m n1 n2 h r hr
  refine ⟨h.1, h.2.1, ?_⟩
  show ((m.data.set r ((m.data.getD r []).set c (m.entry r c + t))).map List.length) = _
  rw [List.map_set, List.length_set, hrow, h.2.2]
  apply List.ext_getElem (by simp)
  intro i h1 h2
  by_cases hi : r = i
  · subst hi
    simp
  · rw [List.getElem_set_ne hi]

/-- The entries of a laid-out matrix after one of them is moved. -/
theorem gsl_matrix_nudge_entry (m : gsl_matrix R) (n1 n2 r c i j : Nat) (t : R)
    (h : m.allocated n1 n2) (hr : r < n1) (hc : c < n2) :
    (m.nudge r c t).entry i j =
      if i = r ∧ j = c then m.entry r c + t else m.entry i j := by
  have hlen := matrix_allocated_length m n1 n2 h
  have hrow := matrix_allocated_row m n1 n2 h r hr
  show ((m.data.set r ((m.data.getD r []).set c (m.entry r c + t))).getD i []).getD j 0 = _
  rw [getD_set_eq _ _ _ _ _ (by omega)]
  by_cases hi : i = r
  · rw [if_pos hi, getD_set_eq _ _ _ _ _ (by omega)]
    by_cases hj : j = c
    · rw [if_pos hj, if_pos ⟨hi, hj⟩]
    · rw [if_neg hj, if_neg (fun e => hj e.2), hi]
      rfl
  · rw [if_neg hi, if_neg (fun e => hi e.1)]
    rfl

/-- Moving the entry by 0 leaves a laid-out matrix as it is. -/
theorem gsl_matrix_nudge_zero (m : gsl_matrix R) (n1 n2 r c : Nat)
    (h : m.allocated n1 n2) (hr : r < n1) (hc : c < n2) : m.nudge r c 0 = m := by
  have hlen := matrix_allocated_length m n1 n2 h
  have hrow := matrix_allocated_row m n1 n2 h r hr
  have h1 : (m.data.getD r []).set c (m.entry r c + 0) = m.data.getD r [] := by
    rw [add_zero]
    exact set_getD_self _ c 0 (by omega)
  show ({ m with data := m.data.set r ((m.data.getD r []).set c (m.entry r c + 0)) } :
    gsl_matrix R) = m
  rw [h1, set_getD_self _ r [] (by omega)]

end Nudge

section Lines

variable {R : Type} [LinearOrderedField R]

/-- The network with one bias moved: it stays laid out, the biases of the other layers
are as before, and the biases of layer `l` differ in entry `r`. -/
theorem nudge_bias_line (net : network_t R) (h : net.allocated) (l r : Nat) (t : R)
    (hl : l + 1 < net.nodes.size) :
    (net.nudge_bias l r t).allocated ∧
      (∀ k : Nat, k ≠ l → (net.nudge_bias l r t).biases.vec (k : Int) =
        net.biases.vec (k : Int)) ∧
      (net.nudge_bias l r t).biases.vec (l : Int) =
        (net.biases.vec (l : Int)).set r ((net.biases.vec (l : Int)).getD r 0 + t) := by
  obtain ⟨_, hlen, hlt, _, hset⟩ :=
    tail_array_cell net h net.biases 0 h.2.2.2.2.2.2.2.1 l hl
  have hoff : net.biases.offset = 0 := h.2.2.2.2.2.2.2.1.2.1
  obtain ⟨v, hv⟩ : ∃ v : gsl_vector R,
      v = (net.biases.vec (l : Int)).set r ((net.biases.vec (l : Int)).getD r 0 + t) :=
    ⟨_, rfl⟩
  have hvlen : v.length = net.layer (l + 1) := by rw [hv, List.length_set]; exact hlen
  have hnudge : net.biases.nudge l r t =
      { net.biases with data := net.biases.data.set (l + 0) v } := by
    have e : l + net.biases.offset = l + 0 := by rw [hoff]
    unfold vector_array_t.nudge
    rw [e, hv]
  rw [← hv]
  have hvec : ∀ k : Nat, (net.biases.nudge l r t).vec (k : Int) =
      if l + 0 = k + 0 then v else net.biases.vec (k : Int) := fun k => by
    rw [hnudge]
    exact vector_array_vec_set net.biases (l + 0) _ (k : Int) (k + 0)
      (by rw [hoff]; push_cast; ring) hlt
  refine ⟨⟨h.1, h.2.1, h.2.2.1, h.2.2.2.1, h.2.2.2.2.1, h.2.2.2.2.2.1, h.2.2.2.2.2.2.1, ?_,
    h.2.2.2.2.2.2.2.2⟩, ?_, ?_⟩
  · show (net.biases.nudge l r t).allocated net.layers.tail 0
    rw [hnudge]
    exact hset _ hvlen
  · intro k hk
    show (net.biases.nudge l r t).vec (k : Int) = _
    rw [hvec k, if_neg (by omega)]
  · show (net.biases.nudge l r t).vec (l : Int) = _
    rw [hvec l, if_pos rfl]

/-- The network with one weight moved: it stays laid out, the weights of the other
layers are as before, and the weights of layer `l` differ in entry `(r, c)`. -/
theorem nudge_weight_line (net : network_t R) (h : net.allocated) (l r c : Nat) (t : R)
    (hl : l + 1 < net.nodes.size) (hr : r < net.layer (l + 1)) :
    (net.nudge_weight l r c t).allocated ∧
      (∀ k : Nat, k ≠ l → (net.nudge_weight l r c t).weights.mat (k : Int) =
        net.weights.mat (k : Int)) ∧
      (net.nudge_weight l r c t).weights.mat (l : Int) =
        (net.weights.mat (l : Int)).nudge r c t := by
  obtain ⟨_, hWa, hlt, _, hset⟩ := matrix_array_cell net h net.weights h.2.2.2.1 l hl
  have hmat : ∀ k : Nat, (net.weights.nudge l r c t).mat (k : Int) =
      if l = k then (net.weights.mat (l : Int)).nudge r c t else net.weights.mat (k : Int) :=
    fun k => matrix_array_mat_set net.weights l _ k hlt
  refine ⟨⟨h.1, h.2.1, h.2.2.1, ?_, h.2.2.2.2.1, h.2.2.2.2.2.1, h.2.2.2.2.2.2.1,
    h.2.2.2.2.2.2.2.1, h.2.2.2.2.2.2.2.2⟩, ?_, ?_⟩
  · show (net.weights.nudge l r c t).allocated net.layers
    exact hset _ (gsl_matrix_nudge_allocated _ _ _ r c t hWa hr)
  · intro k hk
    show (net.weights.nudge l r c t).mat (k : Int) = _
    rw [hmat k, if_neg (fun e => hk e.symm)]
  · show (net.weights.nudge l r c t).mat (l : Int) = _
    rw [hmat l, if_pos rfl]

end Lines

section Gradient

/-- The derivative of the cost along a line of networks on which the pre-activations of
layer `l` move in proportion `s` to the parameter. -/
theorem cost_hasDerivAt_affine (net : network_t ℝ) (N : ℝ → network_t ℝ) (y l : Nat)
    (s : Nat → ℝ) (h : net.allocated) (hb : net.input_bound) (hl : l + 1 < net.nodes.size)
    (hN : ∀ t, (N t).allocated ∧ (N t).nodes = net.nodes ∧
      (N t).outputs.vec INPUT_INDEX = net.outputs.vec INPUT_INDEX)
    (hother : ∀ t k, k ≠ l → (N t).weights.mat (k : Int) = net.weights.mat (k : Int) ∧
      (N t).biases.vec (k : Int) = net.biases.vec (k : Int))
    (h0 : (N 0).weights.mat (l : Int) = net.weights.mat (l : Int) ∧
      (N 0).biases.vec (l : Int) = net.biases.vec (l : Int))
    (haff : ∀ t i, i < net.layer (l + 1) →
      (forward_z Real.exp (N t).weights (N t).biases (net.outputs.vec INPUT_INDEX) l).getD
        i 0 =
      (forward_z Real.exp net.weights net.biases (net.outputs.vec INPUT_INDEX) l).getD i 0 +
        t * s i) :
    HasDerivAt (fun t => (N t).cost Real.exp y)
      (∑ i in Finset.range (net.layer (l + 1)),
        (layer_error Real.exp net.weights net.biases (net.outputs.vec INPUT_INDEX) y
          (net.nodes.size - 2) l).getD i 0 * s i) 0 := by
  apply cost_hasDerivAt_line net N y l s h hb hl hN hother h0
  intro i hi
  have hfun : (fun t => (forward_z Real.exp (N t).weights (N t).biases
      (net.outputs.vec INPUT_INDEX) l).getD i 0) = fun t =>
      (forward_z Real.exp net.weights net.biases (net.outputs.vec INPUT_INDEX) l).getD i 0 +
        t * s i := funext fun t => haff t i hi
  rw [hfun]
  have hd := ((hasDerivAt_id (0 : ℝ)).mul_const (s i)).const_add
    ((forward_z Real.exp net.weights net.biases (net.outputs.vec INPUT_INDEX) l).getD i 0)
  simpa using hd

/-- The partial derivative of the cost with respect to the bias `b[l][r]` is entry `r`
of the error of layer `l`. -/
theorem cost_hasDerivAt_bias (net : network_t ℝ) (y l r : Nat) (h : net.allocated)
    (hb : net.input_bound) (hl : l + 1 < net.nodes.size) (hr : r < net.layer (l + 1)) :
    HasDerivAt (fun t => (net.nudge_bias l r t).cost Real.exp y)
      ((layer_error Real.exp net.weights net.biases (net.outputs.vec INPUT_INDEX) y
        (net.nodes.size - 2) l).getD r 0) 0 := by
  obtain ⟨_, hblen, _⟩ := tail_array_cell net h net.biases 0 h.2.2.2.2.2.2.2.1 l hl
  have hline := fun t => nudge_bias_line net h l r t hl
  have hbt : ∀ t, (net.nudge_bias l r t).input_bound := fun t => hb
  have key := cost_hasDerivAt_affine net (fun t => net.nudge_bias l r t) y l
    (fun i => if i = r then 1 else 0) h hb hl (fun t => ⟨(hline t).1, rfl, rfl⟩)
    (fun t k hk => ⟨rfl, (hline t).2.1 k hk⟩)
    ⟨rfl, by rw [(hline 0).2.2, add_zero, set_getD_self _ r 0 (by omega)]⟩
    (by
      intro t i hi
      have e1 : (forward_z Real.exp net.weights (net.biases.nudge l r t)
          (net.outputs.vec INPUT_INDEX) l).getD i 0 =
          (∑ c in Finset.range (net.layer l), (net.weights.mat (l : Int)).entry i c *
            (forward_in Real.exp net.weights (net.biases.nudge l r t)
              (net.outputs.vec INPUT_INDEX) l).getD c 0) +
            ((net.biases.nudge l r t).vec (l : Int)).getD i 0 :=
        (forward_z_entry Real.exp (net.nudge_bias l r t) (hline t).1 (hbt t) l hl).2 i hi
      have e2 := (forward_z_entry Real.exp net h hb l hl).2 i hi
      have e3 : forward_in Real.exp net.weights (net.biases.nudge l r t)
          (net.outputs.vec INPUT_INDEX) l =
          forward_in Real.exp net.weights net.biases (net.outputs.vec INPUT_INDEX) l :=
        forward_in_congr Real.exp _ _ _ _ _ l
          (fun k hk => ⟨rfl, (hline t).2.1 k (by omega)⟩)
      have e4 : (net.biases.nudge l r t).vec (l : Int) =
          (net.biases.vec (l : Int)).set r ((net.biases.vec (l : Int)).getD r 0 + t) :=
        (hline t).2.2
      show (forward_z Real.exp net.weights (net.biases.nudge l r t)
        (net.outputs.vec INPUT_INDEX) l).getD i 0 = _
      rw [e1, e2, e3, e4, getD_set_eq _ _ _ _ _ (by omega)]
      beta_reduce
      by_cases hir : i = r
      · rw [if_pos hir, if_pos hir, hir]
        ring
      · rw [if_neg hir, if_neg hir]
        ring)
  convert key using 1
  rw [Finset.sum_eq_single r]
  · beta_reduce
    rw [if_pos rfl, mul_one]
  · intro i _ hir
    beta_reduce
    rw [if_neg hir, mul_zero]
  · intro hnot
    exact absurd (Finset.mem_range.mpr hr) hnot

/-- The partial derivative of the cost with respect to the weight `W[l][r][c]` is entry
`r` of the error of layer `l` times entry `c` of the activation that feeds the layer. -/
theorem cost_hasDerivAt_weight (net : network_t ℝ) (y l r c : Nat) (h : net.allocated)
    (hb : net.input_bound) (hl : l + 1 < net.nodes.size) (hr : r < net.layer (l + 1))
    (hc : c < net.layer l) :
    HasDerivAt (fun t => (net.nudge_weight l r c t).cost Real.exp y)
      ((layer_error Real.exp net.weights net.biases (net.outputs.vec INPUT_INDEX) y
        (net.nodes.size - 2) l).getD r 0 *
        (forward_in Real.exp net.weights net.biases (net.outputs.vec INPUT_INDEX) l).getD
          c 0) 0 := by
  obtain ⟨_, hWa, _⟩ := matrix_array_cell net h net.weights h.2.2.2.1 l hl
  have hline := fun t => nudge_weight_line net h l r c t hl hr
  have hbt : ∀ t, (net.nudge_weight l r c t).input_bound := fun t => hb
  have key := cost_hasDerivAt_affine net (fun t => net.nudge_weight l r c t) y l
    (fun i => if i = r then
      (forward_in Real.exp net.weights net.biases (net.outputs.vec INPUT_INDEX) l).getD c 0
      else 0) h hb hl (fun t => ⟨(hline t).1, rfl, rfl⟩)
    (fun t k hk => ⟨(hline t).2.1 k hk, rfl⟩)
    ⟨by rw [(hline 0).2.2, gsl_matrix_nudge_zero _ _ _ r c hWa hr hc], rfl⟩
    (by
      intro t i hi
      have e1 : (forward_z Real.exp (net.weights.nudge l r c t) net.biases
          (net.outputs.vec INPUT_INDEX) l).getD i 0 =
          (∑ k in Finset.range (net.layer l),
            ((net.weights.nudge l r c t).mat (l : Int)).entry i k *
            (forward_in Real.exp (net.weights.nudge l r c t) net.biases
              (net.outputs.vec INPUT_INDEX) l).getD k 0) +
            (net.biases.vec (l : Int)).getD i 0 :=
        (forward_z_entry Real.exp (net.nudge_weight l r c t) (hline t).1 (hbt t) l hl).2 i hi
      have e2 := (forward_z_entry Real.exp net h hb l hl).2 i hi
      have e3 : forward_in Real.exp (net.weights.nudge l r c t) net.biases
          (net.outputs.vec INPUT_INDEX) l =
          forward_in Real.exp net.weights net.biases (net.outputs.vec INPUT_INDEX) l :=
        forward_in_congr Real.exp _ _ _ _ _ l
          (fun k hk => ⟨(hline t).2.1 k (by omega), rfl⟩)
      have e4 : (net.weights.nudge l r c t).mat (l : Int) =
          (net.weights.mat (l : Int)).nudge r c t := (hline t).2.2
      show (forward_z Real.exp (net.weights.nudge l r c t) net.biases
        (net.outputs.vec INPUT_INDEX) l).getD i 0 = _
      rw [e1, e2, e3, e4]
      have hterm : ∀ k, k ∈ Finset.range (net.layer l) →
          ((net.weights.mat (l : Int)).nudge r c t).entry i k *
            (forward_in Real.exp net.weights net.biases (net.outputs.vec INPUT_INDEX)
              l).getD k 0 =
          (net.weights.mat (l : Int)).entry i k *
            (forward_in Real.exp net.weights net.biases (net.outputs.vec INPUT_INDEX)
              l).getD k 0 +
          (if k = c then (if i = r then t *
            (forward_in Real.exp net.weights net.biases (net.outputs.vec INPUT_INDEX)
              l).getD c 0 else 0) else 0) := by
        intro k _
        rw [gsl_matrix_nudge_entry _ _ _ r c i k t hWa hr hc]
        by_cases hk : k = c
        · by_cases hir : i = r
          · rw [if_pos ⟨hir, hk⟩, if_pos hk, if_pos hir, hir, hk]
            ring
          · rw [if_neg (fun e => hir e.1), if_pos hk, if_neg hir, add_zero]
        · rw [if_neg (fun e => hk e.2), if_neg hk, add_zero]
      rw [Finset.sum_congr rfl hterm, Finset.sum_add_distrib, Finset.sum_ite_eq',
        if_pos (Finset.mem_range.mpr hc)]
      beta_reduce
      by_cases hir : i = r
      · rw [if_pos hir, if_pos hir]
        ring
      · rw [if_neg hir, if_neg hir]
        ring)
  convert key using 1
  rw [Finset.sum_eq_single r]
  · beta_reduce
    rw [if_pos rfl]
  · intro i _ hir
    beta_reduce
    rw [if_neg hir, mul_zero]
  · intro hnot
    exact absurd (Finset.mem_range.mpr hr) hnot

end Gradient

/-- C26: backpropagation computes the true gradient of the quadratic cost.  For a
laid-out network with `L ≥ 2` layers over the reals, a bound input `x` and a label `y`
of the output layer, one call of `network_backpropagate_error` returns, and for every
layer `l` what it adds to `nabla_b[l][r]` is the partial derivative of
`C = 1/2 * ||a_last - one_hot (y)||^2` with respect to the bias `b[l][r]`, and what it
adds to `nabla_w[l][r][c]` is the partial derivative of `C` with respect to the weight
`W[l][r][c]`; `a_last` is the output `network_feed_forward` computes from `x`, and the
partial derivative is the derivative at 0 of the cost of the network with that one
parameter moved by `t`.  The forward pass returns for every network on these lines. -/
theorem backpropagation_is_gradient (net : network_t ℝ) (label : Nat) (h : net.allocated)
    (hb : net.input_bound) (hL : 2 ≤ net.nodes.size)
    (hy : label < net.layer (net.nodes.size - 1)) :
    ∃ net', network_backpropagate_error Real.exp net label = .ok net' ∧
      ∀ l, l + 1 < net.nodes.size →
        (∀ r, r < net.layer (l + 1) →
          (∀ t, ∃ n, network_feed_forward Real.exp (net.nudge_bias l r t) 1 = .ok n) ∧
          HasDerivAt (fun t => (net.nudge_bias l r t).cost Real.exp label)
            ((net'.nabla_b.vec (l : Int)).getD r 0 - (net.nabla_b.vec (l : Int)).getD r 0)
            0) ∧
        (∀ r c, r < net.layer (l + 1) → c < net.layer l →
          (∀ t, ∃ n, network_feed_forward Real.exp (net.nudge_weight l r c t) 1 = .ok n) ∧
          HasDerivAt (fun t => (net.nudge_weight l r c t).cost Real.exp label)
            ((net'.nabla_w.mat (l : Int)).entry r c - (net.nabla_w.mat (l : Int)).entry r c)
            0) := by
  obtain ⟨net', hrun, _, _, _, _, _, hdelta, _⟩ :=
    network_backpropagate_error_ok Real.exp net label h hb hL hy
  refine ⟨net', hrun, ?_⟩
  intro l hl
  obtain ⟨_, hnb, hnw⟩ := hdelta l hl
  obtain ⟨_, hnblen, _⟩ := tail_array_cell net h net.nabla_b 0 h.2.2.2.2.2.1 l hl
  obtain ⟨_, hnwa, _⟩ := matrix_array_cell net h net.nabla_w h.2.2.1 l hl
  have helen := layer_error_length Real.exp net h hb label l hl
  have hinlen := forward_in_length Real.exp net h hb l (by omega)
  constructor
  · intro r hr
    refine ⟨fun t => ?_, ?_⟩
    · obtain ⟨n, hn, _⟩ := network_feed_forward_ok Real.exp (net.nudge_bias l r t) 1
        (nudge_bias_line net h l r t hl).1 hb (by show 1 ≤ net.nodes.size; omega)
      exact ⟨n, hn⟩
    · rw [hnb, getD_zipWith _ _ _ r 0 0 0 (by omega) (by omega), add_sub_cancel_right]
      exact cost_hasDerivAt_bias net label l r h hb hl hr
  · intro r c hr hc
    refine ⟨fun t => ?_, ?_⟩
    · obtain ⟨n, hn, _⟩ := network_feed_forward_ok Real.exp (net.nudge_weight l r c t) 1
        (nudge_weight_line net h l r c t hl hr).1 hb (by show 1 ≤ net.nodes.size; omega)
      exact ⟨n, hn⟩
    · have hentry := dger_entry _ _ _ _ _ r c hnwa helen hinlen hr hc
      rw [hnw]
      unfold outer_add
      rw [hentry, add_sub_cancel_left]
      exact cost_hasDerivAt_weight net label l r c h hb hl hr hc

/-- C26 at the 2-3-2 test network with label 1: the hypotheses hold, backpropagation
returns, and what it adds to the accumulators of the first bias of the hidden layer and
of the weight from input 1 to hidden node 2 are the partial derivatives of the cost. -/
theorem backpropagation_is_gradient_witness :
    ((feed_forward_fixture ℝ).allocated ∧ (feed_forward_fixture ℝ).input_bound ∧
      2 ≤ (feed_forward_fixture ℝ).nodes.size ∧
      1 < (feed_forward_fixture ℝ).layer ((feed_forward_fixture ℝ).nodes.size - 1)) ∧
    ∃ net', network_backpropagate_error Real.exp (feed_forward_fixture ℝ) 1 = .ok net' ∧
      HasDerivAt (fun t => ((feed_forward_fixture ℝ).nudge_bias 0 0 t).cost Real.exp 1)
        ((net'.nabla_b.vec 0).getD 0 0 - ((feed_forward_fixture ℝ).nabla_b.vec 0).getD 0 0)
        0 ∧
      HasDerivAt (fun t => ((feed_forward_fixture ℝ).nudge_weight 0 2 1 t).cost Real.exp 1)
        ((net'.nabla_w.mat 0).entry 2 1 - ((feed_forward_fixture ℝ).nabla_w.mat 0).entry 2 1)
        0 := by
  refine ⟨by decide, ?_⟩
  obtain ⟨net', hrun, hgrad⟩ := backpropagation_is_gradient (feed_forward_fixture ℝ) 1
    (by decide) (by decide) (by decide) (by decide)
  exact ⟨net', hrun, ((hgrad 0 (by decide)).1 0 (by decide)).2,
    ((hgrad 0 (by decide)).2 2 1 (by decide) (by decide)).2⟩

/-! ## Random initialisation -/

/-- C25 at `network_random_init (net, 4.0)` on the two-layer network 2-2 with the
counting generator, whose unit Gaussian variates are 1, 2, 3, ...: the call returns and
has written every bias and every weight, entry number `k` in storage order (biases
first, then the weights row by row) with 4 times the `k`-th unit variate: the biases are
`[4, 8]` and the weights `[[12, 16], [20, 24]]`.  The argument `var` reaches
`gsl_ran_gaussian` as its standard deviation: the unit variate is scaled by `var = 4`; a
Gaussian of variance 4 scales it by 2 and would give `[2, 4]` and `[[6, 8], [10, 12]]`. -/
theorem network_random_init_scales_by_var :
    (List.range 6).map (ugaussian_draw (counting_rng ℚ)) = [1, 2, 3, 4, 5, 6] ∧
    gsl_ran_gaussian (counting_rng ℚ) 0 4 = (1, 4 * 1) ∧
    ∃ net', network_random_init (counting_rng ℚ) (two_layer_fixture ℚ) 4 = .ok net' ∧
      net'.biases.data = [[4, 8]] ∧
      net'.biases.data = fill_from (fun k => 4 * ugaussian_draw (counting_rng ℚ) k) 0 [2] ∧
      (net'.weights.mat 0).data = [[12, 16], [20, 24]] ∧
      (net'.weights.mat 0).data =
        fill_from (fun k => 4 * ugaussian_draw (counting_rng ℚ) k) 2 [2, 2] ∧
      net'.biases.data ≠ fill_from (fun k => 2 * ugaussian_draw (counting_rng ℚ) k) 0 [2] :=
  ⟨by decide!, by decide!, _, rfl, by decide!, by decide!, by decide!, by decide!, by decide!⟩

/-! ## The sigmoid and its derivative -/

/-- C32: `sigmoid_prime` is the derivative of `sigmoid`.  Over the reals, with the
exponential for `exp`, the function `sigmoid` has at every `z` the derivative
`sigmoid_prime (z)`, which the code computes as `sigmoid (z) * (1 - sigmoid (z))`. -/
theorem sigmoid_prime_is_derivative (z : ℝ) :
    HasDerivAt (sigmoid Real.exp) (sigmoid_prime Real.exp z) z ∧
      deriv (sigmoid Real.exp) z = sigmoid_prime Real.exp z ∧
      sigmoid_prime Real.exp z = sigmoid Real.exp z * (1 - sigmoid Real.exp z) :=
  ⟨sigmoid_hasDerivAt z, (sigmoid_hasDerivAt z).deriv, rfl⟩

theorem sigmoid_prime_real_pos (z : ℝ) : 0 < sigmoid_prime Real.exp z := by
  have h1 := sigmoid_real_pos z
  have h2 := sigmoid_real_lt_one z
  show 0 < sigmoid Real.exp z * (1 - sigmoid Real.exp z)
  exact mul_pos h1 (by linarith)

theorem sigmoid_prime_real_le (z : ℝ) : sigmoid_prime Real.exp z ≤ 1 / 4 := by
  show sigmoid Real.exp z * (1 - sigmoid Real.exp z) ≤ 1 / 4
  nlinarith [sq_nonneg (sigmoid Real.exp z - 1 / 2)]

/-- Indexed partial-correctness rule for the upward loop: a property of the pass count
and the state that every returning pass carries on holds after every returning loop. -/
theorem for_range_ok_inv_idx {σ : Type} (body : Nat → σ → Except fault σ)
    (P : Nat → σ → Prop)
    (hstep : ∀ i s s', body i s = .ok s' → P i s → P (i + 1) s') (n : Nat) (s s' : σ)
    (h : for_range body n s = .ok s') (h0 : P 0 s) : P n s' := by
  induction n generalizing s' with
  | zero =>
    cases h
    exact h0
  | succ n ih =>
    obtain ⟨s1, h1, h2⟩ := bind_ok_inv _ _ _ h
    exact hstep n s1 s' h2 (ih s1 h1)

/-- After a returning write of `v` to cell `i` of a vector array, cell `i` holds `v` and
every cell holds `v` or what it held. -/
theorem vector_array_upd_vec {R : Type} (a a' : vector_array_t R) (i : Int)
    (v : gsl_vector R) (h : a.upd i v = .ok a') :
    a'.vec i = v ∧ ∀ j : Int, a'.vec j = v ∨ a'.vec j = a.vec j := by
  unfold vector_array_t.upd at h
  obtain ⟨d, hd, h⟩ := bind_ok_inv _ _ _ h
  cases h
  unfold store at hd
  by_cases hc : 0 ≤ i + (a.offset : Int) ∧ (i + (a.offset : Int)).toNat < a.data.length
  · rw [if_pos hc] at hd
    cases hd
    have hmain : ∀ j : Int, 0 ≤ j + (a.offset : Int) →
        ({ a with data := a.data.set (i + (a.offset : Int)).toNat v } : vector_array_t R).vec j
          = if (i + (a.offset : Int)).toNat = (j + (a.offset : Int)).toNat then v
            else a.vec j := fun j hj =>
      vector_array_vec_set a _ v j (j + (a.offset : Int)).toNat
        (by rw [Int.toNat_of_nonneg hj]) hc.2
    refine ⟨by rw [hmain i hc.1, if_pos rfl], fun j => ?_⟩
    by_cases hj : 0 ≤ j + (a.offset : Int)
    · rw [hmain j hj]
      by_cases he : (i + (a.offset : Int)).toNat = (j + (a.offset : Int)).toNat
      · exact Or.inl (if_pos he)
      · exact Or.inr (if_neg he)
    · right
      unfold vector_array_t.vec vector_array_t.idx load
      simp only [if_neg hj]
  · rw [if_neg hc] at hd
    cases hd

section Activations

variable {R : Type} [LinearOrderedField R] (exp : R → R)

/-- A returning pass of the forward loop for layer `i` writes to `outputs[i]` the
sigmoid of a vector, entry by entry. -/
theorem network_feed_forward_body_outputs (store_z i : Nat) (net net' : network_t R)
    (h : network_feed_forward_body exp store_z i net = .ok net') :
    ∃ out, net.outputs.upd (i : Int) (vector_vectorise out (sigmoid exp)) =
      .ok net'.outputs := by
  unfold network_feed_forward_body at h
  obtain ⟨W, _, h⟩ := bind_ok_inv _ _ _ h
  obtain ⟨prev, _, h⟩ := bind_ok_inv _ _ _ h
  obtain ⟨out, _, h⟩ := bind_ok_inv _ _ _ h
  obtain ⟨out1, _, h⟩ := bind_ok_inv _ _ _ h
  obtain ⟨b, _, h⟩ := bind_ok_inv _ _ _ h
  obtain ⟨out2, _, h⟩ := bind_ok_inv _ _ _ h
  dsimp only at h
  by_cases hs : store_z ≠ 0
  · rw [if_pos hs] at h
    obtain ⟨z, _, h⟩ := bind_ok_inv _ _ _ h
    obtain ⟨z1, _, h⟩ := bind_ok_inv _ _ _ h
    obtain ⟨zs, _, h⟩ := bind_ok_inv _ _ _ h
    obtain ⟨outputs, ho, h⟩ := bind_ok_inv _ _ _ h
    cases h
    exact ⟨out2, ho⟩
  · rw [if_neg hs] at h
    obtain ⟨zs, _, h⟩ := bind_ok_inv _ _ _ h
    obtain ⟨outputs, ho, h⟩ := bind_ok_inv _ _ _ h
    cases h
    exact ⟨out2, ho⟩

end Activations

/-- Every returning forward pass over the reals leaves in the cells `outputs[j]` of the
layers it visits only values strictly between 0 and 1. -/
theorem network_feed_forward_unit_interval (net net' : network_t ℝ) (store_z : Nat)
    (h : network_feed_forward Real.exp net store_z = .ok net') (j : Nat)
    (hj : j < u32_sub net.nodes.size 1) (x : ℝ) (hx : x ∈ net'.outputs.vec (j : Int)) :
    0 < x ∧ x < 1 := by
  have hinv := for_range_ok_inv_idx (network_feed_forward_body Real.exp store_z)
    (fun i (st : network_t ℝ) => ∀ j : Nat, j < i → ∀ x, x ∈ st.outputs.vec (j : Int) →
      0 < x ∧ x < 1)
    (fun i s s' hs hP k hk y hy => by
      obtain ⟨out, hupd⟩ := network_feed_forward_body_outputs Real.exp store_z i s s' hs
      obtain ⟨hself, hall⟩ := vector_array_upd_vec s.outputs s'.outputs (i : Int) _ hupd
      have hnew : ∀ y, y ∈ vector_vectorise out (sigmoid Real.exp) → 0 < y ∧ y < 1 := by
        intro y hy
        rw [vector_vectorise_eq_map] at hy
        obtain ⟨z, _, hz⟩ := List.mem_map.mp hy
        rw [← hz]
        exact ⟨sigmoid_real_pos z, sigmoid_real_lt_one z⟩
      rcases hall (k : Int) with hv | hv
      · rw [hv] at hy
        exact hnew y hy
      · by_cases hki : k = i
        · rw [hki, hself] at hy
          exact hnew y hy
        · rw [hv] at hy
          exact hP k (by omega) y hy)
    (u32_sub net.nodes.size 1) net net' h
    (fun k hk => absurd hk (Nat.not_lt_zero k))
  exact hinv j hj x hx

/-- C33: activations are proper probability-like values.  For every real `z`,
`0 < sigmoid (z) < 1` and `0 < sigmoid_prime (z) ≤ 1/4`.  Consequently every returning
`network_feed_forward` over the reals, whatever the network holds and whatever the flag,
leaves in `outputs[j]` of every layer `j` it visits only entries strictly between 0 and
1; and on a laid-out network with a bound input, whatever the weights, the biases and
the input are, the pass returns and for every non-input layer `j + 1` the vector
`outputs[j]` has the size of the layer and every entry of it lies strictly between 0
and 1. -/
theorem activations_in_unit_interval :
    (∀ z : ℝ, 0 < sigmoid Real.exp z ∧ sigmoid Real.exp z < 1 ∧
      0 < sigmoid_prime Real.exp z ∧ sigmoid_prime Real.exp z ≤ 1 / 4) ∧
    (∀ (net net' : network_t ℝ) (store_z : Nat),
      network_feed_forward Real.exp net store_z = .ok net' →
      ∀ j : Nat, j < u32_sub net.nodes.size 1 → ∀ x, x ∈ net'.outputs.vec (j : Int) →
        0 < x ∧ x < 1) ∧
    (∀ (net : network_t ℝ) (store_z : Nat), net.allocated → net.input_bound →
      1 ≤ net.nodes.size →
      ∃ net', network_feed_forward Real.exp net store_z = .ok net' ∧
        ∀ j : Nat, j + 1 < net.nodes.size →
          (net'.outputs.vec (j : Int)).length = net.layer (j + 1) ∧
          ∀ r, r < net.layer (j + 1) →
            0 < (net'.outputs.vec (j : Int)).getD r 0 ∧
              (net'.outputs.vec (j : Int)).getD r 0 < 1) := by
  refine ⟨fun z => ⟨sigmoid_real_pos z, sigmoid_real_lt_one z, sigmoid_prime_real_pos z,
    sigmoid_prime_real_le z⟩, fun net net' store_z h j hj x hx =>
    network_feed_forward_unit_interval net net' store_z h j hj x hx, ?_⟩
  intro net store_z h hb hL
  obtain ⟨net', hrun, _, _, _, hout, _⟩ := network_feed_forward_ok Real.exp net store_z h hb hL
  refine ⟨net', hrun, fun j hj => ?_⟩
  have hlen : (net'.outputs.vec (j : Int)).length = net.layer (j + 1) := by
    rw [hout j hj]
    exact forward_in_length Real.exp net h hb (j + 1) hj
  refine ⟨hlen, fun r hr => ?_⟩
  have hsub : u32_sub net.nodes.size 1 = net.nodes.size - 1 :=
    u32_sub_one _ hL (by have := h.2.1; omega)
  have hmem : (net'.outputs.vec (j : Int)).getD r 0 ∈ net'.outputs.vec (j : Int) := by
    rw [List.getD_eq_getElem?_getD, List.getElem?_eq_getElem (by omega)]
    exact List.getElem_mem _
  exact network_feed_forward_unit_interval net net' store_z hrun j (by rw [hsub]; omega) _ hmem

/-- C33 at the 2-3-2 test network: the hypotheses of the last part hold, the pass
returns, and the three hidden and the two output activations lie strictly between 0
and 1; at `z = 0` the sigmoid is `1/2` and its derivative reaches the bound `1/4`. -/
theorem activations_in_unit_interval_witness :
    ((feed_forward_fixture ℝ).allocated ∧ (feed_forward_fixture ℝ).input_bound ∧
      1 ≤ (feed_forward_fixture ℝ).nodes.size) ∧
    (0 < sigmoid Real.exp 0 ∧ sigmoid Real.exp 0 < 1 ∧ 0 < sigmoid_prime Real.exp 0 ∧
      sigmoid_prime Real.exp 0 ≤ 1 / 4) ∧
    ∃ net', network_feed_forward Real.exp (feed_forward_fixture ℝ) 0 = .ok net' ∧
      (∀ r, r < 3 → 0 < (net'.outputs.vec 0).getD r 0 ∧ (net'.outputs.vec 0).getD r 0 < 1) ∧
      (∀ r, r < 2 → 0 < (net'.outputs.vec 1).getD r 0 ∧ (net'.outputs.vec 1).getD r 0 < 1) := by
  obtain ⟨hsig, _, htot⟩ := activations_in_unit_interval
  obtain ⟨net', hrun, hall⟩ := htot (feed_forward_fixture ℝ) 0 (by decide) (by decide)
    (by decide)
  exact ⟨by decide, hsig 0, net', hrun, (hall 0 (by decide)).2, (hall 1 (by decide)).2⟩

/-! ## The order of the samples within a mini-batch -/

/-- A sum over the first `n` cells of an index array is the sum over the list of these
cells. -/
theorem sum_range_cells {M : Type} [AddCommMonoid M] (xs : List Nat) (n : Nat)
    (hn : n ≤ xs.length) (f : Nat → M) :
    ∑ j in Finset.range n, f (xs.getD j 0) = ((xs.take n).map f).sum := by
  induction n with
  | zero => simp
  | succ n ih =>
    rw [Finset.sum_range_succ, ih (by omega), List.take_succ, List.map_append,
      List.sum_append, List.getD_eq_getElem?_getD, List.getElem?_eq_getElem (by omega)]
    simp

section BatchOrder

variable {R : Type} [LinearOrderedField R] (exp : R → R)

/-- The sums `network_update_mini_batch` forms over a slice do not depend on the order
of the cells. -/
theorem sum_cells_perm (s1 s2 : uint32_array_t) (h1 : s1.size ≤ s1.data.length)
    (h2 : s2.size ≤ s2.data.length) (hperm : s1.cells.Perm s2.cells) (f : Nat → R) :
    s1.size = s2.size ∧
      ∑ j in Finset.range s1.size, f (s1.data.getD j 0) =
        ∑ j in Finset.range s2.size, f (s2.data.getD j 0) := by
  have hl := hperm.length_eq
  unfold uint32_array_t.cells at hl hperm
  rw [List.length_take, List.length_take, Nat.min_eq_left h1, Nat.min_eq_left h2] at hl
  refine ⟨hl, ?_⟩
  rw [sum_range_cells _ _ h1, sum_range_cells _ _ h2]
  exact (hperm.map f).sum_eq

/-- C31: the mini-batch update does not depend on the order of the samples within the
slice.  For a laid-out network with `L ≥ 2` layers and two non-empty valid slices whose
cells are permutations of each other, `network_update_mini_batch` returns on both and
yields the same weights and the same biases, in exact arithmetic (any ordered field,
the reals among them). -/
theorem network_update_mini_batch_order (net : network_t R) (data : data_t R)
    (s1 s2 : uint32_array_t) (h : net.allocated) (hL : 2 ≤ net.nodes.size)
    (hs : s1.size ≠ 0) (hv1 : valid_slice net data s1) (hv2 : valid_slice net data s2)
    (hperm : s1.cells.Perm s2.cells) :
    ∃ n1 n2, network_update_mini_batch exp net data s1 = .ok n1 ∧
      network_update_mini_batch exp net data s2 = .ok n2 ∧
      n1.weights = n2.weights ∧ n1.biases = n2.biases := by
  have hsize : s1.size = s2.size := (sum_cells_perm s1 s2 hv1.1 hv2.1 hperm (fun _ => (0 : R))).1
  obtain ⟨n1, r1, hn1, ha1, e1⟩ := network_update_mini_batch_ok exp net data s1 h hL hs hv1
  obtain ⟨n2, r2, hn2, ha2, e2⟩ := network_update_mini_batch_ok exp net data s2 h hL
    (by rw [← hsize]; exact hs) hv2
  obtain ⟨hlen, htl, hget, hgett⟩ := network_layer_facts net h
  have hl1 : n1.layers = net.layers := by unfold network_t.layers; rw [hn1]
  have hl2 : n2.layers = net.layers := by unfold network_t.layers; rw [hn2]
  refine ⟨n1, n2, r1, r2, ?_, ?_⟩
  · apply matrix_array_entries_ext n1.weights n2.weights net.layers
      (by rw [← hl1]; exact ha1.2.2.2.1) (by rw [← hl2]; exact ha2.2.2.2.1)
    intro l r c hl hr hc
    have hl' : l + 1 < net.nodes.size := by omega
    rw [hget (l + 1) hl'] at hr
    rw [hget l (by omega)] at hc
    have hsum := (sum_cells_perm s1 s2 hv1.1 hv2.1 hperm (fun idx =>
      (layer_error exp net.weights net.biases (data.image idx) (data.label idx)
        (net.nodes.size - 2) l).getD r 0 *
      (forward_in exp net.weights net.biases (data.image idx) l).getD c 0)).2
    rw [(e1 l hl').1 r c hr hc, (e2 l hl').1 r c hr hc, hsum, hsize]
  · apply vector_array_entries_ext n1.biases n2.biases net.layers.tail
      (by rw [← hl1]; exact ha1.2.2.2.2.2.2.2.1) (by rw [← hl2]; exact ha2.2.2.2.2.2.2.2.1)
    intro l r hl hr
    have hl' : l + 1 < net.nodes.size := by omega
    rw [hgett l hl'] at hr
    have hsum := (sum_cells_perm s1 s2 hv1.1 hv2.1 hperm (fun idx =>
      (layer_error exp net.weights net.biases (data.image idx) (data.label idx)
        (net.nodes.size - 2) l).getD r 0)).2
    rw [(e1 l hl').2 r hr, (e2 l hl').2 r hr, hsum, hsize]

end BatchOrder

/-- C31 at the 2-3-2 test network over the reals with the slices `[2, 0]` and `[0, 2]`
of its three samples: the hypotheses hold and both updates return the same weights and
biases. -/
theorem network_update_mini_batch_order_witness :
    ((training_fixture_network ℝ).allocated ∧ 2 ≤ (training_fixture_network ℝ).nodes.size ∧
      training_fixture_slice.size ≠ 0 ∧
      valid_slice (training_fixture_network ℝ) (training_fixture_data ℝ)
        training_fixture_slice ∧
      valid_slice (training_fixture_network ℝ) (training_fixture_data ℝ)
        { size := 2, data := [0, 2] } ∧
      training_fixture_slice.cells.Perm
        ({ size := 2, data := [0, 2] } : uint32_array_t).cells) ∧
    ∃ n1 n2, network_update_mini_batch Real.exp (training_fixture_network ℝ)
        (training_fixture_data ℝ) training_fixture_slice = .ok n1 ∧
      network_update_mini_batch Real.exp (training_fixture_network ℝ)
        (training_fixture_data ℝ) { size := 2, data := [0, 2] } = .ok n2 ∧
      n1.weights = n2.weights ∧ n1.biases = n2.biases :=
  ⟨by decide, network_update_mini_batch_order Real.exp (training_fixture_network ℝ)
    (training_fixture_data ℝ) training_fixture_slice { size := 2, data := [0, 2] }
    (by decide) (by decide) (by decide) (by decide) (by decide) (by decide)⟩

end NNet
